import Mathlib

/-!
# PaddleBox `data_set.cc`: resharding, merge-by-instance-id and PV merge

A shallow embedding of the parts of `paddle/fluid/framework/data_set.cc` that
the verified properties talk about.  Vectors are lists, `size_t` values are
natural numbers, `int` values are integers, and the two conversions the source
performs between them (`static_cast<int>` and the implicit `int -> size_t`) are
spelled out.  A function that can hit a failing `CHECK` (or a division by zero)
returns `Option`, with `none` for the abort.  Types and helpers that live in
other files of the repository (`Channel`, `Record`, `FeatureItem`, `PvInstance`)
are modelled from the specification and marked as such.  The random shuffles of
the source only rearrange a finished result and are left out; the properties
proved here do not depend on the order they would produce.
-/

namespace PaddleBox

/-! ## Channels -/

/-- Modelled from the spec: the queue type `Channel<T>` of `channel.h`, which is not
part of `data_set.cc`.  A channel is its buffered items (oldest first), the block
size handed out per `Read`, and the open/closed flag. -/
structure Channel (T : Type) where
  data : List T
  block_size : Nat
  closed : Bool
deriving DecidableEq, Repr

/-- Modelled from the spec: `MakeChannel<T>()` of `channel.h`; a fresh channel is empty
and open.  Its initial block size is a constant of `channel.h`, taken here as the
parameter `default_block_size`. -/
def MakeChannel (T : Type) (default_block_size : Nat) : Channel T :=
  { data := [], block_size := default_block_size, closed := false }

/-- Modelled from the spec: `Size()`, the number of buffered items. -/
def Channel.Size {T : Type} (c : Channel T) : Nat := c.data.length

/-- Modelled from the spec: `Close()` marks the channel closed and keeps the buffered
items. -/
def Channel.Close {T : Type} (c : Channel T) : Channel T := { c with closed := true }

/-- Modelled from the spec: `Open()` re-opens the channel for writing. -/
def Channel.Open {T : Type} (c : Channel T) : Channel T := { c with closed := false }

/-- Modelled from the spec: `Write(batch)` appends the batch behind the buffered items. -/
def Channel.Write {T : Type} (c : Channel T) (batch : List T) : Channel T :=
  { c with data := c.data ++ batch }

/-- Modelled from the spec: `Read(out)` on a closed channel hands out up to `block_size`
items, oldest first, and removes them from the channel. -/
def Channel.Read {T : Type} (c : Channel T) : List T × Channel T :=
  (c.data.take c.block_size, { c with data := c.data.drop c.block_size })

/-- Modelled from the spec: `ReadAll(out)` drains every buffered item. -/
def Channel.ReadAll {T : Type} (c : Channel T) : List T × Channel T :=
  (c.data, { c with data := [] })

/-- Modelled from the spec: `SetBlockSize(n)`. -/
def Channel.SetBlockSize {T : Type} (c : Channel T) (n : Nat) : Channel T :=
  { c with block_size := n }

/-- Modelled from the spec: `Clear()` discards all buffered items. -/
def Channel.Clear {T : Type} (c : Channel T) : Channel T := { c with data := [] }

/-- Total number of items buffered in a set of channels. -/
def totalSize {T : Type} (cs : List (Channel T)) : Nat := (cs.map Channel.Size).sum

/-- Sizes of the channels of a set, in order. -/
def channelSizes {T : Type} (cs : List (Channel T)) : List Nat := cs.map Channel.Size

/-! ## Integer conversions of the source -/

/-- The conversion `static_cast<int>(x)` of a `size_t` value: the low 32 bits read as
a two's complement number. -/
def castInt (n : Nat) : Int :=
  if n % 2 ^ 32 < 2 ^ 31 then ((n % 2 ^ 32 : Nat) : Int) else ((n % 2 ^ 32 : Nat) : Int) - 2 ^ 32

/-- The implicit conversion of an `int` operand to `size_t` in `size / channel_num`. -/
def toSizeT (i : Int) : Nat :=
  if 0 ≤ i then i.toNat else (2 ^ 64 + i).toNat

/-! ## `DatasetImpl<T>` and `DynamicAdjustChannelNum` -/

/-- The part of the `DatasetImpl<T>` state that `DynamicAdjustChannelNum` reads and writes
for the record channels.  The pointer and PV channel sets (`input_ptr_channel_`,
`input_pv_channel_`, `multi_pv_output_`, `multi_pv_consume_`) are handled by the same
statements of the source and hold no records of type `T`; they are left out. -/
structure DatasetImpl (T : Type) where
  channel_num_ : Int
  input_channel_ : Channel T
  multi_output_channel_ : List (Channel T)
  multi_consume_channel_ : List (Channel T)
deriving DecidableEq, Repr

/-- The block size `size / channel_num + (discard_remaining_ins ? 0 : 1)`. -/
def adjustedBlockSize (size : Nat) (channel_num : Int) (discard_remaining_ins : Bool) : Nat :=
  size / toSizeT channel_num + (if discard_remaining_ins then 0 else 1)

/-- The guarded `SetBlockSize` of lines 559-576:
`if (static_cast<int>(c->Size()) >= channel_num) c->SetBlockSize(...)`. -/
def adjustBlockSize {T : Type} (c : Channel T) (channel_num : Int)
    (discard_remaining_ins : Bool) : Channel T :=
  if channel_num ≤ castInt c.Size then
    c.SetBlockSize (adjustedBlockSize c.Size channel_num discard_remaining_ins)
  else c

/-- The drain loop of lines 552-557: every origin channel is closed, read out completely
and its items are written to the temporary channel. -/
def drainInto {T : Type} (total_data_channel : Channel T) (origin_channels : List (Channel T)) :
    Channel T :=
  origin_channels.foldl (fun tc c => tc.Write (c.Close.ReadAll).1) total_data_channel

/-- The redistribution loop of lines 578-587, run for `n` iterations: each iteration reads
one block from the temporary channel and writes it to a freshly made channel.  Returns
`new_channels` and what is left of the temporary channel. -/
def redistribute {T : Type} (default_block_size : Nat) :
    Nat → Channel T → List (Channel T) × Channel T
  | 0, tc => ([], tc)
  | n + 1, tc =>
    let r := tc.Read
    let rest := redistribute default_block_size n r.2
    ((MakeChannel T default_block_size).Write r.1 :: rest.1, rest.2)

/-- The function `DatasetImpl<T>::DynamicAdjustChannelNum(channel_num,
discard_remaining_ins)` of lines 494-614.  `none` stands for an abort: a failing `CHECK`,
or the division by `channel_num = 0`. -/
def DynamicAdjustChannelNum {T : Type} (default_block_size : Nat) (ds : DatasetImpl T)
    (channel_num : Int) (discard_remaining_ins : Bool) : Option (DatasetImpl T) :=
  if ds.channel_num_ = channel_num then some ds
  else if ds.multi_output_channel_.length ≠ ds.multi_consume_channel_.length then none
  else
    let output_channels_data_size := totalSize ds.multi_output_channel_
    let consume_channels_data_size := totalSize ds.multi_consume_channel_
    if output_channels_data_size ≠ 0 ∧ consume_channels_data_size ≠ 0 then none
    else
      let cur_channel : Nat := if output_channels_data_size ≠ 0 then 0 else 1
      let origin_channels :=
        if cur_channel = 0 then ds.multi_output_channel_ else ds.multi_consume_channel_
      let total_data_channel :=
        (drainInto (MakeChannel T default_block_size) origin_channels).Close
      if channel_num = 0 ∧
          (0 ≤ castInt total_data_channel.Size ∨ 0 ≤ castInt ds.input_channel_.Size) then none
      else
        let total_data_channel :=
          adjustBlockSize total_data_channel channel_num discard_remaining_ins
        let input_channel := adjustBlockSize ds.input_channel_ channel_num discard_remaining_ins
        let new_channels :=
          (redistribute default_block_size channel_num.toNat total_data_channel).1
        let new_other_channels :=
          List.replicate channel_num.toNat (MakeChannel T default_block_size)
        some
          { channel_num_ := channel_num
            input_channel_ := input_channel
            multi_output_channel_ := if cur_channel = 0 then new_channels else new_other_channels
            multi_consume_channel_ := if cur_channel = 0 then new_other_channels else new_channels }

/-- Sizes of the blocks handed out by `n` consecutive reads of block size `bs` from a
closed channel holding `k` items. -/
def blockSizes (bs : Nat) : Nat → Nat → List Nat
  | 0, _ => []
  | n + 1, k => min bs k :: blockSizes bs n (k - bs)

/-- The temporary channel of a resharding run: all items of the origin set, closed, with
the block size chosen by the guarded `SetBlockSize`. -/
def totalDataChannel {T : Type} (B : Nat) (origin : List (Channel T)) (channel_num : Int)
    (discard_remaining_ins : Bool) : Channel T :=
  adjustBlockSize (drainInto (MakeChannel T B) origin).Close channel_num discard_remaining_ins

/-! ## Records -/

/-- Modelled from the spec: the feature signature `FeatureItem` of `data_feed.h`, read in
`data_set.cc` through `slot()` and `sign()`: the slot (a `uint16_t` index into the used
slots) and the value, which is a `uint64_t` for the entries of `uint64_feasigns_` and a
`float` for the entries of `float_feasigns_`. -/
structure FeatureItem (V : Type) where
  slot : Nat
  sign : V
deriving DecidableEq, Repr

/-- Modelled from the spec: the type `Record` of `data_feed.h`, with the fields that
`data_set.cc` reads.  Float values are rationals. -/
structure Record where
  ins_id_ : String
  content_ : String
  search_id : Nat
  uint64_feasigns_ : List (FeatureItem Nat)
  float_feasigns_ : List (FeatureItem Rat)
deriving DecidableEq, Repr

/-! ## Hash containers -/

/-- A `std::unordered_map<uint16_t, V>` as an association list with distinct keys.  The
iteration order of the source is unspecified; here iteration visits the keys in the
order of their first insertion. -/
abbrev SlotMap (V : Type) := List (Nat × V)

/-- The lookup `m.find(k)`; `none` stands for `m.end()`. -/
def SlotMap.find {V : Type} : SlotMap V → Nat → Option V
  | [], _ => none
  | (k', v) :: rest, k => if k' = k then some v else SlotMap.find rest k

/-- The assignment `m[k] = v`. -/
def SlotMap.assign {V : Type} : SlotMap V → Nat → V → SlotMap V
  | [], k, v => [(k, v)]
  | (k', v') :: rest, k, v =>
    if k' = k then (k', v) :: rest else (k', v') :: SlotMap.assign rest k v

/-- The statement `m[k].push_back(x)` on a map of vectors. -/
def SlotMap.push_back {V : Type} (m : SlotMap (List V)) (k : Nat) (x : V) : SlotMap (List V) :=
  match SlotMap.find m k with
  | some v => SlotMap.assign m k (v ++ [x])
  | none => SlotMap.assign m k [x]

/-- A `std::unordered_set<uint16_t>` as a duplicate-free list. -/
abbrev SlotSet := List Nat

/-- The statement `s.insert(x)`. -/
def SlotSet.insert (s : SlotSet) (x : Nat) : SlotSet := if x ∈ s then s else s ++ [x]

/-- The range insertion `s.insert(t.begin(), t.end())`. -/
def SlotSet.insertAll (s : SlotSet) (t : SlotSet) : SlotSet := t.foldl SlotSet.insert s

/-! ## `MultiSlotDataset::MergeByInsId` -/

/-- The configuration `MergeByInsId` reads: `merge_size_` and the vector
`use_slots_is_dense`, as the function from a slot index to its entry. -/
structure MergeConfig where
  merge_size_ : Int
  use_slots_is_dense : Nat → Bool

/-- The test `feature.sign().uint64_feasign_ != 0`. -/
def uint64_nonempty (x : Nat) : Bool := decide (x ≠ 0)

/-- The constant `1e-6`, as the fraction with numerator 1 and denominator 1000000. -/
def float_epsilon : Rat := Rat.mk' 1 1000000 (by decide) (Nat.gcd_one_left _)

/-- The test `fabs(feature.sign().float_feasign_) >= 1e-6`. -/
def float_nonempty (x : Rat) : Bool := decide (float_epsilon ≤ |x|)

/-- The dense maps of one group: `all_dense_uint64` and `all_dense_float`. -/
structure DenseAll where
  all_dense_uint64 : SlotMap (List (FeatureItem Nat))
  all_dense_float : SlotMap (List (FeatureItem Rat))

/-- One iteration of the loops over `recs[k].uint64_feasigns_` (lines 1092-1104) and over
`recs[k].float_feasigns_` (lines 1105-1117), which differ in the value type and in the
emptiness test `nonempty` only.  The state is the local map of the loop
(`local_dense_uint64` or `local_dense_float`) and `dense_empty`; `all_dense` is
`all_dense_uint64` or `all_dense_float`. -/
def denseScan {V : Type} (nonempty : V → Bool) (cfg : MergeConfig)
    (all_dense : SlotMap (List (FeatureItem V)))
    (st : SlotMap (List (FeatureItem V)) × SlotMap Bool) (feature : FeatureItem V) :
    SlotMap (List (FeatureItem V)) × SlotMap Bool :=
  let slot := feature.slot
  if !cfg.use_slots_is_dense slot then st
  else
    let local_dense := SlotMap.push_back st.1 slot feature
    if nonempty feature.sign then (local_dense, SlotMap.assign st.2 slot false)
    else if (SlotMap.find st.2 slot).isNone && (SlotMap.find all_dense slot).isNone then
      (local_dense, SlotMap.assign st.2 slot true)
    else (local_dense, st.2)

/-- One iteration of the loop `for (auto& p : dense_empty)` of lines 1118-1124. -/
def denseCommit (local_dense_uint64 : SlotMap (List (FeatureItem Nat)))
    (local_dense_float : SlotMap (List (FeatureItem Rat))) (all : DenseAll) (p : Nat × Bool) :
    DenseAll :=
  match SlotMap.find local_dense_uint64 p.1 with
  | some v => { all with all_dense_uint64 := SlotMap.assign all.all_dense_uint64 p.1 v }
  | none =>
    match SlotMap.find local_dense_float p.1 with
    | some v => { all with all_dense_float := SlotMap.assign all.all_dense_float p.1 v }
    | none => all

/-- The body of the first loop over the records of a group (lines 1088-1125) for the
record `r`. -/
def denseRecord (cfg : MergeConfig) (all : DenseAll) (r : Record) : DenseAll :=
  let u := r.uint64_feasigns_.foldl (denseScan uint64_nonempty cfg all.all_dense_uint64) ([], [])
  let f := r.float_feasigns_.foldl (denseScan float_nonempty cfg all.all_dense_float) ([], u.2)
  f.2.foldl (denseCommit u.1 f.1) all

/-- The dense pass over a group (lines 1077-1080 and 1088-1125). -/
def densePass (cfg : MergeConfig) (group : List Record) : DenseAll :=
  group.foldl (denseRecord cfg) { all_dense_uint64 := [], all_dense_float := [] }

/-- The loop over the features of one record in the sparse pass (lines 1138-1149 and
1155-1166): dense slots are skipped, a sparse slot already in `all_slots` stops the loop
with that slot as the conflict, any other feature is appended to the merged record and its
slot is put into the local set.  Returns the features of the merged record, the local set
and the conflicting slot, if any. -/
def sparseScan {V : Type} (cfg : MergeConfig) (all_slots : SlotSet) :
    List (FeatureItem V) → List (FeatureItem V) → SlotSet →
      List (FeatureItem V) × SlotSet × Option Nat
  | [], out, loc => (out, loc, none)
  | feature :: rest, out, loc =>
    if cfg.use_slots_is_dense feature.slot then sparseScan cfg all_slots rest out loc
    else if feature.slot ∈ all_slots then (out, loc, some feature.slot)
    else sparseScan cfg all_slots rest (out ++ [feature]) (SlotSet.insert loc feature.slot)

/-- The state of the sparse pass: the feature vectors of the merged record `rec`, the sets
`all_int64` and `all_float`, and `has_conflict_slot` with `conflict_slot`. -/
structure SparseState where
  uint64_feasigns_ : List (FeatureItem Nat)
  float_feasigns_ : List (FeatureItem Rat)
  all_int64 : SlotSet
  all_float : SlotSet
  has_conflict_slot : Bool
  conflict_slot : Nat

/-- The body of the second loop over the records of a group (lines 1135-1171) for the
record `r`; once `has_conflict_slot` is set the loop has been left by `break`. -/
def sparseRecord (cfg : MergeConfig) (st : SparseState) (r : Record) : SparseState :=
  if st.has_conflict_slot then st
  else
    let u := sparseScan cfg st.all_int64 r.uint64_feasigns_ st.uint64_feasigns_ []
    match u.2.2 with
    | some slot => { st with uint64_feasigns_ := u.1, has_conflict_slot := true, conflict_slot := slot }
    | none =>
      let st := { st with uint64_feasigns_ := u.1, all_int64 := SlotSet.insertAll st.all_int64 u.2.1 }
      let f := sparseScan cfg st.all_float r.float_feasigns_ st.float_feasigns_ []
      match f.2.2 with
      | some slot => { st with float_feasigns_ := f.1, has_conflict_slot := true, conflict_slot := slot }
      | none => { st with float_feasigns_ := f.1, all_float := SlotSet.insertAll st.all_float f.2.1 }

/-- The values of a dense map, concatenated in iteration order (lines 1126-1133). -/
def denseValues {V : Type} (m : SlotMap (List (FeatureItem V))) : List (FeatureItem V) :=
  (m.map Prod.snd).flatten

/-- The sparse pass over a group, started from the merged record that holds the dense
features. -/
def sparsePass (cfg : MergeConfig) (all : DenseAll) (group : List Record) : SparseState :=
  group.foldl (sparseRecord cfg)
    { uint64_feasigns_ := denseValues all.all_dense_uint64
      float_feasigns_ := denseValues all.all_dense_float
      all_int64 := [], all_float := [], has_conflict_slot := false, conflict_slot := 0 }

/-- Lines 1077-1179 for one group `recs[i..j)` with first record `first`: the merged
record, or `none` when a sparse slot conflict was found.  The field `search_id` of the
merged record is not set by the source; it is 0 here. -/
def mergeGroup (cfg : MergeConfig) (first : Record) (group : List Record) : Option Record :=
  let st := sparsePass cfg (densePass cfg group) group
  if st.has_conflict_slot then none
  else some
    { ins_id_ := first.ins_id_, content_ := first.content_, search_id := 0
      uint64_feasigns_ := st.uint64_feasigns_, float_feasigns_ := st.float_feasigns_ }

/-- The state of the loop of lines 1064-1181: the records not yet visited (`recs[i..]`),
`results` and `drop_ins_num`. -/
structure MergeState where
  recs : List Record
  results : List Record
  drop_ins_num : Nat
deriving DecidableEq, Repr

/-- One iteration of the loop of lines 1064-1181: the group is the first record together
with the records that follow it and carry its `ins_id_`. -/
def MergeByInsId_step (cfg : MergeConfig) (st : MergeState) : MergeState :=
  match st.recs with
  | [] => st
  | first :: rest =>
    let group := first :: rest.takeWhile (fun r => r.ins_id_ == first.ins_id_)
    let remaining := rest.dropWhile (fun r => r.ins_id_ == first.ins_id_)
    if 0 < cfg.merge_size_ ∧ (group.length : Int) ≠ cfg.merge_size_ then
      { recs := remaining, results := st.results, drop_ins_num := st.drop_ins_num + group.length }
    else
      match mergeGroup cfg first group with
      | none =>
        { recs := remaining, results := st.results,
          drop_ins_num := st.drop_ins_num + group.length }
      | some rec => { recs := remaining, results := st.results ++ [rec],
                      drop_ins_num := st.drop_ins_num }

/-- The loop of lines 1064-1181, run for at most `fuel` iterations. -/
def MergeByInsId_loop (cfg : MergeConfig) : Nat → MergeState → MergeState
  | 0, st => st
  | fuel + 1, st =>
    match st.recs with
    | [] => st
    | _ :: _ => MergeByInsId_loop cfg fuel (MergeByInsId_step cfg st)

/-- Lines 1064-1184 of `MultiSlotDataset::MergeByInsId` on the records as the `std::sort` of
lines 1047-1049 left them (`sorted`): `results` as it stands before the final shuffle and
the re-partition over the output channels, and `drop_ins_num`.  Every iteration of the
loop consumes at least one record, so `recs.size()` iterations suffice. -/
def MergeByInsId_sorted (cfg : MergeConfig) (sorted : List Record) : List Record × Nat :=
  let st := MergeByInsId_loop cfg sorted.length
    { recs := sorted, results := [], drop_ins_num := 0 }
  (st.results, st.drop_ins_num)

/-- A sort by `a.ins_id_ < b.ins_id_` (the lexicographic order of the characters) that
keeps records with equal ids in their relative order: one of the outcomes that the
`std::sort` of lines 1047-1049 can have.  `std::sort` may leave records with equal ids in
any order; what depends on that order is stated on `MergeByInsId_sorted`, for every sorted
rearrangement of the input. -/
def sortByInsId (recs : List Record) : List Record :=
  recs.insertionSort (fun a b => a.ins_id_.toList ≤ b.ins_id_.toList)

/-- The merge of `MultiSlotDataset::MergeByInsId` (lines 1043-1184, `merge_by_insid_` set) on
the records drained from the output channels, with `sortByInsId` as the outcome of the
sort: `results` as it stands before the final shuffle and the re-partition over the output
channels, and `drop_ins_num`. -/
def MergeByInsId (cfg : MergeConfig) (recs : List Record) : List Record × Nat :=
  MergeByInsId_sorted cfg (sortByInsId recs)

/-! ## PV merge: `PreprocessInstance` -/

/-- Modelled from the spec: the columnar record `SlotRecord` of `data_feed.h`, with the two
keys `data_set.cc` reads from it. -/
structure SlotRecord where
  search_id : Nat
  ins_id_ : String
deriving DecidableEq, Repr

/-- Modelled from the spec: `PvInstance` (and `SlotPvInstance`) of `data_feed.h`, which only
groups references to the records of one session, in the order they were merged in. -/
structure PvInstance (α : Type) where
  ads : List α
deriving DecidableEq, Repr

/-- Modelled from the spec: `make_pv_instance()` / `make_slotpv_instance()`, a PvInstance
without records. -/
def make_pv_instance (α : Type) : PvInstance α := { ads := [] }

/-- Modelled from the spec: `merge_instance(ins)` adds the record to the PvInstance. -/
def PvInstance.merge_instance {α : Type} (pv : PvInstance α) (ins : α) : PvInstance α :=
  { ads := pv.ads ++ [ins] }

/-- The update `v.back() = f(v.back())` of a non-empty vector. -/
def modifyBack {α : Type} (f : α → α) : List α → List α
  | [] => []
  | [x] => [f x]
  | x :: y :: rest => x :: modifyBack f (y :: rest)

/-- The state of the grouping loop: `pv_data` (`input_pv_ins_`) and `last_search_id`. -/
structure PvState (α : Type) where
  pv_data : List (PvInstance α)
  last_search_id : Nat
deriving DecidableEq, Repr

/-- The body of the loop of lines 906-916 (and 1990-2000) for index `i` and record `ins`. -/
def mergeBySidStep {α : Type} (search_id : α → Nat) (i : Nat) (st : PvState α) (ins : α) :
    PvState α :=
  if i = 0 ∨ st.last_search_id ≠ search_id ins then
    { pv_data := st.pv_data ++ [(make_pv_instance α).merge_instance ins]
      last_search_id := search_id ins }
  else
    { st with pv_data := modifyBack (fun pv => pv.merge_instance ins) st.pv_data }

/-- The loop of lines 906-916 (and 1990-2000) from index `i` on. -/
def mergeBySidLoop {α : Type} (search_id : α → Nat) : Nat → List α → PvState α → PvState α
  | _, [], st => st
  | i, ins :: rest, st =>
    mergeBySidLoop search_id (i + 1) rest (mergeBySidStep search_id i st ins)

/-- The loop of lines 918-923 (and 2002-2007): every record becomes its own PvInstance. -/
def singletonLoop {α : Type} (recs : List α) (pv_data : List (PvInstance α)) :
    List (PvInstance α) :=
  recs.foldl (fun pv_data ins => pv_data ++ [(make_pv_instance α).merge_instance ins]) pv_data

/-- Lines 903-924 (and 1988-2008): the PvInstances built from the sorted records, appended
to `pv_data`. -/
def buildPvInstances {α : Type} (search_id : α → Nat) (merge_by_sid_ : Bool)
    (sorted : List α) (pv_data : List (PvInstance α)) : List (PvInstance α) :=
  if merge_by_sid_ then
    (mergeBySidLoop search_id 0 sorted { pv_data := pv_data, last_search_id := 0 }).pv_data
  else singletonLoop sorted pv_data

/-- A sort by `lhs->search_id < rhs->search_id` that keeps records with equal keys in
their relative order: one of the outcomes that the `std::sort` of lines 898-901 (and
1983-1986) can have; the sort of the examples. -/
def sortBySearchId {α : Type} (search_id : α → Nat) (recs : List α) : List α :=
  recs.insertionSort (fun a b => search_id a ≤ search_id b)

/-- The function `MultiSlotDataset::PreprocessInstance` (lines 874-934) on the records read
from the input channel: the PvInstances `pv_data` before the final shuffle.  The number of
records is kept in an `int` (line 884), `all_records` holds that many of them, and a
negative number makes `reserve` throw (`none`).  `std_sort` is the outcome of the
`std::sort` of lines 898-901.  Nothing is built when the input is empty or PV merge is
off. -/
def MultiSlotDataset.PreprocessInstance (enable_pv_merge_ merge_by_sid_ : Bool)
    (std_sort : List Record → List Record) (input_records_ : List Record) :
    Option (List (PvInstance Record)) :=
  if input_records_.isEmpty then some []
  else
    let all_records_num := castInt input_records_.length
    if all_records_num < 0 then none
    else
      let all_records := input_records_.take all_records_num.toNat
      if !enable_pv_merge_ then some []
      else some (buildPvInstances Record.search_id merge_by_sid_ (std_sort all_records) [])

/-- The function `PadBoxSlotDataset::PreprocessInstance` (lines 1968-2009): the new values
of `input_records_` (sorted in place) and `input_pv_ins_`.  The number of records is a
`size_t` here.  `std_sort` is the outcome of the `std::sort` of lines 1983-1986. -/
def PadBoxSlotDataset.PreprocessInstance (enable_pv_merge_ merge_by_sid_ : Bool)
    (std_sort : List SlotRecord → List SlotRecord)
    (input_records_ : List SlotRecord) (input_pv_ins_ : List (PvInstance SlotRecord)) :
    List SlotRecord × List (PvInstance SlotRecord) :=
  if input_records_.isEmpty then (input_records_, input_pv_ins_)
  else if !enable_pv_merge_ then (input_records_, input_pv_ins_)
  else
    let sorted := std_sort input_records_
    (sorted, buildPvInstances SlotRecord.search_id merge_by_sid_ sorted [])

/-- The records of a sequence of PvInstances, in order. -/
def pvRecords {α : Type} (pvs : List (PvInstance α)) : List α :=
  (pvs.map PvInstance.ads).flatten

/-- The sizes of a sequence of PvInstances. -/
def pvSizes {α : Type} (pvs : List (PvInstance α)) : List Nat :=
  pvs.map (fun pv => pv.ads.length)

/-! ## Vocabulary of the merge properties -/

/-- The features of a feature vector whose slot is marked sparse. -/
def sparseFeatures {V : Type} (cfg : MergeConfig) (l : List (FeatureItem V)) :
    List (FeatureItem V) :=
  l.filter (fun f => !cfg.use_slots_is_dense f.slot)

/-- Two records share no sparse slot: no sparse slot has a `uint64` feature in both, and no
sparse slot has a `float` feature in both. -/
def SparseDisjoint (cfg : MergeConfig) (a b : Record) : Prop :=
  (∀ f ∈ sparseFeatures cfg a.uint64_feasigns_, ∀ g ∈ sparseFeatures cfg b.uint64_feasigns_,
      f.slot ≠ g.slot) ∧
  (∀ f ∈ sparseFeatures cfg a.float_feasigns_, ∀ g ∈ sparseFeatures cfg b.float_feasigns_,
      f.slot ≠ g.slot)

instance SparseDisjoint.decidable (cfg : MergeConfig) (a b : Record) :
    Decidable (SparseDisjoint cfg a b) := by
  unfold SparseDisjoint
  infer_instance

/-- Two records share a sparse slot: some sparse slot has a `uint64` feature in both, or a
`float` feature in both. -/
def SharesSparseSlot (cfg : MergeConfig) (a b : Record) : Prop :=
  (∃ f ∈ a.uint64_feasigns_, ∃ g ∈ b.uint64_feasigns_,
      cfg.use_slots_is_dense f.slot = false ∧ f.slot = g.slot) ∨
  (∃ f ∈ a.float_feasigns_, ∃ g ∈ b.float_feasigns_,
      cfg.use_slots_is_dense f.slot = false ∧ f.slot = g.slot)

/-- Two records carry different values for the same sparse slot. -/
def SharesSparseSlotWithDifferentValues (cfg : MergeConfig) (a b : Record) : Prop :=
  (∃ f ∈ a.uint64_feasigns_, ∃ g ∈ b.uint64_feasigns_,
      cfg.use_slots_is_dense f.slot = false ∧ f.slot = g.slot ∧ f.sign ≠ g.sign) ∨
  (∃ f ∈ a.float_feasigns_, ∃ g ∈ b.float_feasigns_,
      cfg.use_slots_is_dense f.slot = false ∧ f.slot = g.slot ∧ f.sign ≠ g.sign)

/-- A group has a sparse-slot conflict when two of its records (at different positions,
`a` before `b`) share a sparse slot. -/
def HasSparseConflict (cfg : MergeConfig) (group : List Record) : Prop :=
  ∃ a b, [a, b].Sublist group ∧ SharesSparseSlot cfg a b

/-- The same sparse slot appears in two different records of the group with different
values. -/
def HasConflictingValues (cfg : MergeConfig) (group : List Record) : Prop :=
  ∃ a b, [a, b].Sublist group ∧ SharesSparseSlotWithDifferentValues cfg a b

/-- The outcome of one loop iteration for the group `group`: `none` when the group is
dropped (size check of lines 1069-1075 or sparse conflict), the merged record otherwise. -/
def processGroup (cfg : MergeConfig) (group : List Record) : Option Record :=
  match group with
  | [] => none
  | first :: _ =>
    if 0 < cfg.merge_size_ ∧ (group.length : Int) ≠ cfg.merge_size_ then none
    else mergeGroup cfg first group

/-- The contiguous groups of a record sequence: maximal runs of neighbours that carry the
same `ins_id_`. -/
def groupsById : List Record → List (List Record)
  | [] => []
  | r :: rest =>
    match groupsById rest with
    | [] => [[r]]
    | g :: gs =>
      if (g.head?.map Record.ins_id_) = some r.ins_id_ then (r :: g) :: gs
      else [r] :: g :: gs

/-- The features of a feature vector that belong to slot `s`, in order. -/
def slotValues {V : Type} (s : Nat) (l : List (FeatureItem V)) : List (FeatureItem V) :=
  l.filter (fun f => f.slot = s)

/-- The record has a non-zero `uint64` value for slot `s`. -/
def hasNonzero (s : Nat) (r : Record) : Prop :=
  ∃ f ∈ r.uint64_feasigns_, f.slot = s ∧ f.sign ≠ 0

/-- The record has a `uint64` feature for slot `s`. -/
def hasSlot (s : Nat) (r : Record) : Prop :=
  ∃ f ∈ r.uint64_feasigns_, f.slot = s

/-- The record brings no sparse slot that the state has already seen. -/
def Fresh (cfg : MergeConfig) (st : SparseState) (r : Record) : Prop :=
  (∀ f ∈ sparseFeatures cfg r.uint64_feasigns_, f.slot ∉ st.all_int64) ∧
  (∀ f ∈ sparseFeatures cfg r.float_feasigns_, f.slot ∉ st.all_float)

/-- The records `first :: tail` are the group at the head of `first :: tail ++ rest`: the
records of `tail` carry the `ins_id_` of `first`, and the record after them, if any, does
not. -/
def HeadGroup (first : Record) (tail rest : List Record) : Prop :=
  (∀ r ∈ tail, r.ins_id_ = first.ins_id_) ∧ (∀ r, rest.head? = some r → r.ins_id_ ≠ first.ins_id_)

/-- The loop state after the iteration that handled `group`, when `rest` is what follows
the group: a dropped group adds its size to `drop_ins_num`, a surviving group adds its
merged record to `results`. -/
def afterGroup (cfg : MergeConfig) (st : MergeState) (group rest : List Record) : MergeState :=
  match processGroup cfg group with
  | none => { recs := rest, results := st.results,
              drop_ins_num := st.drop_ins_num + group.length }
  | some rec => { recs := rest, results := st.results ++ [rec],
                  drop_ins_num := st.drop_ins_num }

/-- The sizes of the groups that are dropped, summed. -/
def droppedCount (cfg : MergeConfig) (groups : List (List Record)) : Nat :=
  ((groups.filter (fun g => (processGroup cfg g).isNone)).map List.length).sum

/-- The features of a feature vector that belong to slot `s`, provided `s` is marked dense. -/
def denseFeats {V : Type} (cfg : MergeConfig) (s : Nat) (l : List (FeatureItem V)) :
    List (FeatureItem V) :=
  l.filter (fun f => cfg.use_slots_is_dense f.slot && decide (f.slot = s))

/-- Scanning the feature vector `l` puts slot `s` into `dense_empty`: `s` is dense and `l`
has a feature of slot `s` that is non-empty, or has one at all while `all_dense` has no
entry for `s`. -/
def marksSlot {V : Type} (nonempty : V → Bool) (cfg : MergeConfig)
    (all_dense : SlotMap (List (FeatureItem V))) (s : Nat) (l : List (FeatureItem V)) : Bool :=
  l.any (fun f => cfg.use_slots_is_dense f.slot && decide (f.slot = s) &&
    (nonempty f.sign || (SlotMap.find all_dense s).isNone))

/-- The test behind `hasNonzero`, as a Boolean. -/
def hasNonzeroB (s : Nat) (r : Record) : Bool :=
  r.uint64_feasigns_.any (fun f => decide (f.slot = s) && uint64_nonempty f.sign)

/-- The test behind `hasSlot`, as a Boolean. -/
def hasSlotB (s : Nat) (r : Record) : Bool :=
  r.uint64_feasigns_.any (fun f => decide (f.slot = s))

/-- The record whose values the dense pass keeps for the integer slot `s`, updated for the
next record `r` of the group: `r` replaces the current choice when it has a non-zero value
for `s`, or when it carries `s` and no record was chosen so far. -/
def denseChoice (s : Nat) (w : Option Record) (r : Record) : Option Record :=
  if hasNonzeroB s r || (hasSlotB s r && w.isNone) then some r else w

/-- The record whose values for the dense integer slot `s` end up in the merged record of
the group: the last record with a non-zero value for `s`, or, when there is none, the
first record that carries `s`. -/
def denseWinner (s : Nat) (group : List Record) : Option Record :=
  group.foldl (denseChoice s) none

/-- What the dense pass has to maintain: both maps have distinct keys, and every entry is
the non-empty vector of the features of its (dense) slot in one record seen so far. -/
def DenseInv (cfg : MergeConfig) (processed : List Record) (all : DenseAll) : Prop :=
  (all.all_dense_uint64.map Prod.fst).Nodup ∧ (all.all_dense_float.map Prod.fst).Nodup ∧
  (∀ s v, SlotMap.find all.all_dense_uint64 s = some v →
    v ≠ [] ∧ ∃ r ∈ processed, v = denseFeats cfg s r.uint64_feasigns_) ∧
  (∀ s v, SlotMap.find all.all_dense_float s = some v →
    v ≠ [] ∧ ∃ r ∈ processed, v = denseFeats cfg s r.float_feasigns_)

/-- The order of the sort: the `ins_id_` of `a` is not behind the one of `b`. -/
def InsIdLe (a b : Record) : Prop := a.ins_id_.toList ≤ b.ins_id_.toList

/-- The `ins_id_` of `a` is strictly before the one of `b`. -/
def InsIdLt (a b : Record) : Prop := a.ins_id_.toList < b.ins_id_.toList

/-! ## Example inputs of the merge -/

/-- The configuration of the merge example: `merge_size_ = 2`, every slot sparse. -/
def sparseCfg : MergeConfig := { merge_size_ := 2, use_slots_is_dense := fun _ => false }

/-- First record of instance `a`: sparse slots 1 and 2. -/
def recA1 : Record :=
  { ins_id_ := "a", content_ := "a-first", search_id := 7
    uint64_feasigns_ := [⟨1, 11⟩, ⟨2, 22⟩], float_feasigns_ := [] }

/-- Second record of instance `a`: sparse slot 3. -/
def recA2 : Record :=
  { ins_id_ := "a", content_ := "a-second", search_id := 8
    uint64_feasigns_ := [⟨3, 33⟩], float_feasigns_ := [] }

/-- First record of instance `b`: sparse slot 1 with value 5. -/
def recB1 : Record :=
  { ins_id_ := "b", content_ := "b-first", search_id := 9
    uint64_feasigns_ := [⟨1, 5⟩], float_feasigns_ := [] }

/-- Second record of instance `b`: sparse slot 1 with value 6. -/
def recB2 : Record :=
  { ins_id_ := "b", content_ := "b-second", search_id := 9
    uint64_feasigns_ := [⟨1, 6⟩], float_feasigns_ := [] }

/-- The merged record of instance `a` in the example. -/
def mergedA : Record :=
  { ins_id_ := "a", content_ := "a-first", search_id := 0
    uint64_feasigns_ := [⟨1, 11⟩, ⟨2, 22⟩, ⟨3, 33⟩], float_feasigns_ := [] }

/-- The merged record of instance `a` in the example when the second record of `a` stands
first. -/
def mergedA2 : Record :=
  { ins_id_ := "a", content_ := "a-second", search_id := 0
    uint64_feasigns_ := [⟨3, 33⟩, ⟨1, 11⟩, ⟨2, 22⟩], float_feasigns_ := [] }

/-- A loop state that has the four example records ahead, five dropped records and one
result so far. -/
def exampleState : MergeState :=
  { recs := [recB1, recB2, recA1, recA2], results := [mergedA], drop_ins_num := 5 }

/-- A loop state that has the two records of instance `a` and then those of `b` ahead. -/
def exampleStateA : MergeState :=
  { recs := [recA1, recA2, recB1, recB2], results := [], drop_ins_num := 0 }

/-- The configuration of the dense example: `merge_size_ = 2`, slot 0 dense, every other
slot sparse. -/
def denseCfg : MergeConfig := { merge_size_ := 2, use_slots_is_dense := fun s => decide (s = 0) }

/-- A record of instance `a` with the value 5 for the dense slot 0. -/
def denseRec5 : Record :=
  { ins_id_ := "a", content_ := "five", search_id := 1
    uint64_feasigns_ := [⟨0, 5⟩, ⟨1, 1⟩], float_feasigns_ := [] }

/-- A record of instance `a` with the value 7 for the dense slot 0. -/
def denseRec7 : Record :=
  { ins_id_ := "a", content_ := "seven", search_id := 2
    uint64_feasigns_ := [⟨0, 7⟩], float_feasigns_ := [] }

/-- A record of instance `a` with the empty value 0 for the dense slot 0. -/
def denseRec0 : Record :=
  { ins_id_ := "a", content_ := "zero", search_id := 3
    uint64_feasigns_ := [⟨0, 0⟩], float_feasigns_ := [] }

/-- Every dense slot carries features of one type only: no dense slot has a `uint64` feature
in one record and a `float` feature in the same or another record. -/
def SlotTyped (cfg : MergeConfig) (recs : List Record) : Prop :=
  ∀ a ∈ recs, ∀ b ∈ recs, ∀ f ∈ a.uint64_feasigns_, ∀ g ∈ b.float_feasigns_,
    cfg.use_slots_is_dense f.slot = true → f.slot ≠ g.slot

/-- Two merged records agree: same instance id, same content, and for every slot the same
`uint64` and `float` features in the same order. -/
def SameContents (m2 m1 : Record) : Prop :=
  m2.ins_id_ = m1.ins_id_ ∧ m2.content_ = m1.content_ ∧
    ∀ s, slotValues s m2.uint64_feasigns_ = slotValues s m1.uint64_feasigns_ ∧
      slotValues s m2.float_feasigns_ = slotValues s m1.float_feasigns_

/-- A configuration without size check (`merge_size_ = 0`) in which slot 0 is dense. -/
def mixedCfg : MergeConfig := { merge_size_ := 0, use_slots_is_dense := fun s => decide (s = 0) }

/-- A record of instance `a` with a `uint64` feature for the dense slot 0. -/
def mixedU : Record :=
  { ins_id_ := "a", content_ := "u", search_id := 1
    uint64_feasigns_ := [⟨0, 5⟩], float_feasigns_ := [] }

/-- A record of instance `a` with a `float` feature for the dense slot 0. -/
def mixedF : Record :=
  { ins_id_ := "a", content_ := "f", search_id := 1
    uint64_feasigns_ := [], float_feasigns_ := [⟨0, 2⟩] }

/-! ## Example inputs -/

/-- A dataset with one output channel holding `2 ^ 31` records, an empty consume channel
and `channel_num_ = 1`; every channel has block size 1024. -/
def hugeDataset : DatasetImpl Unit :=
  { channel_num_ := 1
    input_channel_ := MakeChannel Unit 1024
    multi_output_channel_ := [{ data := List.replicate (2 ^ 31) (), block_size := 1024, closed := false }]
    multi_consume_channel_ := [MakeChannel Unit 1024] }

/-- A dataset with ten buffered records `0 .. 9` in its single output channel, an empty
consume channel and `channel_num_ = 1`. -/
def tenRecords : DatasetImpl Nat :=
  { channel_num_ := 1
    input_channel_ := MakeChannel Nat 1024
    multi_output_channel_ := [{ data := List.range 10, block_size := 1024, closed := false }]
    multi_consume_channel_ := [MakeChannel Nat 1024] }

/-- A dataset with seven buffered records spread over two consume channels, two empty
output channels and `channel_num_ = 2`. -/
def sevenConsumed : DatasetImpl Nat :=
  { channel_num_ := 2
    input_channel_ := MakeChannel Nat 1024
    multi_output_channel_ := [MakeChannel Nat 1024, MakeChannel Nat 1024]
    multi_consume_channel_ :=
      [{ data := [1, 2, 3, 4], block_size := 1024, closed := false },
       { data := [5, 6, 7], block_size := 1024, closed := false }] }

/-! ## Block sizes after loading and after the merge -/

/-- The part of the `DatasetImpl<T>` state that the end of `LoadIntoMemory` and of
`WaitPreLoadDone` works on. -/
structure LoadState (T : Type) where
  thread_num_ : Int
  input_channel_ : Channel T
deriving DecidableEq, Repr

/-- Lines 264-266 (and 302-304): the input channel is closed and its block size becomes
`in_chan_size / thread_num_ + 1`, computed in `int64_t` (the division truncates) and
converted to `size_t`.  `none` stands for the division by `thread_num_ = 0`. -/
def closeInputChannel {T : Type} (st : LoadState T) : Option (LoadState T) :=
  let input_channel_ := st.input_channel_.Close
  let in_chan_size : Int := (input_channel_.Size : Int)
  if st.thread_num_ = 0 then none
  else
    some { st with
      input_channel_ :=
        input_channel_.SetBlockSize (toSizeT (Int.tdiv in_chan_size st.thread_num_ + 1)) }

/-- The function `DatasetImpl<T>::LoadIntoMemory` (lines 251-272).  The load threads run
the readers, which write the records they parse into the input channel; `loaded` is what
they have written when all of them are joined. -/
def LoadIntoMemory {T : Type} (st : LoadState T) (loaded : List T) : Option (LoadState T) :=
  closeInputChannel { st with input_channel_ := st.input_channel_.Write loaded }

/-- The function `DatasetImpl<T>::WaitPreLoadDone` (lines 296-306); `loaded` is what the
preload threads have written into the input channel when all of them are joined. -/
def WaitPreLoadDone {T : Type} (st : LoadState T) (loaded : List T) : Option (LoadState T) :=
  closeInputChannel { st with input_channel_ := st.input_channel_.Write loaded }

/-- Lines 1189-1195 of `MultiSlotDataset::MergeByInsId`: the merged records `results` (as
the shuffle left them) are written to the emptied temporary channel `channel_data`, the
channel is closed and its block size becomes `Size() / channel_num_ + 1` in `size_t`
arithmetic.  `none` stands for the division by `channel_num_ = 0`. -/
def MergeByInsId_channel_data (default_block_size : Nat) (channel_num_ : Int)
    (results : List Record) : Option (Channel Record) :=
  let channel_data := (((MakeChannel Record default_block_size).Open).Write results).Close
  if toSizeT channel_num_ = 0 then none
  else some (channel_data.SetBlockSize (channel_data.Size / toSizeT channel_num_ + 1))

/-- The quotient `total / count` rounded up, as the specification words the block size. -/
def ceilDiv (total count : Nat) : Nat := (total + count - 1) / count

/-! ## Distributed shuffle: the partition functions -/

/-- The configuration `PadBoxSlotDataset::ShuffleData` reads. -/
structure ShuffleConfig where
  enable_pv_merge_ : Bool
  FLAGS_enable_shuffle_by_searchid : Bool
  merge_by_insid_ : Bool
  mpi_size_ : Int
  mpi_rank_ : Int
deriving DecidableEq, Repr

/-- Lines 1775-1785 of `ShuffleData`: the destination `client_id` of record `t`.  `XXH64` is
the hash of `xxhash.h` and `random` is the value `BoxWrapper::LocalRandomEngine()()`
returns for this record, both from outside `data_set.cc`.  The three branches divide an
unsigned 64-bit value by `mpi_size_` converted to unsigned and store the remainder in an
`int`; `none` stands for the division by `mpi_size_ = 0`. -/
def ShuffleData_client_id (cfg : ShuffleConfig) (XXH64 : String → Nat) (random : Nat)
    (t : SlotRecord) : Option Int :=
  if toSizeT cfg.mpi_size_ = 0 then none
  else if cfg.enable_pv_merge_ || cfg.FLAGS_enable_shuffle_by_searchid then
    some (castInt (t.search_id % toSizeT cfg.mpi_size_))
  else if cfg.merge_by_insid_ then
    some (castInt (XXH64 t.ins_id_ % toSizeT cfg.mpi_size_))
  else
    some (castInt (random % toSizeT cfg.mpi_size_))

/-- Lines 424-431 of `DatasetImpl<T>::GlobalShuffle`: the lambda `get_client_id`, which
returns a `size_t`.  `random` is the value `fleet_ptr->LocalRandomEngine()()` returns for
this record; `none` stands for the division by `trainer_num_ = 0`. -/
def GlobalShuffle_get_client_id (merge_by_insid_ : Bool) (trainer_num_ : Int)
    (XXH64 : String → Nat) (random : Nat) (data : Record) : Option Nat :=
  if toSizeT trainer_num_ = 0 then none
  else if !merge_by_insid_ then some (random % toSizeT trainer_num_)
  else some (XXH64 data.ins_id_ % toSizeT trainer_num_)

/-! ## Distributed shuffle: one round of a shuffle thread -/

/-- Modelled from the spec: `Write` is legal only while the channel is open; on a closed
channel nothing is appended, and the `CHECK` on the number of written items that follows
every `Write` of the shuffle code fails.  `none` stands for that abort. -/
def Channel.WriteChecked {T : Type} (c : Channel T) (batch : List T) : Option (Channel T) :=
  if c.closed && !batch.isEmpty then none else some (c.Write batch)

/-- The local variables of a shuffle thread that the routing loop works on.  A
`BinaryArchive` is kept as the sequence of records serialized into it. -/
structure ShuffleLocals where
  loc_datas : List SlotRecord
  releases : List SlotRecord
  ars : List (List SlotRecord)
deriving DecidableEq, Repr

/-- The body of the loop of lines 1774-1791 for the record `t`.  `none` stands for the
division by zero and for the access `ars[client_id]` outside the vector. -/
def ShuffleData_route (cfg : ShuffleConfig) (XXH64 : String → Nat) (random : Nat)
    (st : ShuffleLocals) (t : SlotRecord) : Option ShuffleLocals :=
  match ShuffleData_client_id cfg XXH64 random t with
  | none => none
  | some client_id =>
    if client_id = cfg.mpi_rank_ then some { st with loc_datas := st.loc_datas ++ [t] }
    else if 0 ≤ client_id ∧ client_id.toNat < st.ars.length then
      some { st with
        ars := st.ars.set client_id.toNat (st.ars.getD client_id.toNat [] ++ [t])
        releases := st.releases ++ [t] }
    else none

/-- The loop of lines 1774-1791 over the batch `data`; `draws k` is the value the random
engine returns for the record at position `k` of the batch (only the third branch of the
partition function asks for it). -/
def ShuffleData_routeAll (cfg : ShuffleConfig) (XXH64 : String → Nat) (draws : Nat → Nat) :
    Nat → List SlotRecord → ShuffleLocals → Option ShuffleLocals
  | _, [], st => some st
  | k, t :: rest, st =>
    match ShuffleData_route cfg XXH64 (draws k) st t with
    | none => none
    | some st' => ShuffleData_routeAll cfg XXH64 draws (k + 1) rest st'

/-- The class `ShuffleResultWaitGroup` of lines 1719-1755: its counter. -/
structure ShuffleResultWaitGroup where
  counter_ : Int
deriving DecidableEq, Repr

/-- The method `add(delta)`: nothing happens for `delta = 0`. -/
def ShuffleResultWaitGroup.add (wg : ShuffleResultWaitGroup) (delta : Int) :
    ShuffleResultWaitGroup :=
  if delta = 0 then wg else { counter_ := wg.counter_ + delta }

/-- The method `done()`, which is `add(-1)`. -/
def ShuffleResultWaitGroup.done (wg : ShuffleResultWaitGroup) : ShuffleResultWaitGroup :=
  wg.add (-1)

/-- The method `on_notify()`, the completion callback of a send, which is `done()`. -/
def ShuffleResultWaitGroup.on_notify (wg : ShuffleResultWaitGroup) : ShuffleResultWaitGroup :=
  wg.done

/-- The method `clear()`. -/
def ShuffleResultWaitGroup.clear (_wg : ShuffleResultWaitGroup) : ShuffleResultWaitGroup :=
  { counter_ := 0 }

/-- The state of a send round: the wait group, the archives, the loop index `i`, the
messages handed to the messenger so far (destination and payload, in order) and the number
of them whose completion callback has not fired yet. -/
structure DispatchState where
  wg : ShuffleResultWaitGroup
  ars : List (List SlotRecord)
  i : Nat
  sends : List (Nat × List SlotRecord)
  pending : Nat
deriving DecidableEq, Repr

/-- The body of the send loop of lines 1799-1811 for the index `st.i`: the own rank and an
empty archive are settled with `done()`, any other archive is handed to the messenger and
cleared. -/
def ShuffleData_dispatch_step (cfg : ShuffleConfig) (st : DispatchState) : DispatchState :=
  if (st.i : Int) = cfg.mpi_rank_ then { st with wg := st.wg.done, i := st.i + 1 }
  else if (st.ars.getD st.i []).length = 0 then { st with wg := st.wg.done, i := st.i + 1 }
  else
    { st with
      sends := st.sends ++ [(st.i, st.ars.getD st.i [])]
      pending := st.pending + 1
      ars := st.ars.set st.i []
      i := st.i + 1 }

/-- The body of the loop of lines 1839-1845, the broadcast of the zero-length message: the
own rank is settled with `done()`, every other rank is sent an empty message. -/
def ShuffleData_broadcast_step (cfg : ShuffleConfig) (st : DispatchState) : DispatchState :=
  if (st.i : Int) = cfg.mpi_rank_ then { st with wg := st.wg.done, i := st.i + 1 }
  else { st with sends := st.sends ++ [(st.i, [])], pending := st.pending + 1, i := st.i + 1 }

/-- What happens next in a send round: the loop runs its next iteration, or the messenger
fires the completion callback of a send that is still pending. -/
inductive DispatchEvent where
  | iteration
  | callback
deriving DecidableEq, Repr

/-- A send round from the state `st` under the schedule `evs`, with `step` as the loop
body.  `none` marks a schedule that is not possible: an iteration after the loop has ended,
or a callback while no send is pending. -/
def dispatchRun (cfg : ShuffleConfig) (step : DispatchState → DispatchState) :
    List DispatchEvent → DispatchState → Option DispatchState
  | [], st => some st
  | DispatchEvent.iteration :: evs, st =>
    if (st.i : Int) < cfg.mpi_size_ then dispatchRun cfg step evs (step st) else none
  | DispatchEvent.callback :: evs, st =>
    if st.pending = 0 then none
    else dispatchRun cfg step evs { st with wg := st.wg.on_notify, pending := st.pending - 1 }

/-- The state at the start of a send loop: `wg.add(mpi_size_)` on the wait group, index 0,
nothing sent yet. -/
def dispatchStart (cfg : ShuffleConfig) (wg : ShuffleResultWaitGroup)
    (ars : List (List SlotRecord)) : DispatchState :=
  { wg := wg.add cfg.mpi_size_, ars := ars, i := 0, sends := [], pending := 0 }

/-- The send loop of lines 1798-1811 run to its end with no callback in between. -/
def ShuffleData_dispatch (cfg : ShuffleConfig) (wg : ShuffleResultWaitGroup)
    (ars : List (List SlotRecord)) : Option DispatchState :=
  dispatchRun cfg (ShuffleData_dispatch_step cfg)
    (List.replicate cfg.mpi_size_.toNat DispatchEvent.iteration) (dispatchStart cfg wg ars)

/-- The broadcast loop of lines 1838-1845 run to its end with no callback in between. -/
def ShuffleData_broadcast (cfg : ShuffleConfig) (wg : ShuffleResultWaitGroup) :
    Option DispatchState :=
  dispatchRun cfg (ShuffleData_broadcast_step cfg)
    (List.replicate cfg.mpi_size_.toNat DispatchEvent.iteration) (dispatchStart cfg wg [])

/-- The result of one round of a shuffle thread. -/
structure ShuffleRound where
  shuffle_channel_ : Channel SlotRecord
  loc_datas : List SlotRecord
  sends : List (Nat × List SlotRecord)
  ars : List (List SlotRecord)
  wg : ShuffleResultWaitGroup
deriving DecidableEq, Repr

/-- One round of the loop of lines 1772-1816 on the batch `data` read from the input
channel: the records are routed, the local ones are written to the shuffle channel, and
the archives are sent.  The round starts with the wait group at zero (`wg.wait()` has
returned) and `loc_datas` empty; `loc_datas` of the result is what was written to the
shuffle channel, before the vector is cleared for the next round. -/
def ShuffleData_round (cfg : ShuffleConfig) (XXH64 : String → Nat) (draws : Nat → Nat)
    (shuffle_channel_ : Channel SlotRecord) (ars : List (List SlotRecord))
    (data : List SlotRecord) : Option ShuffleRound :=
  match ShuffleData_routeAll cfg XXH64 draws 0 data { loc_datas := [], releases := [], ars := ars } with
  | none => none
  | some loc =>
    match shuffle_channel_.WriteChecked loc.loc_datas with
    | none => none
    | some ch =>
      match ShuffleData_dispatch cfg { counter_ := 0 } loc.ars with
      | none => none
      | some d =>
        some { shuffle_channel_ := ch, loc_datas := loc.loc_datas, sends := d.sends,
               ars := d.ars, wg := d.wg }

/-! ## Distributed shuffle: termination -/

/-- The part of the `PadBoxSlotDataset` state the termination protocol works on. -/
structure ShuffleTermination where
  finished_counter_ : Int
  mpi_flags_ : List Int
  receiver_cnt_ : Int
  shuffle_channel_ : Channel SlotRecord
deriving DecidableEq, Repr

/-- Lines 1520-1521 (and 1585-1586): `finished_counter_ = mpi_size_` and
`mpi_flags_.assign(mpi_size_, 1)`. -/
def ShuffleTermination.start (mpi_size_ : Int) (shuffle_channel_ : Channel SlotRecord) :
    ShuffleTermination :=
  { finished_counter_ := mpi_size_
    mpi_flags_ := List.replicate mpi_size_.toNat 1
    receiver_cnt_ := 0
    shuffle_channel_ := shuffle_channel_ }

/-- The wait `while (receiver_cnt_ > 0) usleep(100)` followed by `shuffle_channel_->Close()`
when no other thread runs: the loop ends at once for `receiver_cnt_ <= 0` and never
otherwise (`none`). -/
def waitAndClose (st : ShuffleTermination) : Option ShuffleTermination :=
  if 0 < st.receiver_cnt_ then none
  else some { st with shuffle_channel_ := st.shuffle_channel_.Close }

/-- The function `PadBoxSlotDataset::ReceiveSuffleData(client_id, buf, len)` of lines
1870-1926, run with no other thread in between.  The message is kept as the records
serialized in it, and `len == 0` is the message without records.  The records of a data
message are written to the shuffle channel (in chunks of `max_fetch_num`, which add up to
all of them).  `none` stands for an abort: the access `mpi_flags_[client_id]` outside the
vector, or the failing `CHECK` of a write to the closed channel. -/
def ReceiveSuffleData (st : ShuffleTermination) (client_id : Int) (msg : List SlotRecord) :
    Option ShuffleTermination :=
  let st := { st with receiver_cnt_ := st.receiver_cnt_ + 1 }
  if msg.length = 0 then
    if 0 ≤ client_id ∧ client_id.toNat < st.mpi_flags_.length then
      let st :=
        if st.mpi_flags_.getD client_id.toNat 0 ≠ 0 then
          { st with
            mpi_flags_ := st.mpi_flags_.set client_id.toNat 0
            finished_counter_ := st.finished_counter_ - 1 }
        else st
      let st := { st with receiver_cnt_ := st.receiver_cnt_ - 1 }
      if st.finished_counter_ = 0 then waitAndClose st else some st
    else none
  else
    match st.shuffle_channel_.WriteChecked msg with
    | none => none
    | some ch => some { st with shuffle_channel_ := ch, receiver_cnt_ := st.receiver_cnt_ - 1 }

/-- Lines 1857-1865 of `ShuffleData`, run by the one thread that sent the zero-length
messages: `if (--finished_counter_ == 0)` the channel is closed after the wait. -/
def ShuffleData_finish (st : ShuffleTermination) : Option ShuffleTermination :=
  let st := { st with finished_counter_ := st.finished_counter_ - 1 }
  if st.finished_counter_ = 0 then waitAndClose st else some st

/-- What a rank sees during the shuffle: a message from `client_id`, or the end of its own
shuffle threads. -/
inductive ShuffleEvent where
  | receive (client_id : Int) (msg : List SlotRecord)
  | localFinish
deriving DecidableEq, Repr

/-- The termination state after the events `evs`, one after the other. -/
def shuffleRun : List ShuffleEvent → ShuffleTermination → Option ShuffleTermination
  | [], st => some st
  | ShuffleEvent.receive client_id msg :: evs, st =>
    match ReceiveSuffleData st client_id msg with
    | none => none
    | some st' => shuffleRun evs st'
  | ShuffleEvent.localFinish :: evs, st =>
    match ShuffleData_finish st with
    | none => none
    | some st' => shuffleRun evs st'

/-- The ranks whose zero-length message is among the events, in the order of arrival. -/
def doneSenders : List ShuffleEvent → List Int
  | [] => []
  | ShuffleEvent.receive client_id msg :: evs =>
    if msg.length = 0 then client_id :: doneSenders evs else doneSenders evs
  | ShuffleEvent.localFinish :: evs => doneSenders evs

/-- The number of times the own shuffle threads ended among the events. -/
def localFinishes : List ShuffleEvent → Nat
  | [] => 0
  | ShuffleEvent.receive _ _ :: evs => localFinishes evs
  | ShuffleEvent.localFinish :: evs => localFinishes evs + 1

/-- The senders of all messages among the events. -/
def senders : List ShuffleEvent → List Int
  | [] => []
  | ShuffleEvent.receive client_id _ :: evs => client_id :: senders evs
  | ShuffleEvent.localFinish :: evs => senders evs

/-! ## Readers -/

/-- The two channel sets a reader can be bound to. -/
inductive ChannelSet where
  | multi_output_channel_
  | multi_consume_channel_
deriving DecidableEq, Repr

/-- A pointer to a channel of one of the two sets: the set and the index in it. -/
structure ChannelRef where
  set : ChannelSet
  idx : Nat
deriving DecidableEq, Repr

/-- Modelled from the spec: a reader (`DataFeed` of `data_feed.h`), as far as `data_set.cc`
sets it up: its thread id and thread count, the channels it is bound to, and the batch
offsets added to it. -/
structure DataFeed where
  thread_id : Int
  thread_num : Int
  output_channel : Option ChannelRef
  consume_channel : Option ChannelRef
  batch_offsets : List (Int × Int)
deriving DecidableEq, Repr

/-- Modelled from the spec: the reader `DataFeedFactory::CreateDataFeed` returns, not yet
bound to anything. -/
def CreateDataFeed : DataFeed :=
  { thread_id := 0, thread_num := 0, output_channel := none, consume_channel := none,
    batch_offsets := [] }

/-- Modelled from the spec: `AddBatchOffset(offset)` appends the pair to the offsets of the
reader. -/
def DataFeed.AddBatchOffset (r : DataFeed) (offset : Int × Int) : DataFeed :=
  { r with batch_offsets := r.batch_offsets ++ [offset] }

/-- The part of the `DatasetImpl<T>` state that `CreateReaders`, `DestroyReaders` and
`DynamicAdjustReadersNum` read and write.  Of the channel sets only the length of
`multi_output_channel_` is read; the pointer and PV channel sets are bound by the same
statements as the record channels and are left out. -/
structure ReaderState where
  thread_num_ : Int
  channel_num_ : Int
  cur_channel_ : Int
  file_idx_ : Nat
  multi_output_channel_size : Nat
  readers_ : List DataFeed
deriving DecidableEq, Repr

/-- The body of the loop of lines 650-698 for the index `i`: the new reader, bound to the
channels with index `channel_idx`. -/
def CreateReaders_reader (st : ReaderState) (i : Nat) (channel_idx : Int) : DataFeed :=
  let r := { CreateDataFeed with thread_id := (i : Int), thread_num := st.thread_num_ }
  if st.cur_channel_ = 0 ∧ toSizeT channel_idx < st.multi_output_channel_size then
    { r with
      output_channel := some ⟨ChannelSet.multi_output_channel_, toSizeT channel_idx⟩
      consume_channel := some ⟨ChannelSet.multi_consume_channel_, toSizeT channel_idx⟩ }
  else if toSizeT channel_idx < st.multi_output_channel_size then
    { r with
      output_channel := some ⟨ChannelSet.multi_consume_channel_, toSizeT channel_idx⟩
      consume_channel := some ⟨ChannelSet.multi_output_channel_, toSizeT channel_idx⟩ }
  else r

/-- The loop of lines 650-698, for `n` more iterations from the index `i` on. -/
def CreateReaders_loop (st : ReaderState) : Nat → Nat → Int → List DataFeed → List DataFeed
  | 0, _, _, readers => readers
  | n + 1, i, channel_idx, readers =>
    let readers := readers ++ [CreateReaders_reader st i channel_idx]
    let channel_idx := channel_idx + 1
    let channel_idx := if channel_idx ≥ st.channel_num_ then 0 else channel_idx
    CreateReaders_loop st n (i + 1) channel_idx readers

/-- The function `DatasetImpl<T>::CreateReaders` (lines 635-701).  `none` stands for the
abort of a failing `CHECK`. -/
def DatasetImpl.CreateReaders (st : ReaderState) : Option ReaderState :=
  if ¬ (st.thread_num_ > 0) then none
  else if ¬ (st.channel_num_ > 0) then none
  else if ¬ (st.channel_num_ ≤ st.thread_num_) then none
  else if st.readers_.length ≠ 0 then some st
  else
    some { st with readers_ := CreateReaders_loop st st.thread_num_.toNat 0 0 st.readers_ }

/-- The function `DatasetImpl<T>::DestroyReaders` (lines 703-711). -/
def DatasetImpl.DestroyReaders (st : ReaderState) : ReaderState :=
  { st with readers_ := [], file_idx_ := 0, cur_channel_ := 1 - st.cur_channel_ }

/-- The value of an `int` expression: the low 32 bits of the exact result, read as a two's
complement number. -/
def toInt32 (x : Int) : Int := (x + 2 ^ 31) % 2 ^ 32 - 2 ^ 31

/-- The loop of `compute_left_batch_num` (lines 2020-2027), for `n` more iterations from the
index `i` on. -/
def compute_left_batch_num_loop (batch_size left_num : Int) :
    Nat → Nat → Int → List (Int × Int) → List (Int × Int)
  | 0, _, _, offset => offset
  | n + 1, i, cur_pos, offset =>
    let batch_num_size := if i = 0 then toInt32 (batch_size + left_num) else batch_size
    compute_left_batch_num_loop batch_size left_num n (i + 1) (toInt32 (cur_pos + batch_num_size))
      (offset ++ [(cur_pos, batch_num_size)])

/-- The function `compute_left_batch_num(ins_num, thread_num, offset, start_pos)` of lines
2014-2028; the result is the new value of `*offset`.  `none` stands for the division by
`thread_num = 0`. -/
def compute_left_batch_num (ins_num thread_num : Int) (offset : List (Int × Int))
    (start_pos : Int) : Option (List (Int × Int)) :=
  if thread_num = 0 then none
  else
    some (compute_left_batch_num_loop (Int.tdiv ins_num thread_num) (Int.tmod ins_num thread_num)
      thread_num.toNat 0 start_pos offset)

/-- The loop `for (int i = 0; i < offset_num; ++i)` of lines 2048-2051 (and 2055-2058), for
`n` iterations: the new values of `cur_pos` and `*offset`. -/
def compute_batch_num_loop (batch_size : Int) :
    Nat → Int → List (Int × Int) → Int × List (Int × Int)
  | 0, cur_pos, offset => (cur_pos, offset)
  | n + 1, cur_pos, offset =>
    compute_batch_num_loop batch_size n (toInt32 (cur_pos + batch_size))
      (offset ++ [(cur_pos, batch_size)])

/-- The function `compute_batch_num(ins_num, batch_size, thread_num, offset)` of lines
2034-2063; `ins_num` is an `int64_t`, the other numbers are `int`.  `none` stands for a
division by zero. -/
def compute_batch_num (ins_num batch_size thread_num : Int) (offset : List (Int × Int)) :
    Option (List (Int × Int)) :=
  let thread_batch_num := toInt32 (batch_size * thread_num)
  if thread_batch_num > ins_num then
    compute_left_batch_num (toInt32 ins_num) thread_num offset 0
  else if thread_batch_num = 0 then none
  else
    let offset_num := toInt32 (toInt32 (Int.tdiv ins_num thread_batch_num) * thread_num)
    let left_ins_num := toInt32 (Int.tmod ins_num thread_batch_num)
    if left_ins_num > 0 ∧ left_ins_num < toInt32 (thread_num * 2) ∧ offset_num > 1 then
      let offset_num := toInt32 (offset_num - thread_num)
      let left_ins_num := toInt32 (left_ins_num + thread_batch_num)
      let r := compute_batch_num_loop batch_size offset_num.toNat 0 offset
      compute_left_batch_num left_ins_num (toInt32 (thread_num * 2)) r.2 r.1
    else
      let r := compute_batch_num_loop batch_size offset_num.toNat 0 offset
      if left_ins_num > 0 then compute_left_batch_num left_ins_num thread_num r.2 r.1
      else some r.2

/-- Modelled from the spec: the cluster `boxps::MPICluster`, as far as
`compute_thread_batch_nccl` asks it: `size()` and `allreduce(x, 0)`, the greatest value of
`x` over the ranks. -/
structure MPICluster where
  size : Int
  allreduce_max : Int → Int

/-- The element `offset[index]` for an `int` index; `none` outside the vector. -/
def offsetAt (offset : List (Int × Int)) (index : Int) : Option (Int × Int) :=
  if 0 ≤ index then offset.get? index.toNat else none

/-- The loop `while (split_left_num < need_batch_num)` of lines 2103-2107, for at most
`fuel` iterations: the final `need_batch_num`, `offset_split_index` and `split_left_num`.
`none` stands for an access outside `offset`, and for the end of the fuel. -/
def compute_thread_batch_nccl_loop (thr_num total_instance_num : Int)
    (offset : List (Int × Int)) : Nat → Int → Int → Int → Option (Int × Int × Int)
  | 0, need_batch_num, offset_split_index, split_left_num =>
    if split_left_num < need_batch_num then none
    else some (need_batch_num, offset_split_index, split_left_num)
  | fuel + 1, need_batch_num, offset_split_index, split_left_num =>
    if split_left_num < need_batch_num then
      let need_batch_num := toInt32 (need_batch_num + thr_num)
      let offset_split_index := toInt32 (offset_split_index - thr_num)
      match offsetAt offset offset_split_index with
      | none => none
      | some p =>
        compute_thread_batch_nccl_loop thr_num total_instance_num offset fuel need_batch_num
          offset_split_index (toInt32 (total_instance_num - p.1))
    else some (need_batch_num, offset_split_index, split_left_num)

/-- The function `compute_thread_batch_nccl(thr_num, total_instance_num, minibatch_size,
nccl_offsets)` of lines 2065-2135: the returned number and the new value of
`*nccl_offsets`.  `none` stands for an abort: `LOG(FATAL)`, a division by zero, or an
access outside `offset`.  Every iteration of the `while` loop moves `offset_split_index`,
which has to stay inside `offset`, by `thr_num`, so `offset.size()` iterations suffice. -/
def compute_thread_batch_nccl (mpi : MPICluster) (thr_num total_instance_num
    minibatch_size : Int) (nccl_offsets : List (Int × Int)) :
    Option (Int × List (Int × Int)) :=
  if total_instance_num < thr_num then some (0, nccl_offsets)
  else
    match compute_batch_num total_instance_num minibatch_size thr_num nccl_offsets with
    | none => none
    | some offset =>
      if toSizeT thr_num = 0 then none
      else
        let thread_avg_batch_num := castInt (offset.length / toSizeT thr_num)
        if mpi.size > 1 then
          let thread_max_batch_num := mpi.allreduce_max thread_avg_batch_num
          let diff_batch_num := toInt32 (thread_max_batch_num - thread_avg_batch_num)
          if diff_batch_num = 0 then some (thread_avg_batch_num, offset)
          else
            let need_ins_num := toInt32 (thread_max_batch_num * thr_num)
            if need_ins_num > total_instance_num then none
            else
              let need_batch_num := toInt32 ((diff_batch_num + 1) * thr_num)
              let offset_split_index := toInt32 ((offset.length : Int) - thr_num)
              match offsetAt offset offset_split_index with
              | none => none
              | some p =>
                match compute_thread_batch_nccl_loop thr_num total_instance_num offset
                    offset.length need_batch_num offset_split_index
                    (toInt32 (total_instance_num - p.1)) with
                | none => none
                | some (need_batch_num, offset_split_index, split_left_num) =>
                  match offsetAt offset offset_split_index with
                  | none => none
                  | some q =>
                    match compute_left_batch_num split_left_num need_batch_num
                        (offset.take offset_split_index.toNat) q.1 with
                    | none => none
                    | some offset => some (thread_max_batch_num, offset)
        else some (thread_avg_batch_num, offset)

/-! ## `PadBoxSlotDataset`: readers and `PrepareTrain` -/

/-- What `PrepareTrain` takes from outside `data_set.cc`: the phase and mode of the
`BoxWrapper`, the cluster, the batch sizes `GetPvBatchSize()` and `GetBatchSize()` of the
readers, the sizes `GetPvDataSize()` and `GetMemoryDataSize()` the dataset reports, and the
outcome of the two `std::shuffle` calls. -/
structure TrainEnv where
  Phase : Int
  Mode : Int
  mpi : MPICluster
  GetPvBatchSize : Int
  GetBatchSize : Int
  GetPvDataSize : Int
  GetMemoryDataSize : Int
  shuffle_pv : List (PvInstance SlotRecord) → List (PvInstance SlotRecord)
  shuffle_records : List SlotRecord → List SlotRecord

/-- The part of the `PadBoxSlotDataset` state that `CreateReaders`, `PrepareTrain` and
`DynamicAdjustReadersNum` read and write. -/
structure PadBoxState where
  thread_num_ : Int
  enable_pv_merge_ : Bool
  readers_ : List DataFeed
  input_records_ : List SlotRecord
  input_pv_ins_ : List (PvInstance SlotRecord)
deriving DecidableEq, Repr

/-- The loop of lines 1939-1958 of `PadBoxSlotDataset::CreateReaders`, for `n` more
iterations from the index `i` on. -/
def PadBoxSlotDataset.CreateReaders_loop (thread_num_ : Int) :
    Nat → Nat → List DataFeed → List DataFeed
  | 0, _, readers => readers
  | n + 1, i, readers =>
    PadBoxSlotDataset.CreateReaders_loop thread_num_ n (i + 1)
      (readers ++ [{ CreateDataFeed with thread_id := (i : Int), thread_num := thread_num_ }])

/-- The function `PadBoxSlotDataset::CreateReaders` (lines 1928-1960). -/
def PadBoxSlotDataset.CreateReaders (st : PadBoxState) : PadBoxState :=
  if st.readers_.length ≠ 0 then st
  else
    { st with
      readers_ :=
        PadBoxSlotDataset.CreateReaders_loop st.thread_num_ st.thread_num_.toNat 0 st.readers_ }

/-- The loop `for (size_t i = 0; i < offset.size(); ++i)` of lines 2171-2174 (and
2186-2189) from the index `i` on: `readers_[i % thread_num_]->AddBatchOffset(offset[i])`,
the remainder taken in `size_t`.  `none` stands for the division by `thread_num_ = 0` and
for an access outside `readers_`. -/
def addBatchOffsets (thread_num_ : Int) :
    Nat → List (Int × Int) → List DataFeed → Option (List DataFeed)
  | _, [], readers => some readers
  | i, off :: rest, readers =>
    if toSizeT thread_num_ = 0 then none
    else
      match readers.get? (i % toSizeT thread_num_) with
      | none => none
      | some r =>
        addBatchOffsets thread_num_ (i + 1) rest
          (readers.set (i % toSizeT thread_num_) (r.AddBatchOffset off))

/-- The function `PadBoxSlotDataset::PrepareTrain` (lines 2155-2192).  The pointers to the
data that the readers are given (`SetPvInstance`, `SetSlotRecord`) are left out.  `none`
stands for an abort of `compute_thread_batch_nccl` and for an access outside `readers_`
(`readers_[0]`, and `readers_[i]` for `i < thread_num_`). -/
def PadBoxSlotDataset.PrepareTrain (env : TrainEnv) (st : PadBoxState) : Option PadBoxState :=
  if st.readers_.length = 0 then none
  else if st.enable_pv_merge_ && (env.Phase == 1 || env.Mode == 1) then
    let input_pv_ins_ := env.shuffle_pv st.input_pv_ins_
    match compute_thread_batch_nccl env.mpi st.thread_num_ env.GetPvDataSize
        env.GetPvBatchSize [] with
    | none => none
    | some r =>
      if (st.readers_.length : Int) < st.thread_num_ then none
      else
        match addBatchOffsets st.thread_num_ 0 r.2 st.readers_ with
        | none => none
        | some readers => some { st with input_pv_ins_ := input_pv_ins_, readers_ := readers }
  else
    let input_records_ := env.shuffle_records st.input_records_
    match compute_thread_batch_nccl env.mpi st.thread_num_ env.GetMemoryDataSize
        env.GetBatchSize [] with
    | none => none
    | some r =>
      if (st.readers_.length : Int) < st.thread_num_ then none
      else
        match addBatchOffsets st.thread_num_ 0 r.2 st.readers_ with
        | none => none
        | some readers => some { st with input_records_ := input_records_, readers_ := readers }

/-- For each of the distinct search ids of `l`, the records of `l` that carry it, in the
order they have in `l`. -/
def searchIdGroups {α : Type} (search_id : α → Nat) (l : List α) : List (List α) :=
  ((l.map search_id).dedup).map (fun k => l.filter (fun r => search_id r = k))

/-! ## Example inputs of the later properties -/

/-- A dataset with `thread_num_ = 2` and an empty, open input channel of block size 1024. -/
def twoThreads : LoadState Nat :=
  { thread_num_ := 2, input_channel_ := MakeChannel Nat 1024 }

/-- A shuffle configuration of two ranks, seen from rank 0, with PV merge on. -/
def pvShuffle : ShuffleConfig :=
  { enable_pv_merge_ := true, FLAGS_enable_shuffle_by_searchid := false,
    merge_by_insid_ := false, mpi_size_ := 2, mpi_rank_ := 0 }

/-- A hash for the examples: the length of the string. -/
def lengthHash (s : String) : Nat := s.length

/-! ## Vocabulary of the shuffle properties -/

/-- The records of a batch, each with the destination the partition function gives it;
the first record of `data` is at position `k` of the batch. -/
def destinations (cfg : ShuffleConfig) (XXH64 : String → Nat) (draws : Nat → Nat) :
    Nat → List SlotRecord → List (SlotRecord × Option Int)
  | _, [] => []
  | k, t :: rest =>
    (t, ShuffleData_client_id cfg XXH64 (draws k) t) :: destinations cfg XXH64 draws (k + 1) rest

/-- The records whose destination is the rank `i`, in the order of the batch. -/
def routedTo (dests : List (SlotRecord × Option Int)) (i : Int) : List SlotRecord :=
  (dests.filter (fun p => p.2 = some i)).map Prod.fst

/-- The messages the send loop hands to the messenger for the indices `i, ..., i + j - 1`:
one for every archive that is not the own rank's and not empty. -/
def sendsOf (cfg : ShuffleConfig) (ars : List (List SlotRecord)) (i j : Nat) :
    List (Nat × List SlotRecord) :=
  (List.range' i j).filterMap (fun (m : Nat) =>
    if (m : Int) = cfg.mpi_rank_ ∨ (ars.getD m []).length = 0 then none
    else some (m, ars.getD m []))

/-- What an iteration of a send loop does to the index, the counter and the pending sends:
either it settles the rank at once, or it issues one send. -/
def SettlesOrSends (step : DispatchState → DispatchState) : Prop :=
  ∀ st, (step st).i = st.i + 1 ∧
    (((step st).wg.counter_ = st.wg.counter_ - 1 ∧ (step st).pending = st.pending ∧
        (step st).sends.length = st.sends.length) ∨
      ((step st).wg.counter_ = st.wg.counter_ ∧ (step st).pending = st.pending + 1 ∧
        (step st).sends.length = st.sends.length + 1))

/-- Three records for the shuffle examples, with search ids 4, 7 and 9. -/
def shuffleBatch : List SlotRecord :=
  [{ search_id := 4, ins_id_ := "x" }, { search_id := 7, ins_id_ := "y" },
   { search_id := 9, ins_id_ := "z" }]

/-- Archives of three ranks for the examples: one record for rank 0, none for rank 1, two
records for rank 2. -/
def threeArchives : List (List SlotRecord) :=
  [[{ search_id := 3, ins_id_ := "u" }], [],
   [{ search_id := 5, ins_id_ := "v" }, { search_id := 8, ins_id_ := "w" }]]

/-- A shuffle configuration of three ranks, seen from rank 1, with PV merge on. -/
def threeRanks : ShuffleConfig :=
  { enable_pv_merge_ := true, FLAGS_enable_shuffle_by_searchid := false,
    merge_by_insid_ := false, mpi_size_ := 3, mpi_rank_ := 1 }

/-- The events of a shuffle as rank 0 of three sees it: a data message and the zero-length
message of rank 2, the end of the own shuffle threads, and the zero-length message of
rank 1, which arrives twice. -/
def shuffleEvents : List ShuffleEvent :=
  [ShuffleEvent.receive 2 [{ search_id := 3, ins_id_ := "u" }], ShuffleEvent.receive 2 [],
   ShuffleEvent.localFinish, ShuffleEvent.receive 1 [], ShuffleEvent.receive 1 []]

/-- An environment of `PrepareTrain` for the examples: a single rank, batch size 1, two
records reported by `GetMemoryDataSize()`, and shuffles that leave the order as it is. -/
def singleRankEnv : TrainEnv :=
  { Phase := 0, Mode := 0, mpi := { size := 1, allreduce_max := fun x => x },
    GetPvBatchSize := 1, GetBatchSize := 1, GetPvDataSize := 0, GetMemoryDataSize := 2,
    shuffle_pv := fun l => l, shuffle_records := fun l => l }

/-- A dataset with one empty output channel, one empty consume channel and
`channel_num_ = 1`. -/
def noRecords : DatasetImpl Nat :=
  { channel_num_ := 1
    input_channel_ := MakeChannel Nat 1024
    multi_output_channel_ := [MakeChannel Nat 1024]
    multi_consume_channel_ := [MakeChannel Nat 1024] }

/-! ## `LocalShuffle` -/

/-- Modelled from the spec: `std::swap(v[i], v[j])` on a vector; nothing happens for an
index outside the vector. -/
def swapAt {T : Type} (v : List T) (i j : Nat) : List T :=
  match v.get? i, v.get? j with
  | some a, some b => (v.set i b).set j a
  | _, _ => v

/-- Modelled from the spec: `std::shuffle(first, last, engine)` of the standard library, a
random rearrangement done by swaps: for `i = 0, ..., n - 1` the element at `i` is swapped
with the element at a position drawn from `0, ..., i`.  `draws i` is the value the engine
returns for step `i`. -/
def std_shuffle {T : Type} (draws : Nat → Nat) (v : List T) : List T :=
  (List.range v.length).foldl (fun acc i => swapAt acc i (draws i % (i + 1))) v

/-- The function `DatasetImpl<T>::LocalShuffle` (lines 369-394): the new value of
`input_channel_`, which is `none` for the null pointer.  `draws` are the values of
`fleet_ptr->LocalRandomEngine()`. -/
def LocalShuffle {T : Type} (draws : Nat → Nat) (input_channel_ : Option (Channel T)) :
    Option (Channel T) :=
  match input_channel_ with
  | none => none
  | some c =>
    if c.Size = 0 then some c
    else
      let c := c.Close
      let r := c.ReadAll
      let data := std_shuffle draws r.1
      some (((r.2.Open).Write data).Close)

/-! ## `SetFileList` -/

/-- The part of the dataset state that `SetFileList` writes. -/
structure FileState where
  filelist_ : List String
  file_idx_ : Nat
deriving DecidableEq, Repr

/-- The function `DatasetImpl<T>::SetFileList(filelist)` (lines 68-74). -/
def DatasetImpl.SetFileList (_st : FileState) (filelist : List String) : FileState :=
  { filelist_ := filelist, file_idx_ := 0 }

/-- The loop `for (int i = mpi_rank_; i < num; i = i + mpi_size_)` of lines 1457-1459, for
at most `fuel` iterations from the index `i` on: the new value of `filelist_`.  `none`
stands for the access `filelist[i]` outside the vector, and for the end of the fuel. -/
def PadBoxSlotDataset.SetFileList_loop (filelist : List String) (mpi_size_ num : Int) :
    Nat → Int → List String → Option (List String)
  | 0, i, filelist_ => if i < num then none else some filelist_
  | fuel + 1, i, filelist_ =>
    if i < num then
      if 0 ≤ i then
        match filelist.get? i.toNat with
        | none => none
        | some f =>
          PadBoxSlotDataset.SetFileList_loop filelist mpi_size_ num fuel (toInt32 (i + mpi_size_))
            (filelist_ ++ [f])
      else none
    else some filelist_

/-- The function `PadBoxSlotDataset::SetFileList(filelist)` (lines 1451-1464).  In the
branch of the loop `mpi_size_ > 1`, so every iteration moves `i` up and `filelist.size()`
iterations suffice. -/
def PadBoxSlotDataset.SetFileList (mpi_size_ mpi_rank_ : Int)
    (FLAGS_padbox_dataset_disable_polling : Bool) (st : FileState) (filelist : List String) :
    Option FileState :=
  if mpi_size_ > 1 ∧ FLAGS_padbox_dataset_disable_polling = false then
    let num := castInt filelist.length
    match PadBoxSlotDataset.SetFileList_loop filelist mpi_size_ num filelist.length mpi_rank_
        st.filelist_ with
    | none => none
    | some filelist_ => some { filelist_ := filelist_, file_idx_ := 0 }
  else some { filelist_ := filelist, file_idx_ := 0 }

/-! ## `MultiSlotDataset::MergeByInsId`: the channels -/

/-- Lines 1034-1046 of `MergeByInsId`: every output channel is closed, read out into the
temporary channel and cleared; the records `recs` in the order they are read, and the
output channels as the loop leaves them. -/
def MergeByInsId_drain (multi_output_channel_ : List (Channel Record)) :
    List Record × List (Channel Record) :=
  ((multi_output_channel_.map Channel.data).flatten,
    multi_output_channel_.map (fun c => ((c.Close).ReadAll.2).Clear))

/-- The loop of lines 1197-1204: for every output channel one block is read from
`channel_data` and written to the channel, which is opened first.  Returns the output
channels and what is left of `channel_data`. -/
def MergeByInsId_readback (channel_data : Channel Record) :
    List (Channel Record) → List (Channel Record) × Channel Record
  | [] => ([], channel_data)
  | c :: rest =>
    let r := channel_data.Read
    let t := MergeByInsId_readback r.2 rest
    (((c.Open).Write r.1) :: t.1, t.2)

/-- Lines 1187-1206 of `MergeByInsId`: the merged records `results`, as the shuffle left
them, are spread over the output channels.  `none` stands for the division by
`channel_num_ = 0` and for the failing `CHECK(channel_data->Size() == 0)`. -/
def MergeByInsId_repartition (default_block_size : Nat) (channel_num_ : Int)
    (results : List Record) (multi_output_channel_ : List (Channel Record)) :
    Option (List (Channel Record)) :=
  match MergeByInsId_channel_data default_block_size channel_num_ results with
  | none => none
  | some channel_data =>
    let r := MergeByInsId_readback channel_data multi_output_channel_
    if r.2.Size = 0 then some r.1 else none

/-- The function `MultiSlotDataset::MergeByInsId` (lines 1014-1208) on the output channels,
with `merge_by_insid_` set: the new output channels and `drop_ins_num`.  `shuffle` is the
outcome of the `std::shuffle` of line 1188.  `none` stands for an abort: the failing
`CHECK(multi_output_channel_.size() != 0)`, the division by zero, or the failing final
`CHECK`. -/
def MultiSlotDataset.MergeByInsId (default_block_size : Nat) (cfg : MergeConfig)
    (channel_num_ : Int) (shuffle : List Record → List Record)
    (multi_output_channel_ : List (Channel Record)) : Option (List (Channel Record) × Nat) :=
  if multi_output_channel_.length = 0 then none
  else
    let d := MergeByInsId_drain multi_output_channel_
    let m := PaddleBox.MergeByInsId cfg d.1
    match MergeByInsId_repartition default_block_size channel_num_ (shuffle m.1) d.2 with
    | none => none
    | some outs => some (outs, m.2)

/-- Two open output channels with the four records of the merge example. -/
def mergeChannels : List (Channel Record) :=
  [{ data := [recA1, recB1], block_size := 1024, closed := false },
   { data := [recA2, recB2], block_size := 1024, closed := false }]

/-! ## Vocabulary of the batch offset properties -/

/-- The pairs `(cur_pos, batch_size)`, `(cur_pos + batch_size, batch_size)`, ...: `n` batches
of `batch_size` instances from `cur_pos` on. -/
def fullBatches (batch_size : Int) : Nat → Int → List (Int × Int)
  | 0, _ => []
  | n + 1, cur_pos => (cur_pos, batch_size) :: fullBatches batch_size n (cur_pos + batch_size)

/-- The split of `ins_num` instances from `start_pos` on into `thread_num` batches: the
first batch takes the quotient and the remainder, the other batches the quotient. -/
def leftBatches (ins_num thread_num start_pos : Int) : List (Int × Int) :=
  (start_pos, ins_num / thread_num + ins_num % thread_num) ::
    fullBatches (ins_num / thread_num) (thread_num.toNat - 1)
      (start_pos + (ins_num / thread_num + ins_num % thread_num))

/-- The batches of `compute_batch_num` in exact arithmetic. -/
def batchPlan (ins_num batch_size thread_num : Int) : List (Int × Int) :=
  if batch_size * thread_num > ins_num then leftBatches ins_num thread_num 0
  else if 0 < ins_num % (batch_size * thread_num) ∧
      ins_num % (batch_size * thread_num) < thread_num * 2 ∧
      1 < ins_num / (batch_size * thread_num) * thread_num then
    fullBatches batch_size ((ins_num / (batch_size * thread_num) - 1) * thread_num).toNat 0 ++
      leftBatches (ins_num % (batch_size * thread_num) + batch_size * thread_num)
        (thread_num * 2)
        ((ins_num / (batch_size * thread_num) - 1) * thread_num * batch_size)
  else
    fullBatches batch_size (ins_num / (batch_size * thread_num) * thread_num).toNat 0 ++
      (if 0 < ins_num % (batch_size * thread_num) then
        leftBatches (ins_num % (batch_size * thread_num)) thread_num
          (ins_num / (batch_size * thread_num) * thread_num * batch_size)
      else [])

/-- The end of a run of batches that starts at `start_pos`, each batch starting where the
one before it ends; `none` when a batch starts elsewhere. -/
def chainEnd : Int → List (Int × Int) → Option Int
  | start_pos, [] => some start_pos
  | start_pos, p :: rest => if p.1 = start_pos then chainEnd (start_pos + p.2) rest else none

/-- A cluster of two ranks whose greatest per-thread batch count is `m`. -/
def clusterMax (m : Int) : MPICluster := { size := 2, allreduce_max := fun x => max x m }

/-- The value of `thread_avg_batch_num` after line 2080 of `compute_thread_batch_nccl`: the
number of batches per thread in the plan of `compute_batch_num`; 0 when that aborts. -/
def thread_avg_batch_num (thr_num total_instance_num minibatch_size : Int) : Int :=
  match compute_batch_num total_instance_num minibatch_size thr_num [] with
  | none => 0
  | some offset => castInt (offset.length / toSizeT thr_num)

/-- The batches `plan` split the instances from `start_pos` up to `end_pos` exactly: the
first batch starts at `start_pos`, every batch starts where the one before it ends, and the
lengths add up to `end_pos - start_pos`. -/
def SplitsExactly (start_pos end_pos : Int) (plan : List (Int × Int)) : Prop :=
  plan.head?.map Prod.fst = some start_pos ∧
    plan.Chain' (fun p q => q.1 = p.1 + p.2) ∧
    (plan.map Prod.snd).sum = end_pos - start_pos

/-! # Theorems -/

/-! ## Resharding: auxiliary facts -/

theorem blockSizes_length (bs n k : Nat) : (blockSizes bs n k).length = n := by
  induction n generalizing k with
  | zero => rfl
  | succ n ih => simp [blockSizes, ih]

theorem blockSizes_sum (bs n k : Nat) : (blockSizes bs n k).sum = min k (n * bs) := by
  induction n generalizing k with
  | zero => simp [blockSizes]
  | succ n ih =>
    simp only [blockSizes, List.sum_cons, ih, Nat.succ_mul]
    omega

theorem drainInto_data {T : Type} (cs : List (Channel T)) (tc : Channel T) :
    (drainInto tc cs).data = tc.data ++ (cs.map Channel.data).flatten ∧
      (drainInto tc cs).block_size = tc.block_size ∧ (drainInto tc cs).closed = tc.closed := by
  induction cs generalizing tc with
  | nil => simp [drainInto]
  | cons c cs ih =>
    have h := ih (tc.Write (c.Close.ReadAll).1)
    simp only [drainInto, List.foldl_cons] at h ⊢
    refine ⟨?_, h.2.1, h.2.2⟩
    rw [h.1]
    simp [Channel.Write, Channel.Close, Channel.ReadAll]

theorem drainInto_Size {T : Type} (cs : List (Channel T)) (tc : Channel T) :
    (drainInto tc cs).Size = tc.Size + totalSize cs := by
  simp only [Channel.Size, (drainInto_data cs tc).1, List.length_append, List.length_flatten,
    totalSize, List.map_map]
  rfl

theorem redistribute_sizes {T : Type} (B n : Nat) (tc : Channel T) :
    channelSizes (redistribute B n tc).1 = blockSizes tc.block_size n tc.Size := by
  induction n generalizing tc with
  | zero => rfl
  | succ n ih =>
    have h := ih (tc.Read).2
    simp only [channelSizes] at h ⊢
    simp only [redistribute, List.map_cons, blockSizes, h]
    simp [Channel.Read, Channel.Size, Channel.Write, MakeChannel, List.length_take]

theorem redistribute_length {T : Type} (B n : Nat) (tc : Channel T) :
    (redistribute B n tc).1.length = n := by
  have h := congrArg List.length (redistribute_sizes B n tc)
  simpa [channelSizes, blockSizes_length] using h

theorem redistribute_totalSize {T : Type} (B n : Nat) (tc : Channel T) :
    totalSize (redistribute B n tc).1 = min tc.Size (n * tc.block_size) := by
  have h := congrArg List.sum (redistribute_sizes B n tc)
  simpa [channelSizes, totalSize, blockSizes_sum] using h

theorem totalSize_replicate_MakeChannel (T : Type) (B n : Nat) :
    totalSize (List.replicate n (MakeChannel T B)) = 0 := by
  induction n with
  | zero => rfl
  | succ n ih =>
    simp only [totalSize, List.replicate_succ, List.map_cons, List.sum_cons] at ih ⊢
    rw [ih]; rfl

theorem castInt_of_lt {n : Nat} (h : n < 2 ^ 31) : castInt n = (n : Int) := by
  have h1 : n % 2 ^ 32 = n := Nat.mod_eq_of_lt (by omega)
  simp only [castInt, h1]
  rw [if_pos h]

theorem toSizeT_natCast (n : Nat) : toSizeT (n : Int) = n := by
  simp [toSizeT]

theorem totalDataChannel_Size {T : Type} (B : Nat) (origin : List (Channel T)) (N : Int)
    (d : Bool) : (totalDataChannel B origin N d).Size = totalSize origin := by
  have h : (drainInto (MakeChannel T B) origin).data.length = totalSize origin := by
    simpa [Channel.Size, MakeChannel] using drainInto_Size origin (MakeChannel T B)
  unfold totalDataChannel adjustBlockSize
  split <;> simp [Channel.Size, Channel.SetBlockSize, Channel.Close, h]

theorem totalDataChannel_block_size {T : Type} (B : Nat) (origin : List (Channel T)) (N : Int)
    (d : Bool) : (totalDataChannel B origin N d).block_size =
      if N ≤ castInt (totalSize origin) then adjustedBlockSize (totalSize origin) N d else B := by
  have h : (drainInto (MakeChannel T B) origin).data.length = totalSize origin := by
    simpa [Channel.Size, MakeChannel] using drainInto_Size origin (MakeChannel T B)
  have hb : (drainInto (MakeChannel T B) origin).block_size = B :=
    (drainInto_data origin (MakeChannel T B)).2.1
  unfold totalDataChannel adjustBlockSize
  simp only [Channel.Size, Channel.Close, h]
  split
  · simp [Channel.SetBlockSize]
  · exact hb

/-- What `DynamicAdjustChannelNum` returns when the channel count changes, the two sets
have the same number of channels, at most one of them holds data and `channel_num ≥ 1`. -/
theorem DynamicAdjustChannelNum_eq {T : Type} (B : Nat) (ds : DatasetImpl T) (N : Nat)
    (d : Bool) (hN : 1 ≤ N) (hne : ds.channel_num_ ≠ (N : Int))
    (hlen : ds.multi_output_channel_.length = ds.multi_consume_channel_.length)
    (hone : totalSize ds.multi_output_channel_ = 0 ∨ totalSize ds.multi_consume_channel_ = 0) :
    ∃ ds', DynamicAdjustChannelNum B ds N d = some ds' ∧ ds'.channel_num_ = N ∧
      ds'.multi_output_channel_.length = N ∧ ds'.multi_consume_channel_.length = N ∧
      (totalSize ds.multi_output_channel_ ≠ 0 →
        ds'.multi_output_channel_ =
          (redistribute B N (totalDataChannel B ds.multi_output_channel_ N d)).1 ∧
        ds'.multi_consume_channel_ = List.replicate N (MakeChannel T B)) ∧
      (totalSize ds.multi_output_channel_ = 0 →
        ds'.multi_consume_channel_ =
          (redistribute B N (totalDataChannel B ds.multi_consume_channel_ N d)).1 ∧
        ds'.multi_output_channel_ = List.replicate N (MakeChannel T B)) := by
  have hN0 : ((N : Int) = 0) = False := by
    simp only [eq_iff_iff, iff_false]; omega
  unfold DynamicAdjustChannelNum
  rw [if_neg hne, if_neg (by simpa using hlen)]
  by_cases ho : totalSize ds.multi_output_channel_ = 0
  · simp [ho, hN0, totalDataChannel, redistribute_length]
  · have hc : totalSize ds.multi_consume_channel_ = 0 := by
      rcases hone with h | h
      · exact absurd h ho
      · exact h
    simp [ho, hc, hN0, totalDataChannel, redistribute_length]

theorem min_blocks_keep (K N B : Nat) (hB : 0 < B) (hN : 1 ≤ N) :
    min K (N * (if (N : Int) ≤ (K : Int) then K / N + 1 else B)) = K := by
  apply Nat.min_eq_left
  split
  · exact Nat.le_of_lt (Nat.lt_mul_div_succ K (by omega))
  · rename_i h
    have h1 : K < N := by omega
    have h2 : N ≤ N * B := Nat.le_mul_of_pos_right N hB
    omega

theorem min_blocks_discard (K N B : Nat) (hB : 0 < B) (hN : 1 ≤ N) :
    min K (N * (if (N : Int) ≤ (K : Int) then K / N + 0 else B)) ≤ K ∧
      K ≤ min K (N * (if (N : Int) ≤ (K : Int) then K / N + 0 else B)) + (N - 1) := by
  refine ⟨Nat.min_le_left _ _, ?_⟩
  split
  · have h1 : N * (K / N) + K % N = K := Nat.div_add_mod K N
    have h2 : K % N < N := Nat.mod_lt K (by omega)
    rw [Nat.add_zero]
    omega
  · rename_i h
    have h1 : K < N := by omega
    have h2 : N ≤ N * B := Nat.le_mul_of_pos_right N hB
    omega

theorem reshard_totalSize {T : Type} (B : Nat) (origin : List (Channel T)) (N : Nat) (d : Bool)
    (hK : totalSize origin < 2 ^ 31) :
    totalSize (redistribute B N (totalDataChannel B origin N d)).1 =
      min (totalSize origin)
        (N * (if (N : Int) ≤ (totalSize origin : Int) then
          totalSize origin / N + (if d then 0 else 1) else B)) := by
  rw [redistribute_totalSize, totalDataChannel_Size, totalDataChannel_block_size,
    castInt_of_lt hK]
  simp only [adjustedBlockSize, toSizeT_natCast]

/-! ## Resharding: the properties -/

/-- C1 (amended): resharding without discard is size-preserving as long as the set holds fewer
than `2 ^ 31` items.  For every `N ≥ 1` different from the current channel count,
`DynamicAdjustChannelNum(N, false)` on a dataset whose items are all in the output set or
all in the consume set returns normally, leaves exactly `N` channels in each set, and the
total size of each set is what it was before. -/
theorem DynamicAdjustChannelNum_size_preserving {T : Type} (B : Nat) (ds : DatasetImpl T)
    (N : Nat) (hB : 0 < B) (hN : 1 ≤ N) (hne : ds.channel_num_ ≠ (N : Int))
    (hlen : ds.multi_output_channel_.length = ds.multi_consume_channel_.length)
    (hone : totalSize ds.multi_output_channel_ = 0 ∨ totalSize ds.multi_consume_channel_ = 0)
    (hK : totalSize ds.multi_output_channel_ + totalSize ds.multi_consume_channel_ < 2 ^ 31) :
    ∃ ds', DynamicAdjustChannelNum B ds N false = some ds' ∧
      ds'.multi_output_channel_.length = N ∧ ds'.multi_consume_channel_.length = N ∧
      totalSize ds'.multi_output_channel_ = totalSize ds.multi_output_channel_ ∧
      totalSize ds'.multi_consume_channel_ = totalSize ds.multi_consume_channel_ := by
  obtain ⟨ds', hds, -, hl1, hl2, hout, hcons⟩ :=
    DynamicAdjustChannelNum_eq B ds N false hN hne hlen hone
  refine ⟨ds', hds, hl1, hl2, ?_⟩
  by_cases ho : totalSize ds.multi_output_channel_ = 0
  · obtain ⟨h1, h2⟩ := hcons ho
    rw [h1, h2, totalSize_replicate_MakeChannel, ho, reshard_totalSize B _ N false (by omega)]
    exact ⟨rfl, by simpa using min_blocks_keep _ N B hB hN⟩
  · obtain ⟨h1, h2⟩ := hout ho
    have hc : totalSize ds.multi_consume_channel_ = 0 := by
      rcases hone with h | h
      · exact absurd h ho
      · exact h
    rw [h1, h2, totalSize_replicate_MakeChannel, hc, reshard_totalSize B _ N false (by omega)]
    exact ⟨by simpa using min_blocks_keep _ N B hB hN, rfl⟩

/-- C1 (witness): seven records in two consume channels, resharded to three channels. -/
theorem DynamicAdjustChannelNum_size_preserving_witness :
    ∃ ds', DynamicAdjustChannelNum 1024 sevenConsumed (3 : Nat) false = some ds' ∧
      ds'.multi_output_channel_.length = 3 ∧ ds'.multi_consume_channel_.length = 3 ∧
      totalSize ds'.multi_output_channel_ = totalSize sevenConsumed.multi_output_channel_ ∧
      totalSize ds'.multi_consume_channel_ = totalSize sevenConsumed.multi_consume_channel_ :=
  DynamicAdjustChannelNum_size_preserving 1024 sevenConsumed 3 (by decide) (by decide)
    (by decide) (by decide) (by decide) (by decide)

theorem hugeDataset_output_size : totalSize hugeDataset.multi_output_channel_ = 2 ^ 31 := by
  simp only [totalSize, hugeDataset, Channel.Size, List.map_cons, List.map_nil,
    List.length_replicate, List.sum_cons, List.sum_nil, Nat.add_zero]

theorem hugeDataset_consume_size : totalSize hugeDataset.multi_consume_channel_ = 0 := rfl

theorem castInt_two_pow_31 : castInt (2 ^ 31) = -(2 ^ 31) := by
  unfold castInt
  norm_num

/-- What resharding `hugeDataset` to two channels leaves in the output set: two channels
holding 2048 records in total, whatever `discard_remaining_ins` is. -/
theorem hugeDataset_reshard (d : Bool) :
    ∃ ds', DynamicAdjustChannelNum 1024 hugeDataset (2 : Nat) d = some ds' ∧
      ds'.multi_output_channel_.length = 2 ∧ totalSize ds'.multi_output_channel_ = 2048 := by
  have hsz := hugeDataset_output_size
  obtain ⟨ds', hds, -, hl1, -, hout, -⟩ :=
    DynamicAdjustChannelNum_eq 1024 hugeDataset 2 d (by decide) (by decide) rfl
      (Or.inr hugeDataset_consume_size)
  have ho : totalSize hugeDataset.multi_output_channel_ ≠ 0 := by rw [hsz]; norm_num
  refine ⟨ds', hds, hl1, ?_⟩
  rw [(hout ho).1, redistribute_totalSize, totalDataChannel_Size, totalDataChannel_block_size,
    hsz, castInt_two_pow_31]
  norm_num

/-- C1 (counterexample): with `2 ^ 31` buffered records `static_cast<int>(Size())` is negative,
the block size is not set, and resharding to two channels without discard keeps only two
default blocks (2048 records) of the `2 ^ 31`. -/
theorem DynamicAdjustChannelNum_loses_items_at_int_overflow :
    totalSize hugeDataset.multi_output_channel_ = 2 ^ 31 ∧
      totalSize hugeDataset.multi_consume_channel_ = 0 ∧
      ∃ ds', DynamicAdjustChannelNum 1024 hugeDataset (2 : Nat) false = some ds' ∧
        ds'.multi_output_channel_.length = 2 ∧
        totalSize ds'.multi_output_channel_ = 2048 ∧
        totalSize ds'.multi_output_channel_ ≠ totalSize hugeDataset.multi_output_channel_ := by
  obtain ⟨ds', hds, hl, h2048⟩ := hugeDataset_reshard false
  refine ⟨hugeDataset_output_size, hugeDataset_consume_size, ds', hds, hl, h2048, ?_⟩
  rw [h2048, hugeDataset_output_size]
  norm_num

/-- C2 (amended): resharding with discard loses at most `N - 1` items as long as the set holds
fewer than `2 ^ 31` items.  For every `N ≥ 1` different from the current channel count,
`DynamicAdjustChannelNum(N, true)` returns normally, leaves exactly `N` channels in each
set, and each set holds at most what it held before and at least that minus `N - 1`. -/
theorem DynamicAdjustChannelNum_discard_bound {T : Type} (B : Nat) (ds : DatasetImpl T)
    (N : Nat) (hB : 0 < B) (hN : 1 ≤ N) (hne : ds.channel_num_ ≠ (N : Int))
    (hlen : ds.multi_output_channel_.length = ds.multi_consume_channel_.length)
    (hone : totalSize ds.multi_output_channel_ = 0 ∨ totalSize ds.multi_consume_channel_ = 0)
    (hK : totalSize ds.multi_output_channel_ + totalSize ds.multi_consume_channel_ < 2 ^ 31) :
    ∃ ds', DynamicAdjustChannelNum B ds N true = some ds' ∧
      ds'.multi_output_channel_.length = N ∧ ds'.multi_consume_channel_.length = N ∧
      totalSize ds'.multi_output_channel_ ≤ totalSize ds.multi_output_channel_ ∧
      totalSize ds.multi_output_channel_ ≤ totalSize ds'.multi_output_channel_ + (N - 1) ∧
      totalSize ds'.multi_consume_channel_ ≤ totalSize ds.multi_consume_channel_ ∧
      totalSize ds.multi_consume_channel_ ≤ totalSize ds'.multi_consume_channel_ + (N - 1) := by
  obtain ⟨ds', hds, -, hl1, hl2, hout, hcons⟩ :=
    DynamicAdjustChannelNum_eq B ds N true hN hne hlen hone
  refine ⟨ds', hds, hl1, hl2, ?_⟩
  by_cases ho : totalSize ds.multi_output_channel_ = 0
  · obtain ⟨h1, h2⟩ := hcons ho
    rw [h1, h2, totalSize_replicate_MakeChannel, ho, reshard_totalSize B _ N true (by omega)]
    have h := min_blocks_discard (totalSize ds.multi_consume_channel_) N B hB hN
    simp only [if_true] at h ⊢
    exact ⟨le_refl 0, Nat.zero_le _, h.1, h.2⟩
  · obtain ⟨h1, h2⟩ := hout ho
    have hc : totalSize ds.multi_consume_channel_ = 0 := by
      rcases hone with h | h
      · exact absurd h ho
      · exact h
    rw [h1, h2, totalSize_replicate_MakeChannel, hc, reshard_totalSize B _ N true (by omega)]
    have h := min_blocks_discard (totalSize ds.multi_output_channel_) N B hB hN
    simp only [if_true] at h ⊢
    exact ⟨h.1, h.2, le_refl 0, Nat.zero_le _⟩

/-- C2 (witness): ten records in one output channel, resharded to three channels with
discard. -/
theorem DynamicAdjustChannelNum_discard_bound_witness :
    ∃ ds', DynamicAdjustChannelNum 1024 tenRecords (3 : Nat) true = some ds' ∧
      ds'.multi_output_channel_.length = 3 ∧ ds'.multi_consume_channel_.length = 3 ∧
      totalSize ds'.multi_output_channel_ ≤ totalSize tenRecords.multi_output_channel_ ∧
      totalSize tenRecords.multi_output_channel_ ≤ totalSize ds'.multi_output_channel_ + (3 - 1) ∧
      totalSize ds'.multi_consume_channel_ ≤ totalSize tenRecords.multi_consume_channel_ ∧
      totalSize tenRecords.multi_consume_channel_ ≤
        totalSize ds'.multi_consume_channel_ + (3 - 1) :=
  DynamicAdjustChannelNum_discard_bound 1024 tenRecords 3 (by decide) (by decide)
    (by decide) (by decide) (by decide) (by decide)

/-- C2 (counterexample): with `2 ^ 31` buffered records, resharding to two channels with discard
keeps 2048 records, far fewer than `2 ^ 31 - (2 - 1)`. -/
theorem DynamicAdjustChannelNum_discard_loses_more_at_int_overflow :
    totalSize hugeDataset.multi_output_channel_ = 2 ^ 31 ∧
      totalSize hugeDataset.multi_consume_channel_ = 0 ∧
      ∃ ds', DynamicAdjustChannelNum 1024 hugeDataset (2 : Nat) true = some ds' ∧
        ds'.multi_output_channel_.length = 2 ∧
        ¬ (totalSize hugeDataset.multi_output_channel_ - (2 - 1) ≤
          totalSize ds'.multi_output_channel_) := by
  obtain ⟨ds', hds, hl, h2048⟩ := hugeDataset_reshard true
  refine ⟨hugeDataset_output_size, hugeDataset_consume_size, ds', hds, hl, ?_⟩
  rw [h2048, hugeDataset_output_size]
  norm_num

/-- C3 (amended): ten buffered records redistributed by `DynamicAdjustChannelNum(3, false)` give
three channels of sizes 4, 4 and 2, in this order (block size `10 / 3 + 1 = 4`), summing
to 10; this holds however the ten records were spread over the channels of the set that
held them. -/
theorem DynamicAdjustChannelNum_ten_into_three {T : Type} (B : Nat) (ds : DatasetImpl T)
    (hne : ds.channel_num_ ≠ 3)
    (hlen : ds.multi_output_channel_.length = ds.multi_consume_channel_.length)
    (hten : (totalSize ds.multi_output_channel_ = 10 ∧ totalSize ds.multi_consume_channel_ = 0) ∨
      (totalSize ds.multi_output_channel_ = 0 ∧ totalSize ds.multi_consume_channel_ = 10)) :
    ∃ ds', DynamicAdjustChannelNum B ds 3 false = some ds' ∧
      (totalSize ds.multi_output_channel_ = 10 →
        channelSizes ds'.multi_output_channel_ = [4, 4, 2]) ∧
      (totalSize ds.multi_consume_channel_ = 10 →
        channelSizes ds'.multi_consume_channel_ = [4, 4, 2]) ∧
      ([4, 4, 2] : List Nat).sum = 10 := by
  have hone : totalSize ds.multi_output_channel_ = 0 ∨ totalSize ds.multi_consume_channel_ = 0 := by
    rcases hten with h | h
    · exact Or.inr h.2
    · exact Or.inl h.1
  obtain ⟨ds', hds, -, -, -, hout, hcons⟩ :=
    DynamicAdjustChannelNum_eq B ds 3 false (by decide) hne hlen hone
  have hcast : castInt 10 = 10 := by decide
  have key : ∀ origin : List (Channel T), totalSize origin = 10 →
      channelSizes (redistribute B 3 (totalDataChannel B origin ((3 : Nat) : Int) false)).1
        = [4, 4, 2] := by
    intro origin h10
    rw [redistribute_sizes, totalDataChannel_Size, totalDataChannel_block_size, h10, hcast,
      if_pos (by decide)]
    decide
  refine ⟨ds', hds, ?_, ?_, by decide⟩
  · intro h10
    rw [(hout (by omega)).1]
    exact key _ h10
  · intro h10
    have ho : totalSize ds.multi_output_channel_ = 0 := by
      rcases hten with h | h
      · omega
      · exact h.1
    rw [(hcons ho).1]
    exact key _ h10

/-- C3 (witness): the ten records `0 .. 9` of `tenRecords`. -/
theorem DynamicAdjustChannelNum_ten_into_three_witness :
    ∃ ds', DynamicAdjustChannelNum 1024 tenRecords 3 false = some ds' ∧
      (totalSize tenRecords.multi_output_channel_ = 10 →
        channelSizes ds'.multi_output_channel_ = [4, 4, 2]) ∧
      (totalSize tenRecords.multi_consume_channel_ = 10 →
        channelSizes ds'.multi_consume_channel_ = [4, 4, 2]) ∧
      ([4, 4, 2] : List Nat).sum = 10 :=
  DynamicAdjustChannelNum_ten_into_three 1024 tenRecords (by decide) (by decide)
    (Or.inl ⟨by decide, by decide⟩)

/-- C3 (counterexample): the ten records `0 .. 9` resharded to three channels give the sizes
`[4, 4, 2]`, which is no arrangement of `{4, 3, 3}`. -/
theorem DynamicAdjustChannelNum_ten_into_three_not_433 :
    totalSize tenRecords.multi_output_channel_ = 10 ∧
      ∃ ds', DynamicAdjustChannelNum 1024 tenRecords 3 false = some ds' ∧
        channelSizes ds'.multi_output_channel_ = [4, 4, 2] ∧
        ¬ (channelSizes ds'.multi_output_channel_).Perm [4, 3, 3] := by
  refine ⟨by decide, ?_⟩
  have h : DynamicAdjustChannelNum 1024 tenRecords 3 false =
      some
        { channel_num_ := 3
          input_channel_ := MakeChannel Nat 1024
          multi_output_channel_ :=
            [{ data := [0, 1, 2, 3], block_size := 1024, closed := false },
             { data := [4, 5, 6, 7], block_size := 1024, closed := false },
             { data := [8, 9], block_size := 1024, closed := false }]
          multi_consume_channel_ := List.replicate 3 (MakeChannel Nat 1024) } := by
    decide
  refine ⟨_, h, by decide, ?_⟩
  decide

/-! ## Hash containers: facts -/

theorem SlotSet.mem_insert (s : SlotSet) (x y : Nat) :
    y ∈ SlotSet.insert s x ↔ y ∈ s ∨ y = x := by
  unfold SlotSet.insert
  split
  · rename_i h
    constructor
    · exact Or.inl
    · rintro (h1 | h1)
      · exact h1
      · exact h1 ▸ h
  · simp

theorem SlotSet.mem_insertAll (t s : SlotSet) (y : Nat) :
    y ∈ SlotSet.insertAll s t ↔ y ∈ s ∨ y ∈ t := by
  induction t generalizing s with
  | nil => simp [SlotSet.insertAll]
  | cons x t ih =>
    simp only [SlotSet.insertAll, List.foldl_cons] at ih ⊢
    rw [ih, SlotSet.mem_insert]
    simp only [List.mem_cons]
    tauto

/-! ## Sparse pass -/

theorem sparseFeatures_cons {V : Type} (cfg : MergeConfig) (f : FeatureItem V)
    (l : List (FeatureItem V)) :
    sparseFeatures cfg (f :: l) =
      if cfg.use_slots_is_dense f.slot then sparseFeatures cfg l
      else f :: sparseFeatures cfg l := by
  unfold sparseFeatures
  cases h : cfg.use_slots_is_dense f.slot <;> simp [List.filter_cons, h]

/-- The scan finds no conflict exactly when no sparse feature of the record has its slot in
`all_slots`. -/
theorem sparseScan_none_iff {V : Type} (cfg : MergeConfig) (all_slots : SlotSet)
    (feats out : List (FeatureItem V)) (loc : SlotSet) :
    (sparseScan cfg all_slots feats out loc).2.2 = none ↔
      ∀ f ∈ sparseFeatures cfg feats, f.slot ∉ all_slots := by
  induction feats generalizing out loc with
  | nil => simp [sparseScan, sparseFeatures]
  | cons f rest ih =>
    rw [sparseFeatures_cons]
    unfold sparseScan
    by_cases hd : cfg.use_slots_is_dense f.slot = true
    · simp only [hd, if_true]
      exact ih out loc
    · simp only [hd, Bool.false_eq_true, if_false]
      by_cases hm : f.slot ∈ all_slots
      · simp only [hm, if_true]
        constructor
        · intro h; cases h
        · intro h; exact absurd hm (h f (List.mem_cons_self _ _))
      · simp only [hm, if_false]
        rw [ih]
        simp [hm]

/-- Without a conflict the scan appends the sparse features of the record, in order, and
collects their slots. -/
theorem sparseScan_of_none {V : Type} (cfg : MergeConfig) (all_slots : SlotSet)
    (feats out : List (FeatureItem V)) (loc : SlotSet)
    (h : (sparseScan cfg all_slots feats out loc).2.2 = none) :
    (sparseScan cfg all_slots feats out loc).1 = out ++ sparseFeatures cfg feats ∧
      ∀ x, x ∈ (sparseScan cfg all_slots feats out loc).2.1 ↔
        x ∈ loc ∨ ∃ f ∈ sparseFeatures cfg feats, f.slot = x := by
  induction feats generalizing out loc with
  | nil => simp [sparseScan, sparseFeatures]
  | cons f rest ih =>
    rw [sparseFeatures_cons]
    unfold sparseScan at h ⊢
    by_cases hd : cfg.use_slots_is_dense f.slot = true
    · simp only [hd, if_true] at h ⊢
      exact ih out loc h
    · simp only [hd, Bool.false_eq_true, if_false] at h ⊢
      by_cases hm : f.slot ∈ all_slots
      · simp [hm] at h
      · simp only [hm, if_false] at h ⊢
        obtain ⟨h1, h2⟩ := ih _ _ h
        refine ⟨by rw [h1]; simp, ?_⟩
        intro x
        rw [h2, SlotSet.mem_insert]
        simp only [List.mem_cons, exists_eq_or_imp]
        constructor
        · rintro ((h3 | h3) | h3)
          · exact Or.inl h3
          · exact Or.inr (Or.inl h3.symm)
          · exact Or.inr (Or.inr h3)
        · rintro (h3 | h3 | h3)
          · exact Or.inl (Or.inl h3)
          · exact Or.inl (Or.inr h3.symm)
          · exact Or.inr h3

theorem sparseRecord_conflict_iff (cfg : MergeConfig) (st : SparseState) (r : Record)
    (h : st.has_conflict_slot = false) :
    (sparseRecord cfg st r).has_conflict_slot = false ↔ Fresh cfg st r := by
  unfold sparseRecord Fresh
  simp only [h, Bool.false_eq_true, if_false]
  rw [← sparseScan_none_iff cfg st.all_int64 r.uint64_feasigns_ st.uint64_feasigns_ [],
    ← sparseScan_none_iff cfg st.all_float r.float_feasigns_ st.float_feasigns_ []]
  split
  · rename_i slot hs
    simp [hs]
  · rename_i hs
    simp only [hs, true_and]
    split
    · rename_i slot hf
      simp [hf]
    · rename_i hf
      simp [hf, h]

theorem sparseRecord_of_fresh (cfg : MergeConfig) (st : SparseState) (r : Record)
    (h : st.has_conflict_slot = false) (hf : Fresh cfg st r) :
    (sparseRecord cfg st r).uint64_feasigns_ =
        st.uint64_feasigns_ ++ sparseFeatures cfg r.uint64_feasigns_ ∧
      (sparseRecord cfg st r).float_feasigns_ =
        st.float_feasigns_ ++ sparseFeatures cfg r.float_feasigns_ ∧
      (∀ x, x ∈ (sparseRecord cfg st r).all_int64 ↔
        x ∈ st.all_int64 ∨ ∃ f ∈ sparseFeatures cfg r.uint64_feasigns_, f.slot = x) ∧
      (∀ x, x ∈ (sparseRecord cfg st r).all_float ↔
        x ∈ st.all_float ∨ ∃ f ∈ sparseFeatures cfg r.float_feasigns_, f.slot = x) := by
  have hu := (sparseScan_none_iff cfg st.all_int64 r.uint64_feasigns_ st.uint64_feasigns_ []).2
    hf.1
  have hfl := (sparseScan_none_iff cfg st.all_float r.float_feasigns_ st.float_feasigns_ []).2
    hf.2
  obtain ⟨hu1, hu2⟩ := sparseScan_of_none cfg _ _ _ _ hu
  obtain ⟨hf1, hf2⟩ := sparseScan_of_none cfg _ _ _ _ hfl
  unfold sparseRecord
  simp only [h, Bool.false_eq_true, if_false, hu, hfl]
  refine ⟨hu1, hf1, ?_, ?_⟩
  · intro x
    rw [SlotSet.mem_insertAll, hu2]
    simp
  · intro x
    rw [SlotSet.mem_insertAll, hf2]
    simp

theorem sparseRecord_keeps_conflict (cfg : MergeConfig) (group : List Record) (st : SparseState)
    (h : st.has_conflict_slot = true) :
    (group.foldl (sparseRecord cfg) st).has_conflict_slot = true := by
  induction group generalizing st with
  | nil => exact h
  | cons r rest ih =>
    simp only [List.foldl_cons]
    apply ih
    simp [sparseRecord, h]

/-- The sparse pass over a group, from any conflict-free state: it ends without conflict
exactly when the records share no sparse slot with each other nor with the slots seen
before, and then the merged vectors have grown by the sparse features of every record. -/
theorem sparseFold_spec (cfg : MergeConfig) (group : List Record) (st : SparseState)
    (h : st.has_conflict_slot = false) :
    ((group.foldl (sparseRecord cfg) st).has_conflict_slot = false ↔
        group.Pairwise (SparseDisjoint cfg) ∧ ∀ r ∈ group, Fresh cfg st r) ∧
      ((group.foldl (sparseRecord cfg) st).has_conflict_slot = false →
        (group.foldl (sparseRecord cfg) st).uint64_feasigns_ = st.uint64_feasigns_ ++
            (group.map (fun r => sparseFeatures cfg r.uint64_feasigns_)).flatten ∧
          (group.foldl (sparseRecord cfg) st).float_feasigns_ = st.float_feasigns_ ++
            (group.map (fun r => sparseFeatures cfg r.float_feasigns_)).flatten) := by
  induction group generalizing st with
  | nil => simp [h]
  | cons r rest ih =>
    simp only [List.foldl_cons, List.pairwise_cons, List.mem_cons, forall_eq_or_imp,
      List.map_cons, List.flatten_cons]
    by_cases hf : Fresh cfg st r
    · have hc := (sparseRecord_conflict_iff cfg st r h).2 hf
      obtain ⟨e1, e2, m1, m2⟩ := sparseRecord_of_fresh cfg st r h hf
      obtain ⟨ih1, ih2⟩ := ih (sparseRecord cfg st r) hc
      have hfresh : ∀ r', Fresh cfg (sparseRecord cfg st r) r' ↔
          Fresh cfg st r' ∧ SparseDisjoint cfg r r' := by
        intro r'
        unfold Fresh SparseDisjoint
        constructor
        · rintro ⟨a, b⟩
          refine ⟨⟨fun f hf' hm => a f hf' ((m1 _).2 (Or.inl hm)),
            fun f hf' hm => b f hf' ((m2 _).2 (Or.inl hm))⟩,
            fun f hf' g hg he => a g hg ((m1 _).2 (Or.inr ⟨f, hf', he⟩)),
            fun f hf' g hg he => b g hg ((m2 _).2 (Or.inr ⟨f, hf', he⟩))⟩
        · rintro ⟨⟨a, b⟩, c, d⟩
          refine ⟨fun f hf' hm => ?_, fun f hf' hm => ?_⟩
          · rcases (m1 _).1 hm with h1 | ⟨g, hg, he⟩
            · exact a f hf' h1
            · exact c g hg f hf' he
          · rcases (m2 _).1 hm with h1 | ⟨g, hg, he⟩
            · exact b f hf' h1
            · exact d g hg f hf' he
      refine ⟨?_, ?_⟩
      · rw [ih1]
        constructor
        · rintro ⟨hp, hall⟩
          exact ⟨⟨fun r' hr' => ((hfresh r').1 (hall r' hr')).2, hp⟩, hf,
            fun r' hr' => ((hfresh r').1 (hall r' hr')).1⟩
        · rintro ⟨⟨hd, hp⟩, -, hall⟩
          exact ⟨hp, fun r' hr' => (hfresh r').2 ⟨hall r' hr', hd r' hr'⟩⟩
      · intro hfin
        obtain ⟨a, b⟩ := ih2 hfin
        rw [a, b, e1, e2]
        simp
    · have hc : (sparseRecord cfg st r).has_conflict_slot = true := by
        have := (sparseRecord_conflict_iff cfg st r h).not.2 hf
        simpa using this
      have hfin := sparseRecord_keeps_conflict cfg rest _ hc
      simp [hfin, hf]

/-! ## One group -/

theorem mergeGroup_eq_none_iff (cfg : MergeConfig) (first : Record) (group : List Record) :
    mergeGroup cfg first group = none ↔ ¬ group.Pairwise (SparseDisjoint cfg) := by
  have h := (sparseFold_spec cfg group
    { uint64_feasigns_ := denseValues (densePass cfg group).all_dense_uint64
      float_feasigns_ := denseValues (densePass cfg group).all_dense_float
      all_int64 := [], all_float := [], has_conflict_slot := false, conflict_slot := 0 } rfl).1
  have hfresh : ∀ r ∈ group, Fresh cfg
      { uint64_feasigns_ := denseValues (densePass cfg group).all_dense_uint64
        float_feasigns_ := denseValues (densePass cfg group).all_dense_float
        all_int64 := [], all_float := [], has_conflict_slot := false, conflict_slot := 0 } r := by
    intro r _
    simp [Fresh]
  unfold mergeGroup sparsePass
  simp only []
  split
  · rename_i hc
    simp only [true_iff]
    intro hp
    have := h.2 ⟨hp, hfresh⟩
    rw [hc] at this
    cases this
  · rename_i hc
    simp only [Bool.not_eq_true] at hc
    have := (h.1 hc).1
    simp [this]

theorem mergeGroup_of_some (cfg : MergeConfig) (first : Record) (group : List Record)
    (rec : Record) (h : mergeGroup cfg first group = some rec) :
    rec.ins_id_ = first.ins_id_ ∧ rec.content_ = first.content_ ∧
      rec.uint64_feasigns_ = denseValues (densePass cfg group).all_dense_uint64 ++
        (group.map (fun r => sparseFeatures cfg r.uint64_feasigns_)).flatten ∧
      rec.float_feasigns_ = denseValues (densePass cfg group).all_dense_float ++
        (group.map (fun r => sparseFeatures cfg r.float_feasigns_)).flatten := by
  have hs := (sparseFold_spec cfg group
    { uint64_feasigns_ := denseValues (densePass cfg group).all_dense_uint64
      float_feasigns_ := denseValues (densePass cfg group).all_dense_float
      all_int64 := [], all_float := [], has_conflict_slot := false, conflict_slot := 0 } rfl).2
  unfold mergeGroup sparsePass at h
  simp only [] at h
  split at h
  · cases h
  · rename_i hc
    simp only [Bool.not_eq_true] at hc
    obtain ⟨a, b⟩ := hs hc
    cases h
    exact ⟨rfl, rfl, a, b⟩

theorem processGroup_eq_none_iff (cfg : MergeConfig) (first : Record) (tail : List Record) :
    processGroup cfg (first :: tail) = none ↔
      (0 < cfg.merge_size_ ∧ ((first :: tail).length : Int) ≠ cfg.merge_size_) ∨
        ¬ (first :: tail).Pairwise (SparseDisjoint cfg) := by
  unfold processGroup
  simp only []
  split
  · rename_i h
    exact ⟨fun _ => Or.inl h, fun _ => rfl⟩
  · rename_i h
    rw [mergeGroup_eq_none_iff]
    exact ⟨Or.inr, fun h' => h'.resolve_left h⟩

/-! ## One iteration of the loop -/

theorem takeWhile_dropWhile_headGroup (first : Record) (tail rest : List Record)
    (h : HeadGroup first tail rest) :
    (tail ++ rest).takeWhile (fun r => r.ins_id_ == first.ins_id_) = tail ∧
      (tail ++ rest).dropWhile (fun r => r.ins_id_ == first.ins_id_) = rest := by
  obtain ⟨h1, h2⟩ := h
  induction tail with
  | nil =>
    cases rest with
    | nil => simp
    | cons r rest =>
      have := h2 r rfl
      simp [List.takeWhile_cons, List.dropWhile_cons, this]
  | cons t tail ih =>
    have ht := h1 t (List.mem_cons_self _ _)
    have := ih (fun r hr => h1 r (List.mem_cons_of_mem _ hr))
    simp [List.takeWhile_cons, List.dropWhile_cons, ht, this.1, this.2]

theorem headGroup_takeWhile (first : Record) (rest0 : List Record) :
    HeadGroup first (rest0.takeWhile (fun r => r.ins_id_ == first.ins_id_))
      (rest0.dropWhile (fun r => r.ins_id_ == first.ins_id_)) := by
  constructor
  · intro r hr
    have := List.mem_takeWhile_imp hr
    simpa using this
  · intro r hr
    induction rest0 with
    | nil => simp at hr
    | cons x xs ih =>
      by_cases hx : x.ins_id_ = first.ins_id_
      · simp only [List.dropWhile_cons, hx, beq_self_eq_true, if_true] at hr
        exact ih hr
      · simp only [List.dropWhile_cons, beq_iff_eq, hx, if_false, List.head?_cons,
          Option.some.injEq] at hr
        exact hr ▸ hx

theorem MergeByInsId_step_cons (cfg : MergeConfig) (first : Record) (rest0 results : List Record)
    (d : Nat) :
    MergeByInsId_step cfg { recs := first :: rest0, results := results, drop_ins_num := d } =
      afterGroup cfg { recs := first :: rest0, results := results, drop_ins_num := d }
        (first :: rest0.takeWhile (fun r => r.ins_id_ == first.ins_id_))
        (rest0.dropWhile (fun r => r.ins_id_ == first.ins_id_)) := by
  unfold MergeByInsId_step afterGroup processGroup
  simp only []
  split
  · rfl
  · cases mergeGroup cfg first (first :: rest0.takeWhile (fun r => r.ins_id_ == first.ins_id_))
      <;> rfl

/-- One iteration of the loop handles exactly the group at the head of the remaining
records. -/
theorem MergeByInsId_step_headGroup (cfg : MergeConfig) (st : MergeState) (first : Record)
    (tail rest : List Record) (hrecs : st.recs = first :: tail ++ rest)
    (hg : HeadGroup first tail rest) :
    MergeByInsId_step cfg st = afterGroup cfg st (first :: tail) rest := by
  obtain ⟨recs, results, d⟩ := st
  simp only at hrecs
  subst hrecs
  have h := MergeByInsId_step_cons cfg first (tail ++ rest) results d
  rw [(takeWhile_dropWhile_headGroup first tail rest hg).1,
    (takeWhile_dropWhile_headGroup first tail rest hg).2] at h
  simpa [afterGroup] using h

/-! ## The whole loop -/

theorem groupsById_head? (r : Record) (rest : List Record) :
    ∃ g gs, groupsById (r :: rest) = g :: gs ∧ g.head? = some r := by
  unfold groupsById
  split
  · exact ⟨_, _, rfl, rfl⟩
  · split
    · exact ⟨_, _, rfl, rfl⟩
    · exact ⟨_, _, rfl, rfl⟩

theorem groupsById_headGroup (first : Record) (tail rest : List Record)
    (h : HeadGroup first tail rest) :
    groupsById (first :: tail ++ rest) = (first :: tail) :: groupsById rest := by
  induction tail generalizing first with
  | nil =>
    cases rest with
    | nil => simp [groupsById]
    | cons r rest =>
      obtain ⟨g, gs, hg, hh⟩ := groupsById_head? r rest
      have hne := h.2 r rfl
      simp only [List.cons_append, List.nil_append]
      rw [groupsById, hg]
      simp only [hh, Option.map_some', Option.some.injEq]
      rw [if_neg hne]
  | cons t tail ih =>
    have ht : t.ins_id_ = first.ins_id_ := h.1 t (List.mem_cons_self _ _)
    have hg : HeadGroup t tail rest :=
      ⟨fun r hr => (h.1 r (List.mem_cons_of_mem _ hr)).trans ht.symm,
        fun r hr => ht ▸ h.2 r hr⟩
    have := ih t hg
    simp only [List.cons_append] at this ⊢
    rw [groupsById, this]
    simp [ht]

theorem droppedCount_cons (cfg : MergeConfig) (g : List Record) (gs : List (List Record)) :
    droppedCount cfg (g :: gs) =
      (if (processGroup cfg g).isNone then g.length else 0) + droppedCount cfg gs := by
  unfold droppedCount
  cases h : (processGroup cfg g).isNone <;> simp [List.filter_cons, h]

/-- The loop visits the contiguous groups of `recs` one after the other: with enough fuel
it ends with no record left, `results` extended by the merged records of the surviving
groups (in order) and `drop_ins_num` increased by the sizes of the dropped groups. -/
theorem MergeByInsId_loop_eq (cfg : MergeConfig) (fuel : Nat) (recs results : List Record)
    (d : Nat) (hfuel : recs.length ≤ fuel) :
    MergeByInsId_loop cfg fuel { recs := recs, results := results, drop_ins_num := d } =
      { recs := [], results := results ++ (groupsById recs).filterMap (processGroup cfg),
        drop_ins_num := d + droppedCount cfg (groupsById recs) } := by
  induction fuel generalizing recs results d with
  | zero =>
    have : recs = [] := List.length_eq_zero.1 (Nat.le_zero.1 hfuel)
    subst this
    simp [MergeByInsId_loop, groupsById, droppedCount]
  | succ n ih =>
    cases recs with
    | nil => simp [MergeByInsId_loop, groupsById, droppedCount]
    | cons first rest0 =>
      have hg := headGroup_takeWhile first rest0
      have hsplit : first :: rest0 =
          first :: rest0.takeWhile (fun r => r.ins_id_ == first.ins_id_) ++
            rest0.dropWhile (fun r => r.ins_id_ == first.ins_id_) := by
        simp [List.takeWhile_append_dropWhile]
      have hlen : (rest0.dropWhile (fun r => r.ins_id_ == first.ins_id_)).length ≤ n := by
        have h1 := congrArg List.length
          (List.takeWhile_append_dropWhile (fun r => r.ins_id_ == first.ins_id_) rest0)
        simp only [List.length_append, List.length_cons] at h1 hfuel
        omega
      have hgroups := groupsById_headGroup first _ _ hg
      rw [← hsplit] at hgroups
      simp only [MergeByInsId_loop]
      rw [MergeByInsId_step_cons, hgroups, List.filterMap_cons, droppedCount_cons]
      unfold afterGroup
      cases hp : processGroup cfg
          (first :: rest0.takeWhile (fun r => r.ins_id_ == first.ins_id_)) with
      | none =>
        simp only []
        rw [ih _ _ _ hlen]
        simp [Nat.add_assoc]
      | some rec =>
        simp only []
        rw [ih _ _ _ hlen]
        simp

/-! ## Hash maps: facts -/

theorem SlotMap.find_assign {V : Type} (m : SlotMap V) (k : Nat) (v : V) (s : Nat) :
    SlotMap.find (SlotMap.assign m k v) s = if k = s then some v else SlotMap.find m s := by
  induction m with
  | nil =>
    simp only [SlotMap.assign, SlotMap.find]
  | cons p rest ih =>
    obtain ⟨k', v'⟩ := p
    simp only [SlotMap.assign]
    by_cases h : k' = k
    · subst h
      simp only [if_true, SlotMap.find]
      split <;> rfl
    · simp only [h, if_false, SlotMap.find, ih]
      by_cases h2 : k' = s
      · subst h2
        have : ¬ k = k' := fun e => h e.symm
        simp [this]
      · simp [h2]

theorem SlotMap.find_push_back {V : Type} (m : SlotMap (List V)) (k : Nat) (x : V) (s : Nat) :
    SlotMap.find (SlotMap.push_back m k x) s =
      if k = s then some ((SlotMap.find m k).getD [] ++ [x]) else SlotMap.find m s := by
  unfold SlotMap.push_back
  cases h : SlotMap.find m k <;> simp [SlotMap.find_assign]

theorem SlotMap.keys_assign {V : Type} (m : SlotMap V) (k : Nat) (v : V) :
    (SlotMap.assign m k v).map Prod.fst =
      if k ∈ m.map Prod.fst then m.map Prod.fst else m.map Prod.fst ++ [k] := by
  induction m with
  | nil => simp [SlotMap.assign]
  | cons p rest ih =>
    obtain ⟨k', v'⟩ := p
    simp only [SlotMap.assign]
    by_cases h : k' = k
    · subst h
      simp
    · have h' : ¬ k = k' := fun e => h e.symm
      simp only [h, if_false, List.map_cons, ih, List.mem_cons, h', false_or]
      split <;> simp

theorem SlotMap.nodup_assign {V : Type} (m : SlotMap V) (k : Nat) (v : V)
    (h : (m.map Prod.fst).Nodup) : ((SlotMap.assign m k v).map Prod.fst).Nodup := by
  rw [SlotMap.keys_assign]
  split
  · exact h
  · rename_i hk
    rw [List.nodup_append]
    refine ⟨h, List.nodup_singleton k, ?_⟩
    intro a ha hb
    rw [List.mem_singleton] at hb
    exact hk (hb ▸ ha)

theorem SlotMap.find_eq_none_of_not_mem {V : Type} (m : SlotMap V) (s : Nat)
    (h : s ∉ m.map Prod.fst) : SlotMap.find m s = none := by
  induction m with
  | nil => rfl
  | cons p rest ih =>
    obtain ⟨k', v'⟩ := p
    simp only [List.map_cons, List.mem_cons, not_or] at h
    have h1 : ¬ k' = s := fun e => h.1 e.symm
    simp only [SlotMap.find, h1, if_false]
    exact ih h.2

theorem SlotMap.isSome_find_iff {V : Type} (m : SlotMap V) (s : Nat) :
    (SlotMap.find m s).isSome = m.any (fun p => decide (p.1 = s)) := by
  induction m with
  | nil => rfl
  | cons p rest ih =>
    obtain ⟨k', v'⟩ := p
    simp only [SlotMap.find, List.any_cons]
    by_cases h : k' = s
    · simp [h]
    · simp [h, ih]

/-- In a map with distinct keys whose vectors hold features of their own key only, the
features of slot `s` among all values are the vector stored for `s`. -/
theorem slotValues_denseValues {V : Type} (m : SlotMap (List (FeatureItem V))) (s : Nat)
    (hnd : (m.map Prod.fst).Nodup)
    (hslot : ∀ k v, SlotMap.find m k = some v → ∀ f ∈ v, f.slot = k) :
    slotValues s (denseValues m) = (SlotMap.find m s).getD [] := by
  induction m with
  | nil => rfl
  | cons p rest ih =>
    obtain ⟨k', v'⟩ := p
    simp only [List.map_cons, List.nodup_cons] at hnd
    have hv' : ∀ f ∈ v', f.slot = k' := hslot k' v' (by simp [SlotMap.find])
    have hrest : ∀ k v, SlotMap.find rest k = some v → ∀ f ∈ v, f.slot = k := by
      intro k v hk
      by_cases hkk : k' = k
      · subst hkk
        rw [SlotMap.find_eq_none_of_not_mem rest k' hnd.1] at hk
        cases hk
      · exact hslot k v (by simpa [SlotMap.find, hkk] using hk)
    have ih' := ih hnd.2 hrest
    simp only [slotValues, denseValues, List.map_cons, List.flatten_cons, List.filter_append]
      at ih' ⊢
    rw [ih']
    by_cases hks : k' = s
    · subst hks
      rw [SlotMap.find_eq_none_of_not_mem rest k' hnd.1]
      have : v'.filter (fun f => decide (f.slot = k')) = v' := by
        rw [List.filter_eq_self]
        intro f hf
        simpa using hv' f hf
      simp [SlotMap.find, this]
    · have : v'.filter (fun f => decide (f.slot = s)) = [] := by
        rw [List.filter_eq_nil_iff]
        intro f hf
        have := hv' f hf
        simp only [decide_eq_true_eq]
        omega
      simp [SlotMap.find, hks, this]

/-! ## Dense pass: one record -/

theorem denseScan_of_sparse {V : Type} (nonempty : V → Bool) (cfg : MergeConfig)
    (all_dense : SlotMap (List (FeatureItem V)))
    (st : SlotMap (List (FeatureItem V)) × SlotMap Bool) (f : FeatureItem V)
    (hd : cfg.use_slots_is_dense f.slot = false) :
    denseScan nonempty cfg all_dense st f = st := by
  simp [denseScan, hd]

theorem denseScan_of_dense {V : Type} (nonempty : V → Bool) (cfg : MergeConfig)
    (all_dense : SlotMap (List (FeatureItem V)))
    (st : SlotMap (List (FeatureItem V)) × SlotMap Bool) (f : FeatureItem V)
    (hd : cfg.use_slots_is_dense f.slot = true) :
    denseScan nonempty cfg all_dense st f =
      (SlotMap.push_back st.1 f.slot f,
        if nonempty f.sign = true then SlotMap.assign st.2 f.slot false
        else if ((SlotMap.find st.2 f.slot).isNone && (SlotMap.find all_dense f.slot).isNone)
            = true then SlotMap.assign st.2 f.slot true
        else st.2) := by
  simp only [denseScan, hd, Bool.not_true, Bool.false_eq_true, if_false]
  split
  · rfl
  · split <;> rfl

theorem denseScan_fst_find {V : Type} (nonempty : V → Bool) (cfg : MergeConfig)
    (all_dense : SlotMap (List (FeatureItem V)))
    (st : SlotMap (List (FeatureItem V)) × SlotMap Bool) (f : FeatureItem V) (s : Nat) :
    SlotMap.find (denseScan nonempty cfg all_dense st f).1 s =
      if (cfg.use_slots_is_dense f.slot && decide (f.slot = s)) = true then
        some ((SlotMap.find st.1 s).getD [] ++ [f])
      else SlotMap.find st.1 s := by
  cases hd : cfg.use_slots_is_dense f.slot
  · rw [denseScan_of_sparse nonempty cfg all_dense st f hd]
    simp
  · rw [denseScan_of_dense nonempty cfg all_dense st f hd]
    simp only [Bool.true_and, decide_eq_true_eq]
    rw [SlotMap.find_push_back]
    by_cases h : f.slot = s
    · subst h; simp
    · simp [h]

theorem denseScan_snd_key {V : Type} (nonempty : V → Bool) (cfg : MergeConfig)
    (all_dense : SlotMap (List (FeatureItem V)))
    (st : SlotMap (List (FeatureItem V)) × SlotMap Bool) (f : FeatureItem V) (s : Nat) :
    (SlotMap.find (denseScan nonempty cfg all_dense st f).2 s).isSome =
      ((SlotMap.find st.2 s).isSome ||
        (cfg.use_slots_is_dense f.slot && decide (f.slot = s) &&
          (nonempty f.sign || (SlotMap.find all_dense s).isNone))) := by
  cases hd : cfg.use_slots_is_dense f.slot
  · rw [denseScan_of_sparse nonempty cfg all_dense st f hd]
    simp
  · rw [denseScan_of_dense nonempty cfg all_dense st f hd]
    simp only [Bool.true_and]
    by_cases hs : f.slot = s
    · subst hs
      cases hne : nonempty f.sign
      · cases h1 : (SlotMap.find st.2 f.slot) <;> cases h2 : (SlotMap.find all_dense f.slot) <;>
          simp [SlotMap.find_assign, h1, h2]
      · simp [SlotMap.find_assign]
    · have hs' : decide (f.slot = s) = false := by simpa using hs
      simp only [hs', Bool.false_and, Bool.or_false]
      split
      · simp [SlotMap.find_assign, hs]
      · split
        · simp [SlotMap.find_assign, hs]
        · rfl

theorem denseScan_fold_find {V : Type} (nonempty : V → Bool) (cfg : MergeConfig)
    (all_dense : SlotMap (List (FeatureItem V))) (feats : List (FeatureItem V))
    (st : SlotMap (List (FeatureItem V)) × SlotMap Bool) (s : Nat) :
    SlotMap.find (feats.foldl (denseScan nonempty cfg all_dense) st).1 s =
      if (denseFeats cfg s feats).isEmpty = true then SlotMap.find st.1 s
      else some ((SlotMap.find st.1 s).getD [] ++ denseFeats cfg s feats) := by
  induction feats generalizing st with
  | nil => simp [denseFeats]
  | cons f rest ih =>
    simp only [List.foldl_cons]
    rw [ih, denseScan_fst_find]
    unfold denseFeats
    rw [List.filter_cons]
    by_cases hc : (cfg.use_slots_is_dense f.slot && decide (f.slot = s)) = true
    · simp only [hc, if_true, Option.getD_some, List.append_assoc, List.singleton_append,
        List.isEmpty_cons, Bool.false_eq_true, if_false]
      split
      · rename_i h
        rw [List.isEmpty_iff] at h
        rw [h]
      · rfl
    · simp only [hc, if_false]
      rfl

theorem denseScan_fold_key {V : Type} (nonempty : V → Bool) (cfg : MergeConfig)
    (all_dense : SlotMap (List (FeatureItem V))) (feats : List (FeatureItem V))
    (st : SlotMap (List (FeatureItem V)) × SlotMap Bool) (s : Nat) :
    (SlotMap.find (feats.foldl (denseScan nonempty cfg all_dense) st).2 s).isSome =
      ((SlotMap.find st.2 s).isSome || marksSlot nonempty cfg all_dense s feats) := by
  induction feats generalizing st with
  | nil => simp [marksSlot]
  | cons f rest ih =>
    simp only [List.foldl_cons]
    rw [ih, denseScan_snd_key]
    simp only [marksSlot, List.any_cons, Bool.or_assoc]

theorem denseCommit_fold_uint64 (lu : SlotMap (List (FeatureItem Nat)))
    (lf : SlotMap (List (FeatureItem Rat))) (de : List (Nat × Bool)) (all : DenseAll) (s : Nat) :
    SlotMap.find (de.foldl (denseCommit lu lf) all).all_dense_uint64 s =
      if de.any (fun p => decide (p.1 = s)) = true ∧ (SlotMap.find lu s).isSome = true then
        SlotMap.find lu s
      else SlotMap.find all.all_dense_uint64 s := by
  induction de generalizing all with
  | nil => simp
  | cons p rest ih =>
    simp only [List.foldl_cons, List.any_cons]
    rw [ih]
    have hstep : SlotMap.find (denseCommit lu lf all p).all_dense_uint64 s =
        if p.1 = s ∧ (SlotMap.find lu s).isSome = true then SlotMap.find lu s
        else SlotMap.find all.all_dense_uint64 s := by
      unfold denseCommit
      by_cases hp : p.1 = s
      · subst hp
        cases h1 : SlotMap.find lu p.1 with
        | none =>
          simp only [Option.isSome_none, Bool.false_eq_true, and_false, if_false]
          cases SlotMap.find lf p.1 <;> rfl
        | some v => simp [SlotMap.find_assign]
      · simp only [hp, false_and, if_false]
        cases h1 : SlotMap.find lu p.1 with
        | none => cases SlotMap.find lf p.1 <;> rfl
        | some v => simp [SlotMap.find_assign, hp]
    rw [hstep]
    split_ifs <;> simp_all

theorem denseCommit_fold_float (lu : SlotMap (List (FeatureItem Nat)))
    (lf : SlotMap (List (FeatureItem Rat))) (de : List (Nat × Bool)) (all : DenseAll) (s : Nat) :
    SlotMap.find (de.foldl (denseCommit lu lf) all).all_dense_float s =
      if de.any (fun p => decide (p.1 = s)) = true ∧ (SlotMap.find lu s).isSome = false ∧
          (SlotMap.find lf s).isSome = true then
        SlotMap.find lf s
      else SlotMap.find all.all_dense_float s := by
  induction de generalizing all with
  | nil => simp
  | cons p rest ih =>
    simp only [List.foldl_cons, List.any_cons]
    rw [ih]
    have hstep : SlotMap.find (denseCommit lu lf all p).all_dense_float s =
        if p.1 = s ∧ (SlotMap.find lu s).isSome = false ∧ (SlotMap.find lf s).isSome = true then
          SlotMap.find lf s
        else SlotMap.find all.all_dense_float s := by
      unfold denseCommit
      by_cases hp : p.1 = s
      · subst hp
        cases h1 : SlotMap.find lu p.1 with
        | none =>
          cases h2 : SlotMap.find lf p.1 with
          | none => simp
          | some v => simp [SlotMap.find_assign]
        | some v => simp
      · simp only [hp, false_and, if_false]
        cases h1 : SlotMap.find lu p.1 with
        | none =>
          cases h2 : SlotMap.find lf p.1 with
          | none => rfl
          | some v => simp [SlotMap.find_assign, hp]
        | some v => rfl
    rw [hstep]
    split_ifs <;> simp_all

theorem denseCommit_fold_nodup (lu : SlotMap (List (FeatureItem Nat)))
    (lf : SlotMap (List (FeatureItem Rat))) (de : List (Nat × Bool)) (all : DenseAll)
    (h : (all.all_dense_uint64.map Prod.fst).Nodup ∧ (all.all_dense_float.map Prod.fst).Nodup) :
    ((de.foldl (denseCommit lu lf) all).all_dense_uint64.map Prod.fst).Nodup ∧
      ((de.foldl (denseCommit lu lf) all).all_dense_float.map Prod.fst).Nodup := by
  induction de generalizing all with
  | nil => exact h
  | cons p rest ih =>
    simp only [List.foldl_cons]
    apply ih
    unfold denseCommit
    cases SlotMap.find lu p.1 with
    | none =>
      cases SlotMap.find lf p.1 with
      | none => exact h
      | some v => exact ⟨h.1, SlotMap.nodup_assign _ _ _ h.2⟩
    | some v => exact ⟨SlotMap.nodup_assign _ _ _ h.1, h.2⟩

theorem denseRecord_find_uint64 (cfg : MergeConfig) (all : DenseAll) (r : Record) (s : Nat) :
    SlotMap.find (denseRecord cfg all r).all_dense_uint64 s =
      if (marksSlot uint64_nonempty cfg all.all_dense_uint64 s r.uint64_feasigns_ ||
            marksSlot float_nonempty cfg all.all_dense_float s r.float_feasigns_) = true ∧
          (denseFeats cfg s r.uint64_feasigns_).isEmpty = false then
        some (denseFeats cfg s r.uint64_feasigns_)
      else SlotMap.find all.all_dense_uint64 s := by
  unfold denseRecord
  simp only []
  rw [denseCommit_fold_uint64, ← SlotMap.isSome_find_iff, denseScan_fold_key,
    denseScan_fold_key, denseScan_fold_find]
  simp only [SlotMap.find, Option.isSome_none, Bool.false_or, Option.getD_none, List.nil_append]
  cases h : (denseFeats cfg s r.uint64_feasigns_).isEmpty <;> simp

theorem denseRecord_find_float (cfg : MergeConfig) (all : DenseAll) (r : Record) (s : Nat) :
    SlotMap.find (denseRecord cfg all r).all_dense_float s =
      if (marksSlot uint64_nonempty cfg all.all_dense_uint64 s r.uint64_feasigns_ ||
            marksSlot float_nonempty cfg all.all_dense_float s r.float_feasigns_) = true ∧
          (denseFeats cfg s r.uint64_feasigns_).isEmpty = true ∧
          (denseFeats cfg s r.float_feasigns_).isEmpty = false then
        some (denseFeats cfg s r.float_feasigns_)
      else SlotMap.find all.all_dense_float s := by
  unfold denseRecord
  simp only []
  rw [denseCommit_fold_float, ← SlotMap.isSome_find_iff, denseScan_fold_key,
    denseScan_fold_key, denseScan_fold_find, denseScan_fold_find]
  simp only [SlotMap.find, Option.isSome_none, Bool.false_or, Option.getD_none, List.nil_append]
  cases h : (denseFeats cfg s r.uint64_feasigns_).isEmpty <;>
    cases h2 : (denseFeats cfg s r.float_feasigns_).isEmpty <;> simp

theorem denseRecord_nodup (cfg : MergeConfig) (all : DenseAll) (r : Record)
    (h : (all.all_dense_uint64.map Prod.fst).Nodup ∧ (all.all_dense_float.map Prod.fst).Nodup) :
    ((denseRecord cfg all r).all_dense_uint64.map Prod.fst).Nodup ∧
      ((denseRecord cfg all r).all_dense_float.map Prod.fst).Nodup := by
  unfold denseRecord
  exact denseCommit_fold_nodup _ _ _ _ h

theorem denseInv_record (cfg : MergeConfig) (processed : List Record) (all : DenseAll)
    (r : Record) (h : DenseInv cfg processed all) :
    DenseInv cfg (processed ++ [r]) (denseRecord cfg all r) := by
  obtain ⟨n1, n2, hu, hf⟩ := h
  have hn := denseRecord_nodup cfg all r ⟨n1, n2⟩
  refine ⟨hn.1, hn.2, ?_, ?_⟩
  · intro s v hv
    rw [denseRecord_find_uint64] at hv
    split at hv
    · rename_i hc
      cases hv
      refine ⟨?_, r, by simp, rfl⟩
      intro he
      rw [he] at hc
      simp at hc
    · obtain ⟨a, r', hr', e⟩ := hu s v hv
      exact ⟨a, r', by simp [hr'], e⟩
  · intro s v hv
    rw [denseRecord_find_float] at hv
    split at hv
    · rename_i hc
      cases hv
      refine ⟨?_, r, by simp, rfl⟩
      intro he
      rw [he] at hc
      simp at hc
    · obtain ⟨a, r', hr', e⟩ := hf s v hv
      exact ⟨a, r', by simp [hr'], e⟩

theorem denseInv_fold (cfg : MergeConfig) (group processed : List Record) (all : DenseAll)
    (h : DenseInv cfg processed all) :
    DenseInv cfg (processed ++ group) (group.foldl (denseRecord cfg) all) := by
  induction group generalizing processed all with
  | nil => simpa using h
  | cons r rest ih =>
    have := ih (processed ++ [r]) _ (denseInv_record cfg processed all r h)
    simpa using this

theorem denseInv_densePass (cfg : MergeConfig) (group : List Record) :
    DenseInv cfg group (densePass cfg group) := by
  have h0 : DenseInv cfg [] { all_dense_uint64 := [], all_dense_float := [] } := by
    refine ⟨by simp, by simp, ?_, ?_⟩ <;> intro s v hv <;> simp [SlotMap.find] at hv
  simpa [densePass] using denseInv_fold cfg group [] _ h0

theorem mem_denseFeats {V : Type} (cfg : MergeConfig) (s : Nat) (l : List (FeatureItem V))
    (f : FeatureItem V) :
    f ∈ denseFeats cfg s l ↔ f ∈ l ∧ cfg.use_slots_is_dense f.slot = true ∧ f.slot = s := by
  simp [denseFeats, List.mem_filter]

theorem denseFeats_eq_slotValues {V : Type} (cfg : MergeConfig) (s : Nat)
    (l : List (FeatureItem V)) (hd : cfg.use_slots_is_dense s = true) :
    denseFeats cfg s l = slotValues s l := by
  unfold denseFeats slotValues
  apply List.filter_congr
  intro f _
  by_cases h : f.slot = s
  · simp [h, hd]
  · simp [h]

theorem denseFeats_eq_nil_of_sparse {V : Type} (cfg : MergeConfig) (s : Nat)
    (l : List (FeatureItem V)) (hd : cfg.use_slots_is_dense s = false) :
    denseFeats cfg s l = [] := by
  unfold denseFeats
  rw [List.filter_eq_nil_iff]
  intro f _
  by_cases h : f.slot = s
  · simp [h, hd]
  · simp [h]

/-- The features of slot `s` in the dense part of the merged record are the vector stored
for `s`. -/
theorem slotValues_dense_uint64 (cfg : MergeConfig) (group : List Record) (s : Nat) :
    slotValues s (denseValues (densePass cfg group).all_dense_uint64) =
      (SlotMap.find (densePass cfg group).all_dense_uint64 s).getD [] := by
  obtain ⟨n1, -, hu, -⟩ := denseInv_densePass cfg group
  apply slotValues_denseValues _ _ n1
  intro k v hk f hf
  obtain ⟨-, r, -, e⟩ := hu k v hk
  rw [e, mem_denseFeats] at hf
  exact hf.2.2

theorem slotValues_dense_float (cfg : MergeConfig) (group : List Record) (s : Nat) :
    slotValues s (denseValues (densePass cfg group).all_dense_float) =
      (SlotMap.find (densePass cfg group).all_dense_float s).getD [] := by
  obtain ⟨-, n2, -, hf'⟩ := denseInv_densePass cfg group
  apply slotValues_denseValues _ _ n2
  intro k v hk f hf
  obtain ⟨-, r, -, e⟩ := hf' k v hk
  rw [e, mem_denseFeats] at hf
  exact hf.2.2

theorem mem_denseValues {V : Type} (m : SlotMap (List (FeatureItem V))) (f : FeatureItem V)
    (hnd : (m.map Prod.fst).Nodup) :
    f ∈ denseValues m ↔ ∃ k v, SlotMap.find m k = some v ∧ f ∈ v := by
  induction m with
  | nil => simp [denseValues, SlotMap.find]
  | cons p rest ih =>
    obtain ⟨k', v'⟩ := p
    simp only [List.map_cons, List.nodup_cons] at hnd
    have ih' := ih hnd.2
    simp only [denseValues, List.map_cons, List.flatten_cons, List.mem_append] at ih' ⊢
    rw [ih']
    constructor
    · rintro (h | ⟨k, v, hk, hv⟩)
      · exact ⟨k', v', by simp [SlotMap.find], h⟩
      · refine ⟨k, v, ?_, hv⟩
        have hne : ¬ k' = k := by
          intro e
          subst e
          rw [SlotMap.find_eq_none_of_not_mem rest k' hnd.1] at hk
          cases hk
        simp [SlotMap.find, hne, hk]
    · rintro ⟨k, v, hk, hv⟩
      by_cases hkk : k' = k
      · subst hkk
        simp only [SlotMap.find, if_true, Option.some.injEq] at hk
        exact Or.inl (hk ▸ hv)
      · simp only [SlotMap.find, hkk, if_false] at hk
        exact Or.inr ⟨k, v, hk, hv⟩

/-- Every feature of the dense part of the merged record has a dense slot and comes from a
record of the group. -/
theorem mem_dense_uint64 (cfg : MergeConfig) (group : List Record) (f : FeatureItem Nat)
    (h : f ∈ denseValues (densePass cfg group).all_dense_uint64) :
    cfg.use_slots_is_dense f.slot = true ∧ ∃ r ∈ group, f ∈ r.uint64_feasigns_ := by
  obtain ⟨n1, -, hu, -⟩ := denseInv_densePass cfg group
  obtain ⟨k, v, hk, hv⟩ := (mem_denseValues _ f n1).1 h
  obtain ⟨-, r, hr, e⟩ := hu k v hk
  rw [e, mem_denseFeats] at hv
  exact ⟨hv.2.1, r, hr, hv.1⟩

theorem mem_dense_float (cfg : MergeConfig) (group : List Record) (f : FeatureItem Rat)
    (h : f ∈ denseValues (densePass cfg group).all_dense_float) :
    cfg.use_slots_is_dense f.slot = true ∧ ∃ r ∈ group, f ∈ r.float_feasigns_ := by
  obtain ⟨-, n2, -, hf'⟩ := denseInv_densePass cfg group
  obtain ⟨k, v, hk, hv⟩ := (mem_denseValues _ f n2).1 h
  obtain ⟨-, r, hr, e⟩ := hf' k v hk
  rw [e, mem_denseFeats] at hv
  exact ⟨hv.2.1, r, hr, hv.1⟩

/-! ## Dense pass: which record wins an integer slot -/

theorem marksSlot_uint64 (cfg : MergeConfig) (all_u : SlotMap (List (FeatureItem Nat)))
    (s : Nat) (r : Record) (hd : cfg.use_slots_is_dense s = true) :
    marksSlot uint64_nonempty cfg all_u s r.uint64_feasigns_ =
      (hasNonzeroB s r || (hasSlotB s r && (SlotMap.find all_u s).isNone)) := by
  unfold marksSlot hasNonzeroB hasSlotB
  induction r.uint64_feasigns_ with
  | nil => simp
  | cons f rest ih =>
    simp only [List.any_cons, ih]
    by_cases h : f.slot = s
    · subst h
      cases uint64_nonempty f.sign <;> cases (SlotMap.find all_u f.slot).isNone <;>
        cases (rest.any fun g => decide (g.slot = f.slot) && uint64_nonempty g.sign) <;>
        cases (rest.any fun g => decide (g.slot = f.slot)) <;> simp [hd]
    · simp [h]

theorem marksSlot_eq_false {V : Type} (nonempty : V → Bool) (cfg : MergeConfig)
    (all : SlotMap (List (FeatureItem V))) (s : Nat) (l : List (FeatureItem V))
    (h : ∀ f ∈ l, f.slot ≠ s) : marksSlot nonempty cfg all s l = false := by
  unfold marksSlot
  rw [List.any_eq_false]
  intro f hf
  simp [h f hf]

theorem hasSlotB_of_hasNonzeroB (s : Nat) (r : Record) (h : hasNonzeroB s r = true) :
    hasSlotB s r = true := by
  unfold hasNonzeroB at h
  unfold hasSlotB
  rw [List.any_eq_true] at h ⊢
  obtain ⟨f, hf, hc⟩ := h
  simp only [Bool.and_eq_true] at hc
  exact ⟨f, hf, hc.1⟩

theorem slotValues_isEmpty (s : Nat) (r : Record) :
    (slotValues s r.uint64_feasigns_).isEmpty = !hasSlotB s r := by
  unfold slotValues hasSlotB
  induction r.uint64_feasigns_ with
  | nil => rfl
  | cons f rest ih =>
    by_cases h : f.slot = s
    · simp [List.filter_cons, h]
    · simp [List.filter_cons, h, ih]

theorem hasNonzeroB_iff (s : Nat) (r : Record) : hasNonzeroB s r = true ↔ hasNonzero s r := by
  unfold hasNonzeroB hasNonzero uint64_nonempty
  rw [List.any_eq_true]
  constructor
  · rintro ⟨f, hf, hc⟩
    simp only [Bool.and_eq_true, decide_eq_true_eq] at hc
    exact ⟨f, hf, hc.1, hc.2⟩
  · rintro ⟨f, hf, h1, h2⟩
    exact ⟨f, hf, by simp [h1, h2]⟩

theorem hasSlotB_iff (s : Nat) (r : Record) : hasSlotB s r = true ↔ hasSlot s r := by
  unfold hasSlotB hasSlot
  rw [List.any_eq_true]
  constructor
  · rintro ⟨f, hf, hc⟩
    exact ⟨f, hf, by simpa using hc⟩
  · rintro ⟨f, hf, h1⟩
    exact ⟨f, hf, by simp [h1]⟩

theorem denseRecord_uint64_choice (cfg : MergeConfig) (all : DenseAll) (r : Record) (s : Nat)
    (w : Option Record) (hd : cfg.use_slots_is_dense s = true)
    (hfl : ∀ f ∈ r.float_feasigns_, f.slot ≠ s)
    (hw : SlotMap.find all.all_dense_uint64 s = w.map (fun r => slotValues s r.uint64_feasigns_)) :
    SlotMap.find (denseRecord cfg all r).all_dense_uint64 s =
      (denseChoice s w r).map (fun r => slotValues s r.uint64_feasigns_) := by
  rw [denseRecord_find_uint64, marksSlot_uint64 cfg _ s r hd,
    marksSlot_eq_false float_nonempty cfg _ s _ hfl, denseFeats_eq_slotValues cfg s _ hd,
    slotValues_isEmpty, hw]
  have hnone : (Option.map (fun r => slotValues s r.uint64_feasigns_) w).isNone = w.isNone := by
    cases w <;> rfl
  rw [hnone]
  unfold denseChoice
  cases h1 : hasNonzeroB s r
  · cases h2 : hasSlotB s r <;> cases h3 : w.isNone <;> simp
  · have h2 := hasSlotB_of_hasNonzeroB s r h1
    simp [h2]

theorem densePass_uint64_fold (cfg : MergeConfig) (group : List Record) (all : DenseAll)
    (s : Nat) (w : Option Record) (hd : cfg.use_slots_is_dense s = true)
    (hfl : ∀ r ∈ group, ∀ f ∈ r.float_feasigns_, f.slot ≠ s)
    (hw : SlotMap.find all.all_dense_uint64 s = w.map (fun r => slotValues s r.uint64_feasigns_)) :
    SlotMap.find (group.foldl (denseRecord cfg) all).all_dense_uint64 s =
      (group.foldl (denseChoice s) w).map (fun r => slotValues s r.uint64_feasigns_) := by
  induction group generalizing all w with
  | nil => exact hw
  | cons r rest ih =>
    simp only [List.foldl_cons]
    apply ih
    · intro r' hr'
      exact hfl r' (List.mem_cons_of_mem _ hr')
    · exact denseRecord_uint64_choice cfg all r s w hd (hfl r (List.mem_cons_self _ _)) hw

theorem slotValues_sparse_of_dense {V : Type} (cfg : MergeConfig) (s : Nat)
    (ls : List (List (FeatureItem V))) (hd : cfg.use_slots_is_dense s = true) :
    slotValues s ((ls.map (sparseFeatures cfg)).flatten) = [] := by
  unfold slotValues
  rw [List.filter_eq_nil_iff]
  intro f hf
  simp only [List.mem_flatten, List.mem_map] at hf
  obtain ⟨l, ⟨l0, -, rfl⟩, hfl⟩ := hf
  unfold sparseFeatures at hfl
  rw [List.mem_filter] at hfl
  intro he
  simp only [decide_eq_true_eq] at he
  rw [he, hd] at hfl
  simp at hfl

/-- The values of a dense integer slot `s` in the merged record of a group are the values of
the record chosen by `denseWinner`, provided no record of the group has a float feature
for `s`. -/
theorem mergeGroup_dense_uint64 (cfg : MergeConfig) (first : Record) (group : List Record)
    (merged : Record) (s : Nat) (hd : cfg.use_slots_is_dense s = true)
    (hfl : ∀ r ∈ group, ∀ f ∈ r.float_feasigns_, f.slot ≠ s)
    (hm : mergeGroup cfg first group = some merged) :
    slotValues s merged.uint64_feasigns_ =
      ((denseWinner s group).map (fun r => slotValues s r.uint64_feasigns_)).getD [] := by
  obtain ⟨-, -, hu, -⟩ := mergeGroup_of_some cfg first group merged hm
  have hs := slotValues_sparse_of_dense cfg s (group.map Record.uint64_feasigns_) hd
  rw [List.map_map] at hs
  have hfind := densePass_uint64_fold cfg group { all_dense_uint64 := [], all_dense_float := [] }
    s none hd hfl rfl
  rw [hu]
  unfold slotValues at hs ⊢
  rw [List.filter_append]
  have hs' : List.filter (fun f => decide (f.slot = s))
      (group.map (fun r => sparseFeatures cfg r.uint64_feasigns_)).flatten = [] := hs
  rw [hs', List.append_nil]
  have := slotValues_dense_uint64 cfg group s
  unfold slotValues at this
  rw [this]
  unfold densePass denseWinner
  rw [hfind]
  rfl

theorem denseChoice_fold_of_no_nonzero (s : Nat) (post : List Record) (r : Record)
    (h : ∀ r' ∈ post, hasNonzeroB s r' = false) : post.foldl (denseChoice s) (some r) = some r := by
  induction post with
  | nil => rfl
  | cons x rest ih =>
    simp only [List.foldl_cons]
    have hx := h x (List.mem_cons_self _ _)
    have : denseChoice s (some r) x = some r := by simp [denseChoice, hx]
    rw [this]
    exact ih (fun r' hr' => h r' (List.mem_cons_of_mem _ hr'))

/-- The last record with a non-zero value for the slot wins. -/
theorem denseWinner_last_nonzero (s : Nat) (pre post : List Record) (r : Record)
    (hr : hasNonzeroB s r = true) (hpost : ∀ r' ∈ post, hasNonzeroB s r' = false) :
    denseWinner s (pre ++ r :: post) = some r := by
  unfold denseWinner
  rw [List.foldl_append, List.foldl_cons]
  have : denseChoice s (pre.foldl (denseChoice s) none) r = some r := by
    simp [denseChoice, hr]
  rw [this]
  exact denseChoice_fold_of_no_nonzero s post r hpost

theorem denseChoice_fold_inv (s : Nat) (group processed : List Record) (w : Option Record)
    (h1 : w = none → ∀ r ∈ processed, hasSlotB s r = false)
    (h2 : ∀ r, w = some r → r ∈ processed ∧ hasSlotB s r = true ∧
      ((∃ r' ∈ processed, hasNonzeroB s r' = true) → hasNonzeroB s r = true)) :
    (group.foldl (denseChoice s) w = none → ∀ r ∈ processed ++ group, hasSlotB s r = false) ∧
    (∀ r, group.foldl (denseChoice s) w = some r → r ∈ processed ++ group ∧
      hasSlotB s r = true ∧
      ((∃ r' ∈ processed ++ group, hasNonzeroB s r' = true) → hasNonzeroB s r = true)) := by
  induction group generalizing processed w with
  | nil =>
    simp only [List.foldl_nil, List.append_nil]
    exact ⟨h1, h2⟩
  | cons x rest ih =>
    simp only [List.foldl_cons]
    have key := ih (processed ++ [x]) (denseChoice s w x) ?_ ?_
    · have e : processed ++ [x] ++ rest = processed ++ x :: rest := by simp
      rw [e] at key
      exact key
    · intro hnone r hr
      unfold denseChoice at hnone
      split at hnone
      · cases hnone
      · rename_i hc
        simp only [Bool.or_eq_true, Bool.and_eq_true, not_or, not_and] at hc
        rw [List.mem_append, List.mem_singleton] at hr
        rcases hr with hr | hr
        · exact h1 hnone r hr
        · subst hr
          have := hc.2
          cases hslot : hasSlotB s r
          · rfl
          · exact absurd (by simp [hnone]) (this hslot)
    · intro r hr
      unfold denseChoice at hr
      split at hr
      · rename_i hc
        cases hr
        simp only [Bool.or_eq_true, Bool.and_eq_true] at hc
        refine ⟨by simp, ?_, ?_⟩
        · rcases hc with hc | hc
          · exact hasSlotB_of_hasNonzeroB s _ hc
          · exact hc.1
        · rintro ⟨r', hr', hnz⟩
          rcases hc with hc | hc
          · exact hc
          · rw [List.mem_append, List.mem_singleton] at hr'
            rcases hr' with hr' | hr'
            · have hwn : w = none := by
                cases w with
                | none => rfl
                | some _ => simp at hc
              have := h1 hwn r' hr'
              rw [hasSlotB_of_hasNonzeroB s r' hnz] at this
              cases this
            · exact hr' ▸ hnz
      · rename_i hc
        simp only [Bool.or_eq_true, Bool.and_eq_true, not_or, not_and] at hc
        obtain ⟨a, b, c⟩ := h2 r hr
        refine ⟨by simp [a], b, ?_⟩
        rintro ⟨r', hr', hnz⟩
        rw [List.mem_append, List.mem_singleton] at hr'
        rcases hr' with hr' | hr'
        · exact c ⟨r', hr', hnz⟩
        · subst hr'
          exact absurd hnz hc.1

/-- The record chosen for a slot carries the slot, is non-zero for it whenever some record
of the group is, and exists whenever some record of the group carries the slot. -/
theorem denseWinner_spec (s : Nat) (group : List Record) :
    (denseWinner s group = none → ∀ r ∈ group, hasSlotB s r = false) ∧
    (∀ r, denseWinner s group = some r → r ∈ group ∧ hasSlotB s r = true ∧
      ((∃ r' ∈ group, hasNonzeroB s r' = true) → hasNonzeroB s r = true)) := by
  have := denseChoice_fold_inv s group [] none (by simp) (by simp)
  simp only [List.nil_append] at this
  exact this

/-! ## Sorted input -/

theorem sortByInsId_perm (recs : List Record) : (sortByInsId recs).Perm recs :=
  List.perm_insertionSort _ recs

theorem sortByInsId_sorted (recs : List Record) : (sortByInsId recs).Pairwise InsIdLe := by
  haveI : IsTotal Record (fun a b => a.ins_id_.toList ≤ b.ins_id_.toList) :=
    ⟨fun a b => le_total _ _⟩
  haveI : IsTrans Record (fun a b => a.ins_id_.toList ≤ b.ins_id_.toList) :=
    ⟨fun a b c h1 h2 => le_trans h1 h2⟩
  exact List.sorted_insertionSort (fun a b : Record => a.ins_id_.toList ≤ b.ins_id_.toList) recs

/-- A sequence that is sorted by instance id is left as it is by the sort. -/
theorem sortByInsId_of_sorted (recs : List Record) (h : recs.Pairwise InsIdLe) :
    sortByInsId recs = recs :=
  List.Sorted.insertionSort_eq h

theorem insIdLt_of_le_of_ne {a b : Record} (h : InsIdLe a b) (hne : a.ins_id_ ≠ b.ins_id_) :
    InsIdLt a b := by
  unfold InsIdLe at h
  unfold InsIdLt
  exact lt_of_le_of_ne h (fun e => hne (String.ext e))

theorem insIdLt_ne {a b : Record} (h : InsIdLt a b) : a.ins_id_ ≠ b.ins_id_ := by
  intro e
  unfold InsIdLt at h
  rw [e] at h
  exact lt_irrefl _ h

theorem headGroup_induction {P : List Record → Prop} (h0 : P [])
    (hstep : ∀ first tail rest, HeadGroup first tail rest → P rest → P (first :: tail ++ rest)) :
    ∀ l, P l := by
  suffices h : ∀ n, ∀ l : List Record, l.length ≤ n → P l from fun l => h l.length l le_rfl
  intro n
  induction n with
  | zero =>
    intro l hl
    have : l = [] := List.length_eq_zero.1 (Nat.le_zero.1 hl)
    exact this ▸ h0
  | succ n ih =>
    intro l hl
    cases l with
    | nil => exact h0
    | cons first rest0 =>
      have hg := headGroup_takeWhile first rest0
      have hsplit : first :: rest0 =
          first :: rest0.takeWhile (fun r => r.ins_id_ == first.ins_id_) ++
            rest0.dropWhile (fun r => r.ins_id_ == first.ins_id_) := by
        simp [List.takeWhile_append_dropWhile]
      have hlen : (rest0.dropWhile (fun r => r.ins_id_ == first.ins_id_)).length ≤ n := by
        have h1 := congrArg List.length
          (List.takeWhile_append_dropWhile (fun r => r.ins_id_ == first.ins_id_) rest0)
        simp only [List.length_append, List.length_cons] at h1 hl
        omega
      rw [hsplit]
      exact hstep _ _ _ hg (ih _ hlen)

theorem sorted_headGroup (first : Record) (tail rest : List Record)
    (hs : (first :: tail ++ rest).Pairwise InsIdLe) (hg : HeadGroup first tail rest) :
    (∀ b ∈ rest, InsIdLt first b) ∧ rest.Pairwise InsIdLe := by
  have hs' : (first :: (tail ++ rest)).Pairwise InsIdLe := hs
  rw [List.pairwise_cons, List.pairwise_append] at hs'
  obtain ⟨hfirst, -, hrest, -⟩ := hs'
  refine ⟨?_, hrest⟩
  cases rest with
  | nil => simp
  | cons r0 rest' =>
    have hne : r0.ins_id_ ≠ first.ins_id_ := hg.2 r0 rfl
    have h0 : InsIdLt first r0 :=
      insIdLt_of_le_of_ne (hfirst r0 (by simp)) (fun e => hne e.symm)
    rw [List.pairwise_cons] at hrest
    intro b hb
    rw [List.mem_cons] at hb
    rcases hb with hb | hb
    · exact hb ▸ h0
    · have : InsIdLe r0 b := hrest.1 b hb
      unfold InsIdLt InsIdLe at *
      exact lt_of_lt_of_le h0 this

theorem groupsById_flatten (l : List Record) : (groupsById l).flatten = l := by
  induction l using headGroup_induction with
  | h0 => rfl
  | hstep first tail rest hg ih =>
    rw [groupsById_headGroup first tail rest hg, List.flatten_cons, ih]

theorem groupsById_uniform (l : List Record) :
    ∀ g ∈ groupsById l, ∃ first tail, g = first :: tail ∧ ∀ r ∈ tail, r.ins_id_ = first.ins_id_ := by
  induction l using headGroup_induction with
  | h0 => simp [groupsById]
  | hstep first tail rest hg ih =>
    rw [groupsById_headGroup first tail rest hg]
    intro g hgm
    rw [List.mem_cons] at hgm
    rcases hgm with hgm | hgm
    · exact ⟨first, tail, hgm, hg.1⟩
    · exact ih g hgm

theorem mem_of_mem_groupsById {l : List Record} {g : List Record} {r : Record}
    (hg : g ∈ groupsById l) (hr : r ∈ g) : r ∈ l := by
  rw [← groupsById_flatten l, List.mem_flatten]
  exact ⟨g, hg, hr⟩

theorem groupsById_sorted (l : List Record) (hs : l.Pairwise InsIdLe) :
    (groupsById l).Pairwise (fun g h => ∀ a ∈ g, ∀ b ∈ h, InsIdLt a b) := by
  induction l using headGroup_induction with
  | h0 => simp [groupsById]
  | hstep first tail rest hg ih =>
    obtain ⟨hlt, hrest⟩ := sorted_headGroup first tail rest hs hg
    rw [groupsById_headGroup first tail rest hg, List.pairwise_cons]
    refine ⟨?_, ih hrest⟩
    intro h hh a ha b hb
    have hb' : b ∈ rest := mem_of_mem_groupsById hh hb
    have hfa : a.ins_id_ = first.ins_id_ := by
      rw [List.mem_cons] at ha
      rcases ha with ha | ha
      · rw [ha]
      · exact hg.1 a ha
    have := hlt b hb'
    unfold InsIdLt at this ⊢
    rw [hfa]
    exact this

theorem processGroup_id (cfg : MergeConfig) (g : List Record) (m : Record)
    (h : processGroup cfg g = some m) :
    ∃ first tail, g = first :: tail ∧ m.ins_id_ = first.ins_id_ ∧ m.content_ = first.content_ := by
  cases g with
  | nil => simp [processGroup] at h
  | cons first tail =>
    refine ⟨first, tail, rfl, ?_⟩
    unfold processGroup at h
    simp only [] at h
    split at h
    · cases h
    · obtain ⟨a, b, -, -⟩ := mergeGroup_of_some cfg first _ m h
      exact ⟨a, b⟩

theorem filter_headGroup_self (first : Record) (tail : List Record)
    (h : ∀ r ∈ tail, r.ins_id_ = first.ins_id_) :
    (first :: tail).filter (fun r => r.ins_id_ == first.ins_id_) = first :: tail := by
  rw [List.filter_eq_self]
  intro r hr
  rw [List.mem_cons] at hr
  rcases hr with hr | hr
  · simp [hr]
  · simp [h r hr]

theorem filter_eq_nil_of_ne (l : List Record) (X : String) (h : ∀ r ∈ l, r.ins_id_ ≠ X) :
    l.filter (fun r => r.ins_id_ == X) = [] := by
  rw [List.filter_eq_nil_iff]
  intro r hr
  simpa using h r hr

/-- The merged records with a given `ins_id_`, for sorted records: there is at most one,
the outcome of the group of all records with that id. -/
theorem results_filter_sorted (cfg : MergeConfig) (l : List Record) (X : String)
    (hs : l.Pairwise InsIdLe) :
    ((groupsById l).filterMap (processGroup cfg)).filter (fun r => r.ins_id_ == X) =
      (processGroup cfg (l.filter (fun r => r.ins_id_ == X))).toList := by
  induction l using headGroup_induction with
  | h0 => simp [groupsById, processGroup]
  | hstep first tail rest hg ih =>
    obtain ⟨hlt, hrest⟩ := sorted_headGroup first tail rest hs hg
    have ih' := ih hrest
    rw [groupsById_headGroup first tail rest hg, List.filterMap_cons]
    have happ : first :: tail ++ rest = (first :: tail) ++ rest := rfl
    rw [happ, List.filter_append]
    by_cases hX : first.ins_id_ = X
    · subst hX
      have hrestnil : rest.filter (fun r => r.ins_id_ == first.ins_id_) = [] :=
        filter_eq_nil_of_ne rest _ (fun r hr => (insIdLt_ne (hlt r hr)).symm)
      rw [hrestnil] at ih'
      rw [filter_headGroup_self first tail hg.1, hrestnil, List.append_nil]
      have hnil : processGroup cfg [] = none := rfl
      rw [hnil] at ih'
      cases hp : processGroup cfg (first :: tail) with
      | none =>
        simp only []
        rw [ih']
      | some m =>
        obtain ⟨f', t', e, hid, -⟩ := processGroup_id cfg _ m hp
        have hf : f' = first := by
          cases e
          rfl
        simp only [List.filter_cons, hid, hf, beq_self_eq_true, if_true, ih']
        rfl
    · have hgnil : (first :: tail).filter (fun r => r.ins_id_ == X) = [] := by
        apply filter_eq_nil_of_ne
        intro r hr
        rw [List.mem_cons] at hr
        rcases hr with hr | hr
        · rw [hr]; exact hX
        · rw [hg.1 r hr]; exact hX
      rw [hgnil, List.nil_append, ← ih']
      cases hp : processGroup cfg (first :: tail) with
      | none => rfl
      | some m =>
        obtain ⟨f', t', e, hid, -⟩ := processGroup_id cfg _ m hp
        have hf : f' = first := by
          cases e
          rfl
        have : (m.ins_id_ == X) = false := by
          rw [hid, hf]
          simpa using hX
        simp only [List.filter_cons, this]
        rfl

/-- The result of `MergeByInsId`, group by group. -/
theorem MergeByInsId_eq (cfg : MergeConfig) (recs : List Record) :
    MergeByInsId cfg recs =
      ((groupsById (sortByInsId recs)).filterMap (processGroup cfg),
        droppedCount cfg (groupsById (sortByInsId recs))) := by
  unfold MergeByInsId MergeByInsId_sorted
  simp only []
  rw [MergeByInsId_loop_eq cfg _ _ _ _ le_rfl]
  simp

theorem sparseDisjoint_symm (cfg : MergeConfig) {a b : Record} (h : SparseDisjoint cfg a b) :
    SparseDisjoint cfg b a :=
  ⟨fun f hf g hg e => h.1 g hg f hf e.symm, fun f hf g hg e => h.2 g hg f hf e.symm⟩

theorem sharesSparseSlot_iff (cfg : MergeConfig) (a b : Record) :
    SharesSparseSlot cfg a b ↔ ¬ SparseDisjoint cfg a b := by
  unfold SharesSparseSlot SparseDisjoint sparseFeatures
  simp only [List.mem_filter, Bool.not_eq_true', not_and_or, not_forall, Classical.not_not]
  constructor
  · rintro (⟨f, hf, g, hg, hd, e⟩ | ⟨f, hf, g, hg, hd, e⟩)
    · exact Or.inl ⟨f, ⟨hf, hd⟩, g, ⟨hg, e ▸ hd⟩, e⟩
    · exact Or.inr ⟨f, ⟨hf, hd⟩, g, ⟨hg, e ▸ hd⟩, e⟩
  · rintro (⟨f, ⟨hf, hd⟩, g, ⟨hg, -⟩, e⟩ | ⟨f, ⟨hf, hd⟩, g, ⟨hg, -⟩, e⟩)
    · exact Or.inl ⟨f, hf, g, hg, hd, e⟩
    · exact Or.inr ⟨f, hf, g, hg, hd, e⟩

theorem hasSparseConflict_iff (cfg : MergeConfig) (g : List Record) :
    HasSparseConflict cfg g ↔ ¬ g.Pairwise (SparseDisjoint cfg) := by
  unfold HasSparseConflict
  rw [List.pairwise_iff_forall_sublist]
  simp only [not_forall]
  constructor
  · rintro ⟨a, b, hs, hc⟩
    exact ⟨a, b, hs, (sharesSparseSlot_iff cfg a b).1 hc⟩
  · rintro ⟨a, b, hs, hc⟩
    exact ⟨a, b, hs, (sharesSparseSlot_iff cfg a b).2 hc⟩

theorem hasSparseConflict_of_values (cfg : MergeConfig) (g : List Record)
    (h : HasConflictingValues cfg g) : HasSparseConflict cfg g := by
  obtain ⟨a, b, hs, hc⟩ := h
  refine ⟨a, b, hs, ?_⟩
  rcases hc with ⟨f, hf, g', hg, hd, e, -⟩ | ⟨f, hf, g', hg, hd, e, -⟩
  · exact Or.inl ⟨f, hf, g', hg, hd, e⟩
  · exact Or.inr ⟨f, hf, g', hg, hd, e⟩

theorem hasSparseConflict_perm (cfg : MergeConfig) {g g' : List Record} (h : g.Perm g') :
    HasSparseConflict cfg g ↔ HasSparseConflict cfg g' := by
  rw [hasSparseConflict_iff, hasSparseConflict_iff,
    List.Perm.pairwise_iff (fun h => sparseDisjoint_symm cfg h) h]

theorem processGroup_none_iff (cfg : MergeConfig) (first : Record) (tail : List Record) :
    processGroup cfg (first :: tail) = none ↔
      (0 < cfg.merge_size_ ∧ ((first :: tail).length : Int) ≠ cfg.merge_size_) ∨
        HasSparseConflict cfg (first :: tail) := by
  rw [processGroup_eq_none_iff, hasSparseConflict_iff]

theorem groupsById_filter_mem (l : List Record) (X : String) (hs : l.Pairwise InsIdLe)
    (hX : ∃ r ∈ l, r.ins_id_ = X) :
    l.filter (fun r => r.ins_id_ == X) ∈ groupsById l := by
  induction l using headGroup_induction with
  | h0 => simp at hX
  | hstep first tail rest hg ih =>
    obtain ⟨hlt, hrest⟩ := sorted_headGroup first tail rest hs hg
    rw [groupsById_headGroup first tail rest hg]
    have happ : first :: tail ++ rest = (first :: tail) ++ rest := rfl
    rw [happ, List.filter_append]
    by_cases hfX : first.ins_id_ = X
    · subst hfX
      have hrestnil : rest.filter (fun r => r.ins_id_ == first.ins_id_) = [] :=
        filter_eq_nil_of_ne rest _ (fun r hr => (insIdLt_ne (hlt r hr)).symm)
      rw [filter_headGroup_self first tail hg.1, hrestnil, List.append_nil]
      exact List.mem_cons_self _ _
    · have hgnil : (first :: tail).filter (fun r => r.ins_id_ == X) = [] := by
        apply filter_eq_nil_of_ne
        intro r hr
        rw [List.mem_cons] at hr
        rcases hr with hr | hr
        · rw [hr]; exact hfX
        · rw [hg.1 r hr]; exact hfX
      rw [hgnil, List.nil_append]
      apply List.mem_cons_of_mem
      apply ih hrest
      obtain ⟨r, hr, hrX⟩ := hX
      rw [happ, List.mem_append, List.mem_cons] at hr
      rcases hr with (hr | hr) | hr
      · exact absurd (hr ▸ hrX) hfX
      · exact absurd ((hg.1 r hr) ▸ hrX) hfX
      · exact ⟨r, hr, hrX⟩

/-- The merged records with a given `ins_id_` in the result of `MergeByInsId`. -/
theorem MergeByInsId_filter (cfg : MergeConfig) (recs : List Record) (X : String) :
    (MergeByInsId cfg recs).1.filter (fun r => r.ins_id_ == X) =
      (processGroup cfg ((sortByInsId recs).filter (fun r => r.ins_id_ == X))).toList := by
  rw [MergeByInsId_eq]
  exact results_filter_sorted cfg _ X (sortByInsId_sorted recs)

/-! ## Merge by instance id: the properties -/

/-- C4: in `MergeByInsId`, a group of records sharing an instance id in which the same sparse
slot appears in two different records with different values is dropped as a whole.  For
every input `recs` and every id `X` whose records have such a conflict: no merged record
with id `X` is in the output; the records with id `X` form one group of the sorted input;
and the loop iteration that handles this group (in whatever order its records stand)
leaves `results` as it is and adds exactly the group size to `drop_ins_num`. -/
theorem MergeByInsId_drops_conflicting_group (cfg : MergeConfig) (recs : List Record)
    (X : String) (hconf : HasConflictingValues cfg (recs.filter (fun r => r.ins_id_ == X))) :
    (∀ m ∈ (MergeByInsId cfg recs).1, m.ins_id_ ≠ X) ∧
    (sortByInsId recs).filter (fun r => r.ins_id_ == X) ∈ groupsById (sortByInsId recs) ∧
    (∀ (st : MergeState) (first : Record) (tail rest : List Record),
      st.recs = first :: tail ++ rest → HeadGroup first tail rest →
      (first :: tail).Perm (recs.filter (fun r => r.ins_id_ == X)) →
      MergeByInsId_step cfg st =
        { recs := rest, results := st.results,
          drop_ins_num := st.drop_ins_num + (recs.filter (fun r => r.ins_id_ == X)).length }) := by
  have hc := hasSparseConflict_of_values cfg _ hconf
  have hperm : ((sortByInsId recs).filter (fun r => r.ins_id_ == X)).Perm
      (recs.filter (fun r => r.ins_id_ == X)) := (sortByInsId_perm recs).filter _
  have hne : recs.filter (fun r => r.ins_id_ == X) ≠ [] := by
    obtain ⟨a, b, hs, -⟩ := hconf
    intro e
    rw [e] at hs
    cases hs
  refine ⟨?_, ?_, ?_⟩
  · intro m hm hid
    have hmem : m ∈ (MergeByInsId cfg recs).1.filter (fun r => r.ins_id_ == X) := by
      rw [List.mem_filter]
      exact ⟨hm, by simp [hid]⟩
    rw [MergeByInsId_filter] at hmem
    cases hg : (sortByInsId recs).filter (fun r => r.ins_id_ == X) with
    | nil => exact hne (List.Perm.eq_nil (hg ▸ hperm.symm))
    | cons first tail =>
      have hnone : processGroup cfg (first :: tail) = none :=
        (processGroup_none_iff cfg first tail).2
          (Or.inr ((hasSparseConflict_perm cfg (hg ▸ hperm)).2 hc))
      rw [hg, hnone] at hmem
      simp at hmem
  · apply groupsById_filter_mem _ _ (sortByInsId_sorted recs)
    obtain ⟨r, hr⟩ := List.exists_mem_of_ne_nil _ hne
    rw [List.mem_filter] at hr
    exact ⟨r, (sortByInsId_perm recs).mem_iff.2 hr.1, by simpa using hr.2⟩
  · intro st first tail rest hrecs hg hp
    rw [MergeByInsId_step_headGroup cfg st first tail rest hrecs hg]
    have hnone : processGroup cfg (first :: tail) = none :=
      (processGroup_none_iff cfg first tail).2 (Or.inr ((hasSparseConflict_perm cfg hp).2 hc))
    unfold afterGroup
    rw [hnone, hp.length_eq]

/-- C4 (witness): the four example records; the two records of instance `b` both carry the
sparse slot 1, with the values 5 and 6. -/
theorem MergeByInsId_drops_conflicting_group_witness :
    (∀ m ∈ (MergeByInsId sparseCfg [recA1, recA2, recB1, recB2]).1, m.ins_id_ ≠ "b") ∧
    (sortByInsId [recA1, recA2, recB1, recB2]).filter (fun r => r.ins_id_ == "b") ∈
      groupsById (sortByInsId [recA1, recA2, recB1, recB2]) ∧
    (∀ (st : MergeState) (first : Record) (tail rest : List Record),
      st.recs = first :: tail ++ rest → HeadGroup first tail rest →
      (first :: tail).Perm ([recA1, recA2, recB1, recB2].filter (fun r => r.ins_id_ == "b")) →
      MergeByInsId_step sparseCfg st =
        { recs := rest, results := st.results,
          drop_ins_num := st.drop_ins_num +
            ([recA1, recA2, recB1, recB2].filter (fun r => r.ins_id_ == "b")).length }) :=
  MergeByInsId_drops_conflicting_group sparseCfg [recA1, recA2, recB1, recB2] "b"
    ⟨recB1, recB2, by decide,
      Or.inl ⟨⟨1, 5⟩, by decide, ⟨1, 6⟩, by decide, rfl, rfl, by decide⟩⟩

/-- C5: the loop iteration of `MergeByInsId` that handles a group (the group at the head of the
records not yet visited) either drops it (`results` unchanged, `drop_ins_num` increased by
the group size) or appends one merged record and leaves `drop_ins_num` as it is.  When
`merge_size_ > 0` the group is dropped if and only if its size differs from `merge_size_`
or two of its records share a sparse slot; a group whose size differs from `merge_size_`
is dropped whatever its slots are; and when `merge_size_` is 0 the group is dropped if
and only if two of its records share a sparse slot, whatever its size. -/
theorem MergeByInsId_drop_iff (cfg : MergeConfig) (st : MergeState) (first : Record)
    (tail rest : List Record) (hrecs : st.recs = first :: tail ++ rest)
    (hg : HeadGroup first tail rest) :
    (MergeByInsId_step cfg st).recs = rest ∧
    (((MergeByInsId_step cfg st).results = st.results ∧
        (MergeByInsId_step cfg st).drop_ins_num = st.drop_ins_num + (first :: tail).length) ∨
      (∃ m, (MergeByInsId_step cfg st).results = st.results ++ [m] ∧
        (MergeByInsId_step cfg st).drop_ins_num = st.drop_ins_num)) ∧
    (0 < cfg.merge_size_ →
      (((MergeByInsId_step cfg st).results = st.results ∧
          (MergeByInsId_step cfg st).drop_ins_num = st.drop_ins_num + (first :: tail).length) ↔
        (((first :: tail).length : Int) ≠ cfg.merge_size_ ∨
          HasSparseConflict cfg (first :: tail)))) ∧
    (0 < cfg.merge_size_ → ((first :: tail).length : Int) ≠ cfg.merge_size_ →
      (MergeByInsId_step cfg st).results = st.results ∧
        (MergeByInsId_step cfg st).drop_ins_num = st.drop_ins_num + (first :: tail).length) ∧
    (cfg.merge_size_ = 0 →
      (((MergeByInsId_step cfg st).results = st.results ∧
          (MergeByInsId_step cfg st).drop_ins_num = st.drop_ins_num + (first :: tail).length) ↔
        HasSparseConflict cfg (first :: tail))) := by
  rw [MergeByInsId_step_headGroup cfg st first tail rest hrecs hg]
  have hiff := processGroup_none_iff cfg first tail
  unfold afterGroup
  cases hp : processGroup cfg (first :: tail) with
  | none =>
    have h := hiff.1 hp
    simp only [true_and, and_self, true_or, true_iff]
    refine ⟨?_, ?_, ?_⟩
    · intro hms
      rcases h with h | h
      · exact Or.inl h.2
      · exact Or.inr h
    · intro _ _
      trivial
    · intro h0
      rcases h with h | h
      · rw [h0] at h
        exact absurd h.1 (lt_irrefl 0)
      · exact h
  | some m =>
    have h : ¬ ((0 < cfg.merge_size_ ∧ ((first :: tail).length : Int) ≠ cfg.merge_size_) ∨
        HasSparseConflict cfg (first :: tail)) := by
      intro h'
      rw [hiff.2 h'] at hp
      cases hp
    rw [not_or] at h
    have hres : ¬ (st.results ++ [m] = st.results) := by
      intro e
      have := congrArg List.length e
      simp at this
    simp only [true_and, hres, false_and, false_iff, false_or]
    refine ⟨⟨m, rfl, trivial⟩, ?_, ?_, ?_⟩
    · intro hms
      rw [not_or]
      exact ⟨fun hne => h.1 ⟨hms, hne⟩, h.2⟩
    · intro hms hne
      exact absurd ⟨hms, hne⟩ h.1
    · intro _
      exact h.2

/-- C5 (witness): a loop state with the two conflicting records of instance `b` ahead,
followed by the records of instance `a`. -/
theorem MergeByInsId_drop_iff_witness :
    (MergeByInsId_step sparseCfg exampleState).recs = [recA1, recA2] ∧
    (((MergeByInsId_step sparseCfg exampleState).results = exampleState.results ∧
        (MergeByInsId_step sparseCfg exampleState).drop_ins_num =
          exampleState.drop_ins_num + [recB1, recB2].length) ∨
      (∃ m, (MergeByInsId_step sparseCfg exampleState).results = exampleState.results ++ [m] ∧
        (MergeByInsId_step sparseCfg exampleState).drop_ins_num = exampleState.drop_ins_num)) ∧
    (0 < sparseCfg.merge_size_ →
      (((MergeByInsId_step sparseCfg exampleState).results = exampleState.results ∧
          (MergeByInsId_step sparseCfg exampleState).drop_ins_num =
            exampleState.drop_ins_num + [recB1, recB2].length) ↔
        ((([recB1, recB2].length : Nat) : Int) ≠ sparseCfg.merge_size_ ∨
          HasSparseConflict sparseCfg [recB1, recB2]))) ∧
    (0 < sparseCfg.merge_size_ → (([recB1, recB2].length : Nat) : Int) ≠ sparseCfg.merge_size_ →
      (MergeByInsId_step sparseCfg exampleState).results = exampleState.results ∧
        (MergeByInsId_step sparseCfg exampleState).drop_ins_num =
          exampleState.drop_ins_num + [recB1, recB2].length) ∧
    (sparseCfg.merge_size_ = 0 →
      (((MergeByInsId_step sparseCfg exampleState).results = exampleState.results ∧
          (MergeByInsId_step sparseCfg exampleState).drop_ins_num =
            exampleState.drop_ins_num + [recB1, recB2].length) ↔
        HasSparseConflict sparseCfg [recB1, recB2])) :=
  MergeByInsId_drop_iff sparseCfg exampleState recB1 [recB2] [recA1, recA2] rfl
    ⟨by decide, by decide⟩

theorem sparseFeatures_idem {V : Type} (cfg : MergeConfig) (l : List (FeatureItem V)) :
    sparseFeatures cfg (sparseFeatures cfg l) = sparseFeatures cfg l := by
  unfold sparseFeatures
  rw [List.filter_filter]
  simp

theorem sparseFeatures_flatten_sparse {V : Type} (cfg : MergeConfig)
    (ls : List (List (FeatureItem V))) :
    sparseFeatures cfg ((ls.map (sparseFeatures cfg)).flatten) =
      (ls.map (sparseFeatures cfg)).flatten := by
  induction ls with
  | nil => rfl
  | cons l rest ih =>
    have happ : ∀ a b : List (FeatureItem V),
        sparseFeatures cfg (a ++ b) = sparseFeatures cfg a ++ sparseFeatures cfg b := by
      intro a b
      simp [sparseFeatures]
    simp only [List.map_cons, List.flatten_cons, happ, sparseFeatures_idem, ih]

theorem sparseFeatures_eq_nil_of_dense {V : Type} (cfg : MergeConfig) (l : List (FeatureItem V))
    (h : ∀ f ∈ l, cfg.use_slots_is_dense f.slot = true) : sparseFeatures cfg l = [] := by
  unfold sparseFeatures
  rw [List.filter_eq_nil_iff]
  intro f hf
  simp [h f hf]

/-- The sparse features of the merged record of a group are the sparse features of the
records of the group, each once, in the order of the records. -/
theorem mergeGroup_sparse (cfg : MergeConfig) (first : Record) (group : List Record)
    (m : Record) (h : mergeGroup cfg first group = some m) :
    sparseFeatures cfg m.uint64_feasigns_ =
        (group.map (fun r => sparseFeatures cfg r.uint64_feasigns_)).flatten ∧
      sparseFeatures cfg m.float_feasigns_ =
        (group.map (fun r => sparseFeatures cfg r.float_feasigns_)).flatten := by
  obtain ⟨-, -, hu, hf⟩ := mergeGroup_of_some cfg first group m h
  have happ : ∀ (V : Type) (a b : List (FeatureItem V)),
      sparseFeatures cfg (a ++ b) = sparseFeatures cfg a ++ sparseFeatures cfg b := by
    intro V a b
    simp [sparseFeatures]
  have hu' := sparseFeatures_flatten_sparse cfg (group.map Record.uint64_feasigns_)
  have hf' := sparseFeatures_flatten_sparse cfg (group.map Record.float_feasigns_)
  rw [List.map_map] at hu' hf'
  constructor
  · rw [hu, happ, sparseFeatures_eq_nil_of_dense cfg _
      (fun f hf => (mem_dense_uint64 cfg group f hf).1), List.nil_append]
    exact hu'
  · rw [hf, happ, sparseFeatures_eq_nil_of_dense cfg _
      (fun f hf => (mem_dense_float cfg group f hf).1), List.nil_append]
    exact hf'

theorem processGroup_of_survive (cfg : MergeConfig) (first : Record) (tail : List Record)
    (hsize : cfg.merge_size_ ≤ 0 ∨ ((first :: tail).length : Int) = cfg.merge_size_)
    (hnc : ¬ HasSparseConflict cfg (first :: tail)) :
    ∃ m, processGroup cfg (first :: tail) = some m ∧
      m.ins_id_ = first.ins_id_ ∧ m.content_ = first.content_ ∧
      sparseFeatures cfg m.uint64_feasigns_ =
        ((first :: tail).map (fun r => sparseFeatures cfg r.uint64_feasigns_)).flatten ∧
      sparseFeatures cfg m.float_feasigns_ =
        ((first :: tail).map (fun r => sparseFeatures cfg r.float_feasigns_)).flatten := by
  cases hp : processGroup cfg (first :: tail) with
  | none =>
    rcases (processGroup_none_iff cfg first tail).1 hp with h | h
    · rcases hsize with hs | hs
      · exact absurd h.1 (not_lt.2 hs)
      · exact absurd hs h.2
    · exact absurd h hnc
  | some m =>
    have hm : mergeGroup cfg first (first :: tail) = some m := by
      unfold processGroup at hp
      simp only [] at hp
      split at hp
      · cases hp
      · exact hp
    obtain ⟨a, b, -, -⟩ := mergeGroup_of_some cfg first _ m hm
    obtain ⟨c, d⟩ := mergeGroup_sparse cfg first _ m hm
    exact ⟨m, rfl, a, b, c, d⟩

/-- The result of the merge on sorted records, group by group. -/
theorem MergeByInsId_sorted_eq (cfg : MergeConfig) (sorted : List Record) :
    MergeByInsId_sorted cfg sorted =
      ((groupsById sorted).filterMap (processGroup cfg),
        droppedCount cfg (groupsById sorted)) := by
  unfold MergeByInsId_sorted
  simp only []
  rw [MergeByInsId_loop_eq cfg _ _ _ _ le_rfl]
  simp

/-- The merged records with a given `ins_id_` in the result of the merge on sorted
records. -/
theorem MergeByInsId_sorted_filter (cfg : MergeConfig) (sorted : List Record) (X : String)
    (hs : sorted.Pairwise InsIdLe) :
    (MergeByInsId_sorted cfg sorted).1.filter (fun r => r.ins_id_ == X) =
      (processGroup cfg (sorted.filter (fun r => r.ins_id_ == X))).toList := by
  rw [MergeByInsId_sorted_eq]
  exact results_filter_sorted cfg _ X hs

/-- The merge of the four example records, for every sorted order of them. -/
theorem MergeByInsId_sorted_example :
    ∀ sorted ∈ [recA1, recA2, recB1, recB2].permutations',
      sorted.Pairwise (fun a b => a.ins_id_.toList ≤ b.ins_id_.toList) →
      (sorted.filter (fun r => r.ins_id_ == "a") = [recA1, recA2] ∧
          MergeByInsId_sorted sparseCfg sorted = ([mergedA], 2)) ∨
        (sorted.filter (fun r => r.ins_id_ == "a") = [recA2, recA1] ∧
          MergeByInsId_sorted sparseCfg sorted = ([mergedA2], 2)) := by
  decide

/-- C6: `MergeByInsId` emits exactly one merged record per surviving group.  (1) The loop
iteration that handles a group without size mismatch and without a sparse slot present in
two records appends one record to `results` and leaves `drop_ins_num` as it is; the
record has the instance id and the content of the first record of the group, and its
sparse features are the sparse features of the records of the group, each once, in the
order of the records.  (2) Whatever sorted order `std::sort` leaves the records in
(`sorted`), the records with the id of such a group are the input records with that id,
and the output of the merge has exactly one record with that id: it has the content of
the record of the group that stands first in `sorted`, and the sparse features of the
records of the group.  (3) For the input `[a, a, b, b]` with `merge_size_ = 2`, where the
records of `a` have the sparse slots `{1, 2}` and `{3}` and both records of `b` have slot
1, in every sorted order the output is one record of `a` with the slots 1, 2, 3 and the
content of the record of `a` that stands first, and 2 records are counted as dropped. -/
theorem MergeByInsId_emits_one_record_per_surviving_group (cfg : MergeConfig) :
    (∀ (st : MergeState) (first : Record) (tail rest : List Record),
      st.recs = first :: tail ++ rest → HeadGroup first tail rest →
      (cfg.merge_size_ ≤ 0 ∨ ((first :: tail).length : Int) = cfg.merge_size_) →
      ¬ HasSparseConflict cfg (first :: tail) →
      ∃ m, MergeByInsId_step cfg st =
          { recs := rest, results := st.results ++ [m], drop_ins_num := st.drop_ins_num } ∧
        m.ins_id_ = first.ins_id_ ∧ m.content_ = first.content_ ∧
        sparseFeatures cfg m.uint64_feasigns_ =
          ((first :: tail).map (fun r => sparseFeatures cfg r.uint64_feasigns_)).flatten ∧
        sparseFeatures cfg m.float_feasigns_ =
          ((first :: tail).map (fun r => sparseFeatures cfg r.float_feasigns_)).flatten) ∧
    (∀ (recs sorted : List Record) (X : String) (first : Record) (tail : List Record),
      sorted.Perm recs → sorted.Pairwise InsIdLe →
      sorted.filter (fun r => r.ins_id_ == X) = first :: tail →
      (cfg.merge_size_ ≤ 0 ∨ ((first :: tail).length : Int) = cfg.merge_size_) →
      ¬ HasSparseConflict cfg (first :: tail) →
      (first :: tail).Perm (recs.filter (fun r => r.ins_id_ == X)) ∧
      ∃ m, (MergeByInsId_sorted cfg sorted).1.filter (fun r => r.ins_id_ == X) = [m] ∧
        m.ins_id_ = X ∧ m.content_ = first.content_ ∧
        sparseFeatures cfg m.uint64_feasigns_ =
          ((first :: tail).map (fun r => sparseFeatures cfg r.uint64_feasigns_)).flatten ∧
        sparseFeatures cfg m.float_feasigns_ =
          ((first :: tail).map (fun r => sparseFeatures cfg r.float_feasigns_)).flatten) ∧
    (∀ sorted : List Record, sorted.Perm [recA1, recA2, recB1, recB2] →
      sorted.Pairwise InsIdLe →
      (sorted.filter (fun r => r.ins_id_ == "a") = [recA1, recA2] ∧
          MergeByInsId_sorted sparseCfg sorted = ([mergedA], 2)) ∨
        (sorted.filter (fun r => r.ins_id_ == "a") = [recA2, recA1] ∧
          MergeByInsId_sorted sparseCfg sorted = ([mergedA2], 2))) := by
  refine ⟨?_, ?_, ?_⟩
  · intro st first tail rest hrecs hg hsize hnc
    obtain ⟨m, hp, a, b, c, d⟩ := processGroup_of_survive cfg first tail hsize hnc
    refine ⟨m, ?_, a, b, c, d⟩
    rw [MergeByInsId_step_headGroup cfg st first tail rest hrecs hg]
    unfold afterGroup
    rw [hp]
  · intro recs sorted X first tail hperm hsorted hgrp hsize hnc
    obtain ⟨m, hp, a, b, c, d⟩ := processGroup_of_survive cfg first tail hsize hnc
    refine ⟨?_, m, ?_, ?_, b, c, d⟩
    · rw [← hgrp]
      exact hperm.filter _
    · rw [MergeByInsId_sorted_filter cfg sorted X hsorted, hgrp, hp]
      rfl
    · have hmem : first ∈ sorted.filter (fun r => r.ins_id_ == X) := by
        rw [hgrp]
        exact List.mem_cons_self _ _
      rw [List.mem_filter] at hmem
      rw [a]
      simpa using hmem.2
  · intro sorted hperm hsorted
    exact MergeByInsId_sorted_example sorted (List.mem_permutations'.mpr hperm) hsorted

/-- C6 (witness): the loop state with the two records of instance `a` ahead; the merge of
the four example records, given as `b, a, b, a` and sorted to `a, a, b, b`, for the id
`a`; and the sorted order `a, a, b, b` with the second record of `a` first. -/
theorem MergeByInsId_emits_one_record_per_surviving_group_witness :
    (∃ m, MergeByInsId_step sparseCfg exampleStateA =
        { recs := [recB1, recB2], results := exampleStateA.results ++ [m],
          drop_ins_num := exampleStateA.drop_ins_num } ∧
      m.ins_id_ = recA1.ins_id_ ∧ m.content_ = recA1.content_ ∧
      sparseFeatures sparseCfg m.uint64_feasigns_ =
        ([recA1, recA2].map (fun r => sparseFeatures sparseCfg r.uint64_feasigns_)).flatten ∧
      sparseFeatures sparseCfg m.float_feasigns_ =
        ([recA1, recA2].map (fun r => sparseFeatures sparseCfg r.float_feasigns_)).flatten) ∧
    ([recA1, recA2].Perm ([recB1, recA1, recB2, recA2].filter (fun r => r.ins_id_ == "a")) ∧
      ∃ m, (MergeByInsId_sorted sparseCfg [recA1, recA2, recB1, recB2]).1.filter
            (fun r => r.ins_id_ == "a") = [m] ∧
        m.ins_id_ = "a" ∧ m.content_ = recA1.content_ ∧
        sparseFeatures sparseCfg m.uint64_feasigns_ =
          ([recA1, recA2].map (fun r => sparseFeatures sparseCfg r.uint64_feasigns_)).flatten ∧
        sparseFeatures sparseCfg m.float_feasigns_ =
          ([recA1, recA2].map (fun r => sparseFeatures sparseCfg r.float_feasigns_)).flatten) ∧
    ((([recA2, recA1, recB1, recB2].filter (fun r => r.ins_id_ == "a") = [recA1, recA2] ∧
        MergeByInsId_sorted sparseCfg [recA2, recA1, recB1, recB2] = ([mergedA], 2)) ∨
      ([recA2, recA1, recB1, recB2].filter (fun r => r.ins_id_ == "a") = [recA2, recA1] ∧
        MergeByInsId_sorted sparseCfg [recA2, recA1, recB1, recB2] = ([mergedA2], 2)))) :=
  ⟨(MergeByInsId_emits_one_record_per_surviving_group sparseCfg).1 exampleStateA recA1 [recA2]
      [recB1, recB2] rfl ⟨by decide, by decide⟩ (Or.inr (by decide))
      (by rw [hasSparseConflict_iff]; decide),
    (MergeByInsId_emits_one_record_per_surviving_group sparseCfg).2.1
      [recB1, recA1, recB2, recA2] [recA1, recA2, recB1, recB2] "a" recA1 [recA2]
      (by decide) (by unfold InsIdLe; decide) (by decide) (Or.inr (by decide))
      (by rw [hasSparseConflict_iff]; decide),
    (MergeByInsId_emits_one_record_per_surviving_group sparseCfg).2.2
      [recA2, recA1, recB1, recB2] (by decide) (by unfold InsIdLe; decide)⟩

/-! ## Merging merged records again -/

theorem mergeGroup_of_processGroup (cfg : MergeConfig) (group : List Record) (m : Record)
    (h : processGroup cfg group = some m) : ∃ first, mergeGroup cfg first group = some m := by
  cases group with
  | nil => simp [processGroup] at h
  | cons first tail =>
    unfold processGroup at h
    simp only [] at h
    split at h
    · cases h
    · exact ⟨first, h⟩


theorem marksSlot_empty {V : Type} (nonempty : V → Bool) (cfg : MergeConfig) (s : Nat)
    (l : List (FeatureItem V)) :
    marksSlot nonempty cfg [] s l = !(denseFeats cfg s l).isEmpty := by
  unfold marksSlot denseFeats
  simp only [SlotMap.find, Option.isNone_none, Bool.or_true, Bool.and_true]
  induction l with
  | nil => rfl
  | cons f rest ih =>
    simp only [List.any_cons, ih, List.filter_cons]
    cases h : (cfg.use_slots_is_dense f.slot && decide (f.slot = s)) <;> simp

/-- The dense maps after the dense pass over a single record. -/
theorem densePass_singleton (cfg : MergeConfig) (r : Record) (s : Nat) :
    (SlotMap.find (densePass cfg [r]).all_dense_uint64 s).getD [] =
        denseFeats cfg s r.uint64_feasigns_ ∧
      (SlotMap.find (densePass cfg [r]).all_dense_float s).getD [] =
        if (denseFeats cfg s r.uint64_feasigns_).isEmpty = true then
          denseFeats cfg s r.float_feasigns_
        else [] := by
  unfold densePass
  simp only [List.foldl_cons, List.foldl_nil]
  rw [denseRecord_find_uint64, denseRecord_find_float, marksSlot_empty, marksSlot_empty]
  simp only [SlotMap.find]
  cases hu : (denseFeats cfg s r.uint64_feasigns_).isEmpty <;>
    cases hf : (denseFeats cfg s r.float_feasigns_).isEmpty <;>
    simp_all [List.isEmpty_iff]

theorem slotValues_append {V : Type} (s : Nat) (a b : List (FeatureItem V)) :
    slotValues s (a ++ b) = slotValues s a ++ slotValues s b := by
  simp [slotValues]

theorem slotValues_sparseFeatures {V : Type} (cfg : MergeConfig) (s : Nat)
    (l : List (FeatureItem V)) :
    slotValues s (sparseFeatures cfg l) =
      if cfg.use_slots_is_dense s = true then [] else slotValues s l := by
  unfold slotValues sparseFeatures
  rw [List.filter_filter]
  split
  · rename_i hd
    rw [List.filter_eq_nil_iff]
    intro f _
    by_cases h : f.slot = s
    · simp [h, hd]
    · simp [h]
  · rename_i hd
    apply List.filter_congr
    intro f _
    by_cases h : f.slot = s
    · simp [h, hd]
    · simp [h]

/-- Merging a single record whose dense slots are typed gives back, slot by slot, the
features of the record. -/
theorem mergeGroup_singleton (cfg : MergeConfig) (r m : Record)
    (htyped : ∀ f ∈ r.uint64_feasigns_, ∀ g ∈ r.float_feasigns_,
      cfg.use_slots_is_dense f.slot = true → f.slot ≠ g.slot)
    (h : mergeGroup cfg r [r] = some m) : SameContents m r := by
  obtain ⟨hid, hcontent, hu, hf⟩ := mergeGroup_of_some cfg r [r] m h
  refine ⟨hid, hcontent, ?_⟩
  intro s
  obtain ⟨du, df⟩ := densePass_singleton cfg r s
  rw [hu, hf, slotValues_append, slotValues_append, slotValues_dense_uint64,
    slotValues_dense_float, du, df]
  simp only [List.map_cons, List.map_nil, List.flatten_cons, List.flatten_nil, List.append_nil,
    slotValues_sparseFeatures]
  by_cases hd : cfg.use_slots_is_dense s = true
  · simp only [hd, if_true, List.append_nil]
    rw [denseFeats_eq_slotValues cfg s _ hd, denseFeats_eq_slotValues cfg s _ hd]
    refine ⟨rfl, ?_⟩
    split
    · rfl
    · rename_i hne
      symm
      unfold slotValues
      rw [List.filter_eq_nil_iff]
      intro g hg hgs
      simp only [decide_eq_true_eq] at hgs
      apply hne
      rw [List.isEmpty_iff]
      unfold slotValues
      rw [List.filter_eq_nil_iff]
      intro f hf' hfs
      simp only [decide_eq_true_eq] at hfs
      exact htyped f hf' g hg (hfs ▸ hd) (hfs.trans hgs.symm)
  · have hd' : cfg.use_slots_is_dense s = false := by simpa using hd
    rw [denseFeats_eq_nil_of_sparse cfg s _ hd', denseFeats_eq_nil_of_sparse cfg s _ hd']
    simp [hd']

theorem groupsById_of_strict (l : List Record) (h : l.Pairwise InsIdLt) :
    groupsById l = l.map (fun r => [r]) := by
  induction l with
  | nil => rfl
  | cons r rest ih =>
    rw [List.pairwise_cons] at h
    have ih' := ih h.2
    cases rest with
    | nil => rfl
    | cons r' rest' =>
      rw [groupsById, ih']
      have hne : r'.ins_id_ ≠ r.ins_id_ := fun e => insIdLt_ne (h.1 r' (by simp)) e.symm
      simp [hne]

theorem mem_merged_features (cfg : MergeConfig) (first : Record) (group : List Record)
    (m : Record) (h : mergeGroup cfg first group = some m) :
    (∀ f ∈ m.uint64_feasigns_, ∃ r ∈ group, f ∈ r.uint64_feasigns_) ∧
      (∀ g ∈ m.float_feasigns_, ∃ r ∈ group, g ∈ r.float_feasigns_) := by
  obtain ⟨-, -, hu, hf⟩ := mergeGroup_of_some cfg first group m h
  constructor
  · intro f hfm
    rw [hu, List.mem_append] at hfm
    rcases hfm with hfm | hfm
    · exact (mem_dense_uint64 cfg group f hfm).2
    · simp only [List.mem_flatten, List.mem_map] at hfm
      obtain ⟨l, ⟨r, hr, rfl⟩, hfl⟩ := hfm
      unfold sparseFeatures at hfl
      exact ⟨r, hr, (List.mem_filter.1 hfl).1⟩
  · intro g hgm
    rw [hf, List.mem_append] at hgm
    rcases hgm with hgm | hgm
    · exact (mem_dense_float cfg group g hgm).2
    · simp only [List.mem_flatten, List.mem_map] at hgm
      obtain ⟨l, ⟨r, hr, rfl⟩, hgl⟩ := hgm
      unfold sparseFeatures at hgl
      exact ⟨r, hr, (List.mem_filter.1 hgl).1⟩

/-- The output of the merge is strictly sorted by instance id, and the features of every
merged record are features of input records. -/
theorem MergeByInsId_output (cfg : MergeConfig) (recs : List Record) :
    (MergeByInsId cfg recs).1.Pairwise InsIdLt ∧
      ∀ m ∈ (MergeByInsId cfg recs).1,
        (∀ f ∈ m.uint64_feasigns_, ∃ r ∈ recs, f ∈ r.uint64_feasigns_) ∧
          (∀ g ∈ m.float_feasigns_, ∃ r ∈ recs, g ∈ r.float_feasigns_) := by
  rw [MergeByInsId_eq]
  simp only []
  constructor
  · apply List.Pairwise.filterMap (processGroup cfg) _
      (groupsById_sorted _ (sortByInsId_sorted recs))
    intro g g' hgg m hm m' hm'
    obtain ⟨f1, t1, e1, hid1, -⟩ := processGroup_id cfg g m hm
    obtain ⟨f2, t2, e2, hid2, -⟩ := processGroup_id cfg g' m' hm'
    have := hgg f1 (by rw [e1]; exact List.mem_cons_self _ _) f2
      (by rw [e2]; exact List.mem_cons_self _ _)
    unfold InsIdLt at this ⊢
    rw [hid1, hid2]
    exact this
  · intro m hm
    rw [List.mem_filterMap] at hm
    obtain ⟨g, hg, hp⟩ := hm
    obtain ⟨first, hmg⟩ := mergeGroup_of_processGroup cfg g m hp
    obtain ⟨a, b⟩ := mem_merged_features cfg first g m hmg
    have hsub : ∀ r ∈ g, r ∈ recs := fun r hr =>
      (sortByInsId_perm recs).mem_iff.1 (mem_of_mem_groupsById hg hr)
    constructor
    · intro f hf
      obtain ⟨r, hr, hfr⟩ := a f hf
      exact ⟨r, hsub r hr, hfr⟩
    · intro f hf
      obtain ⟨r, hr, hfr⟩ := b f hf
      exact ⟨r, hsub r hr, hfr⟩

theorem sortByInsId_of_perm_strict (l again : List Record) (hl : l.Pairwise InsIdLt)
    (hperm : again.Perm l) : sortByInsId again = l := by
  haveI : IsAntisymm Record InsIdLt :=
    ⟨fun a b h1 h2 => absurd h2 (lt_asymm h1)⟩
  have hp : (sortByInsId again).Perm l := (sortByInsId_perm again).trans hperm
  have hne : (sortByInsId again).Pairwise (fun a b => a.ins_id_ ≠ b.ins_id_) := by
    rw [List.Perm.pairwise_iff (fun h => Ne.symm h) hp]
    exact hl.imp (fun h => insIdLt_ne h)
  have hs : (sortByInsId again).Pairwise InsIdLt :=
    ((sortByInsId_sorted again).and hne).imp (fun h => insIdLt_of_le_of_ne h.1 h.2)
  exact List.eq_of_perm_of_sorted hp hs hl

theorem remerge_singletons (cfg : MergeConfig) (l : List Record) (hms : cfg.merge_size_ ≤ 1)
    (htyped : ∀ m ∈ l, ∀ f ∈ m.uint64_feasigns_, ∀ g ∈ m.float_feasigns_,
      cfg.use_slots_is_dense f.slot = true → f.slot ≠ g.slot) :
    List.Forall₂ SameContents ((l.map (fun r => [r])).filterMap (processGroup cfg)) l ∧
      droppedCount cfg (l.map (fun r => [r])) = 0 := by
  induction l with
  | nil => exact ⟨List.Forall₂.nil, rfl⟩
  | cons r rest ih =>
    obtain ⟨ih1, ih2⟩ := ih (fun m hm => htyped m (List.mem_cons_of_mem _ hm))
    have hnc : ¬ HasSparseConflict cfg [r] := by
      rw [hasSparseConflict_iff, not_not]
      exact List.pairwise_singleton _ _
    have hsize : cfg.merge_size_ ≤ 0 ∨ (([r] : List Record).length : Int) = cfg.merge_size_ := by
      simp only [List.length_singleton, Nat.cast_one]
      omega
    obtain ⟨m, hp, -, -, -, -⟩ := processGroup_of_survive cfg r [] hsize hnc
    obtain ⟨first, hmg⟩ := mergeGroup_of_processGroup cfg [r] m hp
    have hfirst : mergeGroup cfg r [r] = some m := by
      unfold processGroup at hp
      simp only [] at hp
      split at hp
      · cases hp
      · exact hp
    have hsame := mergeGroup_singleton cfg r m (htyped r (List.mem_cons_self _ _)) hfirst
    rw [List.map_cons, List.filterMap_cons, droppedCount_cons, hp]
    exact ⟨List.Forall₂.cons hsame ih1, by simpa using ih2⟩

theorem float_epsilon_eq : float_epsilon = 1 / 1000000 := by
  unfold float_epsilon
  rw [Rat.mk'_eq_divInt, Rat.divInt_eq_div]
  norm_num

/-- C7 (amended): `MergeByInsId` is idempotent on already-merged input when `merge_size_ ≤ 1`
(no size check, or groups of one record) and every dense slot carries features of one
type only.  For every such input and configuration, applying the merge to the records
produced by a first merge, in any order, drops nothing and yields the same number of
records, each with the same instance id, the same content and, slot by slot, the same
features as after the first merge. -/
theorem MergeByInsId_idempotent (cfg : MergeConfig) (recs again : List Record)
    (hms : cfg.merge_size_ ≤ 1) (htyped : SlotTyped cfg recs)
    (hperm : again.Perm (MergeByInsId cfg recs).1) :
    (MergeByInsId cfg again).1.length = (MergeByInsId cfg recs).1.length ∧
      (MergeByInsId cfg again).2 = 0 ∧
      List.Forall₂ SameContents (MergeByInsId cfg again).1 (MergeByInsId cfg recs).1 := by
  obtain ⟨hstrict, hfeat⟩ := MergeByInsId_output cfg recs
  have hsort := sortByInsId_of_perm_strict _ again hstrict hperm
  have hty : ∀ m ∈ (MergeByInsId cfg recs).1, ∀ f ∈ m.uint64_feasigns_,
      ∀ g ∈ m.float_feasigns_, cfg.use_slots_is_dense f.slot = true → f.slot ≠ g.slot := by
    intro m hm f hf g hg hd
    obtain ⟨a, ha, hfa⟩ := (hfeat m hm).1 f hf
    obtain ⟨b, hb, hgb⟩ := (hfeat m hm).2 g hg
    exact htyped a ha b hb f hfa g hgb hd
  obtain ⟨h1, h2⟩ := remerge_singletons cfg _ hms hty
  have heq : MergeByInsId cfg again =
      (((MergeByInsId cfg recs).1.map (fun r => [r])).filterMap (processGroup cfg),
        droppedCount cfg ((MergeByInsId cfg recs).1.map (fun r => [r]))) := by
    rw [MergeByInsId_eq cfg again, hsort, groupsById_of_strict _ hstrict]
  rw [heq]
  exact ⟨h1.length_eq, h2, h1⟩

/-- C7 (witness): three typed records merged without size check, and merged again. -/
theorem MergeByInsId_idempotent_witness :
    (MergeByInsId mixedCfg (MergeByInsId mixedCfg [recB1, denseRec0, denseRec5]).1).1.length =
        (MergeByInsId mixedCfg [recB1, denseRec0, denseRec5]).1.length ∧
      (MergeByInsId mixedCfg (MergeByInsId mixedCfg [recB1, denseRec0, denseRec5]).1).2 = 0 ∧
      List.Forall₂ SameContents
        (MergeByInsId mixedCfg (MergeByInsId mixedCfg [recB1, denseRec0, denseRec5]).1).1
        (MergeByInsId mixedCfg [recB1, denseRec0, denseRec5]).1 :=
  MergeByInsId_idempotent mixedCfg [recB1, denseRec0, denseRec5] _ (by decide)
    (by unfold SlotTyped; decide) (List.Perm.refl _)

/-- C7 (counterexample): with `merge_size_ = 2` the first merge of the four example records
yields one record, and merging that record again drops it (a group of one record), so no
record is left; and without size check, a dense slot that has a `uint64` feature in one
record and a `float` feature in another loses the `float` feature in the second merge. -/
theorem MergeByInsId_not_idempotent :
    ((MergeByInsId sparseCfg [recA1, recA2, recB1, recB2]).1 = [mergedA] ∧
      MergeByInsId sparseCfg (MergeByInsId sparseCfg [recA1, recA2, recB1, recB2]).1 = ([], 1)) ∧
    ((MergeByInsId mixedCfg [mixedU, mixedF]).1.map (fun m => m.float_feasigns_) = [[⟨0, 2⟩]] ∧
      (MergeByInsId mixedCfg (MergeByInsId mixedCfg [mixedU, mixedF]).1).1.map
        (fun m => m.float_feasigns_) = [[]]) := by
  refine ⟨⟨by decide, by decide⟩, by decide, by decide⟩

/-! ## Dense slots: the properties -/

theorem exists_last_occurrence {α : Type} {a : α} {l : List α} (h : a ∈ l) :
    ∃ pre post, l = pre ++ a :: post ∧ a ∉ post := by
  obtain ⟨as, bs, e, hn⟩ := List.eq_append_cons_of_mem (List.mem_reverse.2 h)
  refine ⟨bs.reverse, as.reverse, ?_, by simpa using hn⟩
  have := congrArg List.reverse e
  simpa using this

/-- C8 (amended): dense-slot merge is "last non-empty wins".  For every surviving group and
every dense integer slot `s` (no record of the group has a float feature for `s`), the
merged record carries, for `s`, the values of the last record of the group that has a
non-zero value for `s`; and when this is the only record of the group with a non-zero
value for `s`, every rearrangement of the group that survives gives the same values for
`s`. -/
theorem dense_merge_last_nonempty_wins (cfg : MergeConfig) (pre post : List Record)
    (r merged : Record) (s : Nat) (hd : cfg.use_slots_is_dense s = true)
    (hint : ∀ r' ∈ pre ++ r :: post, ∀ f ∈ r'.float_feasigns_, f.slot ≠ s)
    (hm : processGroup cfg (pre ++ r :: post) = some merged)
    (hr : hasNonzero s r) (hpost : ∀ r' ∈ post, ¬ hasNonzero s r') :
    slotValues s merged.uint64_feasigns_ = slotValues s r.uint64_feasigns_ ∧
    ((∀ r' ∈ pre, ¬ hasNonzero s r') →
      ∀ (group' : List Record) (merged' : Record), group'.Perm (pre ++ r :: post) →
        processGroup cfg group' = some merged' →
        slotValues s merged'.uint64_feasigns_ = slotValues s r.uint64_feasigns_) := by
  have key : ∀ (pre post : List Record) (merged : Record),
      (∀ r' ∈ pre ++ r :: post, ∀ f ∈ r'.float_feasigns_, f.slot ≠ s) →
      processGroup cfg (pre ++ r :: post) = some merged →
      (∀ r' ∈ post, ¬ hasNonzero s r') →
      slotValues s merged.uint64_feasigns_ = slotValues s r.uint64_feasigns_ := by
    intro pre post merged hint hm hpost
    obtain ⟨first, hmg⟩ := mergeGroup_of_processGroup cfg _ merged hm
    rw [mergeGroup_dense_uint64 cfg first _ merged s hd hint hmg,
      denseWinner_last_nonzero s pre post r ((hasNonzeroB_iff s r).2 hr)]
    · rfl
    · intro r' hr'
      have := hpost r' hr'
      rw [← hasNonzeroB_iff] at this
      simpa using this
  refine ⟨key pre post merged hint hm hpost, ?_⟩
  intro hpre group' merged' hperm hm'
  have hmem : r ∈ group' := hperm.mem_iff.2 (by simp)
  obtain ⟨pre', post', e, hnot⟩ := exists_last_occurrence hmem
  subst e
  apply key pre' post' merged'
  · intro r' hr'
    exact hint r' (hperm.mem_iff.1 hr')
  · exact hm'
  · intro r' hr' hnz
    have hin : r' ∈ pre ++ r :: post := hperm.mem_iff.1 (by simp [hr'])
    rw [List.mem_append, List.mem_cons] at hin
    rcases hin with hin | hin | hin
    · exact hpre r' hin hnz
    · exact hnot (hin ▸ hr')
    · exact hpost r' hin hnz

/-- C8 (witness): the group `[denseRec0, denseRec5]` with the dense slot 0. -/
theorem dense_merge_last_nonempty_wins_witness :
    slotValues 0
        ({ ins_id_ := "a", content_ := "zero", search_id := 0
           uint64_feasigns_ := [⟨0, 5⟩, ⟨1, 1⟩], float_feasigns_ := [] } : Record).uint64_feasigns_
      = slotValues 0 denseRec5.uint64_feasigns_ ∧
    ((∀ r' ∈ [denseRec0], ¬ hasNonzero 0 r') →
      ∀ (group' : List Record) (merged' : Record), group'.Perm ([denseRec0] ++ denseRec5 :: []) →
        processGroup denseCfg group' = some merged' →
        slotValues 0 merged'.uint64_feasigns_ = slotValues 0 denseRec5.uint64_feasigns_) :=
  dense_merge_last_nonempty_wins denseCfg [denseRec0] [] denseRec5
    { ins_id_ := "a", content_ := "zero", search_id := 0
      uint64_feasigns_ := [⟨0, 5⟩, ⟨1, 1⟩], float_feasigns_ := [] } 0 rfl (by decide) (by decide)
    ⟨⟨0, 5⟩, by decide, rfl, by decide⟩ (by simp)

/-- C8 (counterexample): two records of one instance with the values 5 and 7 for the dense
slot 0.  Merged in the order 5, 7 the result carries 7, the value of the last record and
not of the first record with a non-empty value; merged in the order 7, 5 it carries 5. -/
theorem dense_merge_not_first_nor_order_independent :
    (MergeByInsId denseCfg [denseRec5, denseRec7]).1.map
        (fun m => slotValues 0 m.uint64_feasigns_) = [[⟨0, 7⟩]] ∧
      slotValues 0 denseRec5.uint64_feasigns_ = [⟨0, 5⟩] ∧
      (MergeByInsId denseCfg [denseRec7, denseRec5]).1.map
        (fun m => slotValues 0 m.uint64_feasigns_) = [[⟨0, 5⟩]] ∧
      [denseRec7, denseRec5].Perm [denseRec5, denseRec7] := by
  refine ⟨by decide, by decide, by decide, ?_⟩
  exact List.Perm.swap _ _ _

/-- C9: dense-slot merge prefers non-empty over empty.  For every surviving group and every
dense integer slot `s` that occurs in the group (no record of the group has a float
feature for `s`), the merged record contains, for `s`, the values of exactly one record
of the group that carries `s`; if some record of the group has a non-zero value for `s`,
the chosen record has one too; and if the emitted values are all zero, then `s` is zero
in every record of the group. -/
theorem dense_merge_prefers_nonempty (cfg : MergeConfig) (group : List Record) (merged : Record)
    (s : Nat) (hd : cfg.use_slots_is_dense s = true)
    (hint : ∀ r' ∈ group, ∀ f ∈ r'.float_feasigns_, f.slot ≠ s)
    (hm : processGroup cfg group = some merged) (hocc : ∃ r' ∈ group, hasSlot s r') :
    ∃ r ∈ group, hasSlot s r ∧
      slotValues s merged.uint64_feasigns_ = slotValues s r.uint64_feasigns_ ∧
      ((∃ r' ∈ group, hasNonzero s r') → hasNonzero s r) ∧
      ((∀ f ∈ slotValues s merged.uint64_feasigns_, f.sign = 0) →
        ∀ r' ∈ group, ¬ hasNonzero s r') := by
  obtain ⟨first, hmg⟩ := mergeGroup_of_processGroup cfg _ merged hm
  have hval := mergeGroup_dense_uint64 cfg first group merged s hd hint hmg
  obtain ⟨hnone, hsome⟩ := denseWinner_spec s group
  cases hw : denseWinner s group with
  | none =>
    obtain ⟨r', hr', hs'⟩ := hocc
    have := hnone hw r' hr'
    rw [(hasSlotB_iff s r').2 hs'] at this
    cases this
  | some r =>
    obtain ⟨hmem, hslot, hnz⟩ := hsome r hw
    rw [hw] at hval
    have hval' : slotValues s merged.uint64_feasigns_ = slotValues s r.uint64_feasigns_ := hval
    have hpref : (∃ r' ∈ group, hasNonzero s r') → hasNonzero s r := by
      rintro ⟨r', hr', h'⟩
      exact (hasNonzeroB_iff s r).1 (hnz ⟨r', hr', (hasNonzeroB_iff s r').2 h'⟩)
    refine ⟨r, hmem, (hasSlotB_iff s r).1 hslot, hval', hpref, ?_⟩
    intro hzero r' hr' h'
    obtain ⟨f, hf, hfs, hfn⟩ := hpref ⟨r', hr', h'⟩
    apply hfn
    apply hzero f
    rw [hval']
    unfold slotValues
    rw [List.mem_filter]
    exact ⟨hf, by simpa using hfs⟩

/-- C9 (witness): the group `[denseRec0, denseRec5]` with the dense slot 0. -/
theorem dense_merge_prefers_nonempty_witness :
    ∃ r ∈ [denseRec0, denseRec5], hasSlot 0 r ∧
      slotValues 0
          ({ ins_id_ := "a", content_ := "zero", search_id := 0
             uint64_feasigns_ := [⟨0, 5⟩, ⟨1, 1⟩], float_feasigns_ := [] } :
            Record).uint64_feasigns_
        = slotValues 0 r.uint64_feasigns_ ∧
      ((∃ r' ∈ [denseRec0, denseRec5], hasNonzero 0 r') → hasNonzero 0 r) ∧
      ((∀ f ∈ slotValues 0
          ({ ins_id_ := "a", content_ := "zero", search_id := 0
             uint64_feasigns_ := [⟨0, 5⟩, ⟨1, 1⟩], float_feasigns_ := [] } :
            Record).uint64_feasigns_, f.sign = 0) →
        ∀ r' ∈ [denseRec0, denseRec5], ¬ hasNonzero 0 r') :=
  dense_merge_prefers_nonempty denseCfg [denseRec0, denseRec5]
    { ins_id_ := "a", content_ := "zero", search_id := 0
      uint64_feasigns_ := [⟨0, 5⟩, ⟨1, 1⟩], float_feasigns_ := [] } 0 rfl (by decide) (by decide)
    ⟨denseRec0, by decide, ⟨0, 0⟩, by decide, rfl⟩

/-! ## PV merge -/

theorem pvSizes_sum {α : Type} (pvs : List (PvInstance α)) :
    (pvSizes pvs).sum = (pvRecords pvs).length := by
  simp [pvSizes, pvRecords, List.length_flatten, List.map_map, Function.comp_def]

theorem pvRecords_append {α : Type} (a b : List (PvInstance α)) :
    pvRecords (a ++ b) = pvRecords a ++ pvRecords b := by
  simp [pvRecords]

theorem pvRecords_modifyBack {α : Type} (ins : α) (pvs : List (PvInstance α)) (h : pvs ≠ []) :
    pvRecords (modifyBack (fun pv => pv.merge_instance ins) pvs) = pvRecords pvs ++ [ins] := by
  induction pvs with
  | nil => exact absurd rfl h
  | cons x rest ih =>
    cases rest with
    | nil => simp [modifyBack, pvRecords, PvInstance.merge_instance]
    | cons y rest =>
      have h2 := ih (by simp)
      simp only [modifyBack, pvRecords, List.map_cons, List.flatten_cons, List.append_assoc]
        at h2 ⊢
      rw [h2]

theorem modifyBack_ne_nil {α : Type} (f : α → α) (l : List α) (h : l ≠ []) :
    modifyBack f l ≠ [] := by
  cases l with
  | nil => exact absurd rfl h
  | cons x rest => cases rest <;> simp [modifyBack]

theorem mergeBySidStep_records {α : Type} (search_id : α → Nat) (i : Nat) (st : PvState α)
    (ins : α) (h : i = 0 ∨ st.pv_data ≠ []) :
    pvRecords (mergeBySidStep search_id i st ins).pv_data = pvRecords st.pv_data ++ [ins] ∧
      (mergeBySidStep search_id i st ins).pv_data ≠ [] := by
  unfold mergeBySidStep
  split
  · simp [pvRecords_append, pvRecords, PvInstance.merge_instance, make_pv_instance]
  · rename_i hc
    have hne : st.pv_data ≠ [] := by
      rcases h with h | h
      · exact absurd (Or.inl h) hc
      · exact h
    exact ⟨pvRecords_modifyBack ins _ hne, modifyBack_ne_nil _ _ hne⟩

theorem mergeBySidLoop_records {α : Type} (search_id : α → Nat) (recs : List α) (i : Nat)
    (st : PvState α) (h : i = 0 ∨ st.pv_data ≠ []) :
    pvRecords (mergeBySidLoop search_id i recs st).pv_data = pvRecords st.pv_data ++ recs := by
  induction recs generalizing i st with
  | nil => simp [mergeBySidLoop]
  | cons ins rest ih =>
    have hs := mergeBySidStep_records search_id i st ins h
    simp only [mergeBySidLoop]
    rw [ih (i + 1) _ (Or.inr hs.2), hs.1]
    simp

theorem singletonLoop_records {α : Type} (recs : List α) (pv_data : List (PvInstance α)) :
    pvRecords (singletonLoop recs pv_data) = pvRecords pv_data ++ recs := by
  induction recs generalizing pv_data with
  | nil => simp [singletonLoop]
  | cons ins rest ih =>
    simp only [singletonLoop, List.foldl_cons] at ih ⊢
    rw [ih]
    simp [pvRecords_append, pvRecords, PvInstance.merge_instance, make_pv_instance]

theorem buildPvInstances_records {α : Type} (search_id : α → Nat) (merge_by_sid_ : Bool)
    (sorted : List α) :
    pvRecords (buildPvInstances search_id merge_by_sid_ sorted []) = sorted := by
  unfold buildPvInstances
  split
  · rw [mergeBySidLoop_records search_id sorted 0 _ (Or.inl rfl)]
    simp [pvRecords]
  · rw [singletonLoop_records]
    simp [pvRecords]

theorem sortBySearchId_perm {α : Type} (search_id : α → Nat) (recs : List α) :
    (sortBySearchId search_id recs).Perm recs :=
  List.perm_insertionSort _ recs

/-- Below `2^31` records `MultiSlotDataset::PreprocessInstance` builds the PvInstances of
all records. -/
theorem MultiSlotDataset_PreprocessInstance_eq (merge_by_sid_ : Bool)
    (std_sort : List Record → List Record) (input_records_ : List Record)
    (hne : input_records_ ≠ []) (hlen : input_records_.length < 2 ^ 31) :
    MultiSlotDataset.PreprocessInstance true merge_by_sid_ std_sort input_records_
      = some (buildPvInstances Record.search_id merge_by_sid_ (std_sort input_records_) []) := by
  have he : input_records_.isEmpty = false := by
    cases input_records_ with
    | nil => exact absurd rfl hne
    | cons r rest => rfl
  unfold MultiSlotDataset.PreprocessInstance
  simp only [he, castInt_of_lt hlen, Bool.false_eq_true, if_false, Int.toNat_ofNat,
    List.take_length, Bool.not_true]
  rw [if_neg (by omega)]

/-- C10 (amended): PV merge neither loses nor duplicates records, for
`MultiSlotDataset::PreprocessInstance` on inputs of fewer than `2^31` records (the number
of records is kept in an `int`) and for `PadBoxSlotDataset::PreprocessInstance` on every
input.  In both modes of `merge_by_sid_` and for every rearrangement `std::sort` may
return, the sizes of the PvInstances built sum to the number of input records, and the
records of the PvInstances taken together are a rearrangement of the input records (each
input record is in exactly one PvInstance); on an empty input the PadBox variant builds
nothing and leaves `input_pv_ins_` as it is. -/
theorem PreprocessInstance_keeps_every_record (merge_by_sid_ : Bool)
    (std_sort : List Record → List Record)
    (std_sort_slot : List SlotRecord → List SlotRecord)
    (hperm : ∀ l, (std_sort l).Perm l) (hperm_slot : ∀ l, (std_sort_slot l).Perm l) :
    (∀ input_records_ : List Record, input_records_.length < 2 ^ 31 →
      ∃ pv_data,
        MultiSlotDataset.PreprocessInstance true merge_by_sid_ std_sort input_records_
          = some pv_data ∧
        (pvSizes pv_data).sum = input_records_.length ∧
        (pvRecords pv_data).Perm input_records_) ∧
    (∀ (r : SlotRecord) (rest : List SlotRecord) (old : List (PvInstance SlotRecord)),
      (pvSizes (PadBoxSlotDataset.PreprocessInstance true merge_by_sid_ std_sort_slot
          (r :: rest) old).2).sum = (r :: rest).length ∧
        (pvRecords (PadBoxSlotDataset.PreprocessInstance true merge_by_sid_ std_sort_slot
          (r :: rest) old).2).Perm (r :: rest)) ∧
    (∀ old : List (PvInstance SlotRecord),
      (PadBoxSlotDataset.PreprocessInstance true merge_by_sid_ std_sort_slot [] old).2
        = old) := by
  refine ⟨?_, ?_, ?_⟩
  · intro recs hlen
    cases recs with
    | nil => exact ⟨[], by simp [MultiSlotDataset.PreprocessInstance], by simp [pvSizes],
        by simp [pvRecords]⟩
    | cons r rest =>
      refine ⟨_, MultiSlotDataset_PreprocessInstance_eq merge_by_sid_ std_sort (r :: rest)
        (by simp) hlen, ?_, ?_⟩
      · rw [pvSizes_sum, buildPvInstances_records]
        exact (hperm _).length_eq
      · rw [buildPvInstances_records]
        exact hperm _
  · intro r rest old
    rw [pvSizes_sum]
    have h : pvRecords (PadBoxSlotDataset.PreprocessInstance true merge_by_sid_ std_sort_slot
        (r :: rest) old).2 = std_sort_slot (r :: rest) := by
      simp [PadBoxSlotDataset.PreprocessInstance, buildPvInstances_records]
    rw [h]
    exact ⟨(hperm_slot _).length_eq, hperm_slot _⟩
  · intro old
    simp [PadBoxSlotDataset.PreprocessInstance]

/-- C10 (witness): grouping by search id, with the sort that keeps equal keys in their
order. -/
theorem PreprocessInstance_keeps_every_record_witness :
    (∀ input_records_ : List Record, input_records_.length < 2 ^ 31 →
      ∃ pv_data,
        MultiSlotDataset.PreprocessInstance true true (sortBySearchId Record.search_id)
          input_records_ = some pv_data ∧
        (pvSizes pv_data).sum = input_records_.length ∧
        (pvRecords pv_data).Perm input_records_) ∧
    (∀ (r : SlotRecord) (rest : List SlotRecord) (old : List (PvInstance SlotRecord)),
      (pvSizes (PadBoxSlotDataset.PreprocessInstance true true
          (sortBySearchId SlotRecord.search_id) (r :: rest) old).2).sum = (r :: rest).length ∧
        (pvRecords (PadBoxSlotDataset.PreprocessInstance true true
          (sortBySearchId SlotRecord.search_id) (r :: rest) old).2).Perm (r :: rest)) ∧
    (∀ old : List (PvInstance SlotRecord),
      (PadBoxSlotDataset.PreprocessInstance true true (sortBySearchId SlotRecord.search_id)
        [] old).2 = old) :=
  PreprocessInstance_keeps_every_record true (sortBySearchId Record.search_id)
    (sortBySearchId SlotRecord.search_id) (sortBySearchId_perm _) (sortBySearchId_perm _)

theorem castInt_two_pow_32_succ : castInt (2 ^ 32 + 1) = 1 := by
  unfold castInt
  norm_num

/-- C10 (counterexample): with `2^31` records `all_records_num` is negative and `reserve`
throws; with `2^32 + 1` records `all_records_num` is 1 and a single PvInstance with one
record is built, so all records but one are lost. -/
theorem PreprocessInstance_loses_records_beyond_int :
    MultiSlotDataset.PreprocessInstance true true (sortBySearchId Record.search_id)
        (List.replicate (2 ^ 31) recA1) = none ∧
    MultiSlotDataset.PreprocessInstance true true (sortBySearchId Record.search_id)
        (List.replicate (2 ^ 32 + 1) recA1) = some [⟨[recA1]⟩] ∧
    (pvSizes [(⟨[recA1]⟩ : PvInstance Record)]).sum = 1 ∧
    (List.replicate (2 ^ 32 + 1) recA1).length = 2 ^ 32 + 1 := by
  refine ⟨?_, ?_, rfl, List.length_replicate _ _⟩
  · have he : (List.replicate (2 ^ 31) recA1).isEmpty = false := by
      rw [List.isEmpty_replicate]
      decide
    unfold MultiSlotDataset.PreprocessInstance
    simp only [he, List.length_replicate, castInt_two_pow_31, Bool.false_eq_true, if_false]
    rw [if_pos (by norm_num)]
  · have he : (List.replicate (2 ^ 32 + 1) recA1).isEmpty = false := by
      rw [List.isEmpty_replicate]
      decide
    have ht : List.take 1 (List.replicate (2 ^ 32 + 1) recA1) = [recA1] := by
      rw [List.take_replicate]
      rfl
    unfold MultiSlotDataset.PreprocessInstance
    simp only [he, List.length_replicate, castInt_two_pow_32_succ, Bool.false_eq_true, if_false]
    rw [if_neg (by norm_num)]
    simp only [Bool.not_true, Bool.false_eq_true, if_false]
    have h1 : (1 : Int).toNat = 1 := rfl
    rw [h1, ht]
    rfl

/-! ## PV merge: the groups -/

theorem modifyBack_append_singleton {α : Type} (f : α → α) (P : List α) (x : α) :
    modifyBack f (P ++ [x]) = P ++ [f x] := by
  induction P with
  | nil => simp [modifyBack]
  | cons p P ih =>
    cases P with
    | nil => simp [modifyBack]
    | cons q P =>
      show p :: modifyBack f (q :: (P ++ [x])) = p :: q :: (P ++ [f x])
      rw [show modifyBack f (q :: (P ++ [x])) = q :: (P ++ [f x]) from ih]

theorem mergeBySidLoop_absorb {α : Type} (search_id : α → Nat) (k : Nat) (tw rest : List α)
    (htw : ∀ x ∈ tw, search_id x = k) (i : Nat) (P : List (PvInstance α)) (cur : List α) :
    mergeBySidLoop search_id (i + 1) (tw ++ rest)
        { pv_data := P ++ [⟨cur⟩], last_search_id := k } =
      mergeBySidLoop search_id (i + 1 + tw.length) rest
        { pv_data := P ++ [⟨cur ++ tw⟩], last_search_id := k } := by
  induction tw generalizing i cur with
  | nil => simp
  | cons t tw ih =>
    have ht : search_id t = k := htw t (List.mem_cons_self _ _)
    have hstep : mergeBySidStep search_id (i + 1)
        { pv_data := P ++ [⟨cur⟩], last_search_id := k } t
        = { pv_data := P ++ [⟨cur ++ [t]⟩], last_search_id := k } := by
      unfold mergeBySidStep
      rw [if_neg (by simp [ht])]
      simp [modifyBack_append_singleton, PvInstance.merge_instance]
    show mergeBySidLoop search_id (i + 1 + 1) (tw ++ rest)
        (mergeBySidStep search_id (i + 1) { pv_data := P ++ [⟨cur⟩], last_search_id := k } t) = _
    rw [hstep, ih (fun x hx => htw x (List.mem_cons_of_mem _ hx)) (i + 1) (cur ++ [t])]
    have e1 : i + 1 + 1 + tw.length = i + 1 + (t :: tw).length := by
      simp only [List.length_cons]
      omega
    rw [e1, List.append_assoc]
    rfl

theorem head_dropWhile_false {α : Type} (p : α → Bool) (l : List α) :
    ∀ x ∈ (l.dropWhile p).head?, p x = false := by
  induction l with
  | nil => simp
  | cons a t ih =>
    intro x hx
    by_cases h : p a = true
    · rw [List.dropWhile_cons_of_pos h] at hx
      exact ih x hx
    · rw [List.dropWhile_cons_of_neg h] at hx
      simp at hx
      subst hx
      simpa using h

theorem dedup_run (k : Nat) (run tail : List Nat) (hrun : ∀ x ∈ run, x = k) (hk : k ∉ tail) :
    (k :: (run ++ tail)).dedup = k :: tail.dedup := by
  induction run with
  | nil => simpa using List.dedup_cons_of_not_mem hk
  | cons x run ih =>
    have hx : x = k := hrun x (List.mem_cons_self _ _)
    subst hx
    rw [List.dedup_cons_of_mem (by simp)]
    exact ih (fun y hy => hrun y (List.mem_cons_of_mem _ hy))

theorem searchIdGroups_cons_run {α : Type} (search_id : α → Nat) (first : α) (tw dw : List α)
    (htw : ∀ x ∈ tw, search_id x = search_id first)
    (hdw : ∀ y ∈ dw, search_id y ≠ search_id first) :
    searchIdGroups search_id (first :: (tw ++ dw))
      = (first :: tw) :: searchIdGroups search_id dw := by
  unfold searchIdGroups
  have hd : ((first :: (tw ++ dw)).map search_id).dedup
      = search_id first :: (dw.map search_id).dedup := by
    rw [List.map_cons, List.map_append]
    apply dedup_run
    · intro x hx
      obtain ⟨y, hy, rfl⟩ := List.mem_map.1 hx
      exact htw y hy
    · intro hk
      obtain ⟨y, hy, he⟩ := List.mem_map.1 hk
      exact hdw y hy he
  rw [hd, List.map_cons]
  congr 1
  · have h1 : tw.filter (fun r => decide (search_id r = search_id first)) = tw :=
      List.filter_eq_self.2 (fun x hx => by simpa using htw x hx)
    have h2 : dw.filter (fun r => decide (search_id r = search_id first)) = [] :=
      List.filter_eq_nil_iff.2 (fun x hx => by simpa using hdw x hx)
    simp [List.filter_cons, List.filter_append, h1, h2]
  · apply List.map_congr_left
    intro k hk
    have hk2 : k ∈ dw.map search_id := List.mem_dedup.1 hk
    obtain ⟨y, hy, he⟩ := List.mem_map.1 hk2
    have hne : search_id first ≠ k := fun e => hdw y hy (he.trans e.symm)
    have h1 : tw.filter (fun r => decide (search_id r = k)) = [] :=
      List.filter_eq_nil_iff.2 (fun x hx => by
        have := htw x hx
        simp [this, hne])
    simp [List.filter_cons, List.filter_append, h1, hne]

theorem mergeBySidLoop_groups {α : Type} (search_id : α → Nat) :
    ∀ (n : Nat) (l : List α), l.length ≤ n →
      l.Pairwise (fun a b => search_id a ≤ search_id b) →
      ∀ (i : Nat) (st : PvState α),
        (i = 0 ∨ ∀ x ∈ l.head?, st.last_search_id ≠ search_id x) →
        (mergeBySidLoop search_id i l st).pv_data
          = st.pv_data ++ (searchIdGroups search_id l).map PvInstance.mk := by
  intro n
  induction n with
  | zero =>
    intro l hl _ i st _
    have : l = [] := List.length_eq_zero.1 (Nat.le_zero.1 hl)
    subst this
    simp [mergeBySidLoop, searchIdGroups]
  | succ n ih =>
    intro l hl hs i st hc
    cases l with
    | nil => simp [mergeBySidLoop, searchIdGroups]
    | cons first rest =>
      have hstep : mergeBySidStep search_id i st first
          = { pv_data := st.pv_data ++ [⟨[first]⟩], last_search_id := search_id first } := by
        unfold mergeBySidStep
        rw [if_pos (by
          rcases hc with h | h
          · exact Or.inl h
          · exact Or.inr (h first (by simp)))]
        simp [PvInstance.merge_instance, make_pv_instance]
      have hsplit := List.takeWhile_append_dropWhile
        (fun x => decide (search_id x = search_id first)) rest
      have htw : ∀ x ∈ rest.takeWhile (fun x => decide (search_id x = search_id first)),
          search_id x = search_id first := by
        intro x hx
        simpa using List.mem_takeWhile_imp hx
      have hsr := List.pairwise_cons.1 hs
      have hdws : (rest.dropWhile (fun x => decide (search_id x = search_id first))).Pairwise
          (fun a b => search_id a ≤ search_id b) :=
        hsr.2.sublist (List.dropWhile_sublist _)
      have hhead := head_dropWhile_false
        (fun x => decide (search_id x = search_id first)) rest
      have hdw : ∀ y ∈ rest.dropWhile (fun x => decide (search_id x = search_id first)),
          search_id y ≠ search_id first := by
        intro y hy
        generalize hdeq : rest.dropWhile (fun x => decide (search_id x = search_id first)) = dw
          at hy hdws hhead
        cases dw with
        | nil => simp at hy
        | cons h dw =>
          have hh : search_id h ≠ search_id first := by
            simpa using hhead h (by simp)
          have hge : search_id first ≤ search_id h :=
            hsr.1 h ((List.dropWhile_sublist _).subset (by rw [hdeq]; simp))
          have hlt : search_id first < search_id h := lt_of_le_of_ne hge (Ne.symm hh)
          rcases List.mem_cons.1 hy with e | e
          · subst e
            exact hh
          · have := (List.pairwise_cons.1 hdws).1 y e
            omega
      have hlen : (rest.dropWhile (fun x => decide (search_id x = search_id first))).length
          ≤ n := by
        have := (List.dropWhile_sublist
          (fun x => decide (search_id x = search_id first)) (l := rest)).length_le
        simp only [List.length_cons] at hl
        omega
      have hgroups := searchIdGroups_cons_run search_id first _ _ htw hdw
      rw [hsplit] at hgroups
      simp only [mergeBySidLoop]
      rw [hstep]
      conv_lhs => rw [← hsplit]
      rw [mergeBySidLoop_absorb search_id (search_id first) _ _ htw i st.pv_data [first]]
      rw [ih _ hlen hdws _ _ (Or.inr (fun x hx => by
        have := hhead x hx
        simp only [decide_eq_false_iff_not] at this
        exact fun e => this e.symm))]
      rw [hgroups]
      simp

theorem singletonLoop_eq {α : Type} (recs : List α) (pv_data : List (PvInstance α)) :
    singletonLoop recs pv_data = pv_data ++ recs.map (fun r => ⟨[r]⟩) := by
  induction recs generalizing pv_data with
  | nil => simp [singletonLoop]
  | cons ins rest ih =>
    simp only [singletonLoop, List.foldl_cons] at ih ⊢
    rw [ih]
    simp [PvInstance.merge_instance, make_pv_instance]

theorem sortBySearchId_sorted {α : Type} (search_id : α → Nat) (recs : List α) :
    (sortBySearchId search_id recs).Pairwise (fun a b => search_id a ≤ search_id b) := by
  haveI : IsTotal α (fun a b => search_id a ≤ search_id b) := ⟨fun a b => le_total _ _⟩
  haveI : IsTrans α (fun a b => search_id a ≤ search_id b) :=
    ⟨fun a b c h1 h2 => le_trans h1 h2⟩
  exact List.sorted_insertionSort (fun a b : α => search_id a ≤ search_id b) recs

/-- The PvInstances built in group-by-id mode are the groups of the sorted records. -/
theorem buildPvInstances_groups {α : Type} (search_id : α → Nat) (sorted : List α)
    (hs : sorted.Pairwise (fun a b => search_id a ≤ search_id b)) :
    buildPvInstances search_id true sorted []
      = (searchIdGroups search_id sorted).map PvInstance.mk := by
  unfold buildPvInstances
  rw [if_pos rfl, mergeBySidLoop_groups search_id _ _ (le_refl _) hs 0 _ (Or.inl rfl)]
  simp

theorem buildPvInstances_singletons {α : Type} (search_id : α → Nat) (sorted : List α) :
    buildPvInstances search_id false sorted [] = sorted.map (fun r => ⟨[r]⟩) := by
  unfold buildPvInstances
  simp [singletonLoop_eq]

theorem searchIdGroups_length {α : Type} (search_id : α → Nat) (recs sorted : List α)
    (hp : sorted.Perm recs) :
    (searchIdGroups search_id sorted).length = ((recs.map search_id).dedup).length := by
  unfold searchIdGroups
  rw [List.length_map]
  exact (hp.map search_id).dedup.length_eq

theorem searchIdGroups_mem {α : Type} (search_id : α → Nat) (recs sorted g : List α)
    (hp : sorted.Perm recs) (hg : g ∈ searchIdGroups search_id sorted) :
    g ≠ [] ∧ ∃ k, g = sorted.filter (fun r => search_id r = k) ∧
      ∀ r, r ∈ g ↔ (r ∈ recs ∧ search_id r = k) := by
  unfold searchIdGroups at hg
  obtain ⟨k, hk, rfl⟩ := List.mem_map.1 hg
  obtain ⟨y, hy, he⟩ := List.mem_map.1 (List.mem_dedup.1 hk)
  refine ⟨?_, k, rfl, ?_⟩
  · intro h
    have := List.filter_eq_nil_iff.1 h y hy
    simp [he] at this
  · intro r
    rw [List.mem_filter, hp.mem_iff]
    simp

/-- The PvInstances built from the records `recs` in group-by-id mode, `sorted` being what
the sort made of them. -/
theorem buildPvInstances_grouping {α : Type} (search_id : α → Nat) (recs sorted : List α)
    (hp : sorted.Perm recs) (hs : sorted.Pairwise (fun a b => search_id a ≤ search_id b)) :
    (buildPvInstances search_id true sorted []).map PvInstance.ads
        = searchIdGroups search_id sorted ∧
      (buildPvInstances search_id true sorted []).length
        = ((recs.map search_id).dedup).length ∧
      ∀ pv ∈ buildPvInstances search_id true sorted [],
        pv.ads ≠ [] ∧ ∃ k, pv.ads.Perm (recs.filter (fun r => search_id r = k)) := by
  rw [buildPvInstances_groups search_id sorted hs]
  refine ⟨by simp [List.map_map, Function.comp_def], ?_, ?_⟩
  · rw [List.length_map, searchIdGroups_length search_id recs sorted hp]
  · intro pv hpv
    obtain ⟨g, hg, rfl⟩ := List.mem_map.1 hpv
    obtain ⟨hne, k, hk, _⟩ := searchIdGroups_mem search_id recs sorted g hp hg
    refine ⟨hne, k, ?_⟩
    show g.Perm _
    rw [hk]
    exact hp.filter _

/-- The PvInstances built from the records `recs` in no-grouping mode. -/
theorem buildPvInstances_no_grouping {α : Type} (search_id : α → Nat) (recs sorted : List α)
    (hp : sorted.Perm recs) :
    (buildPvInstances search_id false sorted []).length = recs.length ∧
      ∀ pv ∈ buildPvInstances search_id false sorted [], ∃ r ∈ recs, pv.ads = [r] := by
  rw [buildPvInstances_singletons]
  refine ⟨by rw [List.length_map]; exact hp.length_eq, ?_⟩
  intro pv hpv
  obtain ⟨r, hr, rfl⟩ := List.mem_map.1 hpv
  exact ⟨r, hp.mem_iff.1 hr, rfl⟩

/-- C11 (amended): PV merge grouping, for `MultiSlotDataset::PreprocessInstance` on inputs
of fewer than `2^31` records (the number of records is kept in an `int`) and for
`PadBoxSlotDataset::PreprocessInstance` on every non-empty input, search id 0 included,
and for every sorted rearrangement `std::sort` may return.  In group-by-id mode
(`merge_by_sid_` set) the PvInstances are, one for each distinct search id, the records of
the sorted input that carry it: their number is the number of distinct search ids of the
input, and each of them is non-empty and holds exactly the input records of one search
id.  In no-grouping mode the number of PvInstances is the number of records and each
PvInstance holds one record of the input.  On an empty input the PadBox variant builds
nothing and leaves `input_pv_ins_` as it is. -/
theorem PreprocessInstance_groups_by_search_id
    (std_sort : List Record → List Record)
    (std_sort_slot : List SlotRecord → List SlotRecord)
    (hperm : ∀ l, (std_sort l).Perm l)
    (hsorted : ∀ l, (std_sort l).Pairwise (fun a b => a.search_id ≤ b.search_id))
    (hperm_slot : ∀ l, (std_sort_slot l).Perm l)
    (hsorted_slot : ∀ l, (std_sort_slot l).Pairwise (fun a b => a.search_id ≤ b.search_id)) :
    (∀ input_records_ : List Record, input_records_.length < 2 ^ 31 →
      (∃ pv_data,
        MultiSlotDataset.PreprocessInstance true true std_sort input_records_
          = some pv_data ∧
        pv_data.map PvInstance.ads
          = searchIdGroups Record.search_id (std_sort input_records_) ∧
        pv_data.length = ((input_records_.map Record.search_id).dedup).length ∧
        ∀ pv ∈ pv_data,
          pv.ads ≠ [] ∧
            ∃ k, pv.ads.Perm (input_records_.filter (fun r => r.search_id = k))) ∧
      (∃ pv_data,
        MultiSlotDataset.PreprocessInstance true false std_sort input_records_
          = some pv_data ∧
        pv_data.length = input_records_.length ∧
        ∀ pv ∈ pv_data, ∃ r ∈ input_records_, pv.ads = [r])) ∧
    (∀ (r : SlotRecord) (rest : List SlotRecord) (old : List (PvInstance SlotRecord)),
      (((PadBoxSlotDataset.PreprocessInstance true true std_sort_slot (r :: rest) old).2.map
            PvInstance.ads
          = searchIdGroups SlotRecord.search_id (std_sort_slot (r :: rest))) ∧
        (PadBoxSlotDataset.PreprocessInstance true true std_sort_slot (r :: rest) old).2.length
          = (((r :: rest).map SlotRecord.search_id).dedup).length ∧
        ∀ pv ∈ (PadBoxSlotDataset.PreprocessInstance true true std_sort_slot (r :: rest)
            old).2,
          pv.ads ≠ [] ∧
            ∃ k, pv.ads.Perm ((r :: rest).filter (fun x => x.search_id = k))) ∧
      ((PadBoxSlotDataset.PreprocessInstance true false std_sort_slot (r :: rest) old).2.length
          = (r :: rest).length ∧
        ∀ pv ∈ (PadBoxSlotDataset.PreprocessInstance true false std_sort_slot (r :: rest)
            old).2,
          ∃ x ∈ r :: rest, pv.ads = [x])) ∧
    (∀ (merge_by_sid_ : Bool) (old : List (PvInstance SlotRecord)),
      (PadBoxSlotDataset.PreprocessInstance true merge_by_sid_ std_sort_slot [] old).2
        = old) := by
  refine ⟨?_, ?_, ?_⟩
  · intro recs hlen
    cases recs with
    | nil =>
      have hnil : std_sort [] = [] := List.perm_nil.mp (hperm [])
      refine ⟨⟨[], ?_, ?_, ?_, ?_⟩, ⟨[], ?_, ?_, ?_⟩⟩
      · simp [MultiSlotDataset.PreprocessInstance]
      · simp [searchIdGroups, hnil]
      · simp
      · simp
      · simp [MultiSlotDataset.PreprocessInstance]
      · simp
      · simp
    | cons r rest =>
      obtain ⟨a, b, c⟩ := buildPvInstances_grouping Record.search_id (r :: rest)
        (std_sort (r :: rest)) (hperm _) (hsorted _)
      obtain ⟨d, e⟩ := buildPvInstances_no_grouping Record.search_id (r :: rest)
        (std_sort (r :: rest)) (hperm _)
      exact ⟨⟨_, MultiSlotDataset_PreprocessInstance_eq true std_sort (r :: rest) (by simp)
          hlen, a, b, c⟩,
        ⟨_, MultiSlotDataset_PreprocessInstance_eq false std_sort (r :: rest) (by simp) hlen,
          d, e⟩⟩
  · intro r rest old
    have h1 : (PadBoxSlotDataset.PreprocessInstance true true std_sort_slot (r :: rest) old).2
        = buildPvInstances SlotRecord.search_id true (std_sort_slot (r :: rest)) [] := by
      simp [PadBoxSlotDataset.PreprocessInstance]
    have h2 : (PadBoxSlotDataset.PreprocessInstance true false std_sort_slot (r :: rest) old).2
        = buildPvInstances SlotRecord.search_id false (std_sort_slot (r :: rest)) [] := by
      simp [PadBoxSlotDataset.PreprocessInstance]
    rw [h1, h2]
    exact ⟨buildPvInstances_grouping _ _ _ (hperm_slot _) (hsorted_slot _),
      buildPvInstances_no_grouping _ _ _ (hperm_slot _)⟩
  · intro m old
    simp [PadBoxSlotDataset.PreprocessInstance]

/-- C11 (witness): the sort that keeps equal keys in their order. -/
theorem PreprocessInstance_groups_by_search_id_witness :
    (∀ input_records_ : List Record, input_records_.length < 2 ^ 31 →
      (∃ pv_data,
        MultiSlotDataset.PreprocessInstance true true (sortBySearchId Record.search_id)
          input_records_ = some pv_data ∧
        pv_data.map PvInstance.ads
          = searchIdGroups Record.search_id
              (sortBySearchId Record.search_id input_records_) ∧
        pv_data.length = ((input_records_.map Record.search_id).dedup).length ∧
        ∀ pv ∈ pv_data,
          pv.ads ≠ [] ∧
            ∃ k, pv.ads.Perm (input_records_.filter (fun r => r.search_id = k))) ∧
      (∃ pv_data,
        MultiSlotDataset.PreprocessInstance true false (sortBySearchId Record.search_id)
          input_records_ = some pv_data ∧
        pv_data.length = input_records_.length ∧
        ∀ pv ∈ pv_data, ∃ r ∈ input_records_, pv.ads = [r])) ∧
    (∀ (r : SlotRecord) (rest : List SlotRecord) (old : List (PvInstance SlotRecord)),
      (((PadBoxSlotDataset.PreprocessInstance true true (sortBySearchId SlotRecord.search_id)
            (r :: rest) old).2.map PvInstance.ads
          = searchIdGroups SlotRecord.search_id
              (sortBySearchId SlotRecord.search_id (r :: rest))) ∧
        (PadBoxSlotDataset.PreprocessInstance true true (sortBySearchId SlotRecord.search_id)
            (r :: rest) old).2.length
          = (((r :: rest).map SlotRecord.search_id).dedup).length ∧
        ∀ pv ∈ (PadBoxSlotDataset.PreprocessInstance true true
            (sortBySearchId SlotRecord.search_id) (r :: rest) old).2,
          pv.ads ≠ [] ∧
            ∃ k, pv.ads.Perm ((r :: rest).filter (fun x => x.search_id = k))) ∧
      ((PadBoxSlotDataset.PreprocessInstance true false (sortBySearchId SlotRecord.search_id)
            (r :: rest) old).2.length = (r :: rest).length ∧
        ∀ pv ∈ (PadBoxSlotDataset.PreprocessInstance true false
            (sortBySearchId SlotRecord.search_id) (r :: rest) old).2,
          ∃ x ∈ r :: rest, pv.ads = [x])) ∧
    (∀ (merge_by_sid_ : Bool) (old : List (PvInstance SlotRecord)),
      (PadBoxSlotDataset.PreprocessInstance true merge_by_sid_
        (sortBySearchId SlotRecord.search_id) [] old).2 = old) :=
  PreprocessInstance_groups_by_search_id (sortBySearchId Record.search_id)
    (sortBySearchId SlotRecord.search_id) (sortBySearchId_perm _) (sortBySearchId_sorted _)
    (sortBySearchId_perm _) (sortBySearchId_sorted _)

/-- C11 (counterexample): with one record of search id 7 followed by `2^32` records of
search id 9, `all_records_num` is 1: a single PvInstance is built, with the first record,
although the input has two distinct search ids. -/
theorem PreprocessInstance_misses_search_id_beyond_int :
    MultiSlotDataset.PreprocessInstance true true (sortBySearchId Record.search_id)
        (recA1 :: List.replicate (2 ^ 32) recB1) = some [⟨[recA1]⟩] ∧
    recB1 ∈ recA1 :: List.replicate (2 ^ 32) recB1 ∧
    recB1.search_id ≠ recA1.search_id := by
  refine ⟨?_, ?_, by decide⟩
  · have hl : (recA1 :: List.replicate (2 ^ 32) recB1).length = 2 ^ 32 + 1 := by
      rw [List.length_cons, List.length_replicate]
    unfold MultiSlotDataset.PreprocessInstance
    simp only [hl, List.isEmpty_cons, castInt_two_pow_32_succ, Bool.false_eq_true, if_false]
    rw [if_neg (by norm_num)]
    simp only [Bool.not_true, Bool.false_eq_true, if_false]
    have h1 : (1 : Int).toNat = 1 := rfl
    rw [h1, List.take_succ_cons, List.take_zero]
    rfl
  · apply List.mem_cons_of_mem
    rw [List.mem_replicate]
    exact ⟨by norm_num, rfl⟩

/-! ## Block sizes after loading and after the merge -/

theorem toSizeT_of_nonneg (i : Int) (h : 0 ≤ i) : toSizeT i = i.toNat := by
  unfold toSizeT
  rw [if_pos h]

theorem tdiv_natCast_succ (size n : Nat) :
    toSizeT (Int.tdiv (size : Int) (n : Int) + 1) = size / n + 1 := by
  have h : Int.tdiv (size : Int) (n : Int) = ((size / n : Nat) : Int) := rfl
  rw [h, toSizeT_of_nonneg _ (by positivity)]
  have : ((size / n : Nat) : Int) + 1 = ((size / n + 1 : Nat) : Int) := by push_cast; rfl
  rw [this, Int.toNat_natCast]

theorem ceilDiv_eq (size n : Nat) (hn : 0 < n) :
    ceilDiv size n = size / n + (if size % n = 0 then 0 else 1) := by
  unfold ceilDiv
  have h1 := Nat.div_add_mod size n
  have h2 := Nat.mod_lt size hn
  generalize size / n = q at h1 ⊢
  have h3 : (q + 1) * n = n * q + n := by ring
  have h4 : (q + 1 + 1) * n = n * q + n + n := by ring
  have h5 : q * n = n * q := Nat.mul_comm _ _
  split
  · apply Nat.div_eq_of_lt_le
    · rw [Nat.add_zero, h5]
      omega
    · rw [Nat.add_zero, h3]
      omega
  · apply Nat.div_eq_of_lt_le
    · rw [h3]
      omega
    · rw [h4]
      omega

theorem closeInputChannel_eq {T : Type} (st : LoadState T) (hn : 0 < st.thread_num_) :
    closeInputChannel st = some { st with
      input_channel_ := st.input_channel_.Close.SetBlockSize
        (st.input_channel_.Size / st.thread_num_.toNat + 1) } := by
  unfold closeInputChannel
  obtain ⟨m, hm⟩ : ∃ m : Nat, st.thread_num_ = (m : Int) :=
    ⟨st.thread_num_.toNat, (Int.toNat_of_nonneg (le_of_lt hn)).symm⟩
  have hne : st.thread_num_ ≠ 0 := ne_of_gt hn
  have hsz : st.input_channel_.Close.Size = st.input_channel_.Size := rfl
  simp only [if_neg hne, hsz]
  rw [hm, tdiv_natCast_succ, Int.toNat_natCast]

theorem MergeByInsId_channel_data_eq (B : Nat) (channel_num_ : Int) (results : List Record)
    (hn : 0 < channel_num_) :
    MergeByInsId_channel_data B channel_num_ results
      = some { data := results, block_size := results.length / channel_num_.toNat + 1,
               closed := true } := by
  unfold MergeByInsId_channel_data
  have h0 : toSizeT channel_num_ = channel_num_.toNat := toSizeT_of_nonneg _ (le_of_lt hn)
  have hpos : channel_num_.toNat ≠ 0 := by omega
  simp [h0, hpos, MakeChannel, Channel.Open, Channel.Write, Channel.Close, Channel.SetBlockSize,
    Channel.Size]

/-- C12: the block size after loading and after the merge.  For every positive
`thread_num_`, `LoadIntoMemory` and `WaitPreLoadDone` return with the input channel closed
and its block size set to `size / thread_num_ + 1` (the quotient rounded down, plus one),
where `size` is the number of records in the channel; for every positive `channel_num_`
the temporary channel of `MergeByInsId` gets the block size `size / channel_num_ + 1`.
This is `ceil(size / count)` when `count` does not divide `size`, and `ceil(size / count)
+ 1` when it does. -/
theorem block_size_is_quotient_plus_one {T : Type} (B : Nat) (st : LoadState T)
    (loaded : List T) (channel_num_ : Int) (results : List Record)
    (hthread : 0 < st.thread_num_) (hchannel : 0 < channel_num_) :
    (∃ st', LoadIntoMemory st loaded = some st' ∧ WaitPreLoadDone st loaded = some st' ∧
      st'.input_channel_.closed = true ∧
      st'.input_channel_.Size = st.input_channel_.Size + loaded.length ∧
      st'.input_channel_.block_size = st'.input_channel_.Size / st.thread_num_.toNat + 1 ∧
      st'.input_channel_.block_size =
        ceilDiv st'.input_channel_.Size st.thread_num_.toNat +
          (if st'.input_channel_.Size % st.thread_num_.toNat = 0 then 1 else 0)) ∧
    (∃ channel_data, MergeByInsId_channel_data B channel_num_ results = some channel_data ∧
      channel_data.Size = results.length ∧
      channel_data.block_size = results.length / channel_num_.toNat + 1 ∧
      channel_data.block_size =
        ceilDiv results.length channel_num_.toNat +
          (if results.length % channel_num_.toNat = 0 then 1 else 0)) := by
  have hkey : ∀ size n : Nat, 0 < n →
      size / n + 1 = ceilDiv size n + (if size % n = 0 then 1 else 0) := by
    intro size n hn
    rw [ceilDiv_eq size n hn]
    split <;> omega
  have hn1 : 0 < st.thread_num_.toNat := by omega
  have hn2 : 0 < channel_num_.toNat := by omega
  refine ⟨⟨_, closeInputChannel_eq _ hthread, closeInputChannel_eq _ hthread, rfl, ?_, rfl, ?_⟩,
    ⟨_, MergeByInsId_channel_data_eq B channel_num_ results hchannel, rfl, rfl, ?_⟩⟩
  · simp [Channel.Size, Channel.Write, Channel.Close, Channel.SetBlockSize]
  · exact hkey _ _ hn1
  · exact hkey _ _ hn2

theorem block_size_is_quotient_plus_one_witness :
    (∃ st', LoadIntoMemory twoThreads [1, 2, 3, 4, 5] = some st' ∧
      WaitPreLoadDone twoThreads [1, 2, 3, 4, 5] = some st' ∧
      st'.input_channel_.closed = true ∧
      st'.input_channel_.Size = twoThreads.input_channel_.Size + [1, 2, 3, 4, 5].length ∧
      st'.input_channel_.block_size = st'.input_channel_.Size / twoThreads.thread_num_.toNat + 1 ∧
      st'.input_channel_.block_size =
        ceilDiv st'.input_channel_.Size twoThreads.thread_num_.toNat +
          (if st'.input_channel_.Size % twoThreads.thread_num_.toNat = 0 then 1 else 0)) ∧
    (∃ channel_data,
      MergeByInsId_channel_data 1024 2 [recA1, recA2, recB1] = some channel_data ∧
      channel_data.Size = [recA1, recA2, recB1].length ∧
      channel_data.block_size = [recA1, recA2, recB1].length / (2 : Int).toNat + 1 ∧
      channel_data.block_size =
        ceilDiv [recA1, recA2, recB1].length (2 : Int).toNat +
          (if [recA1, recA2, recB1].length % (2 : Int).toNat = 0 then 1 else 0)) :=
  block_size_is_quotient_plus_one 1024 twoThreads [1, 2, 3, 4, 5] 2 [recA1, recA2, recB1]
    (by decide) (by decide)

/-- With two threads and four loaded records the block size of the input channel is 3 after
`LoadIntoMemory` and after `WaitPreLoadDone`, and with two channels and four merged
records the block size used by `MergeByInsId` is 3, while `ceil(4 / 2)` is 2; with no
record at all the block size is 1, while `ceil(0 / 2)` is 0. -/
theorem block_size_is_not_ceil :
    (LoadIntoMemory twoThreads [1, 2, 3, 4]).map (fun st => st.input_channel_.block_size)
        = some 3 ∧
      (WaitPreLoadDone twoThreads [1, 2, 3, 4]).map (fun st => st.input_channel_.block_size)
        = some 3 ∧
      (MergeByInsId_channel_data 1024 2 [recA1, recA2, recB1, recB1]).map Channel.block_size
        = some 3 ∧
      ceilDiv 4 2 = 2 ∧
      (LoadIntoMemory twoThreads []).map (fun st => st.input_channel_.block_size) = some 1 ∧
      ceilDiv 0 2 = 0 := by
  refine ⟨?_, ?_, ?_, ?_, ?_, ?_⟩
  · decide
  · decide
  · rw [MergeByInsId_channel_data_eq 1024 2 _ (by decide)]
    rfl
  · decide
  · decide
  · decide

/-! ## Distributed shuffle: the partition functions -/

theorem castInt_mod (x : Nat) (n : Int) (h1 : 1 ≤ n) (h2 : n < 2 ^ 31) :
    toSizeT n = n.toNat ∧ n.toNat ≠ 0 ∧
      castInt (x % toSizeT n) = ((x % n.toNat : Nat) : Int) ∧
      (0 : Int) ≤ ((x % n.toNat : Nat) : Int) ∧ ((x % n.toNat : Nat) : Int) < n := by
  have h0 : toSizeT n = n.toNat := toSizeT_of_nonneg n (by omega)
  have hpos : 0 < n.toNat := by omega
  have hlt : x % n.toNat < n.toNat := Nat.mod_lt _ hpos
  refine ⟨h0, by omega, ?_, by positivity, by omega⟩
  rw [h0]
  exact castInt_of_lt (by omega)

theorem ShuffleData_client_id_eq (cfg : ShuffleConfig) (XXH64 : String → Nat) (random : Nat)
    (t : SlotRecord) (h1 : 1 ≤ cfg.mpi_size_) (h2 : cfg.mpi_size_ < 2 ^ 31) :
    ShuffleData_client_id cfg XXH64 random t =
      some (((if cfg.enable_pv_merge_ || cfg.FLAGS_enable_shuffle_by_searchid then t.search_id
        else if cfg.merge_by_insid_ then XXH64 t.ins_id_ else random)
          % cfg.mpi_size_.toNat : Nat) : Int) := by
  unfold ShuffleData_client_id
  have ha := castInt_mod t.search_id cfg.mpi_size_ h1 h2
  have hb := castInt_mod (XXH64 t.ins_id_) cfg.mpi_size_ h1 h2
  have hc := castInt_mod random cfg.mpi_size_ h1 h2
  rw [if_neg (by rw [ha.1]; exact ha.2.1)]
  split
  · rw [ha.2.2.1]
  · split
    · rw [hb.2.2.1]
    · rw [hc.2.2.1]

/-- C13: the partition functions of the distributed shuffles.  For a rank count from 1 to
`2 ^ 31 - 1`, the destination `ShuffleData` computes for a record is a rank in
`[0, mpi_size_)`; with PV merge or shuffle-by-search-id on it is `search_id % mpi_size_`,
so records of equal search id go to the same rank whatever the random engine returns;
otherwise, with merge-by-instance-id on, it is `XXH64(ins_id_) % mpi_size_`, so records of
equal instance id go to the same rank.  The function `get_client_id` of `GlobalShuffle`
yields a rank in `[0, trainer_num_)` for a positive `trainer_num_`, and has no branch on
the search id: with merge-by-instance-id on the rank is `XXH64(ins_id_) % trainer_num_`,
so records of equal instance id go to the same rank; with it off the rank is the random
value modulo `trainer_num_`, whether PV merge is on or not. -/
theorem partition_function_in_range_and_key_consistent (cfg : ShuffleConfig)
    (XXH64 : String → Nat) (merge_by_insid_ : Bool) (trainer_num_ : Int)
    (h1 : 1 ≤ cfg.mpi_size_) (h2 : cfg.mpi_size_ < 2 ^ 31) (h3 : 1 ≤ trainer_num_) :
    (∀ (random : Nat) (t : SlotRecord),
      ∃ client_id, ShuffleData_client_id cfg XXH64 random t = some client_id ∧
        0 ≤ client_id ∧ client_id < cfg.mpi_size_) ∧
    ((cfg.enable_pv_merge_ = true ∨ cfg.FLAGS_enable_shuffle_by_searchid = true) →
      (∀ (random : Nat) (t : SlotRecord), ShuffleData_client_id cfg XXH64 random t
        = some ((t.search_id % cfg.mpi_size_.toNat : Nat) : Int)) ∧
      ∀ (random1 random2 : Nat) (t1 t2 : SlotRecord), t1.search_id = t2.search_id →
        ShuffleData_client_id cfg XXH64 random1 t1
          = ShuffleData_client_id cfg XXH64 random2 t2) ∧
    (cfg.enable_pv_merge_ = false → cfg.FLAGS_enable_shuffle_by_searchid = false →
      cfg.merge_by_insid_ = true →
      (∀ (random : Nat) (t : SlotRecord), ShuffleData_client_id cfg XXH64 random t
        = some ((XXH64 t.ins_id_ % cfg.mpi_size_.toNat : Nat) : Int)) ∧
      ∀ (random1 random2 : Nat) (t1 t2 : SlotRecord), t1.ins_id_ = t2.ins_id_ →
        ShuffleData_client_id cfg XXH64 random1 t1
          = ShuffleData_client_id cfg XXH64 random2 t2) ∧
    (∀ (random : Nat) (data : Record),
      ∃ client_id, GlobalShuffle_get_client_id merge_by_insid_ trainer_num_ XXH64 random data
          = some client_id ∧ (client_id : Int) < trainer_num_) ∧
    (merge_by_insid_ = true →
      (∀ (random : Nat) (data : Record),
        GlobalShuffle_get_client_id merge_by_insid_ trainer_num_ XXH64 random data
          = some (XXH64 data.ins_id_ % trainer_num_.toNat)) ∧
      ∀ (random1 random2 : Nat) (d1 d2 : Record), d1.ins_id_ = d2.ins_id_ →
        GlobalShuffle_get_client_id merge_by_insid_ trainer_num_ XXH64 random1 d1
          = GlobalShuffle_get_client_id merge_by_insid_ trainer_num_ XXH64 random2 d2) ∧
    (merge_by_insid_ = false →
      ∀ (random : Nat) (data : Record),
        GlobalShuffle_get_client_id merge_by_insid_ trainer_num_ XXH64 random data
          = some (random % trainer_num_.toNat)) := by
  have hg0 : toSizeT trainer_num_ = trainer_num_.toNat := toSizeT_of_nonneg _ (by omega)
  have hgpos : 0 < trainer_num_.toNat := by omega
  have hg : ∀ (random : Nat) (data : Record),
      GlobalShuffle_get_client_id merge_by_insid_ trainer_num_ XXH64 random data
        = some ((if merge_by_insid_ then XXH64 data.ins_id_ else random)
            % trainer_num_.toNat) := by
    intro random data
    unfold GlobalShuffle_get_client_id
    rw [hg0, if_neg (by omega)]
    cases merge_by_insid_ <;> simp
  refine ⟨?_, ?_, ?_, ?_, ?_, ?_⟩
  · intro random t
    refine ⟨_, ShuffleData_client_id_eq cfg XXH64 random t h1 h2, by positivity, ?_⟩
    exact (castInt_mod _ cfg.mpi_size_ h1 h2).2.2.2.2
  · intro hpv
    have hb : (cfg.enable_pv_merge_ || cfg.FLAGS_enable_shuffle_by_searchid) = true := by
      rcases hpv with h | h <;> simp [h]
    have key : ∀ (random : Nat) (t : SlotRecord), ShuffleData_client_id cfg XXH64 random t
        = some ((t.search_id % cfg.mpi_size_.toNat : Nat) : Int) := by
      intro random t
      rw [ShuffleData_client_id_eq cfg XXH64 random t h1 h2, if_pos hb]
    refine ⟨key, ?_⟩
    intro r1 r2 t1 t2 he
    rw [key, key, he]
  · intro hpv hflag hins
    have key : ∀ (random : Nat) (t : SlotRecord), ShuffleData_client_id cfg XXH64 random t
        = some ((XXH64 t.ins_id_ % cfg.mpi_size_.toNat : Nat) : Int) := by
      intro random t
      rw [ShuffleData_client_id_eq cfg XXH64 random t h1 h2, if_neg (by simp [hpv, hflag]),
        if_pos hins]
    refine ⟨key, ?_⟩
    intro r1 r2 t1 t2 he
    rw [key, key, he]
  · intro random data
    refine ⟨_, hg random data, ?_⟩
    have := Nat.mod_lt (if merge_by_insid_ then XXH64 data.ins_id_ else random) hgpos
    omega
  · intro hm
    have key : ∀ (random : Nat) (data : Record),
        GlobalShuffle_get_client_id merge_by_insid_ trainer_num_ XXH64 random data
          = some (XXH64 data.ins_id_ % trainer_num_.toNat) := by
      intro random data
      rw [hg, if_pos hm]
    refine ⟨key, ?_⟩
    intro r1 r2 d1 d2 he
    rw [key, key, he]
  · intro hm random data
    rw [hg, hm]
    simp

theorem partition_function_in_range_and_key_consistent_witness :
    (∀ (random : Nat) (t : SlotRecord),
      ∃ client_id, ShuffleData_client_id pvShuffle lengthHash random t = some client_id ∧
        0 ≤ client_id ∧ client_id < pvShuffle.mpi_size_) ∧
    ((pvShuffle.enable_pv_merge_ = true ∨ pvShuffle.FLAGS_enable_shuffle_by_searchid = true) →
      (∀ (random : Nat) (t : SlotRecord), ShuffleData_client_id pvShuffle lengthHash random t
        = some ((t.search_id % pvShuffle.mpi_size_.toNat : Nat) : Int)) ∧
      ∀ (random1 random2 : Nat) (t1 t2 : SlotRecord), t1.search_id = t2.search_id →
        ShuffleData_client_id pvShuffle lengthHash random1 t1
          = ShuffleData_client_id pvShuffle lengthHash random2 t2) ∧
    (pvShuffle.enable_pv_merge_ = false → pvShuffle.FLAGS_enable_shuffle_by_searchid = false →
      pvShuffle.merge_by_insid_ = true →
      (∀ (random : Nat) (t : SlotRecord), ShuffleData_client_id pvShuffle lengthHash random t
        = some ((lengthHash t.ins_id_ % pvShuffle.mpi_size_.toNat : Nat) : Int)) ∧
      ∀ (random1 random2 : Nat) (t1 t2 : SlotRecord), t1.ins_id_ = t2.ins_id_ →
        ShuffleData_client_id pvShuffle lengthHash random1 t1
          = ShuffleData_client_id pvShuffle lengthHash random2 t2) ∧
    (∀ (random : Nat) (data : Record),
      ∃ client_id, GlobalShuffle_get_client_id true 2 lengthHash random data
          = some client_id ∧ (client_id : Int) < 2) ∧
    (true = true →
      (∀ (random : Nat) (data : Record),
        GlobalShuffle_get_client_id true 2 lengthHash random data
          = some (lengthHash data.ins_id_ % (2 : Int).toNat)) ∧
      ∀ (random1 random2 : Nat) (d1 d2 : Record), d1.ins_id_ = d2.ins_id_ →
        GlobalShuffle_get_client_id true 2 lengthHash random1 d1
          = GlobalShuffle_get_client_id true 2 lengthHash random2 d2) ∧
    (true = false →
      ∀ (random : Nat) (data : Record),
        GlobalShuffle_get_client_id true 2 lengthHash random data
          = some (random % (2 : Int).toNat)) :=
  partition_function_in_range_and_key_consistent pvShuffle lengthHash true 2
    (by decide) (by decide) (by decide)

/-- The function `get_client_id` of `GlobalShuffle` does not read the search id: with
merge-by-instance-id off, one and the same record (search id 7) goes to trainer 0 when the
random engine returns 0 and to trainer 1 when it returns 1, whether PV merge is on or
not. -/
theorem GlobalShuffle_get_client_id_ignores_search_id :
    recA1.search_id = 7 ∧
      GlobalShuffle_get_client_id false 2 lengthHash 0 recA1 = some 0 ∧
      GlobalShuffle_get_client_id false 2 lengthHash 1 recA1 = some 1 := by
  refine ⟨rfl, ?_, ?_⟩ <;> decide

/-! ## Distributed shuffle: routing the records of a batch -/

theorem flatten_set_append {α : Type} (ars : List (List α)) (i : Nat) (t : α)
    (hi : i < ars.length) :
    ((ars.set i (ars.getD i [] ++ [t])).flatten).Perm (ars.flatten ++ [t]) := by
  induction ars generalizing i with
  | nil => simp at hi
  | cons a as ih =>
    cases i with
    | zero =>
      simp only [List.set_cons_zero, List.flatten_cons, List.getD_cons_zero, List.append_assoc]
      exact List.Perm.append_left a List.perm_append_comm
    | succ i =>
      simp only [List.set_cons_succ, List.flatten_cons, List.getD_cons_succ, List.append_assoc]
      exact List.Perm.append_left a (ih i (by simpa using hi))

theorem getD_set_self {α : Type} (l : List α) (i : Nat) (a d : α) (hi : i < l.length) :
    (l.set i a).getD i d = a := by
  simp [List.getD_eq_getElem?_getD, List.getElem?_set, hi]

theorem getD_set_ne {α : Type} (l : List α) (i m : Nat) (a d : α) (h : i ≠ m) :
    (l.set i a).getD m d = l.getD m d := by
  simp [List.getD_eq_getElem?_getD, List.getElem?_set, h]

theorem routedTo_cons (t : SlotRecord) (c : Option Int) (rest : List (SlotRecord × Option Int))
    (i : Int) :
    routedTo ((t, c) :: rest) i = if c = some i then t :: routedTo rest i else routedTo rest i := by
  unfold routedTo
  by_cases h : c = some i <;> simp [List.filter_cons, h]

/-- One step of the routing loop, for a rank count from 1 to `2 ^ 31 - 1` and as many
archives as ranks. -/
theorem ShuffleData_route_eq (cfg : ShuffleConfig) (XXH64 : String → Nat) (random : Nat)
    (st : ShuffleLocals) (t : SlotRecord) (h1 : 1 ≤ cfg.mpi_size_) (h2 : cfg.mpi_size_ < 2 ^ 31)
    (hlen : st.ars.length = cfg.mpi_size_.toNat) :
    ∃ c : Nat, ShuffleData_client_id cfg XXH64 random t = some (c : Int) ∧ c < st.ars.length ∧
      ShuffleData_route cfg XXH64 random st t =
        some (if (c : Int) = cfg.mpi_rank_ then { st with loc_datas := st.loc_datas ++ [t] }
          else { st with ars := st.ars.set c (st.ars.getD c [] ++ [t])
                         releases := st.releases ++ [t] }) := by
  have he := ShuffleData_client_id_eq cfg XXH64 random t h1 h2
  generalize (if cfg.enable_pv_merge_ || cfg.FLAGS_enable_shuffle_by_searchid then t.search_id
    else if cfg.merge_by_insid_ then XXH64 t.ins_id_ else random) = key at he
  have hlt : key % cfg.mpi_size_.toNat < st.ars.length := by
    rw [hlen]
    exact Nat.mod_lt _ (by omega)
  refine ⟨_, he, hlt, ?_⟩
  unfold ShuffleData_route
  rw [he]
  by_cases hown : ((key % cfg.mpi_size_.toNat : Nat) : Int) = cfg.mpi_rank_
  · simp only [if_pos hown]
  · simp only [if_neg hown]
    rw [if_pos ⟨by positivity, by rw [Int.toNat_natCast]; exact hlt⟩, Int.toNat_natCast]

theorem ShuffleData_routeAll_eq (cfg : ShuffleConfig) (XXH64 : String → Nat)
    (draws : Nat → Nat) (h1 : 1 ≤ cfg.mpi_size_) (h2 : cfg.mpi_size_ < 2 ^ 31)
    (data : List SlotRecord) :
    ∀ (k : Nat) (st : ShuffleLocals), st.ars.length = cfg.mpi_size_.toNat →
      ∃ st', ShuffleData_routeAll cfg XXH64 draws k data st = some st' ∧
        st'.loc_datas =
          st.loc_datas ++ routedTo (destinations cfg XXH64 draws k data) cfg.mpi_rank_ ∧
        st'.ars.length = st.ars.length ∧
        (∀ m, m < st.ars.length → st'.ars.getD m [] = st.ars.getD m [] ++
          (if (m : Int) = cfg.mpi_rank_ then []
            else routedTo (destinations cfg XXH64 draws k data) (m : Int))) ∧
        (st'.loc_datas ++ st'.ars.flatten).Perm (st.loc_datas ++ st.ars.flatten ++ data) := by
  induction data with
  | nil =>
    intro k st _
    refine ⟨st, rfl, by simp [destinations, routedTo], rfl, ?_, by simp⟩
    intro m _
    simp [destinations, routedTo]
  | cons t rest ih =>
    intro k st hlen
    obtain ⟨c, hc, hclt, hroute⟩ := ShuffleData_route_eq cfg XXH64 (draws k) st t h1 h2 hlen
    have hd : destinations cfg XXH64 draws k (t :: rest)
        = (t, some (c : Int)) :: destinations cfg XXH64 draws (k + 1) rest := by
      simp only [destinations, hc]
    have hrun : ShuffleData_routeAll cfg XXH64 draws k (t :: rest) st
        = ShuffleData_routeAll cfg XXH64 draws (k + 1) rest
            (if (c : Int) = cfg.mpi_rank_ then { st with loc_datas := st.loc_datas ++ [t] }
              else { st with ars := st.ars.set c (st.ars.getD c [] ++ [t])
                             releases := st.releases ++ [t] }) := by
      simp only [ShuffleData_routeAll, hroute]
    rw [hrun, hd]
    by_cases hown : (c : Int) = cfg.mpi_rank_
    · rw [if_pos hown]
      obtain ⟨st', hs, hloc, hl, hars, hperm⟩ :=
        ih (k + 1) { st with loc_datas := st.loc_datas ++ [t] } hlen
      dsimp only at hloc hl hars hperm
      refine ⟨st', hs, ?_, hl, ?_, ?_⟩
      · rw [hloc, routedTo_cons, if_pos (by rw [hown])]
        simp
      · intro m hm
        rw [hars m hm, routedTo_cons]
        by_cases hmr : (m : Int) = cfg.mpi_rank_
        · rw [if_pos hmr, if_pos hmr]
        · have hcm : ¬ (some (c : Int) = some (m : Int)) := by
            intro e
            rw [Option.some.injEq] at e
            exact hmr (e ▸ hown)
          rw [if_neg hmr, if_neg hmr, if_neg hcm]
      · refine hperm.trans ?_
        have e1 : st.loc_datas ++ [t] ++ st.ars.flatten ++ rest
            = st.loc_datas ++ (([t] ++ st.ars.flatten) ++ rest) := by simp
        have e2 : st.loc_datas ++ st.ars.flatten ++ t :: rest
            = st.loc_datas ++ ((st.ars.flatten ++ [t]) ++ rest) := by simp
        rw [e1, e2]
        exact List.Perm.append_left _ (List.Perm.append_right rest List.perm_append_comm)
    · rw [if_neg hown]
      obtain ⟨st', hs, hloc, hl, hars, hperm⟩ :=
        ih (k + 1) { st with ars := st.ars.set c (st.ars.getD c [] ++ [t])
                             releases := st.releases ++ [t] } (by simpa using hlen)
      dsimp only at hloc hl hars hperm
      rw [List.length_set] at hl hars
      have hne : ¬ (some (c : Int) = some cfg.mpi_rank_) := by
        intro e
        rw [Option.some.injEq] at e
        exact hown e
      refine ⟨st', hs, ?_, hl, ?_, ?_⟩
      · rw [hloc, routedTo_cons, if_neg hne]
      · intro m hm
        rw [hars m hm, routedTo_cons]
        by_cases hmc : c = m
        · subst hmc
          rw [getD_set_self _ _ _ _ hclt, if_neg hown, if_neg hown, if_pos rfl]
          simp
        · have hcm : ¬ (some (c : Int) = some (m : Int)) := by
            intro e
            rw [Option.some.injEq] at e
            exact hmc (by exact_mod_cast e)
          rw [getD_set_ne _ _ _ _ _ hmc, if_neg hcm]
      · refine hperm.trans ?_
        have e1 : st.loc_datas ++ (st.ars.set c (st.ars.getD c [] ++ [t])).flatten ++ rest
            = st.loc_datas ++ ((st.ars.set c (st.ars.getD c [] ++ [t])).flatten ++ rest) := by
          simp
        have e2 : st.loc_datas ++ st.ars.flatten ++ t :: rest
            = st.loc_datas ++ ((st.ars.flatten ++ [t]) ++ rest) := by simp
        rw [e1, e2]
        exact List.Perm.append_left _
          (List.Perm.append_right rest (flatten_set_append st.ars c t hclt))

/-! ## Distributed shuffle: the send loop -/

theorem ShuffleResultWaitGroup_done_counter (wg : ShuffleResultWaitGroup) :
    wg.done.counter_ = wg.counter_ - 1 := by
  simp [ShuffleResultWaitGroup.done, ShuffleResultWaitGroup.add]
  rfl

theorem ShuffleResultWaitGroup_add_counter (wg : ShuffleResultWaitGroup) (delta : Int) :
    (wg.add delta).counter_ = wg.counter_ + delta := by
  unfold ShuffleResultWaitGroup.add
  split
  · rename_i h
    rw [h, Int.add_zero]
  · rfl

theorem ShuffleData_dispatch_step_cases (cfg : ShuffleConfig) :
    SettlesOrSends (ShuffleData_dispatch_step cfg) := by
  intro st
  unfold ShuffleData_dispatch_step
  split
  · exact ⟨rfl, Or.inl ⟨ShuffleResultWaitGroup_done_counter _, rfl, rfl⟩⟩
  · split
    · exact ⟨rfl, Or.inl ⟨ShuffleResultWaitGroup_done_counter _, rfl, rfl⟩⟩
    · exact ⟨rfl, Or.inr ⟨rfl, rfl, by simp⟩⟩

theorem ShuffleData_broadcast_step_cases (cfg : ShuffleConfig) :
    SettlesOrSends (ShuffleData_broadcast_step cfg) := by
  intro st
  unfold ShuffleData_broadcast_step
  split
  · exact ⟨rfl, Or.inl ⟨ShuffleResultWaitGroup_done_counter _, rfl, rfl⟩⟩
  · exact ⟨rfl, Or.inr ⟨rfl, rfl, by simp⟩⟩

/-- Under every schedule, `counter_ - pending + i` keeps its value, the index stays within
the rank count, and the sends issued are the pending ones plus the callbacks fired. -/
theorem dispatchRun_invariant (cfg : ShuffleConfig) (step : DispatchState → DispatchState)
    (hstep : SettlesOrSends step) (evs : List DispatchEvent) :
    ∀ st st', dispatchRun cfg step evs st = some st' →
      st'.wg.counter_ - st'.pending + st'.i = st.wg.counter_ - st.pending + st.i ∧
      ((st.i : Int) ≤ cfg.mpi_size_ → (st'.i : Int) ≤ cfg.mpi_size_) ∧
      st'.sends.length + st.pending
        = st.sends.length + st'.pending + evs.count DispatchEvent.callback := by
  induction evs with
  | nil =>
    intro st st' h
    simp only [dispatchRun, Option.some.injEq] at h
    subst h
    simp
  | cons ev evs ih =>
    intro st st' h
    cases ev with
    | iteration =>
      simp only [dispatchRun] at h
      split at h
      · rename_i hlt
        obtain ⟨ha, hb, hc⟩ := ih _ _ h
        obtain ⟨hi, hcase⟩ := hstep st
        have hcount : (DispatchEvent.iteration :: evs).count DispatchEvent.callback
            = evs.count DispatchEvent.callback := by
          rw [List.count_cons_of_ne (by decide)]
        rw [hcount]
        refine ⟨?_, ?_, ?_⟩
        · rcases hcase with ⟨h1, h2, _⟩ | ⟨h1, h2, _⟩ <;> rw [ha, hi, h1, h2] <;> push_cast <;> ring
        · intro _
          apply hb
          rw [hi]
          push_cast
          omega
        · rcases hcase with ⟨_, h2, h3⟩ | ⟨_, h2, h3⟩ <;> omega
      · exact absurd h (by simp)
    | callback =>
      simp only [dispatchRun] at h
      split at h
      · exact absurd h (by simp)
      · rename_i hp
        obtain ⟨ha, hb, hc⟩ := ih _ _ h
        simp only [ShuffleResultWaitGroup.on_notify, ShuffleResultWaitGroup_done_counter]
          at ha hb hc
        rw [List.count_cons_self]
        refine ⟨?_, hb, by omega⟩
        rw [ha]
        have : ((st.pending - 1 : Nat) : Int) = (st.pending : Int) - 1 := by omega
        rw [this]
        ring

theorem sendsOf_congr (cfg : ShuffleConfig) (ars ars' : List (List SlotRecord)) (i j : Nat)
    (h : ∀ m, i ≤ m → ars'.getD m [] = ars.getD m []) :
    sendsOf cfg ars' i j = sendsOf cfg ars i j := by
  unfold sendsOf
  induction j generalizing i with
  | zero => simp
  | succ j ih =>
    simp only [List.range'_succ, List.filterMap_cons, h i (le_refl _)]
    rw [ih (i + 1) (fun m hm => h m (by omega))]

theorem sendsOf_succ (cfg : ShuffleConfig) (ars : List (List SlotRecord)) (i j : Nat) :
    sendsOf cfg ars i (j + 1) =
      (if (i : Int) = cfg.mpi_rank_ ∨ (ars.getD i []).length = 0 then []
        else [(i, ars.getD i [])]) ++ sendsOf cfg ars (i + 1) j := by
  unfold sendsOf
  simp only [List.range'_succ, List.filterMap_cons]
  split <;> rename_i h
  · split at h
    · rename_i hc
      rw [if_pos hc]
      rfl
    · exact absurd h (by simp)
  · split at h
    · exact absurd h (by simp)
    · rename_i hc
      rw [if_neg hc]
      simp only [Option.some.injEq] at h
      rw [← h]
      rfl

theorem ShuffleData_dispatch_step_sends (cfg : ShuffleConfig) (st : DispatchState) :
    (ShuffleData_dispatch_step cfg st).sends = st.sends ++
      (if (st.i : Int) = cfg.mpi_rank_ ∨ (st.ars.getD st.i []).length = 0 then []
        else [(st.i, st.ars.getD st.i [])]) := by
  unfold ShuffleData_dispatch_step
  by_cases h : (st.i : Int) = cfg.mpi_rank_
  · rw [if_pos h, if_pos (Or.inl h)]
    simp
  · by_cases h0 : (st.ars.getD st.i []).length = 0
    · rw [if_neg h, if_pos h0, if_pos (Or.inr h0)]
      simp
    · rw [if_neg h, if_neg h0, if_neg (by
        intro hc
        rcases hc with hc | hc
        · exact h hc
        · exact h0 hc)]

theorem ShuffleData_dispatch_step_ars (cfg : ShuffleConfig) (st : DispatchState) :
    (ShuffleData_dispatch_step cfg st).ars.length = st.ars.length ∧
      ∀ m, (ShuffleData_dispatch_step cfg st).ars.getD m [] =
        if m = st.i ∧ (m : Int) ≠ cfg.mpi_rank_ then [] else st.ars.getD m [] := by
  unfold ShuffleData_dispatch_step
  by_cases h : (st.i : Int) = cfg.mpi_rank_
  · rw [if_pos h]
    refine ⟨rfl, fun m => ?_⟩
    rw [if_neg (by
      intro hc
      exact hc.2 (hc.1 ▸ h))]
  · by_cases h0 : (st.ars.getD st.i []).length = 0
    · rw [if_neg h, if_pos h0]
      refine ⟨rfl, fun m => ?_⟩
      by_cases hm : m = st.i
      · rw [hm, if_pos ⟨rfl, h⟩]
        exact List.length_eq_zero.1 h0
      · rw [if_neg (fun hc => hm hc.1)]
    · rw [if_neg h, if_neg h0]
      refine ⟨by simp, fun m => ?_⟩
      by_cases hm : m = st.i
      · rw [hm, if_pos ⟨rfl, h⟩]
        have hlen : st.i < st.ars.length := by
          by_contra hge
          apply h0
          simp [List.getD_eq_getElem?_getD,
            List.getElem?_eq_none (by omega : st.ars.length ≤ st.i)]
        exact getD_set_self _ _ _ _ hlen
      · rw [if_neg (fun hc => hm hc.1)]
        exact getD_set_ne _ _ _ _ _ (Ne.symm hm)

/-- The send loop run for `j` iterations with no callback in between. -/
theorem dispatch_iterations (cfg : ShuffleConfig) (j : Nat) :
    ∀ st : DispatchState, ((st.i + j : Nat) : Int) ≤ cfg.mpi_size_ →
      ∃ st', dispatchRun cfg (ShuffleData_dispatch_step cfg)
          (List.replicate j DispatchEvent.iteration) st = some st' ∧
        st'.i = st.i + j ∧
        st'.sends = st.sends ++ sendsOf cfg st.ars st.i j ∧
        st'.ars.length = st.ars.length ∧
        ∀ m, st'.ars.getD m [] =
          if st.i ≤ m ∧ m < st.i + j ∧ (m : Int) ≠ cfg.mpi_rank_ then [] else st.ars.getD m [] := by
  induction j with
  | zero =>
    intro st _
    refine ⟨st, rfl, rfl, by simp [sendsOf], rfl, ?_⟩
    intro m
    rw [if_neg (by omega)]
  | succ j ih =>
    intro st hle
    have hlt : (st.i : Int) < cfg.mpi_size_ := by push_cast at hle; omega
    have hrun : dispatchRun cfg (ShuffleData_dispatch_step cfg)
        (List.replicate (j + 1) DispatchEvent.iteration) st
        = dispatchRun cfg (ShuffleData_dispatch_step cfg)
            (List.replicate j DispatchEvent.iteration) (ShuffleData_dispatch_step cfg st) := by
      simp only [List.replicate_succ, dispatchRun, if_pos hlt]
    rw [hrun, sendsOf_succ]
    have hi : (ShuffleData_dispatch_step cfg st).i = st.i + 1 :=
      (ShuffleData_dispatch_step_cases cfg st).1
    have hsd := ShuffleData_dispatch_step_sends cfg st
    obtain ⟨hal, hag⟩ := ShuffleData_dispatch_step_ars cfg st
    obtain ⟨st', hs, hi', hsends, hl, hars⟩ := ih (ShuffleData_dispatch_step cfg st) (by
      rw [hi]
      have : st.i + 1 + j = st.i + (j + 1) := by omega
      rw [this]
      exact hle)
    rw [hi] at hi' hsends hars
    refine ⟨st', hs, by omega, ?_, by rw [hl, hal], ?_⟩
    · rw [hsends, hsd, List.append_assoc]
      congr 2
      apply sendsOf_congr
      intro m hm
      rw [hag m, if_neg (by omega)]
    · intro m
      rw [hars m, hag m]
      split_ifs <;> first | rfl | (exfalso; omega)

/-- The callbacks of all pending sends, fired one after the other. -/
theorem dispatch_callbacks (cfg : ShuffleConfig) (step : DispatchState → DispatchState)
    (p : Nat) :
    ∀ st : DispatchState, st.pending = p →
      ∃ st', dispatchRun cfg step (List.replicate p DispatchEvent.callback) st = some st' ∧
        st'.pending = 0 ∧ st'.i = st.i ∧ st'.sends = st.sends ∧
        st'.wg.counter_ = st.wg.counter_ - p := by
  induction p with
  | zero =>
    intro st h
    exact ⟨st, rfl, h, rfl, rfl, by simp⟩
  | succ p ih =>
    intro st h
    have hne : st.pending ≠ 0 := by omega
    obtain ⟨st', hs, hp, hi, hsn, hc⟩ :=
      ih { st with wg := st.wg.on_notify, pending := st.pending - 1 } (by
        show st.pending - 1 = p
        omega)
    refine ⟨st', ?_, hp, hi, hsn, ?_⟩
    · simp only [List.replicate_succ, dispatchRun, if_neg hne]
      exact hs
    · rw [hc]
      show st.wg.on_notify.counter_ - (p : Int) = st.wg.counter_ - ((p + 1 : Nat) : Int)
      rw [ShuffleResultWaitGroup.on_notify, ShuffleResultWaitGroup_done_counter]
      push_cast
      ring

/-! ## Distributed shuffle: one round -/

theorem map_getD_range' {α : Type} (l : List α) (d : α) :
    (List.range' 0 l.length).map (fun m => l.getD m d) = l := by
  apply List.ext_getElem
  · simp
  · intro n h1 h2
    simp [List.getD_eq_getElem?_getD, List.getElem?_eq_getElem h2]

theorem sendsOf_payload (cfg : ShuffleConfig) (ars : List (List SlotRecord))
    (hown : ∀ m : Nat, (m : Int) = cfg.mpi_rank_ → ars.getD m [] = []) (i j : Nat) :
    ((sendsOf cfg ars i j).map Prod.snd).flatten
      = ((List.range' i j).map (fun m => ars.getD m [])).flatten := by
  induction j generalizing i with
  | zero => simp [sendsOf]
  | succ j ih =>
    rw [sendsOf_succ, List.map_append, List.flatten_append, ih (i + 1), List.range'_succ,
      List.map_cons, List.flatten_cons]
    congr 1
    split
    · rename_i h
      rcases h with h | h
      · rw [hown i h]
        rfl
      · rw [List.length_eq_zero.1 h]
        rfl
    · simp

theorem sendsOf_mem (cfg : ShuffleConfig) (ars : List (List SlotRecord)) (i j : Nat)
    (s : Nat × List SlotRecord) (hs : s ∈ sendsOf cfg ars i j) :
    i ≤ s.1 ∧ s.1 < i + j ∧ (s.1 : Int) ≠ cfg.mpi_rank_ ∧ s.2 ≠ [] ∧ s.2 = ars.getD s.1 [] := by
  unfold sendsOf at hs
  obtain ⟨m, hm, he⟩ := List.mem_filterMap.1 hs
  have hr := List.mem_range'_1.1 hm
  split at he
  · exact absurd he (by simp)
  · rename_i hc
    simp only [Option.some.injEq] at he
    subst he
    refine ⟨hr.1, hr.2, fun e => hc (Or.inl e), ?_, rfl⟩
    intro e
    apply hc
    right
    show (List.getD ars m []).length = 0
    rw [show List.getD ars m [] = [] from e]
    rfl

theorem dispatchStart_counter (cfg : ShuffleConfig) (ars : List (List SlotRecord)) :
    (dispatchStart cfg { counter_ := 0 } ars).wg.counter_ = cfg.mpi_size_ := by
  unfold dispatchStart
  simp only [ShuffleResultWaitGroup_add_counter]
  simp

/-- The send loop run to its end with no callback in between, started with the wait group
at zero. -/
theorem ShuffleData_dispatch_eq (cfg : ShuffleConfig) (ars : List (List SlotRecord))
    (h0 : 0 ≤ cfg.mpi_size_) :
    ∃ d, ShuffleData_dispatch cfg { counter_ := 0 } ars = some d ∧
      d.i = cfg.mpi_size_.toNat ∧
      d.sends = sendsOf cfg ars 0 cfg.mpi_size_.toNat ∧
      d.pending = d.sends.length ∧
      d.wg.counter_ = d.sends.length ∧
      d.ars.length = ars.length ∧
      ∀ m, d.ars.getD m [] =
        if m < cfg.mpi_size_.toNat ∧ (m : Int) ≠ cfg.mpi_rank_ then [] else ars.getD m [] := by
  obtain ⟨d, hd, hi, hsends, hl, hars⟩ :=
    dispatch_iterations cfg cfg.mpi_size_.toNat (dispatchStart cfg { counter_ := 0 } ars) (by
      show ((0 + cfg.mpi_size_.toNat : Nat) : Int) ≤ cfg.mpi_size_
      omega)
  obtain ⟨hq, _, hcount⟩ :=
    dispatchRun_invariant cfg _ (ShuffleData_dispatch_step_cases cfg) _ _ _ hd
  have hc0 := dispatchStart_counter cfg ars
  have hp0 : (dispatchStart cfg { counter_ := 0 } ars).pending = 0 := rfl
  have hi0 : (dispatchStart cfg { counter_ := 0 } ars).i = 0 := rfl
  have hs0 : (dispatchStart cfg { counter_ := 0 } ars).sends = [] := rfl
  have ha0 : (dispatchStart cfg { counter_ := 0 } ars).ars = ars := rfl
  rw [hc0, hp0, hi0] at hq
  rw [hp0, hs0, List.count_replicate] at hcount
  rw [hi0] at hi hsends hars
  rw [hs0, ha0] at hsends
  rw [ha0] at hl hars
  simp only [List.length_nil, Nat.zero_add, Nat.add_zero] at hcount
  have hcount2 : d.sends.length = d.pending := by
    simpa using hcount
  refine ⟨d, hd, by omega, by simpa using hsends, hcount2.symm, ?_, hl, ?_⟩
  · rw [hi] at hq
    push_cast at hq
    omega
  · intro m
    rw [hars m]
    split_ifs <;> first | rfl | (exfalso; omega)

theorem destinations_in_range (cfg : ShuffleConfig) (XXH64 : String → Nat) (draws : Nat → Nat)
    (h1 : 1 ≤ cfg.mpi_size_) (h2 : cfg.mpi_size_ < 2 ^ 31) (data : List SlotRecord) :
    ∀ k, ∀ p ∈ destinations cfg XXH64 draws k data,
      p.1 ∈ data ∧ ∃ c : Nat, p.2 = some (c : Int) ∧ c < cfg.mpi_size_.toNat := by
  induction data with
  | nil => simp [destinations]
  | cons t rest ih =>
    intro k p hp
    simp only [destinations, List.mem_cons] at hp
    rcases hp with hp | hp
    · subst hp
      refine ⟨List.mem_cons_self _ _, _, ShuffleData_client_id_eq cfg XXH64 (draws k) t h1 h2, ?_⟩
      exact Nat.mod_lt _ (by omega)
    · obtain ⟨hm, hc⟩ := ih (k + 1) p hp
      exact ⟨List.mem_cons_of_mem _ hm, hc⟩

theorem sendsOf_fst_sublist (cfg : ShuffleConfig) (ars : List (List SlotRecord)) (i j : Nat) :
    ((sendsOf cfg ars i j).map Prod.fst).Sublist (List.range' i j) := by
  induction j generalizing i with
  | zero => simp [sendsOf]
  | succ j ih =>
    rw [sendsOf_succ, List.range'_succ]
    split
    · exact List.Sublist.cons _ (ih (i + 1))
    · exact List.Sublist.cons₂ _ (ih (i + 1))

/-- C14: one shuffle round sends every record of the batch to exactly one destination.
For a rank count from 1 to `2 ^ 31 - 1`, an open shuffle channel and empty archives, the
round returns, and: the records written to the shuffle channel are those whose destination
is the own rank; every message handed to the messenger goes to a rank other than the own
one, is not empty and holds the records whose destination is that rank, and there is at
most one message per rank; every destination is a rank below `mpi_size_`; the local
records together with the records of all messages are a rearrangement of the batch, so
their numbers add up to the size of the batch; and all archives are empty again after the
round. -/
theorem ShuffleData_round_routes_each_record_once (cfg : ShuffleConfig)
    (XXH64 : String → Nat) (draws : Nat → Nat) (shuffle_channel_ : Channel SlotRecord)
    (data : List SlotRecord) (h1 : 1 ≤ cfg.mpi_size_) (h2 : cfg.mpi_size_ < 2 ^ 31)
    (hopen : shuffle_channel_.closed = false) :
    ∃ r, ShuffleData_round cfg XXH64 draws shuffle_channel_
        (List.replicate cfg.mpi_size_.toNat []) data = some r ∧
      r.loc_datas = routedTo (destinations cfg XXH64 draws 0 data) cfg.mpi_rank_ ∧
      r.shuffle_channel_.data = shuffle_channel_.data ++ r.loc_datas ∧
      (∀ s ∈ r.sends, (s.1 : Int) ≠ cfg.mpi_rank_ ∧ s.1 < cfg.mpi_size_.toNat ∧ s.2 ≠ [] ∧
        s.2 = routedTo (destinations cfg XXH64 draws 0 data) (s.1 : Int)) ∧
      (r.sends.map Prod.fst).Nodup ∧
      (∀ m : Nat, m < cfg.mpi_size_.toNat → (m : Int) ≠ cfg.mpi_rank_ →
        routedTo (destinations cfg XXH64 draws 0 data) (m : Int) ≠ [] →
        (m, routedTo (destinations cfg XXH64 draws 0 data) (m : Int)) ∈ r.sends) ∧
      (∀ p ∈ destinations cfg XXH64 draws 0 data,
        ∃ c : Nat, p.2 = some (c : Int) ∧ c < cfg.mpi_size_.toNat) ∧
      (r.loc_datas ++ (r.sends.map Prod.snd).flatten).Perm data ∧
      r.loc_datas.length + (r.sends.map (fun s => s.2.length)).sum = data.length ∧
      r.ars = List.replicate cfg.mpi_size_.toNat [] := by
  obtain ⟨loc, hloc, hld, hlen, hars, hperm⟩ :=
    ShuffleData_routeAll_eq cfg XXH64 draws h1 h2 data 0
      { loc_datas := [], releases := [], ars := List.replicate cfg.mpi_size_.toNat [] }
      (by simp)
  dsimp only at hld hlen hars hperm
  rw [List.length_replicate] at hlen hars
  have hars2 : ∀ m, m < cfg.mpi_size_.toNat → loc.ars.getD m [] =
      if (m : Int) = cfg.mpi_rank_ then []
        else routedTo (destinations cfg XXH64 draws 0 data) (m : Int) := by
    intro m hm
    rw [hars m hm]
    simp [List.getD_eq_getElem?_getD, List.getElem?_replicate, hm]
  have hown : ∀ m : Nat, (m : Int) = cfg.mpi_rank_ → loc.ars.getD m [] = [] := by
    intro m hm
    by_cases hlt : m < cfg.mpi_size_.toNat
    · rw [hars2 m hlt, if_pos hm]
    · simp [List.getD_eq_getElem?_getD, List.getElem?_eq_none (by omega : loc.ars.length ≤ m)]
  obtain ⟨d, hd, _, hsends, _, _, hdl, hdars⟩ :=
    ShuffleData_dispatch_eq cfg loc.ars (by omega)
  have hwrite : shuffle_channel_.WriteChecked loc.loc_datas
      = some (shuffle_channel_.Write loc.loc_datas) := by
    simp [Channel.WriteChecked, hopen]
  have hround : ShuffleData_round cfg XXH64 draws shuffle_channel_
      (List.replicate cfg.mpi_size_.toNat []) data
      = some { shuffle_channel_ := shuffle_channel_.Write loc.loc_datas
               loc_datas := loc.loc_datas, sends := d.sends, ars := d.ars, wg := d.wg } := by
    simp only [ShuffleData_round, hloc, hwrite, hd]
  have hflat : (d.sends.map Prod.snd).flatten = loc.ars.flatten := by
    rw [hsends, sendsOf_payload cfg loc.ars hown, ← hlen, map_getD_range']
  have hperm2 : (loc.loc_datas ++ (d.sends.map Prod.snd).flatten).Perm data := by
    rw [hflat]
    simpa using hperm
  refine ⟨_, hround, by simpa using hld, rfl, ?_, ?_, ?_, ?_, hperm2, ?_, ?_⟩
  · intro s hs
    show (s.1 : Int) ≠ cfg.mpi_rank_ ∧ s.1 < cfg.mpi_size_.toNat ∧ s.2 ≠ [] ∧ _
    have hs2 : s ∈ sendsOf cfg loc.ars 0 cfg.mpi_size_.toNat := hsends ▸ hs
    obtain ⟨_, hlt, hne, hnn, he⟩ := sendsOf_mem cfg loc.ars _ _ s hs2
    refine ⟨hne, by omega, hnn, ?_⟩
    rw [he, hars2 s.1 (by omega), if_neg hne]
  · show (d.sends.map Prod.fst).Nodup
    rw [hsends]
    exact (List.nodup_range' 0 cfg.mpi_size_.toNat).sublist (sendsOf_fst_sublist cfg loc.ars 0 _)
  · intro m hm hne hnn
    show (m, _) ∈ d.sends
    rw [hsends]
    unfold sendsOf
    refine List.mem_filterMap.2 ⟨m, List.mem_range'_1.2 ⟨by omega, by omega⟩, ?_⟩
    have hg : loc.ars.getD m [] = routedTo (destinations cfg XXH64 draws 0 data) (m : Int) := by
      rw [hars2 m hm, if_neg hne]
    rw [if_neg (by
      intro hc
      rcases hc with hc | hc
      · exact hne hc
      · rw [hg] at hc
        exact hnn (List.length_eq_zero.1 hc)), hg]
  · intro p hp
    exact (destinations_in_range cfg XXH64 draws h1 h2 data 0 p hp).2
  · have := hperm2.length_eq
    rw [List.length_append, List.length_flatten, List.map_map] at this
    exact this
  · show d.ars = _
    rw [List.eq_replicate_iff]
    refine ⟨by rw [hdl, hlen], ?_⟩
    intro b hb
    obtain ⟨n, hn, he⟩ := List.getElem_of_mem hb
    have hg := hdars n
    rw [List.getD_eq_getElem?_getD, List.getElem?_eq_getElem hn, Option.getD_some, he] at hg
    rw [hg]
    by_cases hr : (n : Int) = cfg.mpi_rank_
    · rw [if_neg (fun hc => hc.2 hr)]
      exact hown n hr
    · rw [if_pos ⟨by rw [hdl, hlen] at hn; exact hn, hr⟩]

theorem ShuffleData_round_routes_each_record_once_witness :
    ∃ r, ShuffleData_round pvShuffle lengthHash (fun _ => 0) (MakeChannel SlotRecord 1024)
        (List.replicate pvShuffle.mpi_size_.toNat []) shuffleBatch = some r ∧
      r.loc_datas = routedTo (destinations pvShuffle lengthHash (fun _ => 0) 0 shuffleBatch)
        pvShuffle.mpi_rank_ ∧
      r.shuffle_channel_.data = (MakeChannel SlotRecord 1024).data ++ r.loc_datas ∧
      (∀ s ∈ r.sends, (s.1 : Int) ≠ pvShuffle.mpi_rank_ ∧ s.1 < pvShuffle.mpi_size_.toNat ∧
        s.2 ≠ [] ∧
        s.2 = routedTo (destinations pvShuffle lengthHash (fun _ => 0) 0 shuffleBatch)
          (s.1 : Int)) ∧
      (r.sends.map Prod.fst).Nodup ∧
      (∀ m : Nat, m < pvShuffle.mpi_size_.toNat → (m : Int) ≠ pvShuffle.mpi_rank_ →
        routedTo (destinations pvShuffle lengthHash (fun _ => 0) 0 shuffleBatch) (m : Int) ≠ [] →
        (m, routedTo (destinations pvShuffle lengthHash (fun _ => 0) 0 shuffleBatch) (m : Int))
          ∈ r.sends) ∧
      (∀ p ∈ destinations pvShuffle lengthHash (fun _ => 0) 0 shuffleBatch,
        ∃ c : Nat, p.2 = some (c : Int) ∧ c < pvShuffle.mpi_size_.toNat) ∧
      (r.loc_datas ++ (r.sends.map Prod.snd).flatten).Perm shuffleBatch ∧
      r.loc_datas.length + (r.sends.map (fun s => s.2.length)).sum = shuffleBatch.length ∧
      r.ars = List.replicate pvShuffle.mpi_size_.toNat [] :=
  ShuffleData_round_routes_each_record_once pvShuffle lengthHash (fun _ => 0)
    (MakeChannel SlotRecord 1024) shuffleBatch (by decide) (by decide) rfl

/-! ## Distributed shuffle: the termination counter -/

theorem waitAndClose_eq (st st' : ShuffleTermination) (h : waitAndClose st = some st') :
    st'.finished_counter_ = st.finished_counter_ ∧ st'.mpi_flags_ = st.mpi_flags_ ∧
      st'.receiver_cnt_ = st.receiver_cnt_ ∧ st'.shuffle_channel_ = st.shuffle_channel_.Close := by
  unfold waitAndClose at h
  split at h
  · exact absurd h (by simp)
  · simp only [Option.some.injEq] at h
    subst h
    exact ⟨rfl, rfl, rfl, rfl⟩

theorem waitAndClose_some (st : ShuffleTermination) (h : st.receiver_cnt_ ≤ 0) :
    ∃ st', waitAndClose st = some st' := by
  unfold waitAndClose
  rw [if_neg (by omega)]
  exact ⟨_, rfl⟩

/-- What a zero-length message does when the handler returns. -/
theorem ReceiveSuffleData_done_eq (st st' : ShuffleTermination) (c : Int)
    (h : ReceiveSuffleData st c [] = some st') :
    0 ≤ c ∧ c.toNat < st.mpi_flags_.length ∧
      st'.mpi_flags_.length = st.mpi_flags_.length ∧
      (∀ q, st'.mpi_flags_.getD q 0 = if q = c.toNat then 0 else st.mpi_flags_.getD q 0) ∧
      st'.finished_counter_ =
        (if st.mpi_flags_.getD c.toNat 0 ≠ 0 then st.finished_counter_ - 1
          else st.finished_counter_) ∧
      st'.receiver_cnt_ = st.receiver_cnt_ := by
  unfold ReceiveSuffleData at h
  simp only [List.length_nil, if_true] at h
  by_cases hr : 0 ≤ c ∧ c.toNat < st.mpi_flags_.length
  · rw [if_pos hr] at h
    refine ⟨hr.1, hr.2, ?_⟩
    by_cases hf : st.mpi_flags_.getD c.toNat 0 ≠ 0
    · rw [if_pos hf] at h
      rw [if_pos hf]
      have key : ∀ s : ShuffleTermination,
          s = { finished_counter_ := st.finished_counter_ - 1
                mpi_flags_ := st.mpi_flags_.set c.toNat 0
                receiver_cnt_ := st.receiver_cnt_ + 1 - 1
                shuffle_channel_ := st.shuffle_channel_ } ∨
          s = { finished_counter_ := st.finished_counter_ - 1
                mpi_flags_ := st.mpi_flags_.set c.toNat 0
                receiver_cnt_ := st.receiver_cnt_ + 1 - 1
                shuffle_channel_ := st.shuffle_channel_.Close } →
          s.mpi_flags_.length = st.mpi_flags_.length ∧
          (∀ q, s.mpi_flags_.getD q 0 = if q = c.toNat then 0 else st.mpi_flags_.getD q 0) ∧
          s.finished_counter_ = st.finished_counter_ - 1 ∧
          s.receiver_cnt_ = st.receiver_cnt_ := by
        intro s hs
        have hq : ∀ q, (st.mpi_flags_.set c.toNat 0).getD q 0
            = if q = c.toNat then 0 else st.mpi_flags_.getD q 0 := by
          intro q
          by_cases hqc : q = c.toNat
          · rw [if_pos hqc, hqc]
            exact getD_set_self _ _ _ _ hr.2
          · rw [if_neg hqc]
            exact getD_set_ne _ _ _ _ _ (Ne.symm hqc)
        rcases hs with hs | hs <;> subst hs <;>
          exact ⟨by simp, hq, rfl, by simp⟩
      apply key
      split at h
      · right
        obtain ⟨a, b, c2, d⟩ := waitAndClose_eq _ _ h
        cases st'
        simp only at a b c2 d
        subst a b c2 d
        rfl
      · left
        simp only [Option.some.injEq] at h
        exact h.symm
    · rw [if_neg hf] at h
      rw [if_neg hf]
      have hf0 : st.mpi_flags_.getD c.toNat 0 = 0 := by
        by_contra hne
        exact hf hne
      have key : ∀ s : ShuffleTermination,
          s = { finished_counter_ := st.finished_counter_
                mpi_flags_ := st.mpi_flags_
                receiver_cnt_ := st.receiver_cnt_ + 1 - 1
                shuffle_channel_ := st.shuffle_channel_ } ∨
          s = { finished_counter_ := st.finished_counter_
                mpi_flags_ := st.mpi_flags_
                receiver_cnt_ := st.receiver_cnt_ + 1 - 1
                shuffle_channel_ := st.shuffle_channel_.Close } →
          s.mpi_flags_.length = st.mpi_flags_.length ∧
          (∀ q, s.mpi_flags_.getD q 0 = if q = c.toNat then 0 else st.mpi_flags_.getD q 0) ∧
          s.finished_counter_ = st.finished_counter_ ∧
          s.receiver_cnt_ = st.receiver_cnt_ := by
        intro s hs
        have hq : ∀ q, st.mpi_flags_.getD q 0
            = if q = c.toNat then 0 else st.mpi_flags_.getD q 0 := by
          intro q
          by_cases hqc : q = c.toNat
          · rw [if_pos hqc, hqc]
            exact hf0
          · rw [if_neg hqc]
        rcases hs with hs | hs <;> subst hs <;>
          exact ⟨rfl, hq, rfl, by simp⟩
      apply key
      split at h
      · right
        obtain ⟨a, b, c2, d⟩ := waitAndClose_eq _ _ h
        cases st'
        simp only at a b c2 d
        subst a b c2 d
        rfl
      · left
        simp only [Option.some.injEq] at h
        exact h.symm
  · rw [if_neg hr] at h
    exact absurd h (by simp)

/-- What a data message does when the handler returns. -/
theorem ReceiveSuffleData_data_eq (st st' : ShuffleTermination) (c : Int)
    (msg : List SlotRecord) (hmsg : msg.length ≠ 0)
    (h : ReceiveSuffleData st c msg = some st') :
    st'.finished_counter_ = st.finished_counter_ ∧ st'.mpi_flags_ = st.mpi_flags_ ∧
      st'.receiver_cnt_ = st.receiver_cnt_ ∧
      st'.shuffle_channel_.data = st.shuffle_channel_.data ++ msg := by
  unfold ReceiveSuffleData at h
  simp only [if_neg hmsg, Channel.WriteChecked] at h
  by_cases hc : (st.shuffle_channel_.closed && !msg.isEmpty) = true
  · rw [if_pos hc] at h
    exact absurd h (by simp)
  · rw [if_neg hc] at h
    simp only [Option.some.injEq] at h
    subst h
    exact ⟨rfl, rfl, by simp, rfl⟩

theorem ShuffleData_finish_eq (st st' : ShuffleTermination)
    (h : ShuffleData_finish st = some st') :
    st'.finished_counter_ = st.finished_counter_ - 1 ∧ st'.mpi_flags_ = st.mpi_flags_ ∧
      st'.receiver_cnt_ = st.receiver_cnt_ := by
  simp only [ShuffleData_finish] at h
  split at h
  · obtain ⟨a, b, c, _⟩ := waitAndClose_eq _ _ h
    exact ⟨a, b, c⟩
  · simp only [Option.some.injEq] at h
    subst h
    exact ⟨rfl, rfl, rfl⟩

/-- The flags and the counter after a run of events, from a state in which the counter is
`n` minus the number of ranks in `S` minus `lc`, and the flags of the ranks in `S` are the
cleared ones. -/
theorem shuffleRun_invariant (n : Nat) (evs : List ShuffleEvent) :
    ∀ (st st' : ShuffleTermination) (S : Finset Int) (lc : Nat),
      st.mpi_flags_.length = n →
      (∀ q, q < n → (st.mpi_flags_.getD q 0 ≠ 0 ↔ (q : Int) ∉ S)) →
      (∀ c ∈ S, 0 ≤ c ∧ c < (n : Int)) →
      st.finished_counter_ = (n : Int) - S.card - lc →
      shuffleRun evs st = some st' →
      st'.mpi_flags_.length = n ∧
        (∀ q, q < n →
          (st'.mpi_flags_.getD q 0 ≠ 0 ↔ (q : Int) ∉ S ∪ (doneSenders evs).toFinset)) ∧
        (∀ c ∈ S ∪ (doneSenders evs).toFinset, 0 ≤ c ∧ c < (n : Int)) ∧
        st'.finished_counter_ =
          (n : Int) - (S ∪ (doneSenders evs).toFinset).card - (lc + localFinishes evs : Nat) ∧
        st'.receiver_cnt_ = st.receiver_cnt_ := by
  induction evs with
  | nil =>
    intro st st' S lc hl hf hS hc h
    simp only [shuffleRun, Option.some.injEq] at h
    subst h
    simp only [doneSenders, List.toFinset_nil, Finset.union_empty, localFinishes, Nat.add_zero]
    exact ⟨hl, hf, hS, hc, trivial⟩
  | cons ev evs ih =>
    intro st st' S lc hl hf hS hc h
    cases ev with
    | receive c msg =>
      simp only [shuffleRun] at h
      cases hr : ReceiveSuffleData st c msg with
      | none =>
        rw [hr] at h
        exact absurd h (by simp)
      | some st1 =>
        rw [hr] at h
        simp only at h
        by_cases hmsg : msg.length = 0
        · have hnil : msg = [] := List.length_eq_zero.1 hmsg
          subst hnil
          obtain ⟨hc0, hclt, hl1, hf1, hcnt1, hrc1⟩ := ReceiveSuffleData_done_eq st st1 c hr
          have hcast : ((c.toNat : Nat) : Int) = c := Int.toNat_of_nonneg hc0
          have hcn : c.toNat < n := hl ▸ hclt
          have hflag : st.mpi_flags_.getD c.toNat 0 ≠ 0 ↔ c ∉ S := by
            have := hf c.toNat hcn
            rwa [hcast] at this
          obtain ⟨r1, r2, r3, r4, r5⟩ := ih st1 st' (insert c S) lc (by rw [hl1, hl])
            (by
              intro q hq
              rw [hf1 q]
              by_cases hqc : q = c.toNat
              · rw [if_pos hqc, hqc, hcast]
                simp
              · rw [if_neg hqc, hf q hq]
                have hne : (q : Int) ≠ c := by
                  intro e
                  apply hqc
                  rw [← e]
                  simp
                simp [hne])
            (by
              intro x hx
              rcases Finset.mem_insert.1 hx with e | e
              · subst e
                exact ⟨hc0, by omega⟩
              · exact hS x e)
            (by
              rw [hcnt1, hc]
              by_cases hin : c ∈ S
              · rw [if_neg (fun hne => (hflag.1 hne) hin), Finset.insert_eq_of_mem hin]
              · rw [if_pos (hflag.2 hin), Finset.card_insert_of_not_mem hin]
                push_cast
                ring)
            h
          have hU : insert c S ∪ (doneSenders evs).toFinset
              = S ∪ (doneSenders (ShuffleEvent.receive c [] :: evs)).toFinset := by
            simp only [doneSenders, List.length_nil, if_true, List.toFinset_cons]
            ext x
            simp only [Finset.mem_union, Finset.mem_insert]
            tauto
          rw [hU] at r2 r3 r4
          exact ⟨r1, r2, r3, r4, by rw [r5, hrc1]⟩
        · obtain ⟨hcnt1, hfl1, hrc1, _⟩ := ReceiveSuffleData_data_eq st st1 c msg hmsg hr
          obtain ⟨r1, r2, r3, r4, r5⟩ := ih st1 st' S lc (by rw [hfl1, hl])
            (by rw [hfl1]; exact hf) hS (by rw [hcnt1, hc]) h
          simp only [doneSenders, if_neg hmsg, localFinishes]
          exact ⟨r1, r2, r3, r4, by rw [r5, hrc1]⟩
    | localFinish =>
      simp only [shuffleRun] at h
      cases hr : ShuffleData_finish st with
      | none =>
        rw [hr] at h
        exact absurd h (by simp)
      | some st1 =>
        rw [hr] at h
        simp only at h
        obtain ⟨hcnt1, hfl1, hrc1⟩ := ShuffleData_finish_eq st st1 hr
        obtain ⟨r1, r2, r3, r4, r5⟩ := ih st1 st' S (lc + 1) (by rw [hfl1, hl])
          (by rw [hfl1]; exact hf) hS (by rw [hcnt1, hc]; push_cast; ring) h
        simp only [doneSenders, localFinishes]
        refine ⟨r1, r2, r3, ?_, by rw [r5, hrc1]⟩
        rw [r4]
        push_cast
        ring

theorem start_flags (mpi_size_ : Int) (ch : Channel SlotRecord) (q : Nat)
    (hq : q < mpi_size_.toNat) :
    (ShuffleTermination.start mpi_size_ ch).mpi_flags_.getD q 0 = 1 := by
  simp [ShuffleTermination.start, List.getD_eq_getElem?_getD, List.getElem?_replicate, hq]

theorem closeIfDone_some (s : ShuffleTermination) (h : s.receiver_cnt_ ≤ 0) :
    ∃ s', (if s.finished_counter_ = 0 then waitAndClose s else some s) = some s' := by
  split
  · exact waitAndClose_some s h
  · exact ⟨s, rfl⟩

/-- Events without data messages, from ranks inside the flag vector, never abort. -/
theorem shuffleRun_control_some (evs : List ShuffleEvent) :
    ∀ st : ShuffleTermination, st.receiver_cnt_ = 0 →
      (∀ c ∈ senders evs, 0 ≤ c ∧ c.toNat < st.mpi_flags_.length) →
      (∀ c msg, ShuffleEvent.receive c msg ∈ evs → msg = []) →
      ∃ st', shuffleRun evs st = some st' := by
  induction evs with
  | nil => exact fun st _ _ _ => ⟨st, rfl⟩
  | cons ev evs ih =>
    intro st hr hs hm
    cases ev with
    | receive c msg =>
      have hnil : msg = [] := hm c msg (List.mem_cons_self _ _)
      subst hnil
      have hc := hs c (by simp [senders])
      have hsome : ∃ st1, ReceiveSuffleData st c [] = some st1 := by
        unfold ReceiveSuffleData
        simp only [List.length_nil, if_true, if_pos hc]
        by_cases hf : st.mpi_flags_.getD c.toNat 0 ≠ 0
        · rw [if_pos hf]
          exact closeIfDone_some
            { finished_counter_ := st.finished_counter_ - 1
              mpi_flags_ := st.mpi_flags_.set c.toNat 0
              receiver_cnt_ := st.receiver_cnt_ + 1 - 1
              shuffle_channel_ := st.shuffle_channel_ }
            (by show st.receiver_cnt_ + 1 - 1 ≤ 0; omega)
        · rw [if_neg hf]
          exact closeIfDone_some
            { finished_counter_ := st.finished_counter_
              mpi_flags_ := st.mpi_flags_
              receiver_cnt_ := st.receiver_cnt_ + 1 - 1
              shuffle_channel_ := st.shuffle_channel_ }
            (by show st.receiver_cnt_ + 1 - 1 ≤ 0; omega)
      obtain ⟨st1, h1⟩ := hsome
      obtain ⟨_, _, hl1, _, _, hrc1⟩ := ReceiveSuffleData_done_eq st st1 c h1
      obtain ⟨st', h'⟩ := ih st1 (by rw [hrc1, hr])
        (by
          intro x hx
          rw [hl1]
          exact hs x (by simp [senders, hx]))
        (fun x m hxm => hm x m (List.mem_cons_of_mem _ hxm))
      exact ⟨st', by simp only [shuffleRun, h1]; exact h'⟩
    | localFinish =>
      have hsome : ∃ st1, ShuffleData_finish st = some st1 := by
        simp only [ShuffleData_finish]
        exact closeIfDone_some
          { finished_counter_ := st.finished_counter_ - 1
            mpi_flags_ := st.mpi_flags_
            receiver_cnt_ := st.receiver_cnt_
            shuffle_channel_ := st.shuffle_channel_ }
          (by show st.receiver_cnt_ ≤ 0; omega)
      obtain ⟨st1, h1⟩ := hsome
      obtain ⟨_, hfl1, hrc1⟩ := ShuffleData_finish_eq st st1 h1
      obtain ⟨st', h'⟩ := ih st1 (by rw [hrc1, hr])
        (by
          intro x hx
          rw [hfl1]
          exact hs x (by simpa [senders] using hx))
        (fun x m hxm => hm x m (List.mem_cons_of_mem _ hxm))
      exact ⟨st', by simp only [shuffleRun, h1]; exact h'⟩

/-- C16: the termination counter.  Started with `finished_counter_ = mpi_size_` and all
flags set, after any sequence of messages and ends of the own shuffle threads that the
handlers return from, `finished_counter_` is `mpi_size_` minus the number of distinct ranks
whose zero-length message has arrived, minus the number of times the own threads ended,
and the flag of a rank is cleared exactly when its zero-length message has arrived; when
no zero-length message comes from the own rank and the own threads end at most once, the
counter is never negative.  A zero-length message clears the flag of its sender; it lowers
the counter by one when the flag was set and leaves the counter as it is when the flag was
cleared before.  A data message changes neither the counter nor the flags.  Sequences
without data messages, from ranks below `mpi_size_`, never abort. -/
theorem finished_counter_invariant (mpi_size_ mpi_rank_ : Int)
    (shuffle_channel_ : Channel SlotRecord) (h0 : 0 ≤ mpi_size_) :
    (∀ (evs : List ShuffleEvent) (st : ShuffleTermination),
      shuffleRun evs (ShuffleTermination.start mpi_size_ shuffle_channel_) = some st →
      st.finished_counter_ =
          mpi_size_ - ((doneSenders evs).dedup.length : Nat) - (localFinishes evs : Nat) ∧
        (∀ q : Nat, q < mpi_size_.toNat →
          (st.mpi_flags_.getD q 0 = 0 ↔ (q : Int) ∈ doneSenders evs)) ∧
        (mpi_rank_ ∉ doneSenders evs → 0 ≤ mpi_rank_ → mpi_rank_ < mpi_size_ →
          localFinishes evs ≤ 1 → 0 ≤ st.finished_counter_)) ∧
    (∀ (st st' : ShuffleTermination) (client_id : Int),
      ReceiveSuffleData st client_id [] = some st' →
      st'.mpi_flags_.getD client_id.toNat 0 = 0 ∧
        (st.mpi_flags_.getD client_id.toNat 0 ≠ 0 →
          st'.finished_counter_ = st.finished_counter_ - 1) ∧
        (st.mpi_flags_.getD client_id.toNat 0 = 0 →
          st'.finished_counter_ = st.finished_counter_)) ∧
    (∀ (st st' : ShuffleTermination) (client_id : Int) (msg : List SlotRecord), msg ≠ [] →
      ReceiveSuffleData st client_id msg = some st' →
      st'.finished_counter_ = st.finished_counter_ ∧ st'.mpi_flags_ = st.mpi_flags_) ∧
    (∀ evs : List ShuffleEvent,
      (∀ c ∈ senders evs, 0 ≤ c ∧ c < mpi_size_) →
      (∀ c msg, ShuffleEvent.receive c msg ∈ evs → msg = []) →
      ∃ st, shuffleRun evs (ShuffleTermination.start mpi_size_ shuffle_channel_) = some st) := by
  have hn : ((mpi_size_.toNat : Nat) : Int) = mpi_size_ := Int.toNat_of_nonneg h0
  have hlen : (ShuffleTermination.start mpi_size_ shuffle_channel_).mpi_flags_.length
      = mpi_size_.toNat := by
    simp [ShuffleTermination.start]
  refine ⟨?_, ?_, ?_, ?_⟩
  · intro evs st h
    obtain ⟨_, r2, r3, r4, _⟩ := shuffleRun_invariant mpi_size_.toNat evs
      (ShuffleTermination.start mpi_size_ shuffle_channel_) st ∅ 0 hlen
      (by
        intro q hq
        rw [start_flags mpi_size_ shuffle_channel_ q hq]
        simp)
      (by simp)
      (by
        show mpi_size_ = _
        rw [hn]
        simp)
      h
    simp only [Finset.empty_union, List.mem_toFinset, Nat.zero_add] at r2 r3 r4
    rw [List.card_toFinset, hn] at r4
    refine ⟨r4, ?_, ?_⟩
    · intro q hq
      have := r2 q hq
      constructor
      · intro hz
        by_contra hnot
        exact (this.2 hnot) hz
      · intro hin
        by_contra hnz
        exact (this.1 hnz) hin
    · intro hrank hr0 hr1 hlf
      rw [r4]
      have hsub : (doneSenders evs).toFinset ⊆ (Finset.Ico 0 mpi_size_).erase mpi_rank_ := by
        intro x hx
        rw [List.mem_toFinset] at hx
        have hx2 := r3 x hx
        rw [hn] at hx2
        rw [Finset.mem_erase, Finset.mem_Ico]
        exact ⟨fun e => hrank (e ▸ hx), hx2⟩
      have hcard := Finset.card_le_card hsub
      rw [Finset.card_erase_of_mem (by rw [Finset.mem_Ico]; exact ⟨hr0, hr1⟩), Int.card_Ico,
        List.card_toFinset] at hcard
      have h1 : (mpi_size_ - 0).toNat = mpi_size_.toNat := by simp
      rw [h1] at hcard
      omega
  · intro st st' c h
    obtain ⟨_, _, _, hf1, hcnt1, _⟩ := ReceiveSuffleData_done_eq st st' c h
    refine ⟨?_, ?_, ?_⟩
    · rw [hf1 c.toNat, if_pos rfl]
    · intro hne
      rw [hcnt1, if_pos hne]
    · intro he
      rw [hcnt1, if_neg (fun hne => hne he)]
  · intro st st' c msg hmsg h
    obtain ⟨a, b, _, _⟩ := ReceiveSuffleData_data_eq st st' c msg
      (fun e => hmsg (List.length_eq_zero.1 e)) h
    exact ⟨a, b⟩
  · intro evs hs hm
    apply shuffleRun_control_some evs _ rfl _ hm
    intro c hc
    rw [hlen]
    have := hs c hc
    exact ⟨this.1, by omega⟩

theorem finished_counter_invariant_witness :
    (∀ (evs : List ShuffleEvent) (st : ShuffleTermination),
      shuffleRun evs (ShuffleTermination.start 3 (MakeChannel SlotRecord 1024)) = some st →
      st.finished_counter_ =
          3 - ((doneSenders evs).dedup.length : Nat) - (localFinishes evs : Nat) ∧
        (∀ q : Nat, q < (3 : Int).toNat →
          (st.mpi_flags_.getD q 0 = 0 ↔ (q : Int) ∈ doneSenders evs)) ∧
        ((0 : Int) ∉ doneSenders evs → (0 : Int) ≤ 0 → (0 : Int) < 3 →
          localFinishes evs ≤ 1 → 0 ≤ st.finished_counter_)) ∧
    (∀ (st st' : ShuffleTermination) (client_id : Int),
      ReceiveSuffleData st client_id [] = some st' →
      st'.mpi_flags_.getD client_id.toNat 0 = 0 ∧
        (st.mpi_flags_.getD client_id.toNat 0 ≠ 0 →
          st'.finished_counter_ = st.finished_counter_ - 1) ∧
        (st.mpi_flags_.getD client_id.toNat 0 = 0 →
          st'.finished_counter_ = st.finished_counter_)) ∧
    (∀ (st st' : ShuffleTermination) (client_id : Int) (msg : List SlotRecord), msg ≠ [] →
      ReceiveSuffleData st client_id msg = some st' →
      st'.finished_counter_ = st.finished_counter_ ∧ st'.mpi_flags_ = st.mpi_flags_) ∧
    (∀ evs : List ShuffleEvent,
      (∀ c ∈ senders evs, 0 ≤ c ∧ c < (3 : Int)) →
      (∀ c msg, ShuffleEvent.receive c msg ∈ evs → msg = []) →
      ∃ st, shuffleRun evs (ShuffleTermination.start 3 (MakeChannel SlotRecord 1024))
        = some st) :=
  finished_counter_invariant 3 0 (MakeChannel SlotRecord 1024) (by decide)

/-- The run of the example events: the counter goes from 3 to 0, the repeated zero-length
message of rank 1 changes nothing, and the channel is closed at the end. -/
theorem shuffleRun_example :
    shuffleRun shuffleEvents (ShuffleTermination.start 3 (MakeChannel SlotRecord 1024))
      = some { finished_counter_ := 0, mpi_flags_ := [1, 0, 0], receiver_cnt_ := 0,
               shuffle_channel_ :=
                 { data := [{ search_id := 3, ins_id_ := "u" }], block_size := 1024,
                   closed := true } } := by
  decide

/-! ## Distributed shuffle: when the channel is closed -/

theorem dispatchRun_iterations_some (cfg : ShuffleConfig)
    (step : DispatchState → DispatchState) (hstep : SettlesOrSends step) (j : Nat) :
    ∀ st : DispatchState, ((st.i + j : Nat) : Int) ≤ cfg.mpi_size_ →
      ∃ st', dispatchRun cfg step (List.replicate j DispatchEvent.iteration) st = some st' := by
  induction j with
  | zero => exact fun st _ => ⟨st, rfl⟩
  | succ j ih =>
    intro st hle
    have hlt : (st.i : Int) < cfg.mpi_size_ := by push_cast at hle; omega
    obtain ⟨st', hs⟩ := ih (step st) (by
      rw [(hstep st).1]
      have : st.i + 1 + j = st.i + (j + 1) := by omega
      rw [this]
      exact hle)
    exact ⟨st', by simp only [List.replicate_succ, dispatchRun, if_pos hlt]; exact hs⟩

/-- A send loop started with the wait group at zero, under any schedule. -/
theorem dispatchRun_balance (cfg : ShuffleConfig) (step : DispatchState → DispatchState)
    (hstep : SettlesOrSends step) (ars : List (List SlotRecord)) (h0 : 0 ≤ cfg.mpi_size_)
    (evs : List DispatchEvent) (st : DispatchState)
    (h : dispatchRun cfg step evs (dispatchStart cfg { counter_ := 0 } ars) = some st) :
    0 ≤ st.wg.counter_ ∧
      st.wg.counter_ = (cfg.mpi_size_ - st.i) + st.pending ∧
      st.pending + evs.count DispatchEvent.callback = st.sends.length ∧
      (st.wg.counter_ = 0 ↔ ((st.i : Int) = cfg.mpi_size_ ∧ st.pending = 0)) := by
  obtain ⟨hq, hi, hcount⟩ := dispatchRun_invariant cfg step hstep evs _ _ h
  have hc0 := dispatchStart_counter cfg ars
  have hp0 : (dispatchStart cfg { counter_ := 0 } ars).pending = 0 := rfl
  have hi0 : (dispatchStart cfg { counter_ := 0 } ars).i = 0 := rfl
  have hs0 : (dispatchStart cfg { counter_ := 0 } ars).sends = [] := rfl
  rw [hc0, hp0, hi0] at hq
  rw [hp0, hs0] at hcount
  rw [hi0] at hi
  have hi2 := hi (by simpa using h0)
  simp only [List.length_nil, Nat.zero_add, Nat.add_zero] at hcount
  push_cast at hq
  refine ⟨by omega, by omega, by omega, ?_⟩
  constructor
  · intro hz
    constructor <;> omega
  · intro hz
    omega

/-- A send loop run to its end and followed by the callbacks of all its sends. -/
theorem dispatch_then_callbacks (cfg : ShuffleConfig) (step : DispatchState → DispatchState)
    (hstep : SettlesOrSends step) (ars : List (List SlotRecord)) (h0 : 0 ≤ cfg.mpi_size_) :
    ∃ d, dispatchRun cfg step (List.replicate cfg.mpi_size_.toNat DispatchEvent.iteration)
        (dispatchStart cfg { counter_ := 0 } ars) = some d ∧
      d.wg.counter_ = d.sends.length ∧ d.pending = d.sends.length ∧
      ∃ d', dispatchRun cfg step (List.replicate d.sends.length DispatchEvent.callback) d
          = some d' ∧ d'.wg.counter_ = 0 ∧ d'.pending = 0 := by
  obtain ⟨d, hd⟩ := dispatchRun_iterations_some cfg step hstep cfg.mpi_size_.toNat
    (dispatchStart cfg { counter_ := 0 } ars) (by
      show ((0 + cfg.mpi_size_.toNat : Nat) : Int) ≤ cfg.mpi_size_
      omega)
  obtain ⟨_, hc, hp, _⟩ := dispatchRun_balance cfg step hstep ars h0 _ d hd
  obtain ⟨hq, _, _⟩ := dispatchRun_invariant cfg step hstep _ _ _ hd
  have hc0 := dispatchStart_counter cfg ars
  have hiter : ∀ (j : Nat) (st st' : DispatchState),
      dispatchRun cfg step (List.replicate j DispatchEvent.iteration) st = some st' →
      st'.i = st.i + j := by
    intro j
    induction j with
    | zero =>
      intro st st' h
      simp only [List.replicate_zero, dispatchRun, Option.some.injEq] at h
      rw [← h]
      rfl
    | succ j ih =>
      intro st st' h
      simp only [List.replicate_succ, dispatchRun] at h
      split at h
      · rw [ih _ _ h, (hstep st).1]
        omega
      · exact absurd h (by simp)
  have hdi : d.i = cfg.mpi_size_.toNat := by
    rw [hiter _ _ _ hd]
    show 0 + cfg.mpi_size_.toNat = _
    omega
  rw [List.count_replicate] at hp
  simp only [beq_iff_eq, if_neg (show ¬ (DispatchEvent.iteration = DispatchEvent.callback) by decide),
    Nat.add_zero] at hp
  have hcnt : d.wg.counter_ = (d.sends.length : Int) := by
    rw [hc, hdi, ← hp]
    omega
  obtain ⟨d', hd', hp', _, _, hc'⟩ := dispatch_callbacks cfg step d.sends.length d hp
  refine ⟨d, hd, hcnt, hp, d', hd', ?_, hp'⟩
  rw [hc', hcnt]
  omega

/-- C17: the balance of the wait group.  In a send round of `ShuffleData` and in the
broadcast of the zero-length message, started with the counter at 0 and a rank count that
is not negative: under every schedule of loop iterations and completion callbacks the
counter is never negative, it is the number of iterations still to run plus the number
of sends whose callback has not fired, and so it is 0 exactly when the loop has ended and
no send is pending; when the loop has run to its end before any callback, the counter is
the number of sends issued (the own rank and the empty archives are settled at once), and
after the callback of each of these sends has fired once the counter is 0 again. -/
theorem wait_group_balance (cfg : ShuffleConfig) (ars : List (List SlotRecord))
    (h0 : 0 ≤ cfg.mpi_size_) :
    (∃ d, ShuffleData_dispatch cfg { counter_ := 0 } ars = some d ∧
      d.sends = sendsOf cfg ars 0 cfg.mpi_size_.toNat ∧
      d.wg.counter_ = d.sends.length ∧ d.pending = d.sends.length ∧
      ∃ d', dispatchRun cfg (ShuffleData_dispatch_step cfg)
          (List.replicate d.sends.length DispatchEvent.callback) d = some d' ∧
        d'.wg.counter_ = 0 ∧ d'.pending = 0) ∧
    (∃ d, ShuffleData_broadcast cfg { counter_ := 0 } = some d ∧
      d.wg.counter_ = d.sends.length ∧ d.pending = d.sends.length ∧
      ∃ d', dispatchRun cfg (ShuffleData_broadcast_step cfg)
          (List.replicate d.sends.length DispatchEvent.callback) d = some d' ∧
        d'.wg.counter_ = 0 ∧ d'.pending = 0) ∧
    (∀ (evs : List DispatchEvent) (st : DispatchState),
      (dispatchRun cfg (ShuffleData_dispatch_step cfg) evs
          (dispatchStart cfg { counter_ := 0 } ars) = some st ∨
        dispatchRun cfg (ShuffleData_broadcast_step cfg) evs
          (dispatchStart cfg { counter_ := 0 } []) = some st) →
      0 ≤ st.wg.counter_ ∧
        st.wg.counter_ = (cfg.mpi_size_ - st.i) + st.pending ∧
        st.pending + evs.count DispatchEvent.callback = st.sends.length ∧
        (st.wg.counter_ = 0 ↔ ((st.i : Int) = cfg.mpi_size_ ∧ st.pending = 0))) := by
  refine ⟨?_, ?_, ?_⟩
  · obtain ⟨d, hd, hc, hp, hcb⟩ :=
      dispatch_then_callbacks cfg _ (ShuffleData_dispatch_step_cases cfg) ars h0
    obtain ⟨d2, hd2, _, hsends, _⟩ := ShuffleData_dispatch_eq cfg ars h0
    have hdd : d2 = d := by
      have : some d2 = some d := by
        rw [← hd2]
        exact hd
      exact Option.some.inj this
    subst hdd
    exact ⟨d2, hd2, hsends, hc, hp, hcb⟩
  · exact dispatch_then_callbacks cfg _ (ShuffleData_broadcast_step_cases cfg) [] h0
  · intro evs st h
    rcases h with h | h
    · exact dispatchRun_balance cfg _ (ShuffleData_dispatch_step_cases cfg) ars h0 evs st h
    · exact dispatchRun_balance cfg _ (ShuffleData_broadcast_step_cases cfg) [] h0 evs st h

theorem wait_group_balance_witness :
    (∃ d, ShuffleData_dispatch threeRanks { counter_ := 0 } threeArchives = some d ∧
      d.sends = sendsOf threeRanks threeArchives 0 threeRanks.mpi_size_.toNat ∧
      d.wg.counter_ = d.sends.length ∧ d.pending = d.sends.length ∧
      ∃ d', dispatchRun threeRanks (ShuffleData_dispatch_step threeRanks)
          (List.replicate d.sends.length DispatchEvent.callback) d = some d' ∧
        d'.wg.counter_ = 0 ∧ d'.pending = 0) ∧
    (∃ d, ShuffleData_broadcast threeRanks { counter_ := 0 } = some d ∧
      d.wg.counter_ = d.sends.length ∧ d.pending = d.sends.length ∧
      ∃ d', dispatchRun threeRanks (ShuffleData_broadcast_step threeRanks)
          (List.replicate d.sends.length DispatchEvent.callback) d = some d' ∧
        d'.wg.counter_ = 0 ∧ d'.pending = 0) ∧
    (∀ (evs : List DispatchEvent) (st : DispatchState),
      (dispatchRun threeRanks (ShuffleData_dispatch_step threeRanks) evs
          (dispatchStart threeRanks { counter_ := 0 } threeArchives) = some st ∨
        dispatchRun threeRanks (ShuffleData_broadcast_step threeRanks) evs
          (dispatchStart threeRanks { counter_ := 0 } []) = some st) →
      0 ≤ st.wg.counter_ ∧
        st.wg.counter_ = (threeRanks.mpi_size_ - st.i) + st.pending ∧
        st.pending + evs.count DispatchEvent.callback = st.sends.length ∧
        (st.wg.counter_ = 0 ↔ ((st.i : Int) = threeRanks.mpi_size_ ∧ st.pending = 0))) :=
  wait_group_balance threeRanks threeArchives (by decide)

/-! ## Readers -/

theorem CreateReaders_loop_length (st : ReaderState) (n : Nat) :
    ∀ (i : Nat) (channel_idx : Int) (readers : List DataFeed),
      (CreateReaders_loop st n i channel_idx readers).length = readers.length + n := by
  induction n with
  | zero => intro i c r; rfl
  | succ n ih =>
    intro i c r
    simp only [CreateReaders_loop]
    rw [ih]
    simp only [List.length_append, List.length_singleton]
    omega

theorem CreateReaders_loop_thread_num (st : ReaderState) (n : Nat) :
    ∀ (i : Nat) (channel_idx : Int) (readers : List DataFeed),
      (∀ r ∈ readers, r.thread_num = st.thread_num_) →
      ∀ r ∈ CreateReaders_loop st n i channel_idx readers, r.thread_num = st.thread_num_ := by
  induction n with
  | zero => intro i c rs h; exact h
  | succ n ih =>
    intro i c rs h
    simp only [CreateReaders_loop]
    apply ih
    intro r hr
    rcases List.mem_append.1 hr with hr | hr
    · exact h r hr
    · rw [List.mem_singleton] at hr
      subst hr
      unfold CreateReaders_reader
      split
      · rfl
      · split <;> rfl

/-- When `DatasetImpl::CreateReaders` aborts, and what it returns otherwise. -/
theorem CreateReaders_aborts_iff_config_invalid_aux (st : ReaderState) :
    (DatasetImpl.CreateReaders st = none ↔
      (st.thread_num_ ≤ 0 ∨ st.channel_num_ ≤ 0 ∨ st.channel_num_ > st.thread_num_)) ∧
    (∀ st', DatasetImpl.CreateReaders st = some st' →
      (st.readers_ ≠ [] → st' = st) ∧
      (st.readers_ = [] →
        (st'.readers_.length : Int) = st.thread_num_ ∧
        (∀ r ∈ st'.readers_, r.thread_num = st.thread_num_) ∧
        st'.thread_num_ = st.thread_num_ ∧ st'.channel_num_ = st.channel_num_ ∧
        st'.cur_channel_ = st.cur_channel_ ∧ st'.file_idx_ = st.file_idx_ ∧
        st'.multi_output_channel_size = st.multi_output_channel_size)) := by
  constructor
  · unfold DatasetImpl.CreateReaders
    constructor
    · intro h
      by_contra hc
      rw [if_neg (by omega), if_neg (by omega), if_neg (by omega)] at h
      split at h <;> exact absurd h (by simp)
    · intro h
      by_cases h1 : st.thread_num_ > 0
      · by_cases h2 : st.channel_num_ > 0
        · rw [if_neg (by omega), if_neg (by omega), if_pos (by omega)]
        · rw [if_neg (by omega), if_pos h2]
      · rw [if_pos h1]
  · intro st' h
    unfold DatasetImpl.CreateReaders at h
    by_cases h1 : st.thread_num_ > 0
    · by_cases h2 : st.channel_num_ > 0
      · by_cases h3 : st.channel_num_ ≤ st.thread_num_
        · rw [if_neg (by omega), if_neg (by omega), if_neg (by omega)] at h
          by_cases h4 : st.readers_.length ≠ 0
          · rw [if_pos h4] at h
            simp only [Option.some.injEq] at h
            refine ⟨fun _ => h.symm, fun he => ?_⟩
            rw [he] at h4
            exact absurd rfl h4
          · rw [if_neg h4] at h
            simp only [Option.some.injEq] at h
            subst h
            refine ⟨fun hne => ?_, fun he => ?_⟩
            · exact absurd (List.length_eq_zero.1 (by omega)) hne
            · refine ⟨?_, ?_, rfl, rfl, rfl, rfl, rfl⟩
              · show ((CreateReaders_loop st st.thread_num_.toNat 0 0 st.readers_).length : Int)
                  = st.thread_num_
                rw [CreateReaders_loop_length, he]
                simp only [List.length_nil, Nat.zero_add]
                omega
              · show ∀ r ∈ CreateReaders_loop st st.thread_num_.toNat 0 0 st.readers_, _
                apply CreateReaders_loop_thread_num
                rw [he]
                simp
        · rw [if_neg (by omega), if_neg (by omega), if_pos h3] at h
          exact absurd h (by simp)
      · rw [if_neg (by omega), if_pos h2] at h
        exact absurd h (by simp)
    · rw [if_pos h1] at h
      exact absurd h (by simp)

/-- C19: configuration errors are fatal when the readers are created.
`DatasetImpl::CreateReaders` aborts exactly when `thread_num_ <= 0`, `channel_num_ <= 0` or
`channel_num_ > thread_num_`, whether readers exist or not; otherwise it returns, with the
state as it was when readers exist already, and else with exactly `thread_num_` new
readers, each set to that thread count, and the rest of the state as it was. -/
theorem CreateReaders_aborts_iff_config_invalid (st : ReaderState) :
    (DatasetImpl.CreateReaders st = none ↔
      (st.thread_num_ ≤ 0 ∨ st.channel_num_ ≤ 0 ∨ st.channel_num_ > st.thread_num_)) ∧
    (∀ st', DatasetImpl.CreateReaders st = some st' →
      (st.readers_ ≠ [] → st' = st) ∧
      (st.readers_ = [] →
        (st'.readers_.length : Int) = st.thread_num_ ∧
        (∀ r ∈ st'.readers_, r.thread_num = st.thread_num_) ∧
        st'.thread_num_ = st.thread_num_ ∧ st'.channel_num_ = st.channel_num_ ∧
        st'.cur_channel_ = st.cur_channel_ ∧ st'.file_idx_ = st.file_idx_ ∧
        st'.multi_output_channel_size = st.multi_output_channel_size)) :=
  CreateReaders_aborts_iff_config_invalid_aux st

theorem redistribute_data {T : Type} (B n : Nat) (tc : Channel T) :
    ((redistribute B n tc).1.map Channel.data).flatten = tc.data.take (n * tc.block_size) := by
  induction n generalizing tc with
  | zero => simp [redistribute]
  | succ n ih =>
    have h := ih (tc.Read).2
    simp only [redistribute, List.map_cons, List.flatten_cons]
    rw [h]
    have e : (n + 1) * tc.block_size = tc.block_size + n * tc.block_size := by ring
    rw [e, List.take_add]
    simp [Channel.Read, Channel.Write, MakeChannel]

theorem totalDataChannel_data {T : Type} (B : Nat) (origin : List (Channel T)) (N : Int)
    (d : Bool) : (totalDataChannel B origin N d).data = (origin.map Channel.data).flatten := by
  have h : (drainInto (MakeChannel T B) origin).data = (origin.map Channel.data).flatten := by
    simpa [MakeChannel] using (drainInto_data origin (MakeChannel T B)).1
  unfold totalDataChannel adjustBlockSize
  split <;> simp [Channel.SetBlockSize, Channel.Close, h]

theorem DynamicAdjustChannelNum_none_iff {T : Type} (B : Nat) (ds : DatasetImpl T) (N : Nat)
    (d : Bool) (hN : 1 ≤ N) (hne : ds.channel_num_ ≠ (N : Int))
    (hlen : ds.multi_output_channel_.length = ds.multi_consume_channel_.length) :
    DynamicAdjustChannelNum B ds N d = none ↔
      (totalSize ds.multi_output_channel_ ≠ 0 ∧ totalSize ds.multi_consume_channel_ ≠ 0) := by
  constructor
  · intro h
    by_contra hc
    have hone : totalSize ds.multi_output_channel_ = 0 ∨
        totalSize ds.multi_consume_channel_ = 0 := by
      by_cases ho : totalSize ds.multi_output_channel_ = 0
      · exact Or.inl ho
      · right
        by_contra hcn
        exact hc ⟨ho, hcn⟩
    obtain ⟨ds', hs, _⟩ := DynamicAdjustChannelNum_eq B ds N d hN hne hlen hone
    rw [hs] at h
    exact absurd h (by simp)
  · intro h
    unfold DynamicAdjustChannelNum
    rw [if_neg hne, if_neg (by simpa using hlen)]
    simp only
    rw [if_pos h]

/-- C20: which of the two channel sets holds the data when the channel count changes.  For
a new channel count `N >= 1` that differs from the current one and channel sets of equal
length, `DynamicAdjustChannelNum` aborts exactly when both the output set and the consume
set hold data; it does not abort when neither holds data, and then both sets are `N` empty
channels afterwards.  On return, the set that held the data has `N` channels whose records,
taken in order, are the first records of the old set (all that `N` blocks take), and the
other set consists of `N` new empty channels. -/
theorem DynamicAdjustChannelNum_at_most_one_set_holds_data {T : Type} (B : Nat)
    (ds : DatasetImpl T) (N : Nat) (d : Bool) (hN : 1 ≤ N) (hne : ds.channel_num_ ≠ (N : Int))
    (hlen : ds.multi_output_channel_.length = ds.multi_consume_channel_.length) :
    (DynamicAdjustChannelNum B ds N d = none ↔
      (totalSize ds.multi_output_channel_ ≠ 0 ∧ totalSize ds.multi_consume_channel_ ≠ 0)) ∧
    (∀ ds', DynamicAdjustChannelNum B ds N d = some ds' →
      (totalSize ds.multi_output_channel_ ≠ 0 →
        totalSize ds.multi_consume_channel_ = 0 ∧
        ds'.multi_output_channel_.length = N ∧
        (ds'.multi_output_channel_.map Channel.data).flatten =
          ((ds.multi_output_channel_.map Channel.data).flatten).take
            (N * (totalDataChannel B ds.multi_output_channel_ N d).block_size) ∧
        ds'.multi_consume_channel_ = List.replicate N (MakeChannel T B) ∧
        totalSize ds'.multi_consume_channel_ = 0) ∧
      (totalSize ds.multi_output_channel_ = 0 →
        ds'.multi_consume_channel_.length = N ∧
        (ds'.multi_consume_channel_.map Channel.data).flatten =
          ((ds.multi_consume_channel_.map Channel.data).flatten).take
            (N * (totalDataChannel B ds.multi_consume_channel_ N d).block_size) ∧
        ds'.multi_output_channel_ = List.replicate N (MakeChannel T B) ∧
        totalSize ds'.multi_output_channel_ = 0) ∧
      (totalSize ds.multi_output_channel_ = 0 → totalSize ds.multi_consume_channel_ = 0 →
        totalSize ds'.multi_output_channel_ = 0 ∧ totalSize ds'.multi_consume_channel_ = 0)) := by
  have hiff := DynamicAdjustChannelNum_none_iff B ds N d hN hne hlen
  refine ⟨hiff, ?_⟩
  intro ds' hs
  have hnot : ¬ (totalSize ds.multi_output_channel_ ≠ 0 ∧
      totalSize ds.multi_consume_channel_ ≠ 0) := by
    intro hb
    rw [hiff.2 hb] at hs
    exact absurd hs (by simp)
  have hone : totalSize ds.multi_output_channel_ = 0 ∨
      totalSize ds.multi_consume_channel_ = 0 := by
    by_cases ho : totalSize ds.multi_output_channel_ = 0
    · exact Or.inl ho
    · right
      by_contra hcn
      exact hnot ⟨ho, hcn⟩
  obtain ⟨ds2, hs2, _, hl1, hl2, hout, hcons⟩ :=
    DynamicAdjustChannelNum_eq B ds N d hN hne hlen hone
  have hds : ds2 = ds' := by
    have : some ds2 = some ds' := by
      rw [← hs2]
      exact hs
    exact Option.some.inj this
  subst hds
  have hA : ∀ ho : totalSize ds.multi_output_channel_ ≠ 0,
      totalSize ds.multi_consume_channel_ = 0 ∧
      ds2.multi_output_channel_.length = N ∧
      (ds2.multi_output_channel_.map Channel.data).flatten =
        ((ds.multi_output_channel_.map Channel.data).flatten).take
          (N * (totalDataChannel B ds.multi_output_channel_ N d).block_size) ∧
      ds2.multi_consume_channel_ = List.replicate N (MakeChannel T B) ∧
      totalSize ds2.multi_consume_channel_ = 0 := by
    intro ho
    obtain ⟨h1, h2⟩ := hout ho
    refine ⟨?_, hl1, ?_, h2, ?_⟩
    · rcases hone with h | h
      · exact absurd h ho
      · exact h
    · rw [h1, redistribute_data, totalDataChannel_data]
    · rw [h2]
      exact totalSize_replicate_MakeChannel T B N
  have hB : ∀ ho : totalSize ds.multi_output_channel_ = 0,
      ds2.multi_consume_channel_.length = N ∧
      (ds2.multi_consume_channel_.map Channel.data).flatten =
        ((ds.multi_consume_channel_.map Channel.data).flatten).take
          (N * (totalDataChannel B ds.multi_consume_channel_ N d).block_size) ∧
      ds2.multi_output_channel_ = List.replicate N (MakeChannel T B) ∧
      totalSize ds2.multi_output_channel_ = 0 := by
    intro ho
    obtain ⟨h1, h2⟩ := hcons ho
    refine ⟨hl2, ?_, h2, ?_⟩
    · rw [h1, redistribute_data, totalDataChannel_data]
    · rw [h2]
      exact totalSize_replicate_MakeChannel T B N
  refine ⟨hA, hB, ?_⟩
  intro ho hc
  obtain ⟨_, hdata, _, hz⟩ := hB ho
  refine ⟨hz, ?_⟩
  have hempty : (ds.multi_consume_channel_.map Channel.data).flatten = [] := by
    apply List.eq_nil_of_length_eq_zero
    rw [List.length_flatten, List.map_map]
    exact hc
  rw [hempty, List.take_nil] at hdata
  have := congrArg List.length hdata
  rw [List.length_flatten, List.map_map] at this
  exact this

theorem DynamicAdjustChannelNum_at_most_one_set_holds_data_witness :
    (DynamicAdjustChannelNum 1024 sevenConsumed (3 : Nat) false = none ↔
      (totalSize sevenConsumed.multi_output_channel_ ≠ 0 ∧
        totalSize sevenConsumed.multi_consume_channel_ ≠ 0)) ∧
    (∀ ds', DynamicAdjustChannelNum 1024 sevenConsumed (3 : Nat) false = some ds' →
      (totalSize sevenConsumed.multi_output_channel_ ≠ 0 →
        totalSize sevenConsumed.multi_consume_channel_ = 0 ∧
        ds'.multi_output_channel_.length = 3 ∧
        (ds'.multi_output_channel_.map Channel.data).flatten =
          ((sevenConsumed.multi_output_channel_.map Channel.data).flatten).take
            (3 * (totalDataChannel 1024 sevenConsumed.multi_output_channel_
              (3 : Nat) false).block_size) ∧
        ds'.multi_consume_channel_ = List.replicate 3 (MakeChannel Nat 1024) ∧
        totalSize ds'.multi_consume_channel_ = 0) ∧
      (totalSize sevenConsumed.multi_output_channel_ = 0 →
        ds'.multi_consume_channel_.length = 3 ∧
        (ds'.multi_consume_channel_.map Channel.data).flatten =
          ((sevenConsumed.multi_consume_channel_.map Channel.data).flatten).take
            (3 * (totalDataChannel 1024 sevenConsumed.multi_consume_channel_
              (3 : Nat) false).block_size) ∧
        ds'.multi_output_channel_ = List.replicate 3 (MakeChannel Nat 1024) ∧
        totalSize ds'.multi_output_channel_ = 0) ∧
      (totalSize sevenConsumed.multi_output_channel_ = 0 →
        totalSize sevenConsumed.multi_consume_channel_ = 0 →
        totalSize ds'.multi_output_channel_ = 0 ∧ totalSize ds'.multi_consume_channel_ = 0)) :=
  DynamicAdjustChannelNum_at_most_one_set_holds_data 1024 sevenConsumed 3 false (by decide)
    (by decide) (by decide)

/-- With neither set holding data, a change of the channel count from 1 to 2 does not
abort: it returns with two empty output channels and two empty consume channels. -/
theorem DynamicAdjustChannelNum_no_data_no_abort :
    totalSize noRecords.multi_output_channel_ = 0 ∧
      totalSize noRecords.multi_consume_channel_ = 0 ∧
      DynamicAdjustChannelNum 1024 noRecords 2 false =
        some { channel_num_ := 2
               input_channel_ := MakeChannel Nat 1024
               multi_output_channel_ := [MakeChannel Nat 1024, MakeChannel Nat 1024]
               multi_consume_channel_ := [MakeChannel Nat 1024, MakeChannel Nat 1024] } := by
  refine ⟨rfl, rfl, ?_⟩
  decide

/-! ## `LocalShuffle` -/

theorem swapAt_perm {T : Type} (v : List T) (i j : Nat) : (swapAt v i j).Perm v := by
  classical
  unfold swapAt
  cases hi : v.get? i with
  | none => exact List.Perm.refl _
  | some a =>
    cases hj : v.get? j with
    | none => exact List.Perm.refl _
    | some b =>
      simp only
      have hil : i < v.length := by
        by_contra h
        rw [List.get?_eq_none.2 (by omega)] at hi
        exact absurd hi (by simp)
      have hjl : j < v.length := by
        by_contra h
        rw [List.get?_eq_none.2 (by omega)] at hj
        exact absurd hj (by simp)
      have ha : v[i] = a := by
        rw [List.get?_eq_get hil] at hi
        exact Option.some.inj hi
      have hb : v[j] = b := by
        rw [List.get?_eq_get hjl] at hj
        exact Option.some.inj hj
      rw [List.perm_iff_count]
      intro x
      have hjl2 : j < (v.set i b).length := by rw [List.length_set]; exact hjl
      rw [List.count_set a x (v.set i b) j hjl2, List.count_set b x v i hil]
      have hget : (v.set i b)[j] = b := by
        rw [List.getElem_set]
        split
        · rfl
        · exact hb
      rw [hget, ha]
      have hpos : (if (a == x) = true then 1 else 0) ≤ List.count x v := by
        split
        · rename_i h
          have hx : a = x := by simpa using h
          rw [← hx, ← ha]
          exact List.count_pos_iff.2 (List.getElem_mem _)
        · exact Nat.zero_le _
      omega

theorem std_shuffle_perm {T : Type} (draws : Nat → Nat) (v : List T) :
    (std_shuffle draws v).Perm v := by
  unfold std_shuffle
  generalize List.range v.length = steps
  suffices h : ∀ acc : List T, acc.Perm v →
      (steps.foldl (fun acc i => swapAt acc i (draws i % (i + 1))) acc).Perm v from
    h v (List.Perm.refl _)
  induction steps with
  | nil => exact fun acc h => h
  | cons i steps ih =>
    intro acc h
    simp only [List.foldl_cons]
    exact ih _ ((swapAt_perm acc i _).trans h)

/-- C21: `LocalShuffle` keeps the data.  When the input channel is missing or empty
nothing changes; otherwise, for every sequence of values of the random engine, the input
channel holds a rearrangement of the records it held before (so the same number of
records), keeps its block size, and is closed. -/
theorem LocalShuffle_preserves_data {T : Type} (draws : Nat → Nat) :
    LocalShuffle draws (none : Option (Channel T)) = none ∧
    (∀ c : Channel T, c.Size = 0 → LocalShuffle draws (some c) = some c) ∧
    (∀ c : Channel T, c.Size ≠ 0 →
      ∃ c', LocalShuffle draws (some c) = some c' ∧ c'.data.Perm c.data ∧
        c'.Size = c.Size ∧ c'.block_size = c.block_size ∧ c'.closed = true) := by
  refine ⟨rfl, ?_, ?_⟩
  · intro c h
    simp [LocalShuffle, h]
  · intro c h
    have hp := std_shuffle_perm draws c.data
    refine ⟨{ data := std_shuffle draws c.data, block_size := c.block_size, closed := true },
      ?_, hp, hp.length_eq, rfl, rfl⟩
    simp only [LocalShuffle, if_neg h]
    rfl

/-- An example of `LocalShuffle`: with the draws `i + 2` the records `1, 2, 3, 4` of an
open channel are rearranged and the channel is closed. -/
theorem LocalShuffle_example :
    LocalShuffle (fun i => i + 2)
        (some { data := [1, 2, 3, 4], block_size := 2, closed := false })
      = some { data := [1, 4, 2, 3], block_size := 2, closed := true } := by
  decide

/-! ## Readers: the direction of the channel pairs -/

theorem CreateReaders_loop_eq (st : ReaderState) (hcn : 1 ≤ st.channel_num_) (n : Nat) :
    ∀ (i : Nat) (channel_idx : Int) (readers : List DataFeed),
      0 ≤ channel_idx → channel_idx < st.channel_num_ →
      CreateReaders_loop st n i channel_idx readers = readers ++
        (List.range n).map (fun k =>
          CreateReaders_reader st (i + k) ((channel_idx + (k : Int)) % st.channel_num_)) := by
  induction n with
  | zero =>
    intro i c r _ _
    simp [CreateReaders_loop]
  | succ n ih =>
    intro i c r h0 h1
    have hnext : (if c + 1 ≥ st.channel_num_ then (0 : Int) else c + 1)
        = (c + 1) % st.channel_num_ := by
      split
      · have : c + 1 = st.channel_num_ := by omega
        rw [this, Int.emod_self]
      · rw [Int.emod_eq_of_lt (by omega) (by omega)]
    simp only [CreateReaders_loop, hnext]
    rw [ih (i + 1) _ _ (Int.emod_nonneg _ (by omega)) (Int.emod_lt_of_pos _ (by omega)),
      List.range_succ_eq_map, List.map_cons, List.map_map, List.append_assoc]
    congr 1
    simp only [List.singleton_append]
    congr 1
    · simp only [Nat.cast_zero, Int.add_zero, Nat.add_zero]
      rw [Int.emod_eq_of_lt h0 h1]
    · apply List.map_congr_left
      intro k _
      simp only [Function.comp, Nat.cast_succ]
      rw [Int.emod_add_emod]
      congr 1
      · omega
      · congr 1
        omega

theorem CreateReaders_reader_channels (st : ReaderState) (i : Nat) (channel_idx : Int)
    (h0 : 0 ≤ channel_idx) :
    (channel_idx.toNat < st.multi_output_channel_size →
      (st.cur_channel_ = 0 →
        (CreateReaders_reader st i channel_idx).output_channel
            = some ⟨ChannelSet.multi_output_channel_, channel_idx.toNat⟩ ∧
          (CreateReaders_reader st i channel_idx).consume_channel
            = some ⟨ChannelSet.multi_consume_channel_, channel_idx.toNat⟩) ∧
      (st.cur_channel_ ≠ 0 →
        (CreateReaders_reader st i channel_idx).output_channel
            = some ⟨ChannelSet.multi_consume_channel_, channel_idx.toNat⟩ ∧
          (CreateReaders_reader st i channel_idx).consume_channel
            = some ⟨ChannelSet.multi_output_channel_, channel_idx.toNat⟩)) ∧
    (st.multi_output_channel_size ≤ channel_idx.toNat →
      (CreateReaders_reader st i channel_idx).output_channel = none ∧
        (CreateReaders_reader st i channel_idx).consume_channel = none) := by
  have hs : toSizeT channel_idx = channel_idx.toNat := by
    unfold toSizeT
    rw [if_pos h0]
  unfold CreateReaders_reader
  rw [hs]
  refine ⟨fun hlt => ⟨fun hc => ?_, fun hc => ?_⟩, fun hge => ?_⟩
  · simp only
    rw [if_pos ⟨hc, hlt⟩]
    exact ⟨rfl, rfl⟩
  · simp only
    rw [if_neg (fun h => hc h.1), if_pos hlt]
    exact ⟨rfl, rfl⟩
  · simp only
    rw [if_neg (fun h => by omega), if_neg (by omega)]
    exact ⟨rfl, rfl⟩

theorem DestroyReaders_iterate (n : Nat) (st : ReaderState) :
    (DatasetImpl.DestroyReaders^[n] st).cur_channel_
      = if n % 2 = 0 then st.cur_channel_ else 1 - st.cur_channel_ := by
  induction n generalizing st with
  | zero => rfl
  | succ n ih =>
    rw [Function.iterate_succ_apply, ih]
    have h : (DatasetImpl.DestroyReaders st).cur_channel_ = 1 - st.cur_channel_ := rfl
    rw [h]
    split <;> split <;> omega

/-- C22: the direction flag of the channel pairs.  `DestroyReaders` removes the readers,
sets `file_idx_` to 0 and maps `cur_channel_` to `1 - cur_channel_`; so two calls in a row
restore the flag, a flag that is 0 or 1 stays 0 or 1, and after `n` calls the flag is the
old one for even `n` and the other one for odd `n`.  The readers `CreateReaders` creates
are bound round-robin: reader `i` gets the channel index `i mod channel_num_`, and when
that index is inside the channel sets, its output channel is the channel of the output set
and its consume channel the channel of the consume set for `cur_channel_ = 0`, and the two
swapped otherwise (so for `cur_channel_ = 1`); a reader whose index is outside the channel
sets is bound to no channel. -/
theorem DestroyReaders_flips_cur_channel (st : ReaderState) :
    (DatasetImpl.DestroyReaders st).cur_channel_ = 1 - st.cur_channel_ ∧
    (DatasetImpl.DestroyReaders st).file_idx_ = 0 ∧
    (DatasetImpl.DestroyReaders st).readers_ = [] ∧
    (DatasetImpl.DestroyReaders (DatasetImpl.DestroyReaders st)).cur_channel_
      = st.cur_channel_ ∧
    ((st.cur_channel_ = 0 ∨ st.cur_channel_ = 1) →
      ((DatasetImpl.DestroyReaders st).cur_channel_ = 0 ∨
        (DatasetImpl.DestroyReaders st).cur_channel_ = 1)) ∧
    (∀ n : Nat, (DatasetImpl.DestroyReaders^[n] st).cur_channel_
      = if n % 2 = 0 then st.cur_channel_ else 1 - st.cur_channel_) ∧
    (∀ st', st.readers_ = [] → DatasetImpl.CreateReaders st = some st' →
      st'.cur_channel_ = st.cur_channel_ ∧
      st'.readers_.length = st.thread_num_.toNat ∧
      ∀ (i : Nat) (r : DataFeed), st'.readers_.get? i = some r →
        r.thread_id = (i : Int) ∧
        (i % st.channel_num_.toNat < st.multi_output_channel_size →
          (st.cur_channel_ = 0 →
            r.output_channel
                = some ⟨ChannelSet.multi_output_channel_, i % st.channel_num_.toNat⟩ ∧
              r.consume_channel
                = some ⟨ChannelSet.multi_consume_channel_, i % st.channel_num_.toNat⟩) ∧
          (st.cur_channel_ ≠ 0 →
            r.output_channel
                = some ⟨ChannelSet.multi_consume_channel_, i % st.channel_num_.toNat⟩ ∧
              r.consume_channel
                = some ⟨ChannelSet.multi_output_channel_, i % st.channel_num_.toNat⟩)) ∧
        (st.multi_output_channel_size ≤ i % st.channel_num_.toNat →
          r.output_channel = none ∧ r.consume_channel = none)) := by
  refine ⟨rfl, rfl, rfl, ?_, ?_, fun n => DestroyReaders_iterate n st, ?_⟩
  · show 1 - (1 - st.cur_channel_) = st.cur_channel_
    omega
  · intro h
    show 1 - st.cur_channel_ = 0 ∨ 1 - st.cur_channel_ = 1
    omega
  · intro st' hempty h
    unfold DatasetImpl.CreateReaders at h
    by_cases h1 : st.thread_num_ > 0
    · by_cases h2 : st.channel_num_ > 0
      · by_cases h3 : st.channel_num_ ≤ st.thread_num_
        · rw [if_neg (by omega), if_neg (by omega), if_neg (by omega),
            if_neg (by rw [hempty]; simp)] at h
          simp only [Option.some.injEq] at h
          subst h
          have hloop := CreateReaders_loop_eq st (by omega) st.thread_num_.toNat 0 0
            st.readers_ (le_refl _) (by omega)
          rw [hempty, List.nil_append] at hloop
          refine ⟨rfl, ?_, ?_⟩
          · show (CreateReaders_loop st st.thread_num_.toNat 0 0 st.readers_).length = _
            rw [hempty, hloop]
            simp
          · intro i r hr
            have hr2 : (CreateReaders_loop st st.thread_num_.toNat 0 0 []).get? i = some r := by
              rw [← hempty]
              exact hr
            rw [hloop, List.get?_eq_getElem?, List.getElem?_map] at hr2
            have hi : i < st.thread_num_.toNat := by
              by_contra hge
              rw [List.getElem?_eq_none (by simp; omega)] at hr2
              exact absurd hr2 (by simp)
            rw [List.getElem?_range hi] at hr2
            simp only [Option.map_some', Option.some.injEq, Nat.zero_add, Int.zero_add] at hr2
            have hidx : ((i : Int) % st.channel_num_).toNat = i % st.channel_num_.toNat := by
              have hc : st.channel_num_ = ((st.channel_num_.toNat : Nat) : Int) :=
                (Int.toNat_of_nonneg (by omega)).symm
              rw [hc, ← Int.natCast_mod, Int.toNat_natCast, Int.toNat_natCast]
            have hch := CreateReaders_reader_channels st i ((i : Int) % st.channel_num_)
              (Int.emod_nonneg _ (by omega))
            rw [hidx, hr2] at hch
            refine ⟨?_, hch⟩
            rw [← hr2]
            unfold CreateReaders_reader
            split
            · rfl
            · split <;> rfl
        · rw [if_neg (by omega), if_neg (by omega), if_pos h3] at h
          exact absurd h (by simp)
      · rw [if_neg (by omega), if_pos h2] at h
        exact absurd h (by simp)
    · rw [if_pos h1] at h
      exact absurd h (by simp)

/-- An example of the round-robin binding: three readers over two channels with
`cur_channel_ = 1` get the consume set as output and the output set as consume. -/
theorem CreateReaders_example :
    (DatasetImpl.CreateReaders
        { thread_num_ := 3, channel_num_ := 2, cur_channel_ := 1, file_idx_ := 0,
          multi_output_channel_size := 2, readers_ := [] }).map
        (fun st => st.readers_.map (fun r => (r.output_channel, r.consume_channel)))
      = some
        [(some ⟨ChannelSet.multi_consume_channel_, 0⟩, some ⟨ChannelSet.multi_output_channel_, 0⟩),
         (some ⟨ChannelSet.multi_consume_channel_, 1⟩, some ⟨ChannelSet.multi_output_channel_, 1⟩),
         (some ⟨ChannelSet.multi_consume_channel_, 0⟩,
          some ⟨ChannelSet.multi_output_channel_, 0⟩)] := by
  decide

/-! ## `SetFileList` -/

/-- C30: in polling mode `PadBoxSlotDataset::SetFileList` does not set the file list from
its argument alone.  With two ranks, on rank 0, the call with the files `a, b, c` on a
dataset whose file list is `old` leaves `old, a, c` (the files of the rank are appended to
the old list), and a second call with the same argument leaves `a, c, a, c` where one call
leaves `a, c`.  With polling disabled, and in `DatasetImpl::SetFileList`, the file list is
the argument.  The file cursor is 0 in all cases. -/
theorem SetFileList_polling_appends :
    PadBoxSlotDataset.SetFileList 2 0 false { filelist_ := ["old"], file_idx_ := 3 }
        ["a", "b", "c"]
      = some { filelist_ := ["old", "a", "c"], file_idx_ := 0 } ∧
    PadBoxSlotDataset.SetFileList 2 0 false { filelist_ := [], file_idx_ := 3 } ["a", "b", "c"]
      = some { filelist_ := ["a", "c"], file_idx_ := 0 } ∧
    PadBoxSlotDataset.SetFileList 2 0 false { filelist_ := ["a", "c"], file_idx_ := 0 }
        ["a", "b", "c"]
      = some { filelist_ := ["a", "c", "a", "c"], file_idx_ := 0 } ∧
    PadBoxSlotDataset.SetFileList 2 0 true { filelist_ := ["old"], file_idx_ := 3 }
        ["a", "b", "c"]
      = some { filelist_ := ["a", "b", "c"], file_idx_ := 0 } ∧
    DatasetImpl.SetFileList { filelist_ := ["old"], file_idx_ := 3 } ["a", "b", "c"]
      = { filelist_ := ["a", "b", "c"], file_idx_ := 0 } := by
  refine ⟨?_, ?_, ?_, ?_, ?_⟩ <;> decide

/-! ## Merge by instance id: the channels -/

theorem MergeByInsId_readback_eq (outs : List (Channel Record)) :
    ∀ channel_data : Channel Record,
      (MergeByInsId_readback channel_data outs).1.length = outs.length ∧
      (MergeByInsId_readback channel_data outs).2.data
        = channel_data.data.drop (outs.length * channel_data.block_size) ∧
      ((∀ c ∈ outs, c.data = []) →
        ((MergeByInsId_readback channel_data outs).1.map Channel.data).flatten
          = channel_data.data.take (outs.length * channel_data.block_size)) ∧
      (∀ c ∈ (MergeByInsId_readback channel_data outs).1, c.closed = false) := by
  induction outs with
  | nil =>
    intro cd
    simp [MergeByInsId_readback]
  | cons c rest ih =>
    intro cd
    obtain ⟨h1, h2, h3, h4⟩ := ih (cd.Read).2
    have hb : (cd.Read).2.block_size = cd.block_size := rfl
    have hd : (cd.Read).2.data = cd.data.drop cd.block_size := rfl
    have e : (rest.length + 1) * cd.block_size = cd.block_size + rest.length * cd.block_size := by
      ring
    simp only [MergeByInsId_readback, List.length_cons]
    refine ⟨by rw [h1], ?_, ?_, ?_⟩
    · rw [h2, hb, hd, List.drop_drop, e]
    · intro hempty
      rw [List.map_cons, List.flatten_cons,
        h3 (fun x hx => hempty x (List.mem_cons_of_mem _ hx)), hb, hd, e, List.take_add]
      have hc : c.data = [] := hempty c (List.mem_cons_self _ _)
      simp [Channel.Open, Channel.Write, Channel.Read, hc]
    · intro x hx
      rcases List.mem_cons.1 hx with hx | hx
      · rw [hx]
        rfl
      · exact h4 x hx

theorem MergeByInsId_drain_empty (outs : List (Channel Record)) :
    (MergeByInsId_drain outs).2.length = outs.length ∧
      ∀ c ∈ (MergeByInsId_drain outs).2, c.data = [] := by
  unfold MergeByInsId_drain
  refine ⟨by simp, ?_⟩
  intro c hc
  obtain ⟨x, _, rfl⟩ := List.mem_map.1 hc
  rfl

theorem MergeByInsId_readback_size (outs : List (Channel Record)) :
    ∀ channel_data : Channel Record, (∀ c ∈ outs, c.data = []) →
      ∀ c ∈ (MergeByInsId_readback channel_data outs).1, c.Size ≤ channel_data.block_size := by
  induction outs with
  | nil =>
    intro cd _ c hc
    simp [MergeByInsId_readback] at hc
  | cons c0 rest ih =>
    intro cd hempty c hc
    simp only [MergeByInsId_readback, List.mem_cons] at hc
    rcases hc with hc | hc
    · rw [hc]
      have h0 : c0.data = [] := hempty c0 (List.mem_cons_self _ _)
      simp [Channel.Size, Channel.Open, Channel.Write, Channel.Read, h0, List.length_take]
    · exact ih (cd.Read).2 (fun x hx => hempty x (List.mem_cons_of_mem _ hx)) c hc

/-- The re-partition on as many output channels as `channel_num_`. -/
theorem MergeByInsId_repartition_eq (B : Nat) (channel_num_ : Int) (results : List Record)
    (outs : List (Channel Record)) (hn : 1 ≤ channel_num_)
    (hlen : (outs.length : Int) = channel_num_) (hempty : ∀ c ∈ outs, c.data = []) :
    ∃ outs', MergeByInsId_repartition B channel_num_ results outs = some outs' ∧
      outs'.length = outs.length ∧ (outs'.map Channel.data).flatten = results ∧
      (∀ c ∈ outs', c.closed = false) ∧
      ∀ c ∈ outs', c.Size ≤ results.length / channel_num_.toNat + 1 := by
  have hcd := MergeByInsId_channel_data_eq B channel_num_ results (by omega)
  have hN : channel_num_.toNat = outs.length := by omega
  obtain ⟨h1, h2, h3, h4⟩ := MergeByInsId_readback_eq outs
    { data := results, block_size := results.length / channel_num_.toNat + 1, closed := true }
  have hcover : results.length ≤ outs.length * (results.length / channel_num_.toNat + 1) := by
    rw [hN]
    exact Nat.le_of_lt (Nat.lt_mul_div_succ results.length (by omega))
  simp only at h2 h3
  have hzero : (MergeByInsId_readback
      { data := results, block_size := results.length / channel_num_.toNat + 1, closed := true }
      outs).2.Size = 0 := by
    unfold Channel.Size
    rw [h2, List.length_drop]
    omega
  refine ⟨_, by simp only [MergeByInsId_repartition, hcd, if_pos hzero], h1, ?_, h4, ?_⟩
  · rw [h3 hempty, List.take_of_length_le hcover]
  · intro c hc
    exact MergeByInsId_readback_size _ _ hempty c hc

/-- C27: the re-partition of `MergeByInsId` loses nothing and its final `CHECK` holds.
When the number of output channels is `channel_num_ >= 1`, `MergeByInsId` returns: reading
one block of size `size / channel_num_ + 1` per output channel empties the temporary
channel, so `CHECK(channel_data->Size() == 0)` passes; the output channels are open, none
holds more than one block, and their records, taken in order, are the merged records as
the shuffle left them, so together they hold a rearrangement of the merged records when
the shuffle rearranges. -/
theorem MergeByInsId_repartition_loses_nothing (B : Nat) (cfg : MergeConfig)
    (channel_num_ : Int) (shuffle : List Record → List Record)
    (multi_output_channel_ : List (Channel Record)) (hn : 1 ≤ channel_num_)
    (hlen : (multi_output_channel_.length : Int) = channel_num_) :
    ∃ outs, MultiSlotDataset.MergeByInsId B cfg channel_num_ shuffle multi_output_channel_
        = some (outs,
            (MergeByInsId cfg ((multi_output_channel_.map Channel.data).flatten)).2) ∧
      MergeByInsId_repartition B channel_num_
          (shuffle (MergeByInsId cfg ((multi_output_channel_.map Channel.data).flatten)).1)
          (MergeByInsId_drain multi_output_channel_).2 = some outs ∧
      outs.length = multi_output_channel_.length ∧
      (outs.map Channel.data).flatten
        = shuffle (MergeByInsId cfg ((multi_output_channel_.map Channel.data).flatten)).1 ∧
      (∀ c ∈ outs, c.closed = false) ∧
      (∀ c ∈ outs, c.Size ≤
        (shuffle (MergeByInsId cfg
          ((multi_output_channel_.map Channel.data).flatten)).1).length
            / channel_num_.toNat + 1) ∧
      ((∀ l, (shuffle l).Perm l) →
        ((outs.map Channel.data).flatten).Perm
          (MergeByInsId cfg ((multi_output_channel_.map Channel.data).flatten)).1) := by
  obtain ⟨hdl, hde⟩ := MergeByInsId_drain_empty multi_output_channel_
  obtain ⟨outs, h1, h2, h3, h4, h5⟩ := MergeByInsId_repartition_eq B channel_num_
    (shuffle (MergeByInsId cfg ((multi_output_channel_.map Channel.data).flatten)).1)
    (MergeByInsId_drain multi_output_channel_).2 hn (by rw [hdl]; exact hlen) hde
  have hne : multi_output_channel_.length ≠ 0 := by omega
  refine ⟨outs, ?_, h1, by rw [h2, hdl], h3, h4, h5, ?_⟩
  · unfold MultiSlotDataset.MergeByInsId
    rw [if_neg hne]
    have hd1 : (MergeByInsId_drain multi_output_channel_).1
        = (multi_output_channel_.map Channel.data).flatten := rfl
    simp only [hd1, h1]
  · intro hp
    rw [h3]
    exact hp _

/-- C27 (witness): the four example records in two output channels, `merge_size_ = 2`. -/
theorem MergeByInsId_repartition_loses_nothing_witness :
    ∃ outs, MultiSlotDataset.MergeByInsId 1024 sparseCfg 2 (fun l => l) mergeChannels
        = some (outs, (MergeByInsId sparseCfg ((mergeChannels.map Channel.data).flatten)).2) ∧
      MergeByInsId_repartition 1024 2
          ((fun l => l) (MergeByInsId sparseCfg ((mergeChannels.map Channel.data).flatten)).1)
          (MergeByInsId_drain mergeChannels).2 = some outs ∧
      outs.length = mergeChannels.length ∧
      (outs.map Channel.data).flatten
        = (fun l => l) (MergeByInsId sparseCfg ((mergeChannels.map Channel.data).flatten)).1 ∧
      (∀ c ∈ outs, c.closed = false) ∧
      (∀ c ∈ outs, c.Size ≤
        ((fun l => l) (MergeByInsId sparseCfg
          ((mergeChannels.map Channel.data).flatten)).1).length / (2 : Int).toNat + 1) ∧
      ((∀ l : List Record, ((fun l => l) l).Perm l) →
        ((outs.map Channel.data).flatten).Perm
          (MergeByInsId sparseCfg ((mergeChannels.map Channel.data).flatten)).1) :=
  MergeByInsId_repartition_loses_nothing 1024 sparseCfg 2 (fun l => l) mergeChannels
    (by decide) (by decide)

/-! ## Merge by instance id: the count of the records -/

theorem processGroup_size (cfg : MergeConfig) (g : List Record) (m : Record)
    (hms : 0 < cfg.merge_size_) (h : processGroup cfg g = some m) :
    (g.length : Int) = cfg.merge_size_ := by
  unfold processGroup at h
  cases g with
  | nil => exact absurd h (by simp)
  | cons first tail =>
    simp only at h
    by_contra hne
    rw [if_pos ⟨hms, hne⟩] at h
    exact absurd h (by simp)

theorem groups_count (cfg : MergeConfig) (hms : 0 < cfg.merge_size_)
    (gs : List (List Record)) :
    (((gs.map List.length).sum : Nat) : Int) =
      (droppedCount cfg gs : Nat) +
        cfg.merge_size_ * ((gs.filterMap (processGroup cfg)).length : Nat) := by
  induction gs with
  | nil => simp [droppedCount]
  | cons g gs ih =>
    have hd : droppedCount cfg (g :: gs)
        = (if (processGroup cfg g).isNone then g.length else 0) + droppedCount cfg gs := by
      unfold droppedCount
      cases hp : processGroup cfg g <;> simp [List.filter_cons, hp]
    rw [List.map_cons, List.sum_cons, hd]
    cases hp : processGroup cfg g with
    | none =>
      simp only [List.filterMap_cons, hp, Option.isNone_none, if_true]
      rw [Nat.cast_add, Nat.cast_add, ih]
      ring
    | some m =>
      have hsz := processGroup_size cfg g m hms hp
      simp only [List.filterMap_cons, hp, Option.isNone_some, List.length_cons,
        Bool.false_eq_true, if_false]
      rw [Nat.cast_add, Nat.cast_add, Nat.cast_add, ih, hsz]
      simp only [Nat.cast_zero, Nat.cast_one]
      ring

/-- C26: `MergeByInsId` accounts for every input record and emits distinct ids.  For every
input and `merge_size_ > 0` the number of input records is `drop_ins_num` plus
`merge_size_` times the number of emitted records; for every `merge_size_` the emitted
records carry pairwise different instance ids. -/
theorem MergeByInsId_accounts_for_every_record (cfg : MergeConfig) (recs : List Record) :
    (0 < cfg.merge_size_ →
      (recs.length : Int) =
        ((MergeByInsId cfg recs).2 : Nat) +
          cfg.merge_size_ * ((MergeByInsId cfg recs).1.length : Nat)) ∧
    (MergeByInsId cfg recs).1.Pairwise (fun a b => a.ins_id_ ≠ b.ins_id_) := by
  constructor
  · intro hms
    rw [MergeByInsId_eq]
    have h := groups_count cfg hms (groupsById (sortByInsId recs))
    rw [← List.length_flatten, groupsById_flatten, (sortByInsId_perm recs).length_eq] at h
    exact h
  · exact (MergeByInsId_output cfg recs).1.imp (fun h => insIdLt_ne h)

/-- An example of the count: of the four records of the example, with the two records of
instance `b` in conflict, two are dropped and one merged record is emitted. -/
theorem MergeByInsId_count_example :
    ((MergeByInsId sparseCfg [recB1, recA1, recB2, recA2]).1.length,
      (MergeByInsId sparseCfg [recB1, recA1, recB2, recA2]).2) = (1, 2) := by
  decide

/-- C26 (witness): the four example records with `merge_size_ = 2`. -/
theorem MergeByInsId_accounts_for_every_record_witness :
    (0 : Int) < sparseCfg.merge_size_ ∧
    (([recB1, recA1, recB2, recA2].length : Nat) : Int) =
      ((MergeByInsId sparseCfg [recB1, recA1, recB2, recA2]).2 : Nat) +
        sparseCfg.merge_size_ *
          ((MergeByInsId sparseCfg [recB1, recA1, recB2, recA2]).1.length : Nat) :=
  ⟨by decide,
    (MergeByInsId_accounts_for_every_record sparseCfg [recB1, recA1, recB2, recA2]).1
      (by decide)⟩

/-! ## Batch offsets: the loops in exact arithmetic -/

theorem toInt32_of_range (x : Int) (h1 : -(2 ^ 31) ≤ x) (h2 : x < 2 ^ 31) : toInt32 x = x := by
  unfold toInt32
  rw [Int.emod_eq_of_lt (by omega) (by omega)]
  omega

theorem compute_batch_num_loop_eq (batch_size : Int) (hb : 0 ≤ batch_size) :
    ∀ (n : Nat) (cur_pos : Int) (offset : List (Int × Int)), -(2 ^ 31) ≤ cur_pos →
      cur_pos + n * batch_size < 2 ^ 31 →
      compute_batch_num_loop batch_size n cur_pos offset
        = (cur_pos + n * batch_size, offset ++ fullBatches batch_size n cur_pos) := by
  intro n
  induction n with
  | zero =>
    intro c o _ _
    simp [compute_batch_num_loop, fullBatches]
  | succ n ih =>
    intro c o hc hr
    have hnb : (0 : Int) ≤ (n : Int) * batch_size := mul_nonneg (by omega) hb
    have e : ((n + 1 : Nat) : Int) * batch_size = (n : Int) * batch_size + batch_size := by
      push_cast
      ring
    rw [e] at hr
    simp only [compute_batch_num_loop, fullBatches]
    rw [toInt32_of_range _ (by omega) (by omega), ih _ _ (by omega) (by omega), e,
      List.append_assoc]
    simp only [List.singleton_append]
    congr 1
    ring

theorem compute_left_batch_num_loop_eq (batch_size left_num : Int) :
    ∀ (n i : Nat) (cur_pos : Int) (offset : List (Int × Int)), i ≠ 0 →
      compute_left_batch_num_loop batch_size left_num n i cur_pos offset
        = (compute_batch_num_loop batch_size n cur_pos offset).2 := by
  intro n
  induction n with
  | zero => intro i c o _; rfl
  | succ n ih =>
    intro i c o hi
    simp only [compute_left_batch_num_loop, compute_batch_num_loop, if_neg hi]
    exact ih _ _ _ (by omega)

theorem compute_left_batch_num_eq (ins_num thread_num start_pos : Int)
    (offset : List (Int × Int)) (ht : 1 ≤ thread_num) (hn : 0 ≤ ins_num)
    (hn2 : ins_num < 2 ^ 31) (hs : -(2 ^ 31) ≤ start_pos) (hr : start_pos + ins_num < 2 ^ 31) :
    compute_left_batch_num ins_num thread_num offset start_pos
      = some (offset ++ leftBatches ins_num thread_num start_pos) := by
  have hq : 0 ≤ ins_num / thread_num := Int.ediv_nonneg hn (by omega)
  have hm : 0 ≤ ins_num % thread_num := Int.emod_nonneg _ (by omega)
  have hd : ins_num % thread_num + thread_num * (ins_num / thread_num) = ins_num :=
    Int.emod_add_ediv _ _
  have hqt : ins_num / thread_num ≤ thread_num * (ins_num / thread_num) := by nlinarith
  have hk : thread_num.toNat = (thread_num.toNat - 1) + 1 := by omega
  have hcast : ((thread_num.toNat - 1 : Nat) : Int) = thread_num - 1 := by omega
  have hprod : ((thread_num.toNat - 1 : Nat) : Int) * (ins_num / thread_num)
      = thread_num * (ins_num / thread_num) - ins_num / thread_num := by
    rw [hcast]
    ring
  unfold compute_left_batch_num leftBatches
  rw [if_neg (by omega), Int.tdiv_eq_ediv hn (by omega), Int.tmod_eq_emod hn (by omega), hk]
  simp only [compute_left_batch_num_loop, if_true]
  rw [toInt32_of_range (ins_num / thread_num + ins_num % thread_num) (by omega) (by omega),
    toInt32_of_range _ (by omega) (by omega),
    compute_left_batch_num_loop_eq _ _ _ _ _ _ (by omega),
    compute_batch_num_loop_eq _ hq _ _ _ (by omega) (by rw [hprod]; omega)]
  simp only [List.append_assoc, List.singleton_append, Nat.add_sub_cancel]

theorem compute_batch_num_eq (ins_num batch_size thread_num : Int) (offset : List (Int × Int))
    (ht : 1 ≤ thread_num) (hb : 1 ≤ batch_size) (hn0 : 0 ≤ ins_num) (hn : ins_num < 2 ^ 31)
    (hbt : batch_size * thread_num < 2 ^ 31) (h2t : thread_num * 2 < 2 ^ 31) :
    compute_batch_num ins_num batch_size thread_num offset
      = some (offset ++ batchPlan ins_num batch_size thread_num) := by
  have hT : thread_num ≤ batch_size * thread_num := by nlinarith
  have e1 : toInt32 (batch_size * thread_num) = batch_size * thread_num :=
    toInt32_of_range _ (by omega) hbt
  unfold compute_batch_num batchPlan
  simp only [e1]
  by_cases hA : batch_size * thread_num > ins_num
  · rw [if_pos hA, if_pos hA, toInt32_of_range _ (by omega) hn,
      compute_left_batch_num_eq _ _ _ _ ht hn0 hn (by omega) (by omega)]
  · rw [if_neg hA, if_neg hA, if_neg (by omega),
      Int.tdiv_eq_ediv hn0 (by omega), Int.tmod_eq_emod hn0 (by omega)]
    have hr0 : 0 ≤ ins_num % (batch_size * thread_num) := Int.emod_nonneg _ (by omega)
    have hr1 : ins_num % (batch_size * thread_num) < batch_size * thread_num :=
      Int.emod_lt_of_pos _ (by omega)
    have hd : ins_num % (batch_size * thread_num)
        + batch_size * thread_num * (ins_num / (batch_size * thread_num)) = ins_num :=
      Int.emod_add_ediv _ _
    have hq0 : 0 ≤ ins_num / (batch_size * thread_num) := Int.ediv_nonneg hn0 (by omega)
    have hq1 : 1 ≤ ins_num / (batch_size * thread_num) := by
      by_contra hc
      have h0 : ins_num / (batch_size * thread_num) = 0 := by omega
      rw [h0] at hd
      omega
    generalize ins_num / (batch_size * thread_num) = q at *
    generalize ins_num % (batch_size * thread_num) = r at *
    have hqt0 : 0 ≤ q * thread_num := mul_nonneg hq0 (by omega)
    have hqt : q * thread_num ≤ batch_size * thread_num * q := by nlinarith
    have hqT : batch_size * thread_num ≤ batch_size * thread_num * q := by nlinarith
    have e2 : toInt32 q = q := toInt32_of_range _ (by omega) (by nlinarith)
    have e3 : toInt32 (q * thread_num) = q * thread_num :=
      toInt32_of_range _ (by omega) (by omega)
    have e4 : toInt32 r = r := toInt32_of_range _ (by omega) (by omega)
    have e5 : toInt32 (thread_num * 2) = thread_num * 2 :=
      toInt32_of_range _ (by omega) (by omega)
    simp only [e2, e3, e4, e5, gt_iff_lt]
    by_cases hC : 0 < r ∧ r < thread_num * 2 ∧ 1 < q * thread_num
    · have e6 : toInt32 (q * thread_num - thread_num) = q * thread_num - thread_num :=
        toInt32_of_range _ (by nlinarith) (by omega)
      have e7 : toInt32 (r + batch_size * thread_num) = r + batch_size * thread_num :=
        toInt32_of_range _ (by omega) (by omega)
      have e8 : (q - 1) * thread_num = q * thread_num - thread_num := by ring
      have hn1 : 0 ≤ q * thread_num - thread_num := by nlinarith
      have e9 : (((q * thread_num - thread_num).toNat : Nat) : Int) * batch_size
          = batch_size * thread_num * q - batch_size * thread_num := by
        rw [Int.toNat_of_nonneg hn1]
        ring
      rw [if_pos hC, if_pos hC, e6, e7, e8,
        compute_batch_num_loop_eq _ (by omega) _ _ _ (by omega) (by rw [e9]; omega)]
      simp only []
      rw [compute_left_batch_num_eq _ _ _ _ (by omega) (by omega) (by omega)
        (by rw [e9]; omega) (by rw [e9]; omega), List.append_assoc]
      congr 3
      rw [e9]
      ring_nf
    · have e9 : (((q * thread_num).toNat : Nat) : Int) * batch_size
          = batch_size * thread_num * q := by
        rw [Int.toNat_of_nonneg hqt0]
        ring
      rw [if_neg hC, if_neg hC,
        compute_batch_num_loop_eq _ (by omega) _ _ _ (by omega) (by rw [e9]; omega)]
      simp only []
      by_cases hr : 0 < r
      · rw [if_pos hr, if_pos hr,
          compute_left_batch_num_eq _ _ _ _ ht (by omega) (by omega) (by rw [e9]; omega)
          (by rw [e9]; omega), List.append_assoc]
        congr 3
        rw [e9]
        ring_nf
      · rw [if_neg hr, if_neg hr, List.append_nil]

/-! ## Batch offsets: the plan of `compute_batch_num` -/

theorem length_fullBatches (batch_size : Int) :
    ∀ (n : Nat) (cur_pos : Int), (fullBatches batch_size n cur_pos).length = n := by
  intro n
  induction n with
  | zero => intro c; rfl
  | succ n ih => intro c; simp only [fullBatches, List.length_cons, ih]

theorem mem_fullBatches (batch_size : Int) :
    ∀ (n : Nat) (cur_pos : Int) (p : Int × Int), p ∈ fullBatches batch_size n cur_pos →
      p.2 = batch_size := by
  intro n
  induction n with
  | zero => intro c p h; simp [fullBatches] at h
  | succ n ih =>
    intro c p h
    simp only [fullBatches, List.mem_cons] at h
    rcases h with h | h
    · rw [h]
    · exact ih _ _ h

theorem chainEnd_append (l1 l2 : List (Int × Int)) :
    ∀ (s : Int), chainEnd s (l1 ++ l2) = (chainEnd s l1).bind (fun m => chainEnd m l2) := by
  induction l1 with
  | nil => intro s; rfl
  | cons p rest ih =>
    intro s
    simp only [List.cons_append, chainEnd]
    by_cases h : p.1 = s
    · rw [if_pos h, if_pos h]
      exact ih _
    · rw [if_neg h, if_neg h]
      rfl

theorem chainEnd_fullBatches (batch_size : Int) :
    ∀ (n : Nat) (cur_pos : Int),
      chainEnd cur_pos (fullBatches batch_size n cur_pos) = some (cur_pos + n * batch_size) := by
  intro n
  induction n with
  | zero => intro c; simp [fullBatches, chainEnd]
  | succ n ih =>
    intro c
    simp only [fullBatches, chainEnd, if_true, ih]
    congr 1
    push_cast
    ring

theorem length_leftBatches (ins_num thread_num start_pos : Int) (ht : 1 ≤ thread_num) :
    (leftBatches ins_num thread_num start_pos).length = thread_num.toNat := by
  simp only [leftBatches, List.length_cons, length_fullBatches]
  omega

theorem chainEnd_leftBatches (ins_num thread_num start_pos : Int) (ht : 1 ≤ thread_num) :
    chainEnd start_pos (leftBatches ins_num thread_num start_pos)
      = some (start_pos + ins_num) := by
  have hd : ins_num % thread_num + thread_num * (ins_num / thread_num) = ins_num :=
    Int.emod_add_ediv _ _
  have hcast : ((thread_num.toNat - 1 : Nat) : Int) = thread_num - 1 := by omega
  simp only [leftBatches, chainEnd, if_true, chainEnd_fullBatches, hcast]
  congr 1
  linear_combination hd

theorem mem_leftBatches (ins_num thread_num start_pos : Int) (p : Int × Int)
    (h : p ∈ leftBatches ins_num thread_num start_pos) :
    p.2 = ins_num / thread_num + ins_num % thread_num ∨ p.2 = ins_num / thread_num := by
  simp only [leftBatches, List.mem_cons] at h
  rcases h with h | h
  · left
    rw [h]
  · right
    exact mem_fullBatches _ _ _ _ h

/-- The batches of a left-over split are no smaller than the quotient. -/
theorem leftBatches_ge (ins_num thread_num start_pos : Int) (ht : 1 ≤ thread_num)
    (p : Int × Int) (h : p ∈ leftBatches ins_num thread_num start_pos) :
    ins_num / thread_num ≤ p.2 := by
  have hm : 0 ≤ ins_num % thread_num := Int.emod_nonneg _ (by omega)
  rcases mem_leftBatches _ _ _ _ h with h | h <;> omega

theorem batchPlan_chainEnd (ins_num batch_size thread_num : Int) (ht : 1 ≤ thread_num)
    (hb : 1 ≤ batch_size) (hn0 : 0 ≤ ins_num) :
    chainEnd 0 (batchPlan ins_num batch_size thread_num) = some ins_num := by
  have hT : thread_num ≤ batch_size * thread_num := by nlinarith
  unfold batchPlan
  by_cases hA : batch_size * thread_num > ins_num
  · rw [if_pos hA, chainEnd_leftBatches _ _ _ ht, zero_add]
  · rw [if_neg hA]
    have hd : ins_num % (batch_size * thread_num)
        + batch_size * thread_num * (ins_num / (batch_size * thread_num)) = ins_num :=
      Int.emod_add_ediv _ _
    have hq0 : 0 ≤ ins_num / (batch_size * thread_num) := Int.ediv_nonneg hn0 (by omega)
    have hr0 : 0 ≤ ins_num % (batch_size * thread_num) := Int.emod_nonneg _ (by omega)
    have hr1 : ins_num % (batch_size * thread_num) < batch_size * thread_num :=
      Int.emod_lt_of_pos _ (by omega)
    have hq1 : 1 ≤ ins_num / (batch_size * thread_num) := by
      by_contra hc
      have h0 : ins_num / (batch_size * thread_num) = 0 := by omega
      rw [h0] at hd
      omega
    generalize ins_num / (batch_size * thread_num) = q at *
    generalize ins_num % (batch_size * thread_num) = r at *
    have hqt0 : 0 ≤ q * thread_num := mul_nonneg hq0 (by omega)
    have hn1 : 0 ≤ (q - 1) * thread_num := mul_nonneg (by omega) (by omega)
    by_cases hC : 0 < r ∧ r < thread_num * 2 ∧ 1 < q * thread_num
    · rw [if_pos hC, chainEnd_append, chainEnd_fullBatches, Int.toNat_of_nonneg hn1]
      simp only [Option.some_bind, zero_add]
      rw [chainEnd_leftBatches _ _ _ (by omega)]
      congr 1
      linear_combination hd
    · rw [if_neg hC, chainEnd_append, chainEnd_fullBatches, Int.toNat_of_nonneg hqt0]
      simp only [Option.some_bind, zero_add]
      by_cases hr : 0 < r
      · rw [if_pos hr, chainEnd_leftBatches _ _ _ ht]
        congr 1
        linear_combination hd
      · rw [if_neg hr]
        simp only [chainEnd]
        congr 1
        have : r = 0 := by omega
        rw [this] at hd
        linear_combination hd

/-- The three shapes of the plan of `compute_batch_num`. -/
theorem batchPlan_cases (ins_num batch_size thread_num : Int) (ht : 1 ≤ thread_num)
    (hb : 1 ≤ batch_size) (hn0 : 0 ≤ ins_num) :
    (ins_num < batch_size * thread_num ∧
      batchPlan ins_num batch_size thread_num = leftBatches ins_num thread_num 0) ∨
    (∃ q r, q = ins_num / (batch_size * thread_num) ∧
      r = ins_num % (batch_size * thread_num) ∧ 1 ≤ q ∧ 0 ≤ r ∧
      r < batch_size * thread_num ∧ r + batch_size * thread_num * q = ins_num ∧
      ((0 < r ∧ r < thread_num * 2 ∧ 1 < q * thread_num ∧
        batchPlan ins_num batch_size thread_num =
          fullBatches batch_size ((q - 1) * thread_num).toNat 0 ++
            leftBatches (r + batch_size * thread_num) (thread_num * 2)
              ((q - 1) * thread_num * batch_size)) ∨
       (¬ (0 < r ∧ r < thread_num * 2 ∧ 1 < q * thread_num) ∧
        batchPlan ins_num batch_size thread_num =
          fullBatches batch_size (q * thread_num).toNat 0 ++
            (if 0 < r then leftBatches r thread_num (q * thread_num * batch_size)
             else [])))) := by
  have hT : thread_num ≤ batch_size * thread_num := by nlinarith
  unfold batchPlan
  by_cases hA : batch_size * thread_num > ins_num
  · left
    rw [if_pos hA]
    exact ⟨hA, rfl⟩
  · right
    rw [if_neg hA]
    have hd : ins_num % (batch_size * thread_num)
        + batch_size * thread_num * (ins_num / (batch_size * thread_num)) = ins_num :=
      Int.emod_add_ediv _ _
    have hr0 : 0 ≤ ins_num % (batch_size * thread_num) := Int.emod_nonneg _ (by omega)
    have hr1 : ins_num % (batch_size * thread_num) < batch_size * thread_num :=
      Int.emod_lt_of_pos _ (by omega)
    have hq1 : 1 ≤ ins_num / (batch_size * thread_num) := by
      by_contra hc
      have hq0 : 0 ≤ ins_num / (batch_size * thread_num) := Int.ediv_nonneg hn0 (by omega)
      have h0 : ins_num / (batch_size * thread_num) = 0 := by omega
      rw [h0] at hd
      omega
    refine ⟨_, _, rfl, rfl, hq1, hr0, hr1, hd, ?_⟩
    by_cases hC : 0 < ins_num % (batch_size * thread_num) ∧
        ins_num % (batch_size * thread_num) < thread_num * 2 ∧
        1 < ins_num / (batch_size * thread_num) * thread_num
    · left
      rw [if_pos hC]
      exact ⟨hC.1, hC.2.1, hC.2.2, rfl⟩
    · right
      rw [if_neg hC]
      exact ⟨hC, rfl⟩

theorem batchPlan_nonneg (ins_num batch_size thread_num : Int) (ht : 1 ≤ thread_num)
    (hb : 1 ≤ batch_size) (hn0 : 0 ≤ ins_num) (p : Int × Int)
    (hp : p ∈ batchPlan ins_num batch_size thread_num) : 0 ≤ p.2 := by
  rcases batchPlan_cases ins_num batch_size thread_num ht hb hn0 with
    ⟨_, e⟩ | ⟨q, r, _, _, hq1, hr0, hr1, hd, ⟨_, _, _, e⟩ | ⟨_, e⟩⟩
  · rw [e] at hp
    have := leftBatches_ge _ _ _ ht p hp
    have : 0 ≤ ins_num / thread_num := Int.ediv_nonneg hn0 (by omega)
    omega
  · rw [e, List.mem_append] at hp
    rcases hp with hp | hp
    · rw [mem_fullBatches _ _ _ _ hp]
      omega
    · have := leftBatches_ge _ _ _ (by omega) p hp
      have : 0 ≤ (r + batch_size * thread_num) / (thread_num * 2) :=
        Int.ediv_nonneg (by nlinarith) (by omega)
      omega
  · rw [e, List.mem_append] at hp
    rcases hp with hp | hp
    · rw [mem_fullBatches _ _ _ _ hp]
      omega
    · by_cases hr : 0 < r
      · rw [if_pos hr] at hp
        have := leftBatches_ge _ _ _ ht p hp
        have : 0 ≤ r / thread_num := Int.ediv_nonneg hr0 (by omega)
        omega
      · rw [if_neg hr] at hp
        exact absurd hp (List.not_mem_nil _)

/-- The plan holds a positive multiple of `thread_num` batches. -/
theorem batchPlan_length (ins_num batch_size thread_num : Int) (ht : 1 ≤ thread_num)
    (hb : 1 ≤ batch_size) (htn : thread_num ≤ ins_num) :
    ∃ k : Int, 1 ≤ k ∧ k ≤ ins_num ∧ (k - 1) * thread_num ≤ ins_num ∧
      ((batchPlan ins_num batch_size thread_num).length : Int) = k * thread_num := by
  have hT : thread_num ≤ batch_size * thread_num := by nlinarith
  rcases batchPlan_cases ins_num batch_size thread_num ht hb (by omega) with
    ⟨_, e⟩ | ⟨q, r, _, _, hq1, hr0, hr1, hd, ⟨_, _, _, e⟩ | ⟨_, e⟩⟩
  · refine ⟨1, le_refl 1, by omega, by omega, ?_⟩
    rw [e, length_leftBatches _ _ _ ht]
    omega
  · have hqT : q ≤ batch_size * thread_num * q := by nlinarith
    have hqt : q * thread_num ≤ batch_size * thread_num * q := by nlinarith
    refine ⟨q + 1, by omega, by omega, by rw [add_sub_cancel_right]; omega, ?_⟩
    have hn1 : 0 ≤ (q - 1) * thread_num := mul_nonneg (by omega) (by omega)
    rw [e, List.length_append, length_fullBatches, length_leftBatches _ _ _ (by omega)]
    push_cast
    rw [Int.toNat_of_nonneg hn1, Int.toNat_of_nonneg (by omega)]
    ring
  · have hqt0 : 0 ≤ q * thread_num := mul_nonneg (by omega) (by omega)
    have hqT : q ≤ batch_size * thread_num * q := by nlinarith
    have hqt : q * thread_num ≤ batch_size * thread_num * q := by nlinarith
    by_cases hr : 0 < r
    · refine ⟨q + 1, by omega, by omega, by rw [add_sub_cancel_right]; omega, ?_⟩
      rw [e, if_pos hr, List.length_append, length_fullBatches, length_leftBatches _ _ _ ht]
      push_cast
      rw [Int.toNat_of_nonneg hqt0, Int.toNat_of_nonneg (by omega)]
      ring
    · refine ⟨q, hq1, by omega, by nlinarith, ?_⟩
      rw [e, if_neg hr, List.append_nil, length_fullBatches, Int.toNat_of_nonneg hqt0]

theorem head_mem_fullBatches (batch_size : Int) (n : Nat) (cur_pos : Int) (hn : 1 ≤ n) :
    (cur_pos, batch_size) ∈ fullBatches batch_size n cur_pos := by
  cases n with
  | zero => omega
  | succ n => simp [fullBatches]

/-- When the plan of `compute_batch_num` has no empty batch. -/
theorem batchPlan_pos_iff (ins_num batch_size thread_num : Int) (ht : 1 ≤ thread_num)
    (hb : 1 ≤ batch_size) (htn : thread_num ≤ ins_num) :
    (∀ p ∈ batchPlan ins_num batch_size thread_num, 1 ≤ p.2) ↔
      (2 ≤ batch_size ∨ ins_num % thread_num = 0) := by
  have hq : 1 ≤ ins_num / thread_num := Int.le_ediv_of_mul_le (by omega) (by omega)
  rcases batchPlan_cases ins_num batch_size thread_num ht hb (by omega) with
    ⟨hA, e⟩ | ⟨q, r, _, hrdef, hq1, hr0, hr1, hd, ⟨hC1, hC2, hC3, e⟩ | ⟨hC, e⟩⟩
  · rw [e]
    constructor
    · intro _
      left
      nlinarith
    · intro _ p hp
      have := leftBatches_ge _ _ _ ht p hp
      omega
  · rw [e]
    constructor
    · intro h
      by_contra hc
      have hb1 : batch_size = 1 := by omega
      rw [hb1, one_mul] at hr1
      have hz : (r + batch_size * thread_num) / (thread_num * 2) = 0 :=
        Int.ediv_eq_zero_of_lt (by nlinarith) (by rw [hb1]; omega)
      have h1 := h _ (List.mem_append_right _ (List.mem_cons_of_mem _
        (head_mem_fullBatches ((r + batch_size * thread_num) / (thread_num * 2))
          ((thread_num * 2).toNat - 1)
          ((q - 1) * thread_num * batch_size
            + ((r + batch_size * thread_num) / (thread_num * 2)
              + (r + batch_size * thread_num) % (thread_num * 2))) (by omega))))
      simp only at h1
      omega
    · intro h p hp
      rw [List.mem_append] at hp
      rcases hp with hp | hp
      · rw [mem_fullBatches _ _ _ _ hp]
        exact hb
      · have h1 := leftBatches_ge _ _ _ (by omega) p hp
        have h2 : 1 ≤ (r + batch_size * thread_num) / (thread_num * 2) := by
          apply Int.le_ediv_of_mul_le (by omega)
          by_cases hb2 : 2 ≤ batch_size
          · nlinarith
          · exfalso
            have hb1 : batch_size = 1 := by omega
            rw [hb1, one_mul] at hrdef
            omega
        omega
  · rw [e]
    constructor
    · intro h
      by_contra hc
      have hb1 : batch_size = 1 := by omega
      rw [hb1, one_mul] at hr1 hrdef
      have hr : 0 < r := by omega
      have ht1 : thread_num = 1 := by
        by_contra h1
        apply hC
        refine ⟨hr, by omega, ?_⟩
        nlinarith
      omega
    · intro h p hp
      rw [List.mem_append] at hp
      rcases hp with hp | hp
      · rw [mem_fullBatches _ _ _ _ hp]
        exact hb
      · by_cases hr : 0 < r
        · rw [if_pos hr] at hp
          have h1 := leftBatches_ge _ _ _ ht p hp
          have h2 : 1 ≤ r / thread_num := by
            apply Int.le_ediv_of_mul_le (by omega)
            by_cases h3 : r < thread_num * 2
            · have h4 : ¬ 1 < q * thread_num := fun h4 => hC ⟨hr, h3, h4⟩
              have : thread_num = 1 := by nlinarith
              omega
            · omega
          omega
        · rw [if_neg hr] at hp
          exact absurd hp (List.not_mem_nil _)

/-! ## Batch offsets: runs of batches -/

theorem chainEnd_spec :
    ∀ (l : List (Int × Int)) (s e : Int), chainEnd s l = some e →
      (∀ p, l.head? = some p → p.1 = s) ∧
      l.Chain' (fun p q => q.1 = p.1 + p.2) ∧ s + (l.map Prod.snd).sum = e := by
  intro l
  induction l with
  | nil =>
    intro s e h
    simp only [chainEnd, Option.some.injEq] at h
    simp [h]
  | cons p rest ih =>
    intro s e h
    simp only [chainEnd] at h
    by_cases hp : p.1 = s
    · rw [if_pos hp] at h
      obtain ⟨h1, h2, h3⟩ := ih _ _ h
      refine ⟨?_, ?_, ?_⟩
      · intro p' hp'
        simp only [List.head?_cons, Option.some.injEq] at hp'
        rw [← hp', hp]
      · rw [List.chain'_cons']
        refine ⟨?_, h2⟩
        intro q hq
        rw [h1 q hq, hp]
      · simp only [List.map_cons, List.sum_cons]
        omega
    · rw [if_neg hp] at h
      exact absurd h (by simp)

theorem chainEnd_bounds :
    ∀ (l : List (Int × Int)) (s e : Int), chainEnd s l = some e → (∀ p ∈ l, 0 ≤ p.2) →
      s ≤ e ∧ ∀ p ∈ l, s ≤ p.1 ∧ p.1 + p.2 ≤ e := by
  intro l
  induction l with
  | nil =>
    intro s e h _
    simp only [chainEnd, Option.some.injEq] at h
    simp [h]
  | cons p rest ih =>
    intro s e h hpos
    simp only [chainEnd] at h
    by_cases hp : p.1 = s
    · rw [if_pos hp] at h
      have h0 := hpos p (List.mem_cons_self _ _)
      obtain ⟨h1, h2⟩ := ih _ _ h (fun q hq => hpos q (List.mem_cons_of_mem _ hq))
      refine ⟨by omega, ?_⟩
      intro q hq
      rcases List.mem_cons.mp hq with hq | hq
      · rw [hq]
        omega
      · have := h2 q hq
        omega
    · rw [if_neg hp] at h
      exact absurd h (by simp)

theorem chainEnd_take :
    ∀ (l : List (Int × Int)) (s e : Int) (i : Nat) (p : Int × Int), chainEnd s l = some e →
      l.get? i = some p → chainEnd s (l.take i) = some p.1 := by
  intro l
  induction l with
  | nil =>
    intro s e i p _ hg
    simp at hg
  | cons a rest ih =>
    intro s e i p h hg
    simp only [chainEnd] at h
    by_cases ha : a.1 = s
    · rw [if_pos ha] at h
      cases i with
      | zero =>
        simp only [List.get?_cons_zero, Option.some.injEq] at hg
        rw [← hg, ha]
        rfl
      | succ i =>
        simp only [List.get?_cons_succ] at hg
        simp only [List.take_succ_cons, chainEnd, if_pos ha]
        exact ih _ _ _ _ h hg
    · rw [if_neg ha] at h
      exact absurd h (by simp)

theorem offsetAt_some (offset : List (Int × Int)) (index : Int) (h0 : 0 ≤ index)
    (h1 : index < offset.length) :
    ∃ p, offsetAt offset index = some p ∧ offset.get? index.toNat = some p := by
  have hlt : index.toNat < offset.length := by omega
  refine ⟨offset.get ⟨_, hlt⟩, ?_, List.get?_eq_get hlt⟩
  unfold offsetAt
  rw [if_pos h0]
  exact List.get?_eq_get hlt

/-- The loop of the re-split stops, at the latest at the index 0, without leaving the
offsets: from the index `j * thr_num` with `need_batch_num = (m - j) * thr_num` it ends at
an index `j2 * thr_num` with `need_batch_num = (m - j2) * thr_num` instances or more left. -/
theorem compute_thread_batch_nccl_loop_spec (thr_num total_instance_num m k : Int)
    (offset : List (Int × Int)) (ht : 1 ≤ thr_num) (hn : total_instance_num < 2 ^ 31)
    (hlen : (offset.length : Int) = k * thr_num) (hkm : k ≤ m)
    (hm : m * thr_num ≤ total_instance_num)
    (hpos : ∀ p ∈ offset, 0 ≤ p.1 ∧ p.1 ≤ total_instance_num)
    (hzero : ∀ p, offset.get? 0 = some p → p.1 = 0) :
    ∀ (fuel : Nat) (j : Int) (p : Int × Int), 0 ≤ j → j ≤ fuel → j < k →
      offset.get? (j * thr_num).toNat = some p →
      ∃ j2 p2, 0 ≤ j2 ∧ j2 ≤ j ∧ offset.get? (j2 * thr_num).toNat = some p2 ∧
        (m - j2) * thr_num ≤ total_instance_num - p2.1 ∧
        compute_thread_batch_nccl_loop thr_num total_instance_num offset fuel
            ((m - j) * thr_num) (j * thr_num) (total_instance_num - p.1)
          = some ((m - j2) * thr_num, j2 * thr_num, total_instance_num - p2.1) := by
  intro fuel
  induction fuel with
  | zero =>
    intro j p hj0 hjf _ hp
    have hj : j = 0 := by omega
    subst hj
    simp only [zero_mul, Int.toNat_zero] at hp
    have hp0 := hzero p hp
    refine ⟨0, p, le_refl 0, le_refl 0, by simpa using hp, by rw [hp0]; simp only [sub_zero]; omega, ?_⟩
    simp only [compute_thread_batch_nccl_loop]
    rw [if_neg (by rw [hp0]; simp only [sub_zero]; omega)]
  | succ fuel ih =>
    intro j p hj0 hjf hjk hp
    simp only [compute_thread_batch_nccl_loop]
    by_cases hlt : total_instance_num - p.1 < (m - j) * thr_num
    · rw [if_pos hlt]
      have hj1 : 1 ≤ j := by
        by_contra hc
        have hj : j = 0 := by omega
        subst hj
        simp only [zero_mul, Int.toNat_zero] at hp
        have hp0 := hzero p hp
        rw [hp0] at hlt
        simp only [sub_zero] at hlt
        omega
      have hjt : (j - 1) * thr_num = j * thr_num - thr_num := by ring
      have hmj : (m - (j - 1)) * thr_num = (m - j) * thr_num + thr_num := by ring
      have h1 : 0 ≤ (j - 1) * thr_num := mul_nonneg (by omega) (by omega)
      have h2 : (j - 1) * thr_num < k * thr_num := by nlinarith
      have h3 : 0 ≤ (m - j) * thr_num := mul_nonneg (by omega) (by omega)
      have h4 : (m - (j - 1)) * thr_num ≤ m * thr_num := by nlinarith
      have h5 : k * thr_num ≤ m * thr_num := by nlinarith
      obtain ⟨p1, hp1, hg1⟩ := offsetAt_some offset ((j - 1) * thr_num) h1 (by omega)
      have hb := hpos p1 (List.get?_mem hg1)
      rw [toInt32_of_range ((m - j) * thr_num + thr_num) (by omega) (by omega),
        toInt32_of_range (j * thr_num - thr_num) (by omega) (by omega), ← hjt, ← hmj, hp1]
      simp only []
      rw [toInt32_of_range (total_instance_num - p1.1) (by omega) (by omega)]
      obtain ⟨j2, p2, a1, a2, a3, a4, a5⟩ := ih (j - 1) p1 (by omega) (by omega) (by omega) hg1
      exact ⟨j2, p2, a1, by omega, a3, a4, a5⟩
    · rw [if_neg hlt]
      exact ⟨j, p, hj0, le_refl j, hp, by omega, rfl⟩

/-! ## `PrepareTrain`: the batches of each reader -/

/-- The round-robin loop gives the reader `j` the offsets whose index is `j` modulo
`thread_num_`, in their order. -/
theorem addBatchOffsets_get (thread_num_ : Int) (offset : List (Int × Int)) :
    ∀ (i : Nat) (readers readers' : List DataFeed),
      addBatchOffsets thread_num_ i offset readers = some readers' →
      ∀ (j : Nat) (f : DataFeed), readers.get? j = some f →
        ∃ f', readers'.get? j = some f' ∧
          f'.batch_offsets = f.batch_offsets ++
            ((offset.enumFrom i).filter (fun x => x.1 % toSizeT thread_num_ = j)).map
              Prod.snd := by
  induction offset with
  | nil =>
    intro i r r' h j f hf
    simp only [addBatchOffsets, Option.some.injEq] at h
    subst h
    exact ⟨f, hf, by simp⟩
  | cons off rest ih =>
    intro i r r' h j f hf
    simp only [addBatchOffsets] at h
    split at h
    · exact absurd h (by simp)
    · split at h
      · exact absurd h (by simp)
      · rename_i r0 hr0
        by_cases hj : i % toSizeT thread_num_ = j
        · rw [hj] at hr0 h
          have hfr : r0 = f := by
            rw [hf] at hr0
            exact (Option.some.inj hr0).symm
          subst hfr
          have hlt : j < r.length := by
            by_contra hc
            rw [List.get?_eq_none.mpr (by omega)] at hf
            exact absurd hf (by simp)
          have hg : (r.set j (r0.AddBatchOffset off)).get? j
              = some (r0.AddBatchOffset off) := by
            rw [List.get?_eq_getElem?, List.getElem?_set_self hlt]
          obtain ⟨f', h1, h2⟩ := ih _ _ _ h j _ hg
          refine ⟨f', h1, ?_⟩
          rw [h2]
          simp only [DataFeed.AddBatchOffset, List.enumFrom_cons, List.filter_cons, hj,
            decide_True, if_true, List.map_cons, List.append_assoc, List.singleton_append]
        · have hg : (r.set (i % toSizeT thread_num_) (r0.AddBatchOffset off)).get? j
              = some f := by
            rw [List.get?_eq_getElem?, List.getElem?_set_ne hj, ← List.get?_eq_getElem?, hf]
          obtain ⟨f', h1, h2⟩ := ih _ _ _ h j _ hg
          refine ⟨f', h1, ?_⟩
          rw [h2]
          simp only [List.enumFrom_cons, List.filter_cons, hj, decide_False,
            Bool.false_eq_true, if_false]

theorem countP_mod_range (t j : Nat) (hj : j < t) :
    ∀ (r : Nat), (List.range (r * t)).countP (fun x => decide (x % t = j)) = r := by
  intro r
  induction r with
  | zero => simp
  | succ r ih =>
    have e : (r + 1) * t = r * t + t := by ring
    rw [e, List.range_add, List.countP_append, ih, List.countP_map]
    have h1 : List.countP ((fun x => decide (x % t = j)) ∘ fun x => r * t + x) (List.range t)
        = List.countP (fun x => x == j) (List.range t) := by
      apply List.countP_congr
      intro x hx
      have hx' : x < t := List.mem_range.mp hx
      simp only [Function.comp, decide_eq_true_eq, beq_iff_eq]
      rw [Nat.add_comm, Nat.add_mul_mod_self_right, Nat.mod_eq_of_lt hx']
    have h2 : List.countP (fun x => x == j) (List.range t) = List.count j (List.range t) :=
      rfl
    rw [h1, h2, List.count_eq_one_of_mem (List.nodup_range t) (List.mem_range.mpr hj)]

/-- Of `r * t` offsets the round-robin loop gives the reader `j < t` exactly `r`. -/
theorem round_robin_count (offset : List (Int × Int)) (t j r : Nat) (hj : j < t)
    (hlen : offset.length = r * t) :
    (((offset.enumFrom 0).filter (fun x => x.1 % t = j)).map Prod.snd).length = r := by
  have h1 : ((offset.enumFrom 0).filter (fun x => decide (x.1 % t = j))).length
      = ((offset.enumFrom 0).map Prod.fst).countP (fun x => decide (x % t = j)) := by
    rw [List.countP_map, List.countP_eq_length_filter]
    rfl
  rw [List.length_map, h1, List.enumFrom_map_fst, hlen, ← List.range_eq_range']
  exact countP_mod_range t j hj r

/-- What `PrepareTrain` does with the readers: it adds the offsets of
`compute_thread_batch_nccl`, for the PV instances or for the records. -/
theorem PrepareTrain_offsets (env : TrainEnv) (st st' : PadBoxState)
    (h : PadBoxSlotDataset.PrepareTrain env st = some st') :
    ∃ r, compute_thread_batch_nccl env.mpi st.thread_num_
        (if st.enable_pv_merge_ && (env.Phase == 1 || env.Mode == 1) then env.GetPvDataSize
          else env.GetMemoryDataSize)
        (if st.enable_pv_merge_ && (env.Phase == 1 || env.Mode == 1) then env.GetPvBatchSize
          else env.GetBatchSize) [] = some r ∧
      (st.thread_num_ ≤ (st.readers_.length : Int)) ∧
      addBatchOffsets st.thread_num_ 0 r.2 st.readers_ = some st'.readers_ := by
  unfold PadBoxSlotDataset.PrepareTrain at h
  by_cases h0 : st.readers_.length = 0
  · rw [if_pos h0] at h
    exact absurd h (by simp)
  · rw [if_neg h0] at h
    by_cases hb : (st.enable_pv_merge_ && (env.Phase == 1 || env.Mode == 1)) = true
    · rw [if_pos hb] at h
      rw [if_pos hb, if_pos hb]
      split at h
      · exact absurd h (by simp)
      · rename_i r hr
        split at h
        · exact absurd h (by simp)
        · rename_i hlen
          split at h
          · exact absurd h (by simp)
          · rename_i readers hre
            simp only [Option.some.injEq] at h
            subst h
            exact ⟨r, hr, by omega, hre⟩
    · rw [if_neg hb] at h
      rw [if_neg hb, if_neg hb]
      split at h
      · exact absurd h (by simp)
      · rename_i r hr
        split at h
        · exact absurd h (by simp)
        · rename_i hlen
          split at h
          · exact absurd h (by simp)
          · rename_i readers hre
            simp only [Option.some.injEq] at h
            subst h
            exact ⟨r, hr, by omega, hre⟩

/-! ## `compute_thread_batch_nccl` in exact arithmetic -/

theorem thread_avg_batch_num_eq (thr_num total_instance_num minibatch_size : Int)
    (ht : 1 ≤ thr_num) (htn : thr_num ≤ total_instance_num) (hb : 1 ≤ minibatch_size)
    (hn : total_instance_num < 2 ^ 31) (hbt : minibatch_size * thr_num < 2 ^ 31)
    (h2t : thr_num * 2 < 2 ^ 31) :
    ∃ k : Int, 1 ≤ k ∧ k ≤ total_instance_num ∧ (k - 1) * thr_num ≤ total_instance_num ∧
      ((batchPlan total_instance_num minibatch_size thr_num).length : Int) = k * thr_num ∧
      castInt ((batchPlan total_instance_num minibatch_size thr_num).length / toSizeT thr_num)
        = k ∧
      thread_avg_batch_num thr_num total_instance_num minibatch_size = k := by
  obtain ⟨k, hk1, hk2, hk3, hlen⟩ :=
    batchPlan_length total_instance_num minibatch_size thr_num ht hb htn
  have hs : toSizeT thr_num = thr_num.toNat := toSizeT_of_nonneg _ (by omega)
  have hnat : (batchPlan total_instance_num minibatch_size thr_num).length
      = k.toNat * thr_num.toNat := by
    apply Int.ofNat_inj.mp
    push_cast
    rw [Int.toNat_of_nonneg (by omega), Int.toNat_of_nonneg (by omega)]
    exact hlen
  have hdiv : (batchPlan total_instance_num minibatch_size thr_num).length / toSizeT thr_num
      = k.toNat := by
    rw [hs, hnat]
    exact Nat.mul_div_cancel _ (by omega)
  have hc : castInt ((batchPlan total_instance_num minibatch_size thr_num).length
      / toSizeT thr_num) = k := by
    rw [hdiv, castInt_of_lt (by omega)]
    omega
  refine ⟨k, hk1, hk2, hk3, hlen, hc, ?_⟩
  unfold thread_avg_batch_num
  rw [compute_batch_num_eq _ _ _ _ ht hb (by omega) hn hbt h2t]
  simp only [List.nil_append]
  exact hc

/-- Without a second rank, and when the cluster needs no more batches than the rank has,
the plan of `compute_batch_num` is returned as it is. -/
theorem compute_thread_batch_nccl_plain (mpi : MPICluster)
    (thr_num total_instance_num minibatch_size : Int)
    (ht : 1 ≤ thr_num) (htn : thr_num ≤ total_instance_num) (hb : 1 ≤ minibatch_size)
    (hn : total_instance_num < 2 ^ 31) (hbt : minibatch_size * thr_num < 2 ^ 31)
    (h2t : thr_num * 2 < 2 ^ 31)
    (h : ¬ mpi.size > 1 ∨
      mpi.allreduce_max (thread_avg_batch_num thr_num total_instance_num minibatch_size)
        = thread_avg_batch_num thr_num total_instance_num minibatch_size) :
    compute_thread_batch_nccl mpi thr_num total_instance_num minibatch_size []
      = some (thread_avg_batch_num thr_num total_instance_num minibatch_size,
          batchPlan total_instance_num minibatch_size thr_num) := by
  obtain ⟨k, hk1, hk2, hk3, hlen, hc, ha⟩ :=
    thread_avg_batch_num_eq thr_num total_instance_num minibatch_size ht htn hb hn hbt h2t
  have hs : toSizeT thr_num = thr_num.toNat := toSizeT_of_nonneg _ (by omega)
  rw [ha] at h ⊢
  unfold compute_thread_batch_nccl
  rw [if_neg (by omega), compute_batch_num_eq _ _ _ _ ht hb (by omega) hn hbt h2t]
  simp only [List.nil_append]
  rw [if_neg (by omega), hc]
  by_cases hsz : mpi.size > 1
  · rw [if_pos hsz]
    rcases h with h | h
    · exact absurd hsz h
    · rw [h, if_pos (by unfold toInt32; simp)]
  · rw [if_neg hsz]

/-- The fatal check: the cluster needs more batches than the rank has, and more instances
than the rank has. -/
theorem compute_thread_batch_nccl_fatal (mpi : MPICluster)
    (thr_num total_instance_num minibatch_size : Int)
    (ht : 1 ≤ thr_num) (htn : thr_num ≤ total_instance_num) (hb : 1 ≤ minibatch_size)
    (hn : total_instance_num < 2 ^ 31) (hbt : minibatch_size * thr_num < 2 ^ 31)
    (h2t : thr_num * 2 < 2 ^ 31) (hsz : mpi.size > 1)
    (hlt : thread_avg_batch_num thr_num total_instance_num minibatch_size
      < mpi.allreduce_max (thread_avg_batch_num thr_num total_instance_num minibatch_size))
    (hr : mpi.allreduce_max (thread_avg_batch_num thr_num total_instance_num minibatch_size)
      * thr_num < 2 ^ 31)
    (hfatal : total_instance_num <
      mpi.allreduce_max (thread_avg_batch_num thr_num total_instance_num minibatch_size)
        * thr_num) :
    compute_thread_batch_nccl mpi thr_num total_instance_num minibatch_size [] = none := by
  obtain ⟨k, hk1, hk2, hk3, hlen, hc, ha⟩ :=
    thread_avg_batch_num_eq thr_num total_instance_num minibatch_size ht htn hb hn hbt h2t
  have hs : toSizeT thr_num = thr_num.toNat := toSizeT_of_nonneg _ (by omega)
  rw [ha] at hlt hr hfatal
  obtain ⟨m, hmdef⟩ : ∃ m, mpi.allreduce_max k = m := ⟨_, rfl⟩
  rw [hmdef] at hlt hr hfatal
  have hm : m < 2 ^ 31 := by nlinarith
  unfold compute_thread_batch_nccl
  rw [if_neg (by omega), compute_batch_num_eq _ _ _ _ ht hb (by omega) hn hbt h2t]
  simp only [List.nil_append]
  rw [if_neg (by omega), hc, if_pos hsz, hmdef]
  rw [toInt32_of_range (m - k) (by omega) (by omega), if_neg (by omega),
    toInt32_of_range (m * thr_num) (by nlinarith) hr, if_pos hfatal]

/-- The re-split: when the cluster needs more batches than the rank has and the rank has
the instances for them, the loop ends at an index `j * thr_num` inside the plan, and the
batches from there on are replaced by `(m - j) * thr_num` batches of the instances that
are left, which are no fewer than the batches. -/
theorem compute_thread_batch_nccl_resplit (mpi : MPICluster)
    (thr_num total_instance_num minibatch_size : Int)
    (ht : 1 ≤ thr_num) (htn : thr_num ≤ total_instance_num) (hb : 1 ≤ minibatch_size)
    (hn : total_instance_num < 2 ^ 31) (hbt : minibatch_size * thr_num < 2 ^ 31)
    (h2t : thr_num * 2 < 2 ^ 31) (hsz : mpi.size > 1) (m : Int)
    (hmdef : mpi.allreduce_max (thread_avg_batch_num thr_num total_instance_num
      minibatch_size) = m)
    (hlt : thread_avg_batch_num thr_num total_instance_num minibatch_size < m)
    (hpass : m * thr_num ≤ total_instance_num) :
    ∃ p j q,
      offsetAt (batchPlan total_instance_num minibatch_size thr_num)
        (toInt32 (((batchPlan total_instance_num minibatch_size thr_num).length : Int)
          - thr_num)) = some p ∧
      compute_thread_batch_nccl_loop thr_num total_instance_num
        (batchPlan total_instance_num minibatch_size thr_num)
        (batchPlan total_instance_num minibatch_size thr_num).length
        (toInt32 ((toInt32 (m - thread_avg_batch_num thr_num total_instance_num
          minibatch_size) + 1) * thr_num))
        (toInt32 (((batchPlan total_instance_num minibatch_size thr_num).length : Int)
          - thr_num))
        (toInt32 (total_instance_num - p.1))
        = some ((m - j) * thr_num, j * thr_num, total_instance_num - q.1) ∧
      0 ≤ j ∧ j < thread_avg_batch_num thr_num total_instance_num minibatch_size ∧
      j * thr_num < ((batchPlan total_instance_num minibatch_size thr_num).length : Int) ∧
      offsetAt (batchPlan total_instance_num minibatch_size thr_num) (j * thr_num) = some q ∧
      0 ≤ q.1 ∧ 1 ≤ (m - j) * thr_num ∧
      (m - j) * thr_num ≤ total_instance_num - q.1 ∧
      chainEnd 0 ((batchPlan total_instance_num minibatch_size thr_num).take
        (j * thr_num).toNat) = some q.1 ∧
      compute_left_batch_num (total_instance_num - q.1) ((m - j) * thr_num)
        ((batchPlan total_instance_num minibatch_size thr_num).take (j * thr_num).toNat) q.1
        = some ((batchPlan total_instance_num minibatch_size thr_num).take
            (j * thr_num).toNat
          ++ leftBatches (total_instance_num - q.1) ((m - j) * thr_num) q.1) ∧
      compute_thread_batch_nccl mpi thr_num total_instance_num minibatch_size []
        = some (m, (batchPlan total_instance_num minibatch_size thr_num).take
            (j * thr_num).toNat
          ++ leftBatches (total_instance_num - q.1) ((m - j) * thr_num) q.1) := by
  obtain ⟨k, hk1, hk2, hk3, hlen, hc, ha⟩ :=
    thread_avg_batch_num_eq thr_num total_instance_num minibatch_size ht htn hb hn hbt h2t
  have hs : toSizeT thr_num = thr_num.toNat := toSizeT_of_nonneg _ (by omega)
  rw [ha] at hlt hmdef ⊢
  have hchain := batchPlan_chainEnd total_instance_num minibatch_size thr_num ht hb (by omega)
  have hnonneg := batchPlan_nonneg total_instance_num minibatch_size thr_num ht hb (by omega)
  obtain ⟨_, hbounds⟩ := chainEnd_bounds _ _ _ hchain hnonneg
  obtain ⟨plan, hplan⟩ : ∃ plan, batchPlan total_instance_num minibatch_size thr_num = plan :=
    ⟨_, rfl⟩
  rw [hplan] at hlen hc hchain hnonneg hbounds ⊢
  have hpos : ∀ p ∈ plan, 0 ≤ p.1 ∧ p.1 ≤ total_instance_num := by
    intro p hp
    have h1 := hbounds p hp
    have h2 := hnonneg p hp
    omega
  have hzero : ∀ p, plan.get? 0 = some p → p.1 = 0 := by
    intro p hp
    have h1 := (chainEnd_spec _ _ _ hchain).1 p
    rw [List.head?_eq_getElem?, ← List.get?_eq_getElem?] at h1
    exact h1 hp
  have hmle : m ≤ m * thr_num := le_mul_of_one_le_right (by omega) ht
  have hmr : m < 2 ^ 31 := by omega
  have hmt0 : 0 ≤ m * thr_num := mul_nonneg (by omega) (by omega)
  have hkt : k ≤ k * thr_num := le_mul_of_one_le_right (by omega) ht
  have hk1t : (k - 1) * thr_num = (plan.length : Int) - thr_num := by
    rw [hlen]
    ring
  have h0 : 0 ≤ (k - 1) * thr_num := mul_nonneg (by omega) (by omega)
  have e1 : toInt32 ((plan.length : Int) - thr_num) = (k - 1) * thr_num := by
    rw [← hk1t]
    exact toInt32_of_range _ (by omega) (by omega)
  have e2 : toInt32 (m - k) = m - k := toInt32_of_range _ (by omega) (by omega)
  have hmk : (m - k + 1) * thr_num = (m - (k - 1)) * thr_num := by ring
  have hmk1 : (m - (k - 1)) * thr_num ≤ m * thr_num :=
    mul_le_mul_of_nonneg_right (by omega) (by omega)
  have hmk0 : 0 ≤ (m - (k - 1)) * thr_num := mul_nonneg (by omega) (by omega)
  have e3 : toInt32 ((m - k + 1) * thr_num) = (m - (k - 1)) * thr_num := by
    rw [hmk]
    exact toInt32_of_range _ (by omega) (by omega)
  obtain ⟨p, hp, hpg⟩ := offsetAt_some plan ((k - 1) * thr_num) h0 (by omega)
  have hpb := hpos p (List.get?_mem hpg)
  have e4 : toInt32 (total_instance_num - p.1) = total_instance_num - p.1 :=
    toInt32_of_range _ (by omega) (by omega)
  obtain ⟨j, q, hj0, hjk, hqg, hqn, hloop⟩ :=
    compute_thread_batch_nccl_loop_spec thr_num total_instance_num m k plan ht hn hlen
      (by omega) hpass hpos hzero plan.length (k - 1) p (by omega) (by omega) (by omega) hpg
  have hjt0 : 0 ≤ j * thr_num := mul_nonneg hj0 (by omega)
  have hjt1 : j * thr_num < k * thr_num := mul_lt_mul_of_pos_right (by omega) (by omega)
  obtain ⟨q', hq', hqg'⟩ := offsetAt_some plan (j * thr_num) hjt0 (by omega)
  have hqq : q' = q := by
    rw [hqg] at hqg'
    exact (Option.some.inj hqg').symm
  subst hqq
  have hqb := hpos q' (List.get?_mem hqg)
  have hneed : 1 ≤ (m - j) * thr_num :=
    le_trans (by omega : 1 ≤ m - j) (le_mul_of_one_le_right (by omega) ht)
  have hleft := compute_left_batch_num_eq (total_instance_num - q'.1) ((m - j) * thr_num) q'.1
    (plan.take (j * thr_num).toNat) hneed (by omega) (by omega) (by omega) (by omega)
  refine ⟨p, j, q', ?_, ?_, hj0, by omega, by omega, hq', hqb.1, hneed, hqn,
    chainEnd_take _ _ _ _ _ hchain hqg, hleft, ?_⟩
  · rw [e1]
    exact hp
  · rw [e1, e2, e3, e4]
    exact hloop
  · unfold compute_thread_batch_nccl
    rw [if_neg (by omega), compute_batch_num_eq _ _ _ _ ht hb (by omega) hn hbt h2t, hplan]
    simp only [List.nil_append]
    rw [if_neg (by omega), hc, if_pos hsz, hmdef, e2, if_neg (by omega),
      toInt32_of_range (m * thr_num) (by omega) (by omega), if_neg (by omega), e1, hp]
    simp only []
    rw [e3, e4, hloop]
    simp only []
    rw [hq']
    simp only []
    rw [hleft]

/-! ## The claims on the batch offsets -/

theorem splitsExactly_of_chainEnd (plan : List (Int × Int)) (s e : Int)
    (h : chainEnd s plan = some e) (hne : plan ≠ []) : SplitsExactly s e plan := by
  obtain ⟨h1, h2, h3⟩ := chainEnd_spec plan s e h
  refine ⟨?_, h2, by omega⟩
  cases plan with
  | nil => exact absurd rfl hne
  | cons p rest =>
    simp only [List.head?_cons, Option.map_some', Option.some.injEq]
    exact h1 p rfl

theorem leftBatches_ne_nil (ins_num thread_num start_pos : Int) :
    leftBatches ins_num thread_num start_pos ≠ [] := by
  simp [leftBatches]

theorem batchPlan_ne_nil (ins_num batch_size thread_num : Int) (ht : 1 ≤ thread_num)
    (hb : 1 ≤ batch_size) (htn : thread_num ≤ ins_num) :
    batchPlan ins_num batch_size thread_num ≠ [] := by
  obtain ⟨k, hk1, _, _, hlen⟩ := batchPlan_length ins_num batch_size thread_num ht hb htn
  intro h
  rw [h] at hlen
  have : 1 ≤ k * thread_num := le_trans hk1 (le_mul_of_one_le_right (by omega) ht)
  simp only [List.length_nil, Nat.cast_zero] at hlen
  omega

/-- C28 (counterexample): three of the four batches that `compute_batch_num` makes of 3 instances for 2 threads
with batch size 1 are empty. -/
theorem compute_batch_num_empty_batch :
    compute_batch_num 3 1 2 [] = some [(0, 3), (3, 0), (3, 0), (3, 0)] := by
  decide

/-- C28 (amended): for `ins_num >= thread_num >= 1` and `batch_size >= 1`, all within the
range of `int`, `compute_batch_num` returns, and the batches it appends all have length
`>= 1` exactly when `batch_size >= 2` or `thread_num` divides `ins_num`; with batch size 1
and a remainder the second round of the last split is empty. -/
theorem compute_batch_num_no_empty_batch (ins_num batch_size thread_num : Int)
    (offset : List (Int × Int)) (ht : 1 ≤ thread_num) (htn : thread_num ≤ ins_num)
    (hb : 1 ≤ batch_size) (hn : ins_num < 2 ^ 31) (hbt : batch_size * thread_num < 2 ^ 31)
    (h2t : thread_num * 2 < 2 ^ 31) :
    ∃ plan, compute_batch_num ins_num batch_size thread_num offset = some (offset ++ plan) ∧
      ((∀ p ∈ plan, 1 ≤ p.2) ↔ (2 ≤ batch_size ∨ ins_num % thread_num = 0)) :=
  ⟨batchPlan ins_num batch_size thread_num,
    compute_batch_num_eq _ _ _ _ ht hb (by omega) hn hbt h2t,
    batchPlan_pos_iff _ _ _ ht hb htn⟩

/-- C28 (witness): 7 instances for 2 threads with batch size 2. -/
theorem compute_batch_num_no_empty_batch_witness :
    ∃ plan, compute_batch_num 7 2 2 [] = some ([] ++ plan) ∧
      ((∀ p ∈ plan, 1 ≤ p.2) ↔ ((2 : Int) ≤ 2 ∨ (7 : Int) % 2 = 0)) :=
  compute_batch_num_no_empty_batch 7 2 2 [] (by decide) (by decide) (by decide) (by decide)
    (by decide) (by decide)

/-- C24 (counterexample): for `2^31` instances, one thread and batch size 1,
`static_cast<int>(ins_num /
thread_batch_num)` is negative and `compute_batch_num` makes no batch at all. -/
theorem compute_batch_num_beyond_int :
    compute_batch_num (2 ^ 31) 1 1 [] = some [] := by
  decide

/-- C24 (amended): within the range of `int` the batch offsets split the data exactly.
For `ins_num >= thread_num >= 1` and `batch_size >= 1` with `ins_num`,
`batch_size * thread_num` and `2 * thread_num` below `2^31`, the pairs `compute_batch_num`
appends start at 0, each starts where the one before it ends, and their lengths add up to
`ins_num`; so do the pairs `compute_thread_batch_nccl` leaves when it returns (the cluster
maximum being no smaller than the own batch count, and its product with the thread count
below `2^31`); and `compute_left_batch_num(n, t, offset, s)` with `t >= 1`, `n >= 0` and
`s + n` in range appends exactly `t` pairs that start at `s` and whose lengths add up to
`n`. -/
theorem batch_offsets_split_exactly (mpi : MPICluster) (ins_num batch_size thread_num : Int)
    (offset : List (Int × Int)) (n t s : Int)
    (ht : 1 ≤ thread_num) (htn : thread_num ≤ ins_num) (hb : 1 ≤ batch_size)
    (hn : ins_num < 2 ^ 31) (hbt : batch_size * thread_num < 2 ^ 31)
    (h2t : thread_num * 2 < 2 ^ 31)
    (hmax : mpi.size > 1 →
      thread_avg_batch_num thread_num ins_num batch_size
          ≤ mpi.allreduce_max (thread_avg_batch_num thread_num ins_num batch_size) ∧
        mpi.allreduce_max (thread_avg_batch_num thread_num ins_num batch_size) * thread_num
          < 2 ^ 31)
    (ht1 : 1 ≤ t) (hn0 : 0 ≤ n) (hn2 : n < 2 ^ 31) (hs : -(2 ^ 31) ≤ s)
    (hsn : s + n < 2 ^ 31) :
    (∃ plan, compute_batch_num ins_num batch_size thread_num offset = some (offset ++ plan) ∧
      SplitsExactly 0 ins_num plan) ∧
    (∀ r offs, compute_thread_batch_nccl mpi thread_num ins_num batch_size [] = some (r, offs) →
      SplitsExactly 0 ins_num offs) ∧
    (∃ batches, compute_left_batch_num n t offset s = some (offset ++ batches) ∧
      batches.length = t.toNat ∧ SplitsExactly s (s + n) batches) := by
  have hplan := splitsExactly_of_chainEnd _ _ _
    (batchPlan_chainEnd ins_num batch_size thread_num ht hb (by omega))
    (batchPlan_ne_nil ins_num batch_size thread_num ht hb htn)
  refine ⟨⟨_, compute_batch_num_eq _ _ _ _ ht hb (by omega) hn hbt h2t, hplan⟩, ?_,
    ⟨_, compute_left_batch_num_eq n t s offset ht1 hn0 hn2 hs hsn,
      length_leftBatches _ _ _ ht1,
      splitsExactly_of_chainEnd _ _ _ (chainEnd_leftBatches _ _ _ ht1)
        (leftBatches_ne_nil _ _ _)⟩⟩
  intro r offs hret
  by_cases hplain : ¬ mpi.size > 1 ∨
      mpi.allreduce_max (thread_avg_batch_num thread_num ins_num batch_size)
        = thread_avg_batch_num thread_num ins_num batch_size
  · rw [compute_thread_batch_nccl_plain mpi _ _ _ ht htn hb hn hbt h2t hplain] at hret
    simp only [Option.some.injEq, Prod.mk.injEq] at hret
    rw [← hret.2]
    exact hplan
  · have hsz : mpi.size > 1 := by
      by_contra hc
      exact hplain (Or.inl hc)
    have hne : mpi.allreduce_max (thread_avg_batch_num thread_num ins_num batch_size)
        ≠ thread_avg_batch_num thread_num ins_num batch_size := fun hc => hplain (Or.inr hc)
    obtain ⟨hle, hr⟩ := hmax hsz
    by_cases hfatal : ins_num
        < mpi.allreduce_max (thread_avg_batch_num thread_num ins_num batch_size) * thread_num
    · rw [compute_thread_batch_nccl_fatal mpi _ _ _ ht htn hb hn hbt h2t hsz
        (lt_of_le_of_ne hle (Ne.symm hne)) hr hfatal] at hret
      exact absurd hret (by simp)
    · obtain ⟨p, j, q, _, _, hj0, _, _, _, hq0, hneed, hqn, htake, _, hres⟩ :=
        compute_thread_batch_nccl_resplit mpi _ _ _ ht htn hb hn hbt h2t hsz _ rfl
          (lt_of_le_of_ne hle (Ne.symm hne)) (by omega)
      rw [hres] at hret
      simp only [Option.some.injEq, Prod.mk.injEq] at hret
      rw [← hret.2]
      apply splitsExactly_of_chainEnd
      · rw [chainEnd_append, htake]
        simp only [Option.some_bind]
        rw [chainEnd_leftBatches _ _ _ hneed]
        congr 1
        omega
      · intro hc
        exact leftBatches_ne_nil _ _ _ (List.append_eq_nil.mp hc).2

/-- C24 (witness): 7 instances for 2 threads with batch size 2 in a cluster whose greatest
batch count is 3, and 7 instances from position 4 on split for 3 threads. -/
theorem batch_offsets_split_exactly_witness :
    (∃ plan, compute_batch_num 7 2 2 [(0, 1)] = some ([(0, 1)] ++ plan) ∧
      SplitsExactly 0 7 plan) ∧
    (∀ r offs, compute_thread_batch_nccl (clusterMax 3) 2 7 2 [] = some (r, offs) →
      SplitsExactly 0 7 offs) ∧
    (∃ batches, compute_left_batch_num 7 3 [(0, 1)] 4 = some ([(0, 1)] ++ batches) ∧
      batches.length = (3 : Int).toNat ∧ SplitsExactly 4 (4 + 7) batches) :=
  batch_offsets_split_exactly (clusterMax 3) 7 2 2 [(0, 1)] 7 3 4 (by decide) (by decide)
    (by decide) (by decide) (by decide) (by decide) (by decide) (by decide) (by decide)
    (by decide) (by decide) (by decide)

/-- The re-split of the example: with a cluster maximum of 3 batches per thread, the 7
instances of 2 threads are split again from the start, into 6 batches. -/
theorem compute_thread_batch_nccl_example :
    compute_thread_batch_nccl (clusterMax 3) 2 7 2 []
      = some (3, [(0, 2), (2, 1), (3, 1), (4, 1), (5, 1), (6, 1)]) := by
  decide

/-- The count of the batches `compute_thread_batch_nccl` leaves, and the number it returns. -/
theorem compute_thread_batch_nccl_count (mpi : MPICluster)
    (thr_num total_instance_num minibatch_size r : Int) (offs : List (Int × Int))
    (ht : 1 ≤ thr_num) (htn : thr_num ≤ total_instance_num) (hb : 1 ≤ minibatch_size)
    (hn : total_instance_num < 2 ^ 31) (hbt : minibatch_size * thr_num < 2 ^ 31)
    (h2t : thr_num * 2 < 2 ^ 31)
    (hmax : mpi.size > 1 →
      thread_avg_batch_num thr_num total_instance_num minibatch_size
          ≤ mpi.allreduce_max (thread_avg_batch_num thr_num total_instance_num minibatch_size) ∧
        mpi.allreduce_max (thread_avg_batch_num thr_num total_instance_num minibatch_size)
          * thr_num < 2 ^ 31)
    (hret : compute_thread_batch_nccl mpi thr_num total_instance_num minibatch_size []
      = some (r, offs)) :
    (offs.length : Int) = r * thr_num ∧ 1 ≤ r ∧
    (mpi.size > 1 →
      r = mpi.allreduce_max (thread_avg_batch_num thr_num total_instance_num minibatch_size)) ∧
    (¬ mpi.size > 1 → r = thread_avg_batch_num thr_num total_instance_num minibatch_size) := by
  obtain ⟨k, hk1, hk2, hk3, hlen, hc, ha⟩ :=
    thread_avg_batch_num_eq thr_num total_instance_num minibatch_size ht htn hb hn hbt h2t
  by_cases hplain : ¬ mpi.size > 1 ∨
      mpi.allreduce_max (thread_avg_batch_num thr_num total_instance_num minibatch_size)
        = thread_avg_batch_num thr_num total_instance_num minibatch_size
  · rw [compute_thread_batch_nccl_plain mpi _ _ _ ht htn hb hn hbt h2t hplain] at hret
    simp only [Option.some.injEq, Prod.mk.injEq] at hret
    rw [← hret.1, ← hret.2, ha]
    refine ⟨hlen, hk1, ?_, fun _ => rfl⟩
    intro hsz
    rcases hplain with h | h
    · exact absurd hsz h
    · rw [ha] at h
      exact h.symm
  · have hsz : mpi.size > 1 := by
      by_contra hc
      exact hplain (Or.inl hc)
    have hne : mpi.allreduce_max (thread_avg_batch_num thr_num total_instance_num
        minibatch_size) ≠ thread_avg_batch_num thr_num total_instance_num minibatch_size :=
      fun hc => hplain (Or.inr hc)
    obtain ⟨hle, hr⟩ := hmax hsz
    by_cases hfatal : total_instance_num
        < mpi.allreduce_max (thread_avg_batch_num thr_num total_instance_num minibatch_size)
          * thr_num
    · rw [compute_thread_batch_nccl_fatal mpi _ _ _ ht htn hb hn hbt h2t hsz
        (lt_of_le_of_ne hle (Ne.symm hne)) hr hfatal] at hret
      exact absurd hret (by simp)
    · obtain ⟨p, j, q, _, _, hj0, hjk, hjlen, _, hq0, hneed, hqn, htake, _, hres⟩ :=
        compute_thread_batch_nccl_resplit mpi _ _ _ ht htn hb hn hbt h2t hsz _ rfl
          (lt_of_le_of_ne hle (Ne.symm hne)) (by omega)
      rw [hres] at hret
      simp only [Option.some.injEq, Prod.mk.injEq] at hret
      rw [← hret.1, ← hret.2]
      have hjt0 : 0 ≤ j * thr_num := mul_nonneg hj0 (by omega)
      refine ⟨?_, by omega, fun _ => rfl, fun h => absurd hsz h⟩
      rw [List.length_append, List.length_take, length_leftBatches _ _ _ hneed,
        Nat.min_eq_left (by omega)]
      push_cast
      rw [Int.toNat_of_nonneg hjt0, Int.toNat_of_nonneg (by omega)]
      ring

/-- C25 (amended): within the range of `int` every thread gets the same number of
minibatches.  When `compute_thread_batch_nccl` returns `r` for
`total_instance_num >= thr_num >= 1` with `total_instance_num`, `minibatch_size * thr_num`
and `2 * thr_num` below `2^31` and `minibatch_size >= 1` (in multi-rank mode: the cluster
maximum no smaller than the own batch count, and its product with `thr_num` below `2^31`),
the offsets hold exactly `r * thr_num` entries, `r` is the cluster maximum of the
per-thread batch counts in multi-rank mode and the own per-thread batch count otherwise;
the round-robin loop of `PrepareTrain` then gives the reader `j` the offsets whose index
is `j` modulo `thr_num`, which are exactly `r`. -/
theorem compute_thread_batch_nccl_equal_batches (mpi : MPICluster)
    (thr_num total_instance_num minibatch_size r : Int) (offs : List (Int × Int))
    (ht : 1 ≤ thr_num) (htn : thr_num ≤ total_instance_num) (hb : 1 ≤ minibatch_size)
    (hn : total_instance_num < 2 ^ 31) (hbt : minibatch_size * thr_num < 2 ^ 31)
    (h2t : thr_num * 2 < 2 ^ 31)
    (hmax : mpi.size > 1 →
      thread_avg_batch_num thr_num total_instance_num minibatch_size
          ≤ mpi.allreduce_max (thread_avg_batch_num thr_num total_instance_num minibatch_size) ∧
        mpi.allreduce_max (thread_avg_batch_num thr_num total_instance_num minibatch_size)
          * thr_num < 2 ^ 31)
    (hret : compute_thread_batch_nccl mpi thr_num total_instance_num minibatch_size []
      = some (r, offs)) :
    (offs.length : Int) = r * thr_num ∧
    (mpi.size > 1 →
      r = mpi.allreduce_max (thread_avg_batch_num thr_num total_instance_num minibatch_size)) ∧
    (¬ mpi.size > 1 → r = thread_avg_batch_num thr_num total_instance_num minibatch_size) ∧
    (∀ (readers readers' : List DataFeed),
      addBatchOffsets thr_num 0 offs readers = some readers' →
      ∀ (j : Nat) (f : DataFeed), (j : Int) < thr_num → readers.get? j = some f →
        ∃ f', readers'.get? j = some f' ∧
          f'.batch_offsets = f.batch_offsets ++
            ((offs.enumFrom 0).filter (fun x => x.1 % toSizeT thr_num = j)).map Prod.snd ∧
          (f'.batch_offsets.length : Int) = f.batch_offsets.length + r) ∧
    (∀ (env : TrainEnv) (st st' : PadBoxState), env.mpi = mpi → st.thread_num_ = thr_num →
      (if st.enable_pv_merge_ && (env.Phase == 1 || env.Mode == 1) then env.GetPvDataSize
        else env.GetMemoryDataSize) = total_instance_num →
      (if st.enable_pv_merge_ && (env.Phase == 1 || env.Mode == 1) then env.GetPvBatchSize
        else env.GetBatchSize) = minibatch_size →
      PadBoxSlotDataset.PrepareTrain env st = some st' →
      ∀ (j : Nat), (j : Int) < thr_num →
        ∃ f f', st.readers_.get? j = some f ∧ st'.readers_.get? j = some f' ∧
          (f'.batch_offsets.length : Int) = f.batch_offsets.length + r) := by
  obtain ⟨hlen, hr1, hmulti, hsingle⟩ :=
    compute_thread_batch_nccl_count mpi thr_num total_instance_num minibatch_size r offs
      ht htn hb hn hbt h2t hmax hret
  have hs : toSizeT thr_num = thr_num.toNat := toSizeT_of_nonneg _ (by omega)
  have hnat : offs.length = r.toNat * thr_num.toNat := by
    apply Int.ofNat_inj.mp
    push_cast
    rw [Int.toNat_of_nonneg (by omega), Int.toNat_of_nonneg (by omega)]
    exact hlen
  have hround : ∀ (readers readers' : List DataFeed),
      addBatchOffsets thr_num 0 offs readers = some readers' →
      ∀ (j : Nat) (f : DataFeed), (j : Int) < thr_num → readers.get? j = some f →
        ∃ f', readers'.get? j = some f' ∧
          f'.batch_offsets = f.batch_offsets ++
            ((offs.enumFrom 0).filter (fun x => x.1 % toSizeT thr_num = j)).map Prod.snd ∧
          (f'.batch_offsets.length : Int) = f.batch_offsets.length + r := by
    intro readers readers' hadd j f hj hf
    obtain ⟨f', h1, h2⟩ := addBatchOffsets_get thr_num offs 0 readers readers' hadd j f hf
    refine ⟨f', h1, h2, ?_⟩
    rw [h2, List.length_append, hs,
      round_robin_count offs thr_num.toNat j r.toNat (by omega) hnat]
    push_cast
    rw [Int.toNat_of_nonneg (by omega)]
  refine ⟨hlen, hmulti, hsingle, hround, ?_⟩
  intro env st st' hmpi hthr hsize hbatch hprep j hj
  obtain ⟨res, hres, hreaders, hadd⟩ := PrepareTrain_offsets env st st' hprep
  rw [hmpi, hthr, hsize, hbatch, hret] at hres
  have hres2 : res.2 = offs := by
    rw [← Option.some.inj hres]
  rw [hthr, hres2] at hadd
  have hlt : j < st.readers_.length := by omega
  obtain ⟨f', h1, _, h3⟩ := hround _ _ hadd j (st.readers_.get ⟨j, hlt⟩) hj
    (List.get?_eq_get hlt)
  exact ⟨_, f', List.get?_eq_get hlt, h1, h3⟩

/-- C25 (witness): 7 instances for 2 threads with batch size 2 in a cluster whose greatest
batch count is 3: six offsets, three for each reader. -/
theorem compute_thread_batch_nccl_equal_batches_witness :
    (([(0, 2), (2, 1), (3, 1), (4, 1), (5, 1), (6, 1)] : List (Int × Int)).length : Int)
      = 3 * 2 ∧
    ((clusterMax 3).size > 1 →
      (3 : Int) = (clusterMax 3).allreduce_max (thread_avg_batch_num 2 7 2)) ∧
    (¬ (clusterMax 3).size > 1 → (3 : Int) = thread_avg_batch_num 2 7 2) ∧
    (∀ (readers readers' : List DataFeed),
      addBatchOffsets 2 0 [(0, 2), (2, 1), (3, 1), (4, 1), (5, 1), (6, 1)] readers
        = some readers' →
      ∀ (j : Nat) (f : DataFeed), (j : Int) < 2 → readers.get? j = some f →
        ∃ f', readers'.get? j = some f' ∧
          f'.batch_offsets = f.batch_offsets ++
            ((([(0, 2), (2, 1), (3, 1), (4, 1), (5, 1), (6, 1)] : List (Int × Int)).enumFrom
              0).filter (fun x => x.1 % toSizeT 2 = j)).map Prod.snd ∧
          (f'.batch_offsets.length : Int) = f.batch_offsets.length + 3) ∧
    (∀ (env : TrainEnv) (st st' : PadBoxState), env.mpi = clusterMax 3 →
      st.thread_num_ = 2 →
      (if st.enable_pv_merge_ && (env.Phase == 1 || env.Mode == 1) then env.GetPvDataSize
        else env.GetMemoryDataSize) = 7 →
      (if st.enable_pv_merge_ && (env.Phase == 1 || env.Mode == 1) then env.GetPvBatchSize
        else env.GetBatchSize) = 2 →
      PadBoxSlotDataset.PrepareTrain env st = some st' →
      ∀ (j : Nat), (j : Int) < 2 →
        ∃ f f', st.readers_.get? j = some f ∧ st'.readers_.get? j = some f' ∧
          (f'.batch_offsets.length : Int) = f.batch_offsets.length + 3) :=
  compute_thread_batch_nccl_equal_batches (clusterMax 3) 2 7 2 3
    [(0, 2), (2, 1), (3, 1), (4, 1), (5, 1), (6, 1)] (by decide) (by decide) (by decide)
    (by decide) (by decide) (by decide) (by decide) (by decide)

/-- C25 (counterexample): with `2^32 + 2` instances, 3 threads and batch size 1 on a single
rank, `static_cast<int>(ins_num / thread_batch_num) * thread_num` is `1431655766 * 3`, which
is 2 in `int` arithmetic: two offsets are made, and the function returns 0. -/
theorem compute_thread_batch_nccl_unequal_beyond_int :
    compute_thread_batch_nccl singleRankEnv.mpi 3 4294967298 1 []
      = some (0, [(0, 1), (1, 1)]) ∧
    (4294967298 : Int) = 2 ^ 32 + 2 ∧ toInt32 (1431655766 * 3) = 2 := by
  decide

/-- C23 (counterexample): two runs in which `compute_thread_batch_nccl` returns although the rank has fewer
instances than the cluster maximum times the thread count: with 1 instance for 2 threads it
returns 0 before the cluster is asked, and with 3 instances for 2 threads and batch size 1
its own plan has 2 batches per thread, so a cluster maximum of 2 needs no re-split and the
check is never reached. -/
theorem compute_thread_batch_nccl_returns_with_too_few_instances :
    compute_thread_batch_nccl (clusterMax 1) 2 1 1 [] = some (0, []) ∧
    (1 : Int) < (clusterMax 1).allreduce_max 0 * 2 ∧
    compute_thread_batch_nccl (clusterMax 2) 2 3 1 []
      = some (2, [(0, 3), (3, 0), (3, 0), (3, 0)]) ∧
    (3 : Int) < (clusterMax 2).allreduce_max (thread_avg_batch_num 2 3 1) * 2 := by
  decide

/-- C23 (amended): in multi-rank mode, for `total_instance_num >= thr_num >= 1` (batch size
`>= 1`, the numbers within the range of `int`, the cluster maximum no smaller than the own
batch count), `compute_thread_batch_nccl` aborts instead of returning a batch plan exactly
when the cluster maximum of the per-thread batch counts exceeds the own per-thread batch
count and the instance count is smaller than the cluster maximum times the thread count. -/
theorem compute_thread_batch_nccl_fatal_iff (mpi : MPICluster)
    (thr_num total_instance_num minibatch_size : Int)
    (ht : 1 ≤ thr_num) (htn : thr_num ≤ total_instance_num) (hb : 1 ≤ minibatch_size)
    (hn : total_instance_num < 2 ^ 31) (hbt : minibatch_size * thr_num < 2 ^ 31)
    (h2t : thr_num * 2 < 2 ^ 31) (hsz : mpi.size > 1)
    (hle : thread_avg_batch_num thr_num total_instance_num minibatch_size
      ≤ mpi.allreduce_max (thread_avg_batch_num thr_num total_instance_num minibatch_size))
    (hr : mpi.allreduce_max (thread_avg_batch_num thr_num total_instance_num minibatch_size)
      * thr_num < 2 ^ 31) :
    compute_thread_batch_nccl mpi thr_num total_instance_num minibatch_size [] = none ↔
      (thread_avg_batch_num thr_num total_instance_num minibatch_size
          < mpi.allreduce_max (thread_avg_batch_num thr_num total_instance_num minibatch_size) ∧
        total_instance_num
          < mpi.allreduce_max (thread_avg_batch_num thr_num total_instance_num minibatch_size)
            * thr_num) := by
  constructor
  · intro hnone
    by_cases heq : mpi.allreduce_max (thread_avg_batch_num thr_num total_instance_num
        minibatch_size) = thread_avg_batch_num thr_num total_instance_num minibatch_size
    · rw [compute_thread_batch_nccl_plain mpi _ _ _ ht htn hb hn hbt h2t (Or.inr heq)] at hnone
      exact absurd hnone (by simp)
    · have hlt := lt_of_le_of_ne hle (Ne.symm heq)
      refine ⟨hlt, ?_⟩
      by_contra hc
      obtain ⟨p, j, q, _, _, _, _, _, _, _, _, _, _, _, hres⟩ :=
        compute_thread_batch_nccl_resplit mpi _ _ _ ht htn hb hn hbt h2t hsz _ rfl hlt
          (by omega)
      rw [hres] at hnone
      exact absurd hnone (by simp)
  · intro h
    exact compute_thread_batch_nccl_fatal mpi _ _ _ ht htn hb hn hbt h2t hsz h.1 hr h.2

/-- C23 (witness): 7 instances for 2 threads with batch size 2 in a cluster whose greatest
batch count is 5. -/
theorem compute_thread_batch_nccl_fatal_iff_witness :
    compute_thread_batch_nccl (clusterMax 5) 2 7 2 [] = none ↔
      (thread_avg_batch_num 2 7 2 < (clusterMax 5).allreduce_max (thread_avg_batch_num 2 7 2) ∧
        (7 : Int) < (clusterMax 5).allreduce_max (thread_avg_batch_num 2 7 2) * 2) :=
  compute_thread_batch_nccl_fatal_iff (clusterMax 5) 2 7 2 (by decide) (by decide) (by decide)
    (by decide) (by decide) (by decide) (by decide) (by decide) (by decide)

/-- C29 (counterexample): with `2^31` instances, one thread and batch size 1 the plan of `compute_batch_num` is
empty; a cluster maximum of 1 passes the fatal check, and the re-split then reads
`offset[-1]`. -/
theorem compute_thread_batch_nccl_index_outside_offsets :
    thread_avg_batch_num 1 (2 ^ 31) 1 = 0 ∧
    (clusterMax 1).allreduce_max 0 = 1 ∧
    toInt32 (1 * 1) ≤ 2 ^ 31 ∧
    toInt32 (((([] : List (Int × Int)).length : Nat) : Int) - 1) = -1 ∧
    offsetAt [] (-1) = none ∧
    compute_thread_batch_nccl (clusterMax 1) 1 (2 ^ 31) 1 [] = none := by
  decide

/-- C29 (amended): within the range of `int` the multi-rank re-split is safe and
terminates.  For `total_instance_num >= thr_num >= 1` below `2^31` (batch size `>= 1`,
`minibatch_size * thr_num` and `2 * thr_num` below `2^31`), a cluster maximum above the own
per-thread batch count, and the fatal check passed: the loop that moves
`offset_split_index` back by `thr_num` ends within `offset.size()` iterations without an
access outside `offset`, the final index is inside `[0, offset.size())`, and
`compute_left_batch_num` appends `need_batch_num` batches after it, each of length
`>= 1`. -/
theorem compute_thread_batch_nccl_resplit_safe (mpi : MPICluster)
    (thr_num total_instance_num minibatch_size : Int)
    (ht : 1 ≤ thr_num) (htn : thr_num ≤ total_instance_num) (hb : 1 ≤ minibatch_size)
    (hn : total_instance_num < 2 ^ 31) (hbt : minibatch_size * thr_num < 2 ^ 31)
    (h2t : thr_num * 2 < 2 ^ 31) (hsz : mpi.size > 1)
    (hlt : thread_avg_batch_num thr_num total_instance_num minibatch_size
      < mpi.allreduce_max (thread_avg_batch_num thr_num total_instance_num minibatch_size))
    (hpass : mpi.allreduce_max (thread_avg_batch_num thr_num total_instance_num minibatch_size)
      * thr_num ≤ total_instance_num) :
    ∃ offset p need_batch_num offset_split_index split_left_num q batches,
      compute_batch_num total_instance_num minibatch_size thr_num [] = some offset ∧
      offsetAt offset (toInt32 ((offset.length : Int) - thr_num)) = some p ∧
      compute_thread_batch_nccl_loop thr_num total_instance_num offset offset.length
        (toInt32 ((toInt32 (mpi.allreduce_max (thread_avg_batch_num thr_num
            total_instance_num minibatch_size)
          - thread_avg_batch_num thr_num total_instance_num minibatch_size) + 1) * thr_num))
        (toInt32 ((offset.length : Int) - thr_num)) (toInt32 (total_instance_num - p.1))
        = some (need_batch_num, offset_split_index, split_left_num) ∧
      0 ≤ offset_split_index ∧ offset_split_index < offset.length ∧
      offsetAt offset offset_split_index = some q ∧
      compute_left_batch_num split_left_num need_batch_num
        (offset.take offset_split_index.toNat) q.1
        = some (offset.take offset_split_index.toNat ++ batches) ∧
      (batches.length : Int) = need_batch_num ∧ (∀ x ∈ batches, 1 ≤ x.2) ∧
      compute_thread_batch_nccl mpi thr_num total_instance_num minibatch_size []
        = some (mpi.allreduce_max (thread_avg_batch_num thr_num total_instance_num
            minibatch_size), offset.take offset_split_index.toNat ++ batches) := by
  obtain ⟨p, j, q, hp, hloop, hj0, hjk, hjlen, hq, hq0, hneed, hqn, htake, hleft, hres⟩ :=
    compute_thread_batch_nccl_resplit mpi _ _ _ ht htn hb hn hbt h2t hsz _ rfl hlt hpass
  have hjt0 : 0 ≤ j * thr_num := mul_nonneg hj0 (by omega)
  refine ⟨_, p, _, _, _, q, _, ?_, hp, hloop, hjt0, hjlen, hq, hleft, ?_, ?_, hres⟩
  · rw [compute_batch_num_eq _ _ _ _ ht hb (by omega) hn hbt h2t, List.nil_append]
  · rw [length_leftBatches _ _ _ hneed, Int.toNat_of_nonneg (by omega)]
  · intro x hx
    have h1 := leftBatches_ge _ _ _ hneed x hx
    have h2 : 1 ≤ (total_instance_num - q.1)
        / ((mpi.allreduce_max (thread_avg_batch_num thr_num total_instance_num
            minibatch_size) - j) * thr_num) :=
      Int.le_ediv_of_mul_le (by omega) (by omega)
    omega

/-- C29 (witness): 7 instances for 2 threads with batch size 2 in a cluster whose greatest
batch count is 3. -/
theorem compute_thread_batch_nccl_resplit_safe_witness :
    ∃ offset p need_batch_num offset_split_index split_left_num q batches,
      compute_batch_num 7 2 2 [] = some offset ∧
      offsetAt offset (toInt32 ((offset.length : Int) - 2)) = some p ∧
      compute_thread_batch_nccl_loop 2 7 offset offset.length
        (toInt32 ((toInt32 ((clusterMax 3).allreduce_max (thread_avg_batch_num 2 7 2)
          - thread_avg_batch_num 2 7 2) + 1) * 2))
        (toInt32 ((offset.length : Int) - 2)) (toInt32 (7 - p.1))
        = some (need_batch_num, offset_split_index, split_left_num) ∧
      0 ≤ offset_split_index ∧ offset_split_index < offset.length ∧
      offsetAt offset offset_split_index = some q ∧
      compute_left_batch_num split_left_num need_batch_num
        (offset.take offset_split_index.toNat) q.1
        = some (offset.take offset_split_index.toNat ++ batches) ∧
      (batches.length : Int) = need_batch_num ∧ (∀ x ∈ batches, 1 ≤ x.2) ∧
      compute_thread_batch_nccl (clusterMax 3) 2 7 2 []
        = some ((clusterMax 3).allreduce_max (thread_avg_batch_num 2 7 2),
            offset.take offset_split_index.toNat ++ batches) :=
  compute_thread_batch_nccl_resplit_safe (clusterMax 3) 2 7 2 (by decide) (by decide)
    (by decide) (by decide) (by decide) (by decide) (by decide) (by decide) (by decide)

end PaddleBox
